import Mathlib

/-! GCVSPL: natural B-spline smoothing (OpenSim/Utilities/simmToOpenSim/gcvspl.c)

A shallow embedding of the f2c translation of Woltring's GCVSPL package and
theorems about it.

Conventions of the embedding.

* `doublereal` is modelled by `ℚ`: all statements are about exact arithmetic.
  Division by zero, which the C code never guards against, takes Lean's value
  `x / 0 = 0`; theorems that depend on a divisor state that it is nonzero.
* `integer` is modelled by `Int`; `*m << 1` is `2 * m` (signed overflow is
  undefined behaviour in C and is not modelled).
* The "parameter adjustments" that f2c emits at the head of every routine turn
  each pointer into a Fortran array, so that `e[l + i * e_dim1]` is the cell
  `E(l, i)` of `E(-M:M, N)`.  A two-dimensional array is modelled by a function
  of its two Fortran subscripts, written in the same order as in the source:
  `e l i` is row `i`, band offset `l`, that is the matrix entry `E[i, i + l]`.
  `y i j` and `c i j` are sample `i` of channel `j`.
* The work array `wk` consists of four disjoint regions: the statistics
  `wk[1..6]`, the factorised matrix `BWE(-M:M, N)` at `wk[7]`, the design
  matrix `B(1-M:M-1, N)` at `wk[ib]` and the penalty matrix `WE(-M:M, N)` at
  `wk[iwe]`.  The structure `Wk` holds one function per region.
* A counted loop `for (i = lo; i <= hi; ++i)` is `forUp lo hi`, a descending
  loop is `forDown hi lo`.  The `goto` loops of the parameter search are
  functions that take a fuel argument bounding the number of backward jumps.
-/

namespace Gcvspl

/-! ## Arrays and loops -/

/-- One-dimensional array, indexed as in the source after its adjustment. -/
abbrev Vec := Int → ℚ

/-- Two-dimensional Fortran array, indexed by its two subscripts. -/
abbrev Arr2 := Int → Int → ℚ

/-- Assignment `a[i] = v`. -/
def setV (a : Vec) (i : Int) (v : ℚ) : Vec :=
  fun i' => if i' = i then v else a i'

/-- Assignment `a[l + i * dim] = v`, the cell with subscripts `(l, i)`. -/
def set2 (a : Arr2) (l i : Int) (v : ℚ) : Arr2 :=
  fun l' i' => if l' = l ∧ i' = i then v else a l' i'

/-- Run `body i` for `cnt` consecutive values of `i`, starting at `i` and
counting upwards. -/
def iterUp {σ : Type} : Nat → Int → (Int → σ → σ) → σ → σ
  | 0, _, _, s => s
  | cnt + 1, i, body, s => iterUp cnt (i + 1) body (body i s)

/-- Run `body i` for `cnt` consecutive values of `i`, starting at `i` and
counting downwards. -/
def iterDown {σ : Type} : Nat → Int → (Int → σ → σ) → σ → σ
  | 0, _, _, s => s
  | cnt + 1, i, body, s => iterDown cnt (i - 1) body (body i s)

/-- The loop `for (i = lo; i <= hi; ++i) body`. -/
def forUp {σ : Type} (lo hi : Int) (body : Int → σ → σ) (s : σ) : σ :=
  iterUp (hi + 1 - lo).toNat lo body s

/-- The loop `for (i = hi; i >= lo; --i) body`. -/
def forDown {σ : Type} (hi lo : Int) (body : Int → σ → σ) (s : σ) : σ :=
  iterDown (hi + 1 - lo).toNat hi body s

/-- Modelled from the spec: the macro `abs` of f2c.h, which is not under src/;
the spec reads it as the absolute value ("mean absolute entry", "absolute
difference").  Integer instance. -/
def iabs (a : Int) : Int := if 0 ≤ a then a else -a

/-- Modelled from the spec: the macro `abs` of f2c.h, which is not under src/;
the spec reads it as the absolute value.  Instance at `doublereal`.  The
macros `min` and `max` of the same header are Lean's `min` and `max`. -/
def dabs (a : ℚ) : ℚ := if 0 ≤ a then a else -a

/-- The constant `c_b6 = 1e-15` passed to `splc` as `eps`. -/
def c_b6 : ℚ := 1e-15

/-! ## BANDET: in-place LU factorisation of a band matrix -/

/-- `bandet(e, m, n)`: the array `e` after the call. -/
def bandet (e : Arr2) (m n : Int) : Arr2 :=
  if m ≤ 0 then e
  else
    forUp 1 n (fun i e =>
      let di0 := e 0 i
      let mi := min m (i - 1)
      let di := if mi ≥ 1 then
          forUp 1 mi (fun k di => di - e (-k) i * e k (i - k)) di0
        else di0
      let e1 := if mi ≥ 1 then set2 e 0 i di else e
      let lm := min m (n - i)
      if lm ≥ 1 then
        forUp 1 lm (fun l e =>
          let dl0 := e (-l) (i + l)
          let km := min (m - l) (i - 1)
          let s : ℚ × ℚ := if km ≥ 1 then
              forUp 1 km (fun k s =>
                (s.1 - e (-k) i * e (l + k) (i - k),
                 s.2 - e (-l - k) (l + i) * e k (i - k))) (e l i, dl0)
            else (e l i, dl0)
          let e2 := if km ≥ 1 then set2 e l i s.1 else e
          set2 e2 (-l) (i + l) (s.2 / di)) e1
      else e1) e

/-! ## BANSOL: forward and back substitution -/

/-- `bansol(e, y, ny, c, nc, m, n, k)`: the array `c` after the call. -/
def bansol (e : Arr2) (y : Arr2) (c : Arr2) (m n k : Int) : Arr2 :=
  let nm1 := n - 1
  if m - 1 < 0 then
    forUp 1 n (fun i c =>
      forUp 1 k (fun j c => set2 c i j (y i j / e 0 i)) c) c
  else if m - 1 = 0 then
    forUp 1 k (fun j c =>
      let c1 := set2 c 1 j (y 1 j)
      let c2 := forUp 2 n
        (fun i c => set2 c i j (y i j - e (-1) i * c (i - 1) j)) c1
      let c3 := set2 c2 n j (c2 n j / e 0 n)
      forDown nm1 1
        (fun i c => set2 c i j ((c i j - e 1 i * c (i + 1) j) / e 0 i)) c3) c
  else
    forUp 1 k (fun j c =>
      let c1 := set2 c 1 j (y 1 j)
      let c2 := forUp 2 n (fun i c =>
        let mi := min m (i - 1)
        let d := forUp 1 mi (fun l d => d - e (-l) i * c (i - l) j) (y i j)
        set2 c i j d) c1
      let c3 := set2 c2 n j (c2 n j / e 0 n)
      forDown nm1 1 (fun i c =>
        let mi := min m (n - i)
        let d := forUp 1 mi (fun l d => d - e l i * c (i + l) j) (c i j)
        set2 c i j (d / e 0 i)) c3) c

/-! ## TRINV: central bands of the inverse and the trace term -/

/-- `trinv(b, e, m, n)`: the returned value and the array `e` after the call.
The argument `b` is the penalty matrix `WE(-M:M, N)`. -/
def trinv (b : Arr2) (e : Arr2) (m n : Int) : ℚ × Arr2 :=
  let e0 := set2 e 0 n (1 / e 0 n)
  let e1 := forDown (n - 1) 1 (fun i e =>
    let mi := min m (n - i)
    let dd0 := 1 / e 0 i
    let ea := forUp 1 mi (fun k e =>
      let e' := set2 e k n (e k i * dd0)
      set2 e' (-k) 1 (e' (-k) (k + i))) e
    let dd1 := dd0 + dd0
    let s : Arr2 × ℚ := forDown mi 1 (fun j s =>
      let e := s.1
      let t : ℚ × ℚ := forUp 1 mi (fun k t =>
        (t.1 - e k n * e (j - k) (i + k),
         t.2 - e (-k) 1 * e (k - j) (i + j))) (0, 0)
      let du := t.1
      let dl := t.2
      let e' := set2 e j i du
      let e'' := set2 e' (-j) (j + i) dl
      (e'', s.2 - (e'' j n * dl + e'' (-j) 1 * du))) (ea, dd1)
    set2 s.1 0 i (s.2 * (1 / 2))) e0
  let dd := forUp 1 n (fun i dd =>
    let mn := -min m (i - 1)
    let mp := min m (n - i)
    forUp mn mp (fun k dd => dd + b k i * e1 (-k) (k + i)) dd) 0
  let e2 := forUp 1 m (fun k e => set2 (set2 e k n 0) (-k) 1 0) e1
  (dd, e2)

/-! ## SPLC: one evaluation of the objective -/

/-- Result of one call of `splc`: the returned score and the three arrays it
overwrites. -/
structure SplcOut where
  /-- Function value `ret_val`. -/
  ret : ℚ
  /-- Coefficient table `c`. -/
  c : Arr2
  /-- Statistics `stat[1..6]`, that is `wk[1..6]`. -/
  stat : Vec
  /-- Assembled and factorised matrix `bwe`. -/
  bwe : Arr2

/-- The smoothing value `dp` used by `splc` for a requested `p`, and the value
it reports in `stat[4]`. -/
def splcDp (p eps el : ℚ) : ℚ × ℚ :=
  let pel := p * el
  let s1 : ℚ × ℚ := if pel < eps then (eps / el, 0) else (p, p)
  if pel * eps > 1 then (1 / (el * eps), 1 / (el * eps)) else s1

/-- The matrix `bwe` assembled by `splc` from `b`, `we` and `dp`. -/
def splcAssemble (m n : Int) (dp : ℚ) (b we bwe : Arr2) : Arr2 :=
  forUp 1 n (fun i bwe =>
    let km := -min m (i - 1)
    let kp := min m (n - i)
    forUp km kp (fun l bwe =>
      if iabs l = m then set2 bwe l i (dp * we l i)
      else set2 bwe l i (b l i + dp * we l i)) bwe) bwe

/-- The weighted residual sum of squares accumulated by `splc`, before the
division by `n * k`. -/
def splcResidual (m n k : Int) (y : Arr2) (wx wy : Vec) (b c : Arr2) : ℚ :=
  forUp 1 k (fun j esn =>
    forUp 1 n (fun i esn =>
      let km := -min (m - 1) (i - 1)
      let kp := min (m - 1) (n - i)
      let dt := forUp km kp (fun l dt => dt + b l i * c (i + l) j) (-(y i j))
      esn + dt * dt * wx i * wy j) esn) 0

/-- `splc(m, n, k, y, ny, wx, wy, mode, val, p, eps, c, nc, stat, b, we, el,
bwe)`.  The local `ret_val` is not initialised in the source; `gcvspl` calls
`splc` only with `|mode|` in `1..4`, where it is assigned. -/
def splc (m n k : Int) (y : Arr2) (wx wy : Vec) (mode : Int) (val p eps : ℚ)
    (c : Arr2) (stat : Vec) (b we : Arr2) (el : ℚ) (bwe : Arr2) : SplcOut :=
  let dp := (splcDp p eps el).1
  let stat := setV stat 4 (splcDp p eps el).2
  let bwe := splcAssemble m n dp b we bwe
  let bwe := bandet bwe m n
  let c := bansol bwe y c m n k
  let tr := trinv we bwe m n
  let bwe := tr.2
  let stat := setV stat 3 (tr.1 * dp)
  let trn := stat 3 / (n : ℚ)
  let esn := splcResidual m n k y wx wy b c / ((n * k : Int) : ℚ)
  let stat := setV stat 6 (esn / trn)
  let stat := setV stat 1 (stat 6 / trn)
  let stat := setV stat 2 esn
  if iabs mode ≠ 3 then
    let stat := setV stat 5 (stat 6 - esn)
    let ret0 : ℚ := 0
    let ret1 : ℚ := if iabs mode = 1 then 0 else ret0
    let ret2 : ℚ := if iabs mode = 2 then stat 1 else ret1
    let ret4 : ℚ := if iabs mode = 4 then dabs (stat 3 - val) else ret2
    { ret := ret4, c := c, stat := stat, bwe := bwe }
  else
    let stat := setV stat 5 (esn - val * (trn * 2 - 1))
    { ret := stat 5, c := c, stat := stat, bwe := bwe }

/-! ## BASIS: the design matrix -/

/-- State of the inner recurrences of `basis`: the scratch vector `q`, the
running value `v` and the running index `ir`. -/
structure BasisSt where
  /-- Scratch vector `q(1-m:m)`. -/
  q : Vec
  /-- Local `v`. -/
  v : ℚ
  /-- Local `ir`. -/
  ir : Int

/-- Result of `basis`. -/
structure BasisOut where
  /-- Design matrix `B(1-M:M-1, N)`. -/
  b : Arr2
  /-- Scale factor `bl`. -/
  bl : ℚ
  /-- Scratch vector `q` as left by the call. -/
  q : Vec

/-- `basis(m, n, x, b, bl, q)`. -/
def basis (m n : Int) (x : Vec) (b : Arr2) (q : Vec) : BasisOut :=
  if m = 1 then
    { b := forUp 1 n (fun i b => set2 b 0 i 1) b, bl := 1, q := q }
  else
    let mm1 := m - 1
    let mp1 := m + 1
    let m2 := 2 * m
    let s : Arr2 × Vec := forUp 1 n (fun l s =>
      let q0 := forUp (-mm1) m (fun j q => setV q j 0) s.2
      let q1 := setV q0 mm1 1
      let q2 := if l ≠ 1 ∧ l ≠ n then
          setV q1 mm1 (1 / (x (l + 1) - x (l - 1)))
        else q1
      let arg := x l
      let q3 := forUp 3 m2 (fun i q =>
        let st0 : BasisSt := { q := q, v := q (mp1 - i), ir := mp1 - i }
        let st1 : BasisSt := if l < i then
            forUp (l + 1) i (fun j st =>
              let u := st.v
              let v := st.q (st.ir + 1)
              { q := setV st.q st.ir (u + (x j - arg) * v), v := v,
                ir := st.ir + 1 }) st0
          else st0
        let j1 := max (l - i + 1) 1
        let j2 := min (l - 1) (n - i)
        let st2 : BasisSt := if j1 ≤ j2 then
            if i < m2 then
              forUp j1 j2 (fun j st =>
                let y := x (i + j)
                let u := st.v
                let v := st.q (st.ir + 1)
                { q := setV st.q st.ir (u + (v - u) * (y - arg) / (y - x j)),
                  v := v, ir := st.ir + 1 }) st1
            else
              forUp j1 j2 (fun j st =>
                let u := st.v
                let v := st.q (st.ir + 1)
                { q := setV st.q st.ir
                    ((arg - x j) * u + (x (i + j) - arg) * v),
                  v := v, ir := st.ir + 1 }) st1
          else st1
        let nmip1 := n - i + 1
        let st3 : BasisSt := if nmip1 < l then
            forUp nmip1 (l - 1) (fun j st =>
              let u := st.v
              let v := st.q (st.ir + 1)
              { q := setV st.q st.ir ((arg - x j) * u + v), v := v,
                ir := st.ir + 1 }) st2
          else st2
        st3.q) q2
      (forUp (-mm1) mm1 (fun j b => set2 b j l (q3 j)) s.1, q3)) (b, q)
    let b1 := forUp 1 mm1 (fun i b =>
      forUp i mm1 (fun k b => set2 (set2 b (-k) i 0) k (n + 1 - i) 0) b) s.1
    let bl := forUp 1 n (fun i bl =>
      forUp (-mm1) mm1 (fun k bl => bl + dabs (b1 k i)) bl) 0
    { b := b1, bl := bl / (n : ℚ), q := s.2 }

/-! ## PREP: the weighted penalty matrix -/

/-- Read `we[jj]`, where `prep` addresses `WE(-M:M, N)` by its flat one-based
position `jj = (i - 1) * (2 * m + 1) + (l + m) + 1`. -/
def weGet (m : Int) (we : Arr2) (jj : Int) : ℚ :=
  we ((jj - 1) % (2 * m + 1) - m) ((jj - 1) / (2 * m + 1) + 1)

/-- Assignment `we[jj] = v` by flat position. -/
def weSet (m : Int) (we : Arr2) (jj : Int) (v : ℚ) : Arr2 :=
  set2 we ((jj - 1) % (2 * m + 1) - m) ((jj - 1) / (2 * m + 1) + 1) v

/-- Variables carried around the main loop of `prep`. -/
structure PrepSt where
  /-- Array `we`. -/
  we : Arr2
  /-- Local `f1`. -/
  f1 : ℚ
  /-- Local `i1`. -/
  i1 : Int
  /-- Local `i2`. -/
  i2 : Int
  /-- Local `jm`. -/
  jm : Int

/-- `prep(m, n, x, w, we, el)`: the array `we` and the value `*el` after the
call. -/
def prep (m n : Int) (x w : Vec) (we : Arr2) : Arr2 × ℚ :=
  let m2 := 2 * m
  let mp1 := m + 1
  let m2m1 := m2 - 1
  let m2p1 := m2 + 1
  let nm := n - m
  let f10 : ℚ := if m ≠ 1 then
      forUp mp1 m2m1 (fun i f1 => f1 * (i : ℚ))
        (forUp 2 m (fun i f1 => -f1 * (i : ℚ)) (-1))
    else -1
  let st : PrepSt := forUp 1 n (fun j st =>
    let inc : Int := if j > nm then m2p1 else if j < mp1 then 1 else m2p1
    let f1 : ℚ := if j > nm then -st.f1 else st.f1
    let f : ℚ := if j > nm then f1 else if j < mp1 then f1
      else f1 * (x (j + m) - x (j - m))
    let i1 := if j > mp1 then st.i1 + 1 else st.i1
    let i2 := if st.i2 < n then st.i2 + 1 else st.i2
    let i1p1 := i1 + 1
    let ffa := forUp i1p1 i2 (fun i ff => ff / (x i1 - x i)) f
    let wea := weSet m st.we st.jm ffa
    let i2m1 := i2 - 1
    let s2 : Arr2 × Int := if i1p1 ≤ i2m1 then
        forUp i1p1 i2m1 (fun l s =>
          let ffl := forUp (l + 1) i2 (fun i ff => ff / (x l - x i))
            (forUp i1 (l - 1) (fun i ff => ff / (x l - x i)) f)
          (weSet m s.1 s.2 ffl, s.2 + m2)) (wea, st.jm + m2)
      else (wea, st.jm + m2)
    let ffb := forUp i1 i2m1 (fun i ff => ff / (x i2 - x i)) f
    { we := weSet m s2.1 s2.2 ffb, f1 := f1, i1 := i1, i2 := i2,
      jm := st.jm + inc })
    { we := we, f1 := f10, i1 := 1, i2 := m, jm := mp1 }
  let n2m := m2p1 * n + 1
  let s3 : Arr2 × Int := forUp 1 m (fun i s =>
    let kl := s.2
    let ku := kl + m - i
    (forUp kl ku (fun k we => weSet m (weSet m we k 0) (n2m - k) 0) s.1,
     kl + m2p1)) (st.we, 1)
  let s4 : Arr2 × ℚ × Int := forUp 1 n (fun i s =>
    forUp 1 m2p1 (fun _ s =>
      let jj := s.2.2 + 1
      let we' := weSet m s.1 jj (weGet m s.1 jj / w i)
      (we', s.2.1 + dabs (weGet m we' jj), jj)) s) (s3.1, 0, 0)
  (s4.1, s4.2.1 / (n : ℚ))

/-! ## GCVSPL: validation and parameter search -/

/-- The three `static` locals of `gcvspl` whose values survive from one call
to the next. -/
structure Statics where
  /-- Static `m2`, initially 0. -/
  m2 : Int
  /-- Static `nm1`, initially 0. -/
  nm1 : Int
  /-- Static `el`, initially 0. -/
  el : ℚ

/-- The statics of a freshly loaded program. -/
def Statics.init : Statics := { m2 := 0, nm1 := 0, el := 0 }

/-- The work array `wk`, one field per region. -/
structure Wk where
  /-- Statistics `wk[1..6]`. -/
  stat : Vec
  /-- Region `wk[7 ..]`, the array `BWE(-M:M, N)`. -/
  bwe : Arr2
  /-- Region `wk[ib ..]`, the array `B(1-M:M-1, N)`. -/
  b : Arr2
  /-- Region `wk[iwe ..]`, the array `WE(-M:M, N)`. -/
  we : Arr2

/-- The input arguments of `gcvspl`.  The leading dimensions `ny` and `nc`
are absorbed by the two-dimensional indexing of `y` and `c`. -/
structure Args where
  /-- Knots `x[1..n]`. -/
  x : Vec
  /-- Data `y(i, j)`. -/
  y : Arr2
  /-- Knot weights `wx[1..n]`. -/
  wx : Vec
  /-- Channel weights `wy[1..k]`. -/
  wy : Vec
  /-- Half order `m`. -/
  m : Int
  /-- Number of knots `n`. -/
  n : Int
  /-- Number of channels `k`. -/
  k : Int
  /-- Mode `md`. -/
  md : Int
  /-- Mode value `val`. -/
  val : ℚ

/-- Outcome of the validation block (lines 165-205). -/
structure CheckOut where
  /-- Value of `*ier`. -/
  ier : Int
  /-- Whether one of the `return` statements of the block was executed. -/
  returned : Bool
  /-- The statics when control leaves the block. -/
  st : Statics

/-- The condition of the first `if` of `gcvspl`. -/
def modeValueBad (md : Int) (val : ℚ) (n m : Int) : Prop :=
  iabs md > 4 ∨ md = 0 ∨ (iabs md = 1 ∧ val < 0) ∨ (iabs md = 3 ∧ val < 0) ∨
    (iabs md = 4 ∧ (val < 0 ∨ val > ((n - m : Int) : ℚ)))

instance (md : Int) (val : ℚ) (n m : Int) : Decidable (modeValueBad md val n m) := by
  unfold modeValueBad; infer_instance

/-- One pass of a validation loop body: `if (bad) *ier = 2;` followed by
`if (*ier != 0) return 0;`.  The state is the value of `*ier` and whether the
function has returned. -/
def checkStep (bad : Bool) (s : Int × Bool) : Int × Bool :=
  if s.2 then s
  else
    let ier : Int := if bad then 2 else s.1
    (ier, decide (ier ≠ 0))

/-- The statics after the assignment of `m2` and `nm1`, which `gcvspl` makes
when `md > 0`. -/
def entryStatics (a : Args) (st : Statics) : Statics :=
  if a.md > 0 then { st with m2 := 2 * a.m, nm1 := a.n - 1 } else st

/-- The validation block of `gcvspl`, from `*ier = 0` to the end of the loop
over the channel weights. -/
def gcvsplCheck (a : Args) (st : Statics) : CheckOut :=
  if modeValueBad a.md a.val a.n a.m then { ier := 3, returned := true, st := st }
  else
    let st1 : Statics := entryStatics a st
    if ¬ a.md > 0 ∧ (st.m2 ≠ 2 * a.m ∨ st.nm1 ≠ a.n - 1) then
      { ier := 3, returned := true, st := st }
    else if a.m ≤ 0 ∨ a.n < st1.m2 then
      { ier := 1, returned := true, st := st1 }
    else
      let ier0 : Int := if a.wx 1 ≤ 0 then 2 else 0
      let s1 : Int × Bool := forUp 2 a.n (fun i s =>
        checkStep (decide (a.wx i ≤ 0 ∨ a.x (i - 1) ≥ a.x i)) s) (ier0, false)
      if s1.2 then { ier := s1.1, returned := true, st := st1 }
      else
        let s2 : Int × Bool := forUp 1 a.k (fun j s =>
          checkStep (decide (a.wy j ≤ 0)) s) (s1.1, false)
        { ier := s2.1, returned := s2.2, st := st1 }

/-- The golden-section loop at label `L80`, left through `L90`.  Returns the
value of `r1` on arrival at `L100` and the arrays as they are then. -/
def gcvspl_L80 (trial : ℚ → SplcOut → SplcOut) :
    Nat → ℚ → ℚ → ℚ → ℚ → ℚ → ℚ → ℚ → SplcOut → Option (ℚ × SplcOut)
  | 0, _, _, _, _, _, _, _, _ => none
  | fuel + 1, r1, r2, r3, r4, gf3, gf4, alpha, s =>
    if gf3 ≤ gf4 then
      let r2 := r4
      let err := (r2 - r1) / (r1 + r2)
      if err * err + 1 = 1 ∨ err ≤ 1e-6 then some ((r1 + r2) * 0.5, s)
      else
        let alpha := alpha / 1.618033983
        let s' := trial (r2 - alpha) s
        gcvspl_L80 trial fuel r1 r2 (r2 - alpha) r3 s'.ret gf3 alpha s'
    else
      let r1 := r3
      let err := (r2 - r1) / (r1 + r2)
      if err * err + 1 = 1 ∨ err ≤ 1e-6 then some ((r1 + r2) * 0.5, s)
      else
        let alpha := alpha / 1.618033983
        let s' := trial (r1 + alpha) s
        gcvspl_L80 trial fuel r1 r2 r4 (r1 + alpha) gf4 s'.ret alpha s'

/-- The code at label `L70`: set up the golden section and enter `L80`. -/
def gcvspl_L70 (trial : ℚ → SplcOut → SplcOut) (fuel : Nat) (r1 r3 : ℚ)
    (s : SplcOut) : Option (ℚ × SplcOut) :=
  let r2 := r3
  let alpha := (r2 - r1) / 1.618033983
  let r4 := r1 + alpha
  let r3' := r2 - alpha
  let s3 := trial r3' s
  let s4 := trial r4 s3
  gcvspl_L80 trial fuel r1 r2 r3' r4 s3.ret s4.ret alpha s4

/-- The doubling loop at label `L60`. -/
def gcvspl_L60 (trial : ℚ → SplcOut → SplcOut) :
    Nat → ℚ → ℚ → ℚ → ℚ → SplcOut → Option (ℚ × SplcOut)
  | 0, _, _, _, _, _ => none
  | fuel + 1, r1, _, r3, gf2, s =>
    let s' := trial r3 s
    if s'.ret > gf2 then gcvspl_L70 trial fuel r1 r3 s'
    else if s'.stat 4 ≥ 999999999999999.88 then some (r1, s')
    else gcvspl_L60 trial fuel r1 r3 (r3 * 2) s'.ret s'

/-- The halving loop at label `L40`; `L50` enters the doubling loop. -/
def gcvspl_L40 (trial : ℚ → SplcOut → SplcOut) :
    Nat → ℚ → ℚ → ℚ → SplcOut → Option (ℚ × SplcOut)
  | 0, _, _, _, _ => none
  | fuel + 1, r1, r2, gf2, s =>
    let s' := trial r1 s
    if s'.ret > gf2 then gcvspl_L60 trial fuel r1 r2 (r2 * 2) gf2 s'
    else if s'.stat 4 ≤ 0 then some (r1, s')
    else gcvspl_L40 trial fuel (r1 / 2) r1 s'.ret s'

/-- What a call of `gcvspl` leaves behind. -/
structure Out where
  /-- Error code `*ier`. -/
  ier : Int
  /-- Coefficient table `c`. -/
  c : Arr2
  /-- Work array `wk`. -/
  wk : Wk
  /-- Statics after the call. -/
  st : Statics

/-- The work array and the statics after the call of `basis` and `prep` that
`gcvspl` makes when `md > 0`.  `basis` receives `&wk[7]` as its scratch vector
`q(1-m:m)`, so that `q[j]` is the cell `BWE(j - 1, 1)`. -/
def gcvsplSetup (a : Args) (wk : Wk) (st : Statics) : Wk × Statics :=
  if a.md > 0 then
    let bs := basis a.m a.n a.x wk.b (fun j => wk.bwe (j - 1) 1)
    let bwe : Arr2 := fun l i =>
      if i = 1 ∧ -a.m ≤ l ∧ l ≤ a.m - 1 then bs.q (l + 1) else wk.bwe l i
    let pr := prep a.m a.n a.x a.wx wk.we
    ({ wk with bwe := bwe, b := bs.b, we := pr.1 },
     { st with el := pr.2 / bs.bl })
  else (wk, st)

/-- One call of `splc` as `gcvspl` makes it, at the trial value `p`, on the
arrays left by the previous call. -/
def gcvsplTrial (a : Args) (wk : Wk) (el : ℚ) (p : ℚ) (s : SplcOut) : SplcOut :=
  splc a.m a.n a.k a.y a.wx a.wy a.md a.val p c_b6 s.c s.stat wk.b wk.we el s.bwe

/-- The parameter search of `gcvspl` (from line 218 to the arrival at
`L100`): the value of `r1` with which `L100` is reached. -/
def gcvsplSearch (fuel : Nat) (a : Args) (wk : Wk) (el : ℚ) (s0 : SplcOut) :
    Option (ℚ × SplcOut) :=
  if iabs a.md ≠ 1 then
    let r1 : ℚ := if a.md < -1 then wk.stat 4 else 1 / el
    let r2 := r1 * 2
    let s2 := gcvsplTrial a wk el r2 s0
    gcvspl_L40 (gcvsplTrial a wk el) fuel r1 r2 s2.ret s2
  else some (a.val, s0)

/-- `gcvspl(x, y, ny, wx, wy, m, n, k, md, val, c, nc, wk, ier)` run on the
coefficient table `c`, the work array `wk` and the statics `st`.  The result
is `none` when one of the search loops needs more than `fuel` passes. -/
def gcvspl (fuel : Nat) (a : Args) (c : Arr2) (wk : Wk) (st : Statics) :
    Option Out :=
  let chk := gcvsplCheck a st
  if chk.returned then some { ier := chk.ier, c := c, wk := wk, st := chk.st }
  else
    let su := gcvsplSetup a wk chk.st
    let wk1 := su.1
    let st1 := su.2
    let s0 : SplcOut := { ret := 0, c := c, stat := wk1.stat, bwe := wk1.bwe }
    (gcvsplSearch fuel a wk1 st1.el s0).map (fun r =>
      let f := gcvsplTrial a wk1 st1.el r.1 r.2
      { ier := chk.ier, c := f.c,
        wk := { wk1 with stat := f.stat, bwe := f.bwe }, st := st1 })

/-! ## Inputs used as examples -/

/-- The array with the given entries at positions `1, 2, ...` and zero
elsewhere. -/
def vecOf (l : List ℚ) : Vec := fun i => if 1 ≤ i then l.getD (i - 1).toNat 0 else 0

/-- An array of zeros. -/
def zero2 : Arr2 := fun _ _ => 0

/-- A work array of zeros. -/
def wkZero : Wk := { stat := fun _ => 0, bwe := zero2, b := zero2, we := zero2 }

/-- Two knots `x`, unit weights, one channel with data `0, 1`, order `m = 1`. -/
def twoKnots (x2 : ℚ) (md : Int) (val : ℚ) : Args :=
  { x := vecOf [0, x2], y := fun i _ => vecOf [0, 1] i, wx := vecOf [1, 1],
    wy := vecOf [1], m := 1, n := 2, k := 1, md := md, val := val }

/-- The invalid-size scenario of the specification: `n = 3` knots with
`m = 2`. -/
def threeKnots (md : Int) (val : ℚ) : Args :=
  { x := vecOf [0, 1, 2], y := fun i _ => vecOf [0, 1, 4] i,
    wx := vecOf [1, 1, 1], wy := vecOf [1], m := 2, n := 3, k := 1, md := md,
    val := val }

/-- The invalid-knots scenario of the specification: knots `0, 2, 1, 3`. -/
def unsortedKnots (md : Int) (val : ℚ) : Args :=
  { x := vecOf [0, 2, 1, 3], y := fun i _ => vecOf [0, 4, 1, 9] i,
    wx := vecOf [1, 1, 1, 1], wy := vecOf [1], m := 1, n := 4, k := 1,
    md := md, val := val }

/-! ## Statements about the inputs -/

/-- Some knot weight or channel weight is not positive, or the knots are not
strictly increasing. -/
def weightsKnotsBad (a : Args) : Prop :=
  (∃ i, 1 ≤ i ∧ i ≤ a.n ∧ a.wx i ≤ 0) ∨ (∃ j, 1 ≤ j ∧ j ≤ a.k ∧ a.wy j ≤ 0) ∨
    (∃ i, 2 ≤ i ∧ i ≤ a.n ∧ a.x (i - 1) ≥ a.x i)

/-- The sizes remembered in the statics differ from those of the call. -/
def sizesStale (a : Args) (st : Statics) : Prop :=
  st.m2 ≠ 2 * a.m ∨ st.nm1 ≠ a.n - 1

/-- The arrays on which `gcvspl` makes its first call of `splc`. -/
def firstState (a : Args) (c : Arr2) (wk : Wk) (st : Statics) : SplcOut :=
  { ret := 0, c := c, stat := (gcvsplSetup a wk st).1.stat,
    bwe := (gcvsplSetup a wk st).1.bwe }

/-- The call of `splc` at the trial value `p` that `gcvspl` makes right after
`basis` and `prep`, on zeroed arrays and fresh statics. -/
def trialAt (a : Args) (p : ℚ) : SplcOut :=
  gcvsplTrial a (gcvsplSetup a wkZero Statics.init).1
    (gcvsplSetup a wkZero Statics.init).2.el p
    (firstState a zero2 wkZero Statics.init)

/-- The search of `gcvspl` on zeroed arrays and fresh statics, as `gcvspl`
runs it after `basis` and `prep`. -/
def searchAt (fuel : Nat) (a : Args) : Option (ℚ × SplcOut) :=
  gcvsplSearch fuel a (gcvsplSetup a wkZero Statics.init).1
    (gcvsplSetup a wkZero Statics.init).2.el
    (firstState a zero2 wkZero Statics.init)

/-- The work array on which `gcvspl`, called on zeroed arrays and fresh
statics, runs its search. -/
def searchWk (a : Args) : Wk := (gcvsplSetup a wkZero Statics.init).1

/-- The value of the static `el` with which `gcvspl`, called on zeroed arrays
and fresh statics, runs its search. -/
def searchEl (a : Args) : ℚ := (gcvsplSetup a wkZero Statics.init).2.el

/-! ## Statements about the band solver -/

/-- The body of the inner loop of `bandet`, for row `i` with pivot `di`. -/
def bandetInner (m i : Int) (di : ℚ) (l : Int) (e : Arr2) : Arr2 :=
  let dl0 := e (-l) (i + l)
  let km := min (m - l) (i - 1)
  let s : ℚ × ℚ := if km ≥ 1 then
      forUp 1 km (fun k s =>
        (s.1 - e (-k) i * e (l + k) (i - k),
         s.2 - e (-l - k) (l + i) * e k (i - k))) (e l i, dl0)
    else (e l i, dl0)
  let e2 := if km ≥ 1 then set2 e l i s.1 else e
  set2 e2 (-l) (i + l) (s.2 / di)

/-- The body of the row loop of `bandet`. -/
def bandetRow (m n : Int) (i : Int) (e : Arr2) : Arr2 :=
  let di0 := e 0 i
  let mi := min m (i - 1)
  let di := if mi ≥ 1 then
      forUp 1 mi (fun k di => di - e (-k) i * e k (i - k)) di0
    else di0
  let e1 := if mi ≥ 1 then set2 e 0 i di else e
  let lm := min m (n - i)
  if lm ≥ 1 then forUp 1 lm (bandetInner m i di) e1 else e1

/-- The entry `U[i, i + l]` that elimination computes from the entries `e0` of
the matrix and the factors `e` found so far. -/
def uval (m : Int) (e0 e : Arr2) (l i : Int) : ℚ :=
  e0 l i - ∑ k ∈ Finset.Icc 1 (min (m - l) (i - 1)), e (-k) i * e (l + k) (i - k)

/-- The entry `L[i + l, i]` that elimination computes, before the division by
the pivot. -/
def lnum (m : Int) (e0 e : Arr2) (l i : Int) : ℚ :=
  e0 (-l) (i + l) -
    ∑ k ∈ Finset.Icc 1 (min (m - l) (i - 1)), e (-l - k) (l + i) * e k (i - k)

/-- The array after the row step `i`, cell by cell. -/
def rowSpec (m n : Int) (i : Int) (e : Arr2) : Arr2 :=
  fun a r =>
    if r = i ∧ 0 ≤ a ∧ a ≤ max 0 (min m (n - i)) then uval m e e a i
    else if a < 0 ∧ r + a = i ∧ -a ≤ min m (n - i) then
      lnum m e e (-a) i / uval m e e 0 i
    else e a r
/-- The cells that hold their final value after the row steps `1..i`: the
part of each row `r <= i` on and right of the diagonal, and the part of each
column `r + a <= i` below the diagonal. -/
def bandetDone (m n i : Int) (a r : Int) : Prop :=
  (1 ≤ r ∧ r ≤ i ∧ 0 ≤ a ∧ a ≤ min m (n - r)) ∨
    (a < 0 ∧ 1 ≤ r + a ∧ r + a ≤ i ∧ -a ≤ min m (n - (r + a)))

/-- What the row steps `1..i` of `bandet` have established: cells not yet
final are untouched, and the final cells satisfy the recurrences of the
factorisation `E = L U`. -/
def bandetInv (m n : Int) (e : Arr2) (i : Int) (E : Arr2) : Prop :=
  (∀ a r, ¬ bandetDone m n i a r → E a r = e a r) ∧
  (∀ r, 1 ≤ r → r ≤ i → ∀ a, 0 ≤ a → a ≤ min m (n - r) → E a r = uval m e E a r) ∧
  (∀ r, 1 ≤ r → r ≤ i → ∀ l, 1 ≤ l → l ≤ min m (n - r) →
    E (-l) (r + l) = lnum m e E l r / E 0 r)
/-- The forward substitution of `bansol` for channel `j` (general branch). -/
def bansolForward (e y : Arr2) (m n j : Int) (c : Arr2) : Arr2 :=
  forUp 2 n (fun i c =>
    let mi := min m (i - 1)
    let d := forUp 1 mi (fun l d => d - e (-l) i * c (i - l) j) (y i j)
    set2 c i j d) (set2 c 1 j (y 1 j))

/-- The back substitution of `bansol` for channel `j` (general branch). -/
def bansolBack (e : Arr2) (m n j : Int) (c2 : Arr2) : Arr2 :=
  forDown (n - 1) 1 (fun i c =>
    let mi := min m (n - i)
    let d := forUp 1 mi (fun l d => d - e l i * c (i + l) j) (c i j)
    set2 c i j (d / e 0 i)) (set2 c2 n j (c2 n j / e 0 n))

/-- The treatment of channel `j` by `bansol`. -/
def bansolChannel (e y : Arr2) (m n : Int) (j : Int) (c : Arr2) : Arr2 :=
  bansolBack e m n j (bansolForward e y m n j c)
/-- Entry `[r, t]` of the unit lower triangular factor stored by `bandet`
below the diagonal of `E`. -/
def lowerEntry (m : Int) (E : Arr2) (r t : Int) : ℚ :=
  if t = r then 1 else if 1 ≤ t ∧ t < r ∧ r - t ≤ m then E (t - r) r else 0

/-- Entry `[t, s]` of the upper triangular factor stored by `bandet` on and
above the diagonal of `E`. -/
def upperEntry (m n : Int) (E : Arr2) (t s : Int) : ℚ :=
  if t ≤ s ∧ s - t ≤ m ∧ s ≤ n then E (s - t) t else 0
/-- Column `j` of `C` is what forward substitution with the lower factor in
`E`, from the right-hand side `y`, followed by back substitution with the
upper factor, produces. -/
def channelSolved (m n : Int) (E y : Arr2) (j : Int) (C : Arr2) : Prop :=
  ∃ z : Int → ℚ,
    (∀ i, 1 ≤ i → i ≤ n →
      z i = y i j - ∑ l ∈ Finset.Icc 1 (min m (i - 1)), E (-l) i * z (i - l)) ∧
    (∀ i, 1 ≤ i → i ≤ n →
      C i j = (z i - ∑ l ∈ Finset.Icc 1 (min m (n - i)), E l i * C (i + l) j) / E 0 i)

/-- The band storage of the matrix with 2 on the diagonal and -1 next to
it. -/
def secondDifference : Arr2 := fun l _ => if l = 0 then 2 else -1

/-! ## The spline evaluator: `search` and `splder` -/

/-- The bisection of `search` from label `L4` on, with the statics `il` and
`iu` as arguments.  `rd` lists the subscripts of `x` read so far, the latest
first.  The fuel bounds the number of jumps back to `L4`; the integer
division is that of C, which truncates. -/
def search_L4 (x : Vec) (t : ℚ) : Nat → Int → Int → List Int → Option (Int × List Int)
  | 0, _, _, _ => none
  | fuel + 1, il, iu, rd =>
    let l := Int.tdiv (il + iu) 2
    if iu - il ≤ 1 then some (l, rd)
    else if t < x l then search_L4 x t fuel il l (l :: rd)
    else search_L4 x t fuel l iu (l :: rd)

/-- The subroutine `search`: from the cursor `l0` it returns the new cursor
and the list of the subscripts of `x` it has read, the latest first. -/
def search (fuel : Nat) (n : Int) (x : Vec) (t : ℚ) (l0 : Int) : Option (Int × List Int) :=
  if t < x 1 then some (0, [1])
  else if t ≥ x n then some (n, [n, 1])
  else
    let l1 := max l0 1
    let l2 := if l1 ≥ n then n - 1 else l1
    if t ≥ x l2 then
      -- L5
      if t < x (l2 + 1) then some (l2, [l2 + 1, l2, n, 1])
      else
        let l3 := l2 + 1
        if t < x (l3 + 1) then some (l3, [l3 + 1, l2 + 1, l2, n, 1])
        else search_L4 x t fuel (l3 + 1) n [l3 + 1, l2 + 1, l2, n, 1]
    else
      let l3 := l2 - 1
      if t ≥ x l3 then some (l3, [l3, l2, n, 1])
      else search_L4 x t fuel 1 l3 [l3, l2, n, 1]

/-- What `splder` leaves behind: the value returned, the cursor `l` and the
scratch array `q`. -/
structure SplderOut where
  val : ℚ
  l : Int
  q : Vec

/-- The variables carried through the derivative loop of `splder`. -/
structure DerivSt where
  q : Vec
  jl : Int
  ii : Int

/-- The variables carried through one level of the evaluation loop of
`splder`. -/
structure EvalSt where
  q : Vec
  ir : Int
  jj : Int

/-- Initial fill of `splder`: `q[1..2m]` receives the coefficients around
interval `l`, zero where the subscript leaves `1..n`. -/
def splderFill (m n l : Int) (c q : Vec) : Vec :=
  let m2 := 2 * m
  let mp1 := m + 1
  let npm := n + m
  let jl := l + 1
  let ju := l + m2
  let ml := -l
  forUp jl ju (fun j q =>
    if j ≥ mp1 ∧ j ≤ npm then setV q (j + ml) (c (j - m)) else setV q (j + ml) 0) q

/-- Derivative part of `splder` (executed for `ider > 0`): `ider` rounds of
divided differences, then the shift of `q[ider+1..2m]` to `q[1..k]`. -/
def splderDeriv (ider m n l : Int) (x q : Vec) : Vec :=
  let m2 := 2 * m
  let k := m2 - ider
  let jl := l + 1 - m2
  let ml := -l + m2
  let ii := n - m2
  let s := forUp 1 ider (fun i (s : DerivSt) =>
    let jl := s.jl + 1
    let ii := s.ii + 1
    let j1 := max 1 jl
    let j2 := min l ii
    let mi := m2 - i
    let q1 :=
      if j1 ≤ j2 then
        (forUp j1 j2 (fun _ (u : Vec × Int) =>
          let j := u.2 - 1
          let jm := ml + j
          (setV u.1 jm ((u.1 jm - u.1 (jm - 1)) / (x (j + mi) - x j)), j)) (s.q, j2 + 1)).1
      else s.q
    let q2 :=
      if jl ≥ 1 then q1
      else
        let i1 := i + 1
        if i1 ≤ ml then
          (forUp i1 ml (fun _ (u : Vec × Int) =>
            let j := u.2 - 1
            (setV u.1 j (-u.1 (j - 1)), j)) (q1, ml + 1)).1
        else q1
    ⟨q2, jl, ii⟩) ⟨q, jl, ii⟩
  forUp 1 k (fun j q => setV q j (q (j + ider))) s.q

/-- One level `i` of the evaluation loop of `splder`. -/
def splderLevel (k n l : Int) (t : ℚ) (x : Vec) (i : Int) (q : Vec) : Vec :=
  let nk := n - k
  let lk1 := l - k + 1
  let nki := nk + i
  let ki := k - i
  let nki1 := nki + 1
  let s0 : EvalSt := ⟨q, k, l⟩
  let s1 :=
    if l ≥ nki1 then
      forUp nki1 l (fun _ (s : EvalSt) =>
        ⟨setV s.q s.ir (s.q (s.ir - 1) + (t - x s.jj) * s.q s.ir), s.ir - 1, s.jj - 1⟩) s0
    else s0
  let lk1i := lk1 + i
  let j1 := max 1 lk1i
  let j2 := min l nki
  let s2 :=
    if j1 ≤ j2 then
      forUp j1 j2 (fun _ (s : EvalSt) =>
        let xjki := x (s.jj + ki)
        let z := s.q s.ir
        ⟨setV s.q s.ir (z + (xjki - t) * (s.q (s.ir - 1) - z) / (xjki - x s.jj)),
          s.ir - 1, s.jj - 1⟩) s1
    else s1
  let s3 :=
    if lk1i ≤ 0 then
      forUp 1 (1 - lk1i) (fun _ (s : EvalSt) =>
        ⟨setV s.q s.ir (s.q s.ir + (x s.jj - t) * s.q (s.ir - 1)), s.ir - 1, s.jj - 1⟩)
        ⟨s2.q, s2.ir, ki⟩
    else s2
  s3.q

/-- The function `splder`.  The fuel is that of `search`. -/
def splder (fuel : Nat) (ider m n : Int) (t : ℚ) (x c : Vec) (l0 : Int) (q : Vec) :
    Option SplderOut :=
  let m2 := 2 * m
  let k := m2 - ider
  if k < 1 then some ⟨0, l0, q⟩
  else
    (search fuel n x t l0).map fun sr =>
      let l := sr.1
      let m2m1 := m2 - 1
      let k1 := k - 1
      let q := splderFill m n l c q
      let q := if ider > 0 then splderDeriv ider m n l x q else q
      let q := if k1 ≥ 1 then forUp 1 k1 (splderLevel k n l t x) q else q
      let z := q k
      let z := if ider > 0 then forUp k m2m1 (fun j z => z * (j : ℚ)) z else z
      ⟨z, l, q⟩

/-- The knot interval that belongs to the query point `t`: index `0` left of
the first knot, index `n` from the last knot on, and otherwise an `l` in
`1..n-1` with `x[l] ≤ t < x[l+1]`. -/
def Located (n : Int) (x : Vec) (t : ℚ) (l : Int) : Prop :=
  (t < x 1 → l = 0) ∧ (x n ≤ t → l = n) ∧
    (x 1 ≤ t → t < x n → 1 ≤ l ∧ l ≤ n - 1 ∧ x l ≤ t ∧ t < x (l + 1))

/-- Knots `x[1..n]` in strictly increasing order. -/
def Increasing (n : Int) (x : Vec) : Prop :=
  ∀ i j, 1 ≤ i → i < j → j ≤ n → x i < x j

/-- Two scratch arrays with the same content in `q[1..hi]`. -/
def AgreeOn (hi : Int) (q q' : Vec) : Prop :=
  ∀ j, 1 ≤ j → j ≤ hi → q j = q' j

/-! ## Statements about the inverse bands -/

/-- The row step `i` of `trinv`: the body of its loop over the rows. -/
def trinvRow (m n : Int) (i : Int) (e : Arr2) : Arr2 :=
  let mi := min m (n - i)
  let dd0 := 1 / e 0 i
  let ea := forUp 1 mi (fun k e =>
    let e' := set2 e k n (e k i * dd0)
    set2 e' (-k) 1 (e' (-k) (k + i))) e
  let dd1 := dd0 + dd0
  let s : Arr2 × ℚ := forDown mi 1 (fun j s =>
    let e := s.1
    let t : ℚ × ℚ := forUp 1 mi (fun k t =>
      (t.1 - e k n * e (j - k) (i + k),
       t.2 - e (-k) 1 * e (k - j) (i + j))) (0, 0)
    let du := t.1
    let dl := t.2
    let e' := set2 e j i du
    let e'' := set2 e' (-j) (j + i) dl
    (e'', s.2 - (e'' j n * dl + e'' (-j) 1 * du))) (ea, dd1)
  set2 s.1 0 i (s.2 * (1 / 2))

/-- The array `e` of `trinv` after its loop over the rows. -/
def trinvBands (e : Arr2) (m n : Int) : Arr2 :=
  forDown (n - 1) 1 (trinvRow m n) (set2 e 0 n (1 / e 0 n))

/-- The sum that `trinv` returns, taken over the array `e1` it has built. -/
def trinvSum (b e1 : Arr2) (m n : Int) : ℚ :=
  forUp 1 n (fun i dd =>
    let mn := -min m (i - 1)
    let mp := min m (n - i)
    forUp mn mp (fun k dd => dd + b k i * e1 (-k) (k + i)) dd) 0

/-- Entry `[i, s]` of the band matrix stored in `e`, zero outside the band. -/
def bandEntry (m : Int) (e : Arr2) (i s : Int) : ℚ :=
  if i - s ≤ m ∧ s - i ≤ m then e (s - i) i else 0

/-- The matrix `z` is a right and left inverse of the band matrix stored in
`e`, on the index range `1..n`. -/
def IsInverse (m n : Int) (e : Arr2) (z : Int → Int → ℚ) : Prop :=
  (∀ i j, 1 ≤ i → i ≤ n → 1 ≤ j → j ≤ n →
    ∑ s ∈ Finset.Icc 1 n, bandEntry m e i s * z s j = if i = j then 1 else 0) ∧
  (∀ i j, 1 ≤ i → i ≤ n → 1 ≤ j → j ≤ n →
    ∑ s ∈ Finset.Icc 1 n, z i s * bandEntry m e s j = if i = j then 1 else 0)

/-- The value `du` that row step `i` of `trinv` computes for offset `j`, from
the array `ea` that holds the scaled row of `U` in column `n`. -/
def trinvDu (m n i : Int) (ea : Arr2) (j : Int) : ℚ :=
  0 - ∑ k ∈ Finset.Icc 1 (min m (n - i)), ea k n * ea (j - k) (i + k)

/-- The value `dl` that row step `i` of `trinv` computes for offset `j`, from
the array `ea` that holds the column of `L` in row `1`. -/
def trinvDl (m n i : Int) (ea : Arr2) (j : Int) : ℚ :=
  0 - ∑ k ∈ Finset.Icc 1 (min m (n - i)), ea (-k) 1 * ea (k - j) (i + j)

/-- The body of the loop over `j` in row step `i` of `trinv`; the state is
the array `e` and the running value `dd`. -/
def trinvStep (m n i : Int) (j : Int) (s : Arr2 × ℚ) : Arr2 × ℚ :=
  let e := s.1
  let mi := min m (n - i)
  let t : ℚ × ℚ := forUp 1 mi (fun k t =>
    (t.1 - e k n * e (j - k) (i + k),
     t.2 - e (-k) 1 * e (k - j) (i + j))) (0, 0)
  let du := t.1
  let dl := t.2
  let e' := set2 e j i du
  let e'' := set2 e' (-j) (j + i) dl
  (e'', s.2 - (e'' j n * dl + e'' (-j) 1 * du))

/-- The array after the first loop of row step `i` of `trinv`, which copies
the scaled row `i` of `U` to column `n` and column `i` of `L` to row `1`. -/
def trinvScratch (m n i : Int) (e : Arr2) : Arr2 :=
  forUp 1 (min m (n - i)) (fun k e' =>
    set2 (set2 e' k n (e' k i * (1 / e 0 i))) (-k) 1
      (set2 e' k n (e' k i * (1 / e 0 i)) (-k) (k + i))) e

/-- What the row steps `n, n-1, .., i` of `trinv` have established: the band
cells whose row and column are both at least `i` hold the entries of the
inverse `z`, and the band cells with a row or column below `i` still hold the
factors `E`. -/
def trinvInv (m n : Int) (E : Arr2) (z : Int → Int → ℚ) (i : Int) (e : Arr2) : Prop :=
  (∀ r c, i ≤ r → r ≤ n → i ≤ c → c ≤ n → c - r ≤ m → r - c ≤ m → e (c - r) r = z r c) ∧
  (∀ a r, 1 ≤ r → r ≤ n → 1 ≤ r + a → r + a ≤ n → -m ≤ a → a ≤ m →
    (r < i ∨ r + a < i) → e a r = E a r)

/-- The trace of `B Z`, for the design matrix `B` stored in `b` with the band
offsets `1-m..m-1` and a full matrix `z`: the sum of the diagonal entries
`Σ_l B[i, i+l] z[i+l, i]`. -/
def hatTrace (m n : Int) (b : Arr2) (z : Int → Int → ℚ) : ℚ :=
  ∑ i ∈ Finset.Icc 1 n, ∑ l ∈ Finset.Icc (-min (m - 1) (i - 1)) (min (m - 1) (n - i)),
    b l i * z (i + l) i

/-- The band matrix `B + dp WE` of `splc`, in band storage: `B` has no entry
at the offsets `-m` and `m`. -/
def systemMatrix (m : Int) (dp : ℚ) (b we : Arr2) : Arr2 :=
  fun l i => (if iabs l = m then 0 else b l i) + dp * we l i

/-- The inverse of the matrix `[[2, -1], [-1, 2]]`. -/
def twoKnotsInverse : Int → Int → ℚ :=
  fun i j => if i = j then 2 / 3 else 1 / 3

/-! ## Statements about the penalty matrix -/

/-- The body of the loop over the columns `j` in `prep`. -/
def prepColumn (m n : Int) (x : Vec) (j : Int) (st : PrepSt) : PrepSt :=
  let m2 := 2 * m
  let mp1 := m + 1
  let m2p1 := m2 + 1
  let nm := n - m
  let inc : Int := if j > nm then m2p1 else if j < mp1 then 1 else m2p1
  let f1 : ℚ := if j > nm then -st.f1 else st.f1
  let f : ℚ := if j > nm then f1 else if j < mp1 then f1
    else f1 * (x (j + m) - x (j - m))
  let i1 := if j > mp1 then st.i1 + 1 else st.i1
  let i2 := if st.i2 < n then st.i2 + 1 else st.i2
  let i1p1 := i1 + 1
  let ffa := forUp i1p1 i2 (fun i ff => ff / (x i1 - x i)) f
  let wea := weSet m st.we st.jm ffa
  let i2m1 := i2 - 1
  let s2 : Arr2 × Int := if i1p1 ≤ i2m1 then
      forUp i1p1 i2m1 (fun l s =>
        let ffl := forUp (l + 1) i2 (fun i ff => ff / (x l - x i))
          (forUp i1 (l - 1) (fun i ff => ff / (x l - x i)) f)
        (weSet m s.1 s.2 ffl, s.2 + m2)) (wea, st.jm + m2)
    else (wea, st.jm + m2)
  let ffb := forUp i1 i2m1 (fun i ff => ff / (x i2 - x i)) f
  { we := weSet m s2.1 s2.2 ffb, f1 := f1, i1 := i1, i2 := i2,
    jm := st.jm + inc }

/-- The first stage of `prep`: the loop over the columns `j`, which writes
the divided-difference coefficients of column `j` into `we`. -/
def prepColumns (m n : Int) (x : Vec) (we : Arr2) : PrepSt :=
  let m2 := 2 * m
  let mp1 := m + 1
  let m2m1 := m2 - 1
  let f10 : ℚ := if m ≠ 1 then
      forUp mp1 m2m1 (fun i f1 => f1 * (i : ℚ))
        (forUp 2 m (fun i f1 => -f1 * (i : ℚ)) (-1))
    else -1
  forUp 1 n (prepColumn m n x) { we := we, f1 := f10, i1 := 1, i2 := m, jm := mp1 }

/-- The second stage of `prep`: the corners of the band storage that lie
outside the matrix are set to zero. -/
def prepZero (m n : Int) (we : Arr2) : Arr2 × Int :=
  let m2p1 := 2 * m + 1
  let n2m := m2p1 * n + 1
  forUp 1 m (fun i s =>
    let kl := s.2
    let ku := kl + m - i
    (forUp kl ku (fun k we => weSet m (weSet m we k 0) (n2m - k) 0) s.1,
     kl + m2p1)) (we, 1)

/-- The inner loop of the third stage of `prep`, for row `i`; the state is
the array `we`, the running sum `*el` and the flat position `jj`. -/
def prepWeighRow (m : Int) (w : Vec) (i : Int) (s : Arr2 × ℚ × Int) : Arr2 × ℚ × Int :=
  forUp 1 (2 * m + 1) (fun _ s =>
    let jj := s.2.2 + 1
    let we' := weSet m s.1 jj (weGet m s.1 jj / w i)
    (we', s.2.1 + dabs (weGet m we' jj), jj)) s

/-- The third stage of `prep`: every row `i` is divided by its weight `w[i]`,
and the absolute values of the entries are summed. -/
def prepWeigh (m n : Int) (w : Vec) (we : Arr2) : Arr2 × ℚ × Int :=
  forUp 1 n (prepWeighRow m w) (we, 0, 0)

/-- The coefficient that `prep` writes for column `j` and row `r` when
`m = 1`, before the division by the weight. -/
def prepEntry (n : Int) (x : Vec) (j r : Int) : ℚ :=
  if j = n then
    if r = n then 1 / (x n - x (n - 1)) else 1 / (x (n - 1) - x n)
  else if j = 1 then
    if r = 1 then -1 / (x 1 - x 2) else -1 / (x 2 - x 1)
  else
    if r = j - 1 then -1 * (x (j + 1) - x (j - 1)) / (x (j - 1) - x j) / (x (j - 1) - x (j + 1))
    else if r = j then -1 * (x (j + 1) - x (j - 1)) / (x j - x (j - 1)) / (x j - x (j + 1))
    else -1 * (x (j + 1) - x (j - 1)) / (x (j + 1) - x (j - 1)) / (x (j + 1) - x j)

/-- The reciprocal of the gap left of knot `i`, zero at the first knot. -/
def lowerGap (x : Vec) (i : Int) : ℚ :=
  if i = 1 then 0 else 1 / (x i - x (i - 1))

/-- The reciprocal of the gap right of knot `i`, zero at the last knot. -/
def upperGap (n : Int) (x : Vec) (i : Int) : ℚ :=
  if i = n then 0 else 1 / (x (i + 1) - x i)

/-! ## Statements about the parameter search -/

/-- The variables `r1, r2, r3, gf1, gf2, gf3` of `gcvspl` on arrival at label
`L70`, before the assignments made there. -/
structure Bracket where
  /-- Local `r1`. -/
  r1 : ℚ
  /-- Local `r2`. -/
  r2 : ℚ
  /-- Local `r3`. -/
  r3 : ℚ
  /-- Local `gf1`. -/
  gf1 : ℚ
  /-- Local `gf2`. -/
  gf2 : ℚ
  /-- Local `gf3`. -/
  gf3 : ℚ
  deriving DecidableEq

/-- How the loops at `L40` and `L60` are left: towards `L100` with the value
of `r1`, or towards `L70` with a bracket; in both cases with the arrays as
they are then, and in the second with the passes still allowed. -/
inductive SearchExit where
  | final (r1 : ℚ) (s : SplcOut)
  | golden (b : Bracket) (s : SplcOut) (fuel : Nat)

/-- The bracket with which `L70` is reached, if it is. -/
def SearchExit.bracket : SearchExit → Option Bracket
  | SearchExit.final _ _ => none
  | SearchExit.golden b _ _ => some b

/-- The doubling loop at label `L60`, followed up to the arrival at `L70` or
`L100`.  The code is that of `gcvspl_L60`, with `gf1` carried along. -/
def bracketL60 (trial : ℚ → SplcOut → SplcOut) :
    Nat → ℚ → ℚ → ℚ → ℚ → ℚ → SplcOut → Option SearchExit
  | 0, _, _, _, _, _, _ => none
  | fuel + 1, r1, r2, r3, gf1, gf2, s =>
    let s' := trial r3 s
    if s'.ret > gf2 then
      some (SearchExit.golden
        { r1 := r1, r2 := r2, r3 := r3, gf1 := gf1, gf2 := gf2, gf3 := s'.ret } s' fuel)
    else if s'.stat 4 ≥ 999999999999999.88 then some (SearchExit.final r1 s')
    else bracketL60 trial fuel r1 r3 (r3 * 2) gf1 s'.ret s'

/-- The halving loop at label `L40`, followed up to the arrival at `L70` or
`L100`.  The code is that of `gcvspl_L40`. -/
def bracketL40 (trial : ℚ → SplcOut → SplcOut) :
    Nat → ℚ → ℚ → ℚ → SplcOut → Option SearchExit
  | 0, _, _, _, _ => none
  | fuel + 1, r1, r2, gf2, s =>
    let s' := trial r1 s
    if s'.ret > gf2 then bracketL60 trial fuel r1 r2 (r2 * 2) s'.ret gf2 s'
    else if s'.stat 4 ≤ 0 then some (SearchExit.final r1 s')
    else bracketL40 trial fuel (r1 / 2) r1 s'.ret s'

/-- The search of `gcvspl` from line 218 up to the arrival at `L70` or
`L100`. -/
def gcvsplBracket (fuel : Nat) (a : Args) (wk : Wk) (el : ℚ) (s0 : SplcOut) :
    Option SearchExit :=
  if iabs a.md ≠ 1 then
    let r1 : ℚ := if a.md < -1 then wk.stat 4 else 1 / el
    let r2 := r1 * 2
    let s2 := gcvsplTrial a wk el r2 s0
    bracketL40 (gcvsplTrial a wk el) fuel r1 r2 s2.ret s2
  else some (SearchExit.final a.val s0)

/-- The variables of `gcvspl` on arrival at label `L80`. -/
structure Golden where
  /-- Local `r1`. -/
  r1 : ℚ
  /-- Local `r2`. -/
  r2 : ℚ
  /-- Local `r3`. -/
  r3 : ℚ
  /-- Local `r4`. -/
  r4 : ℚ
  /-- Local `gf3`. -/
  gf3 : ℚ
  /-- Local `gf4`. -/
  gf4 : ℚ
  /-- Local `alpha`. -/
  alpha : ℚ
  /-- The arrays left by the last call of `splc`. -/
  s : SplcOut

/-- The code at label `L70`, up to the first arrival at `L80`. -/
def goldenEntry (trial : ℚ → SplcOut → SplcOut) (r1 r3 : ℚ) (s : SplcOut) : Golden :=
  let r2 := r3
  let alpha := (r2 - r1) / 1.618033983
  let r4 := r1 + alpha
  let r3' := r2 - alpha
  let s3 := trial r3' s
  let s4 := trial r4 s3
  { r1 := r1, r2 := r2, r3 := r3', r4 := r4, gf3 := s3.ret, gf4 := s4.ret, alpha := alpha,
    s := s4 }

/-- One pass of the code at label `L80`: the variables after the pass, and
whether the pass ended with `goto L90` (in which case only `r1` or `r2` has
been assigned). -/
def goldenStep (trial : ℚ → SplcOut → SplcOut) (g : Golden) : Golden × Bool :=
  if g.gf3 ≤ g.gf4 then
    let r2 := g.r4
    let err := (r2 - g.r1) / (g.r1 + r2)
    if err * err + 1 = 1 ∨ err ≤ 1e-6 then ({ g with r2 := r2 }, true)
    else
      let alpha := g.alpha / 1.618033983
      let s' := trial (r2 - alpha) g.s
      ({ r1 := g.r1, r2 := r2, r3 := r2 - alpha, r4 := g.r3, gf3 := s'.ret, gf4 := g.gf3,
         alpha := alpha, s := s' }, false)
  else
    let r1 := g.r3
    let err := (g.r2 - r1) / (r1 + g.r2)
    if err * err + 1 = 1 ∨ err ≤ 1e-6 then ({ g with r1 := r1 }, true)
    else
      let alpha := g.alpha / 1.618033983
      let s' := trial (r1 + alpha) g.s
      ({ r1 := r1, r2 := g.r2, r3 := g.r4, r4 := r1 + alpha, gf3 := g.gf4, gf4 := s'.ret,
         alpha := alpha, s := s' }, false)

/-- The variables at `L80` after `k` passes. -/
def goldenIter (trial : ℚ → SplcOut → SplcOut) : Nat → Golden → Golden
  | 0, g => g
  | k + 1, g => goldenIter trial k (goldenStep trial g).1

/-- The golden-section loop run from the variables `g` at `L80`. -/
def goldenRun (trial : ℚ → SplcOut → SplcOut) (fuel : Nat) (g : Golden) :
    Option (ℚ × SplcOut) :=
  gcvspl_L80 trial fuel g.r1 g.r2 g.r3 g.r4 g.gf3 g.gf4 g.alpha g.s

/-- The bracket with which the search of `gcvspl`, called on zeroed arrays
and fresh statics, reaches `L70`. -/
def bracketAt (fuel : Nat) (a : Args) : Option Bracket :=
  (gcvsplBracket fuel a (searchWk a) (searchEl a)
    (firstState a zero2 wkZero Statics.init)).bind SearchExit.bracket

/-- The variables at `L80` after `k` passes of the golden-section loop, in the
search of `gcvspl` called on zeroed arrays and fresh statics (`none` when the
search does not arrive at `L70`). -/
def goldenAt (fuel : Nat) (a : Args) (k : Nat) : Option Golden :=
  (gcvsplBracket fuel a (searchWk a) (searchEl a)
    (firstState a zero2 wkZero Statics.init)).bind (fun e =>
      match e with
      | SearchExit.final _ _ => none
      | SearchExit.golden b s _ =>
        some (goldenIter (gcvsplTrial a (searchWk a) (searchEl a)) k
          (goldenEntry (gcvsplTrial a (searchWk a) (searchEl a)) b.r1 b.r3 s)))

/-- The trial call of `splc` in the search of `gcvspl` on the two knots `0, 1`
with data `0, 1`, `md = 3` and `val = 1/4`. -/
def quarterTrial : ℚ → SplcOut → SplcOut :=
  gcvsplTrial (twoKnots 1 3 (1 / 4)) (searchWk (twoKnots 1 3 (1 / 4)))
    (searchEl (twoKnots 1 3 (1 / 4)))

/-- The arrays on which that search makes its first call of `splc`. -/
def quarterState : SplcOut := firstState (twoKnots 1 3 (1 / 4)) zero2 wkZero Statics.init

/-- Two arrays in band storage hold the same entries of the `n × n` band
matrix: they agree at every offset `a` in `-m..m` of every row `r` in `1..n`
whose column `r + a` lies in `1..n`. -/
def BandAgree (m n : Int) (e e' : Arr2) : Prop :=
  ∀ a r, 1 ≤ r → r ≤ n → 1 ≤ r + a → r + a ≤ n → -m ≤ a → a ≤ m → e a r = e' a r

/-- The search of a call of `gcvspl`, followed up to the arrival at `L70` or
`L100`: `none` when the call returns from the validation block, or when the
loops at `L40` and `L60` need more than `fuel` passes. -/
def gcvsplArrive (fuel : Nat) (a : Args) (c : Arr2) (wk : Wk) (st : Statics) :
    Option SearchExit :=
  let chk := gcvsplCheck a st
  if chk.returned then none
  else
    let su := gcvsplSetup a wk chk.st
    let wk1 := su.1
    let st1 := su.2
    let s0 : SplcOut := { ret := 0, c := c, stat := wk1.stat, bwe := wk1.bwe }
    gcvsplBracket fuel a wk1 st1.el s0

/-! ## The array accesses of `splder` -/

/-- One array access or division made by `splder` or `search`: a read of
`x[i]`, a read of `c[i]`, a read or write of `q[i]`, or a division by `d`. -/
inductive Access where
  | x (i : Int)
  | c (i : Int)
  | q (i : Int)
  | divisor (d : ℚ)

/-- The access is in range for knots `x[1..n]`, coefficients `c[1..n]` and a
scratch array `q[1..2m]`; a divisor is in range when it is not zero. -/
def Access.ok (m n : Int) : Access → Prop
  | Access.x i => 1 ≤ i ∧ i ≤ n
  | Access.c i => 1 ≤ i ∧ i ≤ n
  | Access.q i => 1 ≤ i ∧ i ≤ 2 * m
  | Access.divisor d => d ≠ 0

/-- The initial fill of `splder` (`splderFill`), with the list of the accesses
it makes put in front of `p.2` (latest first). -/
def splderFillTrace (m n l : Int) (c : Vec) (p : Vec × List Access) : Vec × List Access :=
  let m2 := 2 * m
  let mp1 := m + 1
  let npm := n + m
  let jl := l + 1
  let ju := l + m2
  let ml := -l
  forUp jl ju (fun j (p : Vec × List Access) =>
    if j ≥ mp1 ∧ j ≤ npm then
      (setV p.1 (j + ml) (c (j - m)), Access.q (j + ml) :: Access.c (j - m) :: p.2)
    else (setV p.1 (j + ml) 0, Access.q (j + ml) :: p.2)) p

/-- The derivative part of `splder` (`splderDeriv`), with its accesses. -/
def splderDerivTrace (ider m n l : Int) (x : Vec) (p : Vec × List Access) :
    Vec × List Access :=
  let m2 := 2 * m
  let k := m2 - ider
  let jl := l + 1 - m2
  let ml := -l + m2
  let ii := n - m2
  let s := forUp 1 ider (fun i (s : DerivSt × List Access) =>
    let jl := s.1.jl + 1
    let ii := s.1.ii + 1
    let j1 := max 1 jl
    let j2 := min l ii
    let mi := m2 - i
    let r1 : Vec × List Access :=
      if j1 ≤ j2 then
        let r := forUp j1 j2 (fun _ (u : (Vec × Int) × List Access) =>
          let j := u.1.2 - 1
          let jm := ml + j
          ((setV u.1.1 jm ((u.1.1 jm - u.1.1 (jm - 1)) / (x (j + mi) - x j)), j),
            Access.q jm :: Access.divisor (x (j + mi) - x j) :: Access.x j ::
              Access.x (j + mi) :: Access.q (jm - 1) :: Access.q jm :: u.2))
          ((s.1.q, j2 + 1), s.2)
        (r.1.1, r.2)
      else (s.1.q, s.2)
    let r2 : Vec × List Access :=
      if jl ≥ 1 then r1
      else
        let i1 := i + 1
        if i1 ≤ ml then
          let r := forUp i1 ml (fun _ (u : (Vec × Int) × List Access) =>
            let j := u.1.2 - 1
            ((setV u.1.1 j (-u.1.1 (j - 1)), j), Access.q j :: Access.q (j - 1) :: u.2))
            ((r1.1, ml + 1), r1.2)
          (r.1.1, r.2)
        else r1
    ((⟨r2.1, jl, ii⟩ : DerivSt), r2.2)) ((⟨p.1, jl, ii⟩ : DerivSt), p.2)
  forUp 1 k (fun j (p : Vec × List Access) =>
    (setV p.1 j (p.1 (j + ider)), Access.q j :: Access.q (j + ider) :: p.2)) (s.1.q, s.2)

/-- One level `i` of the evaluation loop of `splder` (`splderLevel`), with its
accesses. -/
def splderLevelTrace (k n l : Int) (t : ℚ) (x : Vec) (i : Int) (p : Vec × List Access) :
    Vec × List Access :=
  let nk := n - k
  let lk1 := l - k + 1
  let nki := nk + i
  let ki := k - i
  let nki1 := nki + 1
  let s0 : EvalSt × List Access := (⟨p.1, k, l⟩, p.2)
  let s1 :=
    if l ≥ nki1 then
      forUp nki1 l (fun _ (s : EvalSt × List Access) =>
        ((⟨setV s.1.q s.1.ir (s.1.q (s.1.ir - 1) + (t - x s.1.jj) * s.1.q s.1.ir),
            s.1.ir - 1, s.1.jj - 1⟩ : EvalSt),
          Access.q s.1.ir :: Access.q s.1.ir :: Access.x s.1.jj :: Access.q (s.1.ir - 1) ::
            s.2)) s0
    else s0
  let lk1i := lk1 + i
  let j1 := max 1 lk1i
  let j2 := min l nki
  let s2 :=
    if j1 ≤ j2 then
      forUp j1 j2 (fun _ (s : EvalSt × List Access) =>
        let xjki := x (s.1.jj + ki)
        let z := s.1.q s.1.ir
        ((⟨setV s.1.q s.1.ir (z + (xjki - t) * (s.1.q (s.1.ir - 1) - z) / (xjki - x s.1.jj)),
            s.1.ir - 1, s.1.jj - 1⟩ : EvalSt),
          Access.q s.1.ir :: Access.divisor (xjki - x s.1.jj) :: Access.x s.1.jj ::
            Access.q (s.1.ir - 1) :: Access.q s.1.ir :: Access.x (s.1.jj + ki) :: s.2)) s1
    else s1
  let s3 :=
    if lk1i ≤ 0 then
      forUp 1 (1 - lk1i) (fun _ (s : EvalSt × List Access) =>
        ((⟨setV s.1.q s.1.ir (s.1.q s.1.ir + (x s.1.jj - t) * s.1.q (s.1.ir - 1)),
            s.1.ir - 1, s.1.jj - 1⟩ : EvalSt),
          Access.q s.1.ir :: Access.q (s.1.ir - 1) :: Access.x s.1.jj :: Access.q s.1.ir ::
            s.2))
        ((⟨s2.1.q, s2.1.ir, ki⟩ : EvalSt), s2.2)
    else s2
  (s3.1.q, s3.2)

/-- The function `splder` together with the list of the array accesses and
divisions it makes, those of `search` included (latest first).  The fuel is
that of `search`. -/
def splderTrace (fuel : Nat) (ider m n : Int) (t : ℚ) (x c : Vec) (l0 : Int) (q : Vec) :
    Option (SplderOut × List Access) :=
  let m2 := 2 * m
  let k := m2 - ider
  if k < 1 then some (⟨0, l0, q⟩, [])
  else
    (search fuel n x t l0).map fun sr =>
      let l := sr.1
      let m2m1 := m2 - 1
      let k1 := k - 1
      let p : Vec × List Access := (q, sr.2.map Access.x)
      let p := splderFillTrace m n l c p
      let p := if ider > 0 then splderDerivTrace ider m n l x p else p
      let p := if k1 ≥ 1 then forUp 1 k1 (splderLevelTrace k n l t x) p else p
      let z := p.1 k
      let z := if ider > 0 then forUp k m2m1 (fun j z => z * (j : ℚ)) z else z
      (⟨z, l, p.1⟩, Access.q k :: p.2)

/-- The two-knot example with fixed smoothing parameter (`md = 1`, `val = 1`)
and the channel count replaced by `k`. -/
def withChannels (k : Int) : Args :=
  { twoKnots 1 1 1 with k := k }

/-- The body of the loop over `i` in `basis`, for the row `l`: one level of
the recurrence on the scratch vector `q`. -/
def basisLevel (m n : Int) (x : Vec) (l i : Int) (q : Vec) : Vec :=
  let mp1 := m + 1
  let m2 := 2 * m
  let arg := x l
  let st0 : BasisSt := { q := q, v := q (mp1 - i), ir := mp1 - i }
  let st1 : BasisSt := if l < i then
      forUp (l + 1) i (fun j st =>
        let u := st.v
        let v := st.q (st.ir + 1)
        { q := setV st.q st.ir (u + (x j - arg) * v), v := v,
          ir := st.ir + 1 }) st0
    else st0
  let j1 := max (l - i + 1) 1
  let j2 := min (l - 1) (n - i)
  let st2 : BasisSt := if j1 ≤ j2 then
      if i < m2 then
        forUp j1 j2 (fun j st =>
          let y := x (i + j)
          let u := st.v
          let v := st.q (st.ir + 1)
          { q := setV st.q st.ir (u + (v - u) * (y - arg) / (y - x j)),
            v := v, ir := st.ir + 1 }) st1
      else
        forUp j1 j2 (fun j st =>
          let u := st.v
          let v := st.q (st.ir + 1)
          { q := setV st.q st.ir
              ((arg - x j) * u + (x (i + j) - arg) * v),
            v := v, ir := st.ir + 1 }) st1
    else st1
  let nmip1 := n - i + 1
  let st3 : BasisSt := if nmip1 < l then
      forUp nmip1 (l - 1) (fun j st =>
        let u := st.v
        let v := st.q (st.ir + 1)
        { q := setV st.q st.ir ((arg - x j) * u + v), v := v,
          ir := st.ir + 1 }) st2
    else st2
  st3.q

/-- The scratch vector `q` that the body of the loop over the rows `l` in
`basis` (for `m ≠ 1`) leaves, from the scratch vector it finds; its entries
`q[1-m..m-1]` are then copied to row `l` of `b`. -/
def basisRow (m n : Int) (x : Vec) (l : Int) (q : Vec) : Vec :=
  let mm1 := m - 1
  let q0 := forUp (-mm1) m (fun j q => setV q j 0) q
  let q1 := setV q0 mm1 1
  let q2 := if l ≠ 1 ∧ l ≠ n then
      setV q1 mm1 (1 / (x (l + 1) - x (l - 1)))
    else q1
  forUp 3 (2 * m) (fun i q => basisLevel m n x l i q) q2

/-- The loop over the rows `l` in `basis`, on the pair of the array `b` and
the scratch vector `q`. -/
def basisRows (m n : Int) (x : Vec) (b : Arr2) (q : Vec) : Arr2 × Vec :=
  forUp 1 n (fun l s =>
    (forUp (-(m - 1)) (m - 1) (fun j b => set2 b j l (basisRow m n x l s.2 j)) s.1,
      basisRow m n x l s.2)) (b, q)

/-- The loop of `basis` that zeroes the corners of `b` outside the matrix. -/
def basisCorners (m n : Int) (b : Arr2) : Arr2 :=
  forUp 1 (m - 1) (fun i b =>
    forUp i (m - 1) (fun k b => set2 (set2 b (-k) i 0) k (n + 1 - i) 0) b) b

/-- The loop at label `L80` with the trial values handed to `splc` appended
to `log` in the order of the calls. -/
def gcvspl_L80Trace (trial : ℚ → SplcOut → SplcOut) :
    Nat → ℚ → ℚ → ℚ → ℚ → ℚ → ℚ → ℚ → SplcOut → List ℚ → Option (ℚ × SplcOut × List ℚ)
  | 0, _, _, _, _, _, _, _, _, _ => none
  | fuel + 1, r1, r2, r3, r4, gf3, gf4, alpha, s, log =>
    if gf3 ≤ gf4 then
      let r2 := r4
      let err := (r2 - r1) / (r1 + r2)
      if err * err + 1 = 1 ∨ err ≤ 1e-6 then some ((r1 + r2) * 0.5, s, log)
      else
        let alpha := alpha / 1.618033983
        let s' := trial (r2 - alpha) s
        gcvspl_L80Trace trial fuel r1 r2 (r2 - alpha) r3 s'.ret gf3 alpha s'
          (log ++ [r2 - alpha])
    else
      let r1 := r3
      let err := (r2 - r1) / (r1 + r2)
      if err * err + 1 = 1 ∨ err ≤ 1e-6 then some ((r1 + r2) * 0.5, s, log)
      else
        let alpha := alpha / 1.618033983
        let s' := trial (r1 + alpha) s
        gcvspl_L80Trace trial fuel r1 r2 r4 (r1 + alpha) gf4 s'.ret alpha s'
          (log ++ [r1 + alpha])

/-- The code at label `L70` with the trial values recorded. -/
def gcvspl_L70Trace (trial : ℚ → SplcOut → SplcOut) (fuel : Nat) (r1 r3 : ℚ)
    (s : SplcOut) (log : List ℚ) : Option (ℚ × SplcOut × List ℚ) :=
  let r2 := r3
  let alpha := (r2 - r1) / 1.618033983
  let r4 := r1 + alpha
  let r3' := r2 - alpha
  let s3 := trial r3' s
  let s4 := trial r4 s3
  gcvspl_L80Trace trial fuel r1 r2 r3' r4 s3.ret s4.ret alpha s4 (log ++ [r3', r4])

/-- The doubling loop at label `L60` with the trial values recorded. -/
def gcvspl_L60Trace (trial : ℚ → SplcOut → SplcOut) :
    Nat → ℚ → ℚ → ℚ → ℚ → SplcOut → List ℚ → Option (ℚ × SplcOut × List ℚ)
  | 0, _, _, _, _, _, _ => none
  | fuel + 1, r1, _, r3, gf2, s, log =>
    let s' := trial r3 s
    if s'.ret > gf2 then gcvspl_L70Trace trial fuel r1 r3 s' (log ++ [r3])
    else if s'.stat 4 ≥ 999999999999999.88 then some (r1, s', log ++ [r3])
    else gcvspl_L60Trace trial fuel r1 r3 (r3 * 2) s'.ret s' (log ++ [r3])

/-- The halving loop at label `L40` with the trial values recorded. -/
def gcvspl_L40Trace (trial : ℚ → SplcOut → SplcOut) :
    Nat → ℚ → ℚ → ℚ → SplcOut → List ℚ → Option (ℚ × SplcOut × List ℚ)
  | 0, _, _, _, _, _ => none
  | fuel + 1, r1, r2, gf2, s, log =>
    let s' := trial r1 s
    if s'.ret > gf2 then gcvspl_L60Trace trial fuel r1 r2 (r2 * 2) gf2 s' (log ++ [r1])
    else if s'.stat 4 ≤ 0 then some (r1, s', log ++ [r1])
    else gcvspl_L40Trace trial fuel (r1 / 2) r1 s'.ret s' (log ++ [r1])

/-- The parameter search of `gcvspl` with the trial values recorded. -/
def gcvsplSearchTrace (fuel : Nat) (a : Args) (wk : Wk) (el : ℚ) (s0 : SplcOut) :
    Option (ℚ × SplcOut × List ℚ) :=
  if iabs a.md ≠ 1 then
    let r1 : ℚ := if a.md < -1 then wk.stat 4 else 1 / el
    let r2 := r1 * 2
    let s2 := gcvsplTrial a wk el r2 s0
    gcvspl_L40Trace (gcvsplTrial a wk el) fuel r1 r2 s2.ret s2 [r2]
  else some (a.val, s0, [])

/-- The model `gcvspl` with the sequence of the values of `p` handed to `splc`
recorded, the final call at `L100` included. -/
def gcvsplTrace (fuel : Nat) (a : Args) (c : Arr2) (wk : Wk) (st : Statics) :
    Option (Out × List ℚ) :=
  let chk := gcvsplCheck a st
  if chk.returned then some ({ ier := chk.ier, c := c, wk := wk, st := chk.st }, [])
  else
    let su := gcvsplSetup a wk chk.st
    let wk1 := su.1
    let st1 := su.2
    let s0 : SplcOut := { ret := 0, c := c, stat := wk1.stat, bwe := wk1.bwe }
    (gcvsplSearchTrace fuel a wk1 st1.el s0).map (fun r =>
      let f := gcvsplTrial a wk1 st1.el r.1 r.2.1
      ({ ier := chk.ier, c := f.c,
         wk := { wk1 with stat := f.stat, bwe := f.bwe }, st := st1 }, r.2.2 ++ [r.1]))

/-- Two runs of the parameter search that make the same trial calls: both run
out of fuel, or both arrive at `L100` with the same `r1` after the same
sequence of trial values, on arrays related by `R`. -/
def SameRun (R : SplcOut → SplcOut → Prop) (o o' : Option (ℚ × SplcOut × List ℚ)) : Prop :=
  (o = none ∧ o' = none) ∨
    ∃ p u u' lg, o = some (p, u, lg) ∧ o' = some (p, u', lg) ∧ R u u'

/-- Two states of the recurrence of `basis` with the same `ir`, the same `v`
and the same scratch entries `q[wl..wh]`. -/
def BasisAgree (wl wh : Int) (st st' : BasisSt) : Prop :=
  st'.ir = st.ir ∧ st'.v = st.v ∧ ∀ j, wl ≤ j → j ≤ wh → st'.q j = st.q j

/-- The golden-section variables `g` keep, after `i` continuing passes from a
bracket whose first `alpha` was `a0`, the geometry of the entry up to the
absolute error `a0 * 1.041e-8`: `alpha` is `a0 / 1.618033983 ^ i`, the
distance `r4 - r3` of the trial points is `alpha / 2.618033983`, and their
midpoint lies `alpha / 1.236067966` from either end of the bracket, each up
to that error. -/
def GoldenNear (a0 : ℚ) (i : Nat) (g : Golden) : Prop :=
  g.alpha = a0 / 1.618033983 ^ i ∧
  -(a0 * 1.041e-8) ≤ g.r4 - g.r3 - g.alpha / 2.618033983 ∧
  g.r4 - g.r3 - g.alpha / 2.618033983 ≤ a0 * 1.041e-8 ∧
  -(a0 * 1.041e-8) ≤ (g.r3 + g.r4) / 2 - g.r1 - g.alpha / 1.236067966 ∧
  (g.r3 + g.r4) / 2 - g.r1 - g.alpha / 1.236067966 ≤ a0 * 1.041e-8 ∧
  -(a0 * 1.041e-8) ≤ g.r2 - (g.r3 + g.r4) / 2 - g.alpha / 1.236067966 ∧
  g.r2 - (g.r3 + g.r4) / 2 - g.alpha / 1.236067966 ≤ a0 * 1.041e-8


/-- A stand-in for the objective that rises with the trial value: the call
returns its argument `p` and leaves the arrays alone. -/
def risingTrial : ℚ → SplcOut → SplcOut := fun p s => { s with ret := p }


/-- Three knots `0, 1, 9/8` with knot weights `1, 4, 1` and data `0, 0, 0`,
fitted with `m = 1` in mode `md = 3` with the variance `val = 1`. -/
def closeKnots : Args :=
  { x := vecOf [0, 1, 9 / 8], y := fun _ _ => 0, wx := vecOf [1, 4, 1],
    wy := vecOf [1], m := 1, n := 3, k := 1, md := 3, val := 1 }

/-! ## Loops -/

theorem forUp_of_lt {σ : Type} {lo hi : Int} (h : hi < lo) (f : Int → σ → σ)
    (s : σ) : forUp lo hi f s = s := by
  have h0 : (hi + 1 - lo).toNat = 0 := by omega
  simp [forUp, h0, iterUp]

theorem iterUp_succ_last {σ : Type} (f : Int → σ → σ) :
    ∀ (cnt : Nat) (i : Int) (s : σ),
      iterUp (cnt + 1) i f s = f (i + cnt) (iterUp cnt i f s) := by
  intro cnt
  induction cnt with
  | zero => intro i s; simp [iterUp]
  | succ k ih =>
    intro i s
    have h1 : iterUp (k + 1 + 1) i f s = iterUp (k + 1) (i + 1) f (f i s) := rfl
    have h2 : iterUp (k + 1) i f s = iterUp k (i + 1) f (f i s) := rfl
    rw [h1, ih, h2]
    have h3 : i + 1 + (k : Int) = i + ((k + 1 : Nat) : Int) := by push_cast; ring
    rw [h3]

theorem forUp_first {σ : Type} {lo hi : Int} (h : lo ≤ hi) (f : Int → σ → σ)
    (s : σ) : forUp lo hi f s = forUp (lo + 1) hi f (f lo s) := by
  obtain ⟨k, hk⟩ : ∃ k : Nat, (hi + 1 - lo).toNat = k + 1 :=
    ⟨(hi + 1 - lo).toNat - 1, by omega⟩
  have hk2 : (hi + 1 - (lo + 1)).toNat = k := by omega
  unfold forUp
  rw [hk, hk2]
  rfl

theorem forUp_last {σ : Type} {lo hi : Int} (h : lo ≤ hi + 1)
    (f : Int → σ → σ) (s : σ) :
    forUp lo (hi + 1) f s = f (hi + 1) (forUp lo hi f s) := by
  obtain ⟨k, hk⟩ : ∃ k : Nat, (hi + 1 - lo).toNat = k := ⟨_, rfl⟩
  have hk2 : (hi + 1 + 1 - lo).toNat = k + 1 := by omega
  have hk3 : lo + (k : Int) = hi + 1 := by omega
  simp only [forUp, hk, hk2]
  rw [iterUp_succ_last, hk3]

/-! ## The validation block -/

theorem checkLoop_returned (bad : Int → Bool) (ier : Int) :
    ∀ (cnt : Nat) (i : Int),
      iterUp cnt i (fun i s => checkStep (bad i) s) (ier, true) = (ier, true) := by
  intro cnt
  induction cnt with
  | zero => intro i; rfl
  | succ k ih => intro i; simp only [iterUp, checkStep]; exact ih (i + 1)

theorem checkLoop_two (bad : Int → Bool) {lo hi : Int} (h : lo ≤ hi) :
    forUp lo hi (fun i s => checkStep (bad i) s) (2, false) = (2, true) := by
  rw [forUp_first h]
  have h1 : checkStep (bad lo) (2, false) = (2, true) := by
    simp [checkStep]
  simp only [h1, forUp]
  exact checkLoop_returned bad 2 _ _

theorem checkLoop_zero (bad : Int → Bool) (hi : Int) :
    ∀ (cnt : Nat) (lo : Int), (hi + 1 - lo).toNat = cnt →
      ((∃ i, lo ≤ i ∧ i ≤ hi ∧ bad i = true) →
        forUp lo hi (fun i s => checkStep (bad i) s) (0, false) = (2, true)) ∧
      ((¬ ∃ i, lo ≤ i ∧ i ≤ hi ∧ bad i = true) →
        forUp lo hi (fun i s => checkStep (bad i) s) (0, false) = (0, false)) := by
  intro cnt
  induction cnt with
  | zero =>
    intro lo h
    have hlt : hi < lo := by omega
    rw [forUp_of_lt hlt]
    constructor
    · rintro ⟨i, h1, h2, _⟩; omega
    · intro _; rfl
  | succ k ih =>
    intro lo h
    have hle : lo ≤ hi := by omega
    rw [forUp_first hle]
    by_cases hb : bad lo = true
    · have h1 : checkStep (bad lo) (0, false) = (2, true) := by simp [checkStep, hb]
      constructor
      · intro _
        simp only [h1, forUp]
        exact checkLoop_returned bad 2 _ _
      · intro hno
        exact absurd ⟨lo, le_refl _, hle, hb⟩ hno
    · have h1 : checkStep (bad lo) (0, false) = (0, false) := by simp [checkStep, hb]
      rw [h1]
      have hk : (hi + 1 - (lo + 1)).toNat = k := by omega
      have hiff : (∃ i, lo + 1 ≤ i ∧ i ≤ hi ∧ bad i = true) ↔
          (∃ i, lo ≤ i ∧ i ≤ hi ∧ bad i = true) := by
        constructor
        · rintro ⟨i, h1, h2, h3⟩; exact ⟨i, by omega, h2, h3⟩
        · rintro ⟨i, h1, h2, h3⟩
          have hne : i ≠ lo := by rintro rfl; exact hb h3
          exact ⟨i, by omega, h2, h3⟩
      have := ih (lo + 1) hk
      rw [hiff] at this
      exact this
theorem gcvsplCheck_mode (a : Args) (st : Statics)
    (h : modeValueBad a.md a.val a.n a.m) :
    gcvsplCheck a st = { ier := 3, returned := true, st := st } := by
  simp [gcvsplCheck, h]

theorem gcvsplCheck_stale (a : Args) (st : Statics)
    (h : ¬ modeValueBad a.md a.val a.n a.m) (hmd : ¬ a.md > 0)
    (hs : sizesStale a st) :
    gcvsplCheck a st = { ier := 3, returned := true, st := st } := by
  unfold sizesStale at hs
  simp only [gcvsplCheck, h, if_false, hmd, not_false_eq_true, true_and, hs, if_true]

theorem gcvsplCheck_size (a : Args) (st : Statics)
    (h : ¬ modeValueBad a.md a.val a.n a.m) (h2 : a.md > 0 ∨ ¬ sizesStale a st)
    (h3 : a.m ≤ 0 ∨ a.n < 2 * a.m) :
    gcvsplCheck a st = { ier := 1, returned := true, st := entryStatics a st } := by
  have hns : ¬ (¬ a.md > 0 ∧ (st.m2 ≠ 2 * a.m ∨ st.nm1 ≠ a.n - 1)) := by
    rintro ⟨h4, h5⟩
    rcases h2 with h2 | h2
    · exact h4 h2
    · exact h2 h5
  have hm2 : (entryStatics a st).m2 = 2 * a.m := by
    unfold entryStatics
    by_cases hmd : a.md > 0
    · simp [hmd]
    · simp only [hmd, if_false]
      by_contra hne
      exact hns ⟨hmd, Or.inl hne⟩
  have h3' : a.m ≤ 0 ∨ a.n < (entryStatics a st).m2 := by rw [hm2]; exact h3
  simp only [gcvsplCheck, h, if_false, hns, h3', if_true]

theorem weightsKnotsBad_iff (a : Args) (hn : 2 ≤ a.n) :
    weightsKnotsBad a ↔
      (a.wx 1 ≤ 0 ∨
        (∃ i, 2 ≤ i ∧ i ≤ a.n ∧
          decide (a.wx i ≤ 0 ∨ a.x (i - 1) ≥ a.x i) = true) ∨
        (∃ j, 1 ≤ j ∧ j ≤ a.k ∧ decide (a.wy j ≤ 0) = true)) := by
  unfold weightsKnotsBad
  constructor
  · rintro (⟨i, h1, h2, h3⟩ | ⟨j, h1, h2, h3⟩ | ⟨i, h1, h2, h3⟩)
    · by_cases hi : i = 1
      · subst hi; exact Or.inl h3
      · exact Or.inr (Or.inl ⟨i, by omega, h2, by simp [h3]⟩)
    · exact Or.inr (Or.inr ⟨j, h1, h2, by simp [h3]⟩)
    · exact Or.inr (Or.inl ⟨i, h1, h2, by simp [h3]⟩)
  · rintro (h | ⟨i, h1, h2, h3⟩ | ⟨j, h1, h2, h3⟩)
    · exact Or.inl ⟨1, le_refl _, by omega, h⟩
    · rcases of_decide_eq_true h3 with h4 | h4
      · exact Or.inl ⟨i, by omega, h2, h4⟩
      · exact Or.inr (Or.inr ⟨i, h1, h2, h4⟩)
    · exact Or.inr (Or.inl ⟨j, h1, h2, of_decide_eq_true h3⟩)

theorem gcvsplCheck_weights (a : Args) (st : Statics)
    (h : ¬ modeValueBad a.md a.val a.n a.m) (h2 : a.md > 0 ∨ ¬ sizesStale a st)
    (hm : 1 ≤ a.m) (hn : 2 * a.m ≤ a.n) :
    (weightsKnotsBad a →
      gcvsplCheck a st = { ier := 2, returned := true, st := entryStatics a st }) ∧
    (¬ weightsKnotsBad a →
      gcvsplCheck a st = { ier := 0, returned := false, st := entryStatics a st }) := by
  have hns : ¬ (¬ a.md > 0 ∧ (st.m2 ≠ 2 * a.m ∨ st.nm1 ≠ a.n - 1)) := by
    rintro ⟨h4, h5⟩
    rcases h2 with h2 | h2
    · exact h4 h2
    · exact h2 h5
  have hm2 : (entryStatics a st).m2 = 2 * a.m := by
    unfold entryStatics
    by_cases hmd : a.md > 0
    · simp [hmd]
    · simp only [hmd, if_false]
      by_contra hne
      exact hns ⟨hmd, Or.inl hne⟩
  have h3' : ¬ (a.m ≤ 0 ∨ a.n < (entryStatics a st).m2) := by rw [hm2]; omega
  have hn2 : (2 : Int) ≤ a.n := by omega
  rw [weightsKnotsBad_iff a hn2]
  simp only [gcvsplCheck, h, if_false, hns, h3']
  have L1 := checkLoop_zero (fun i => decide (a.wx i ≤ 0 ∨ a.x (i - 1) ≥ a.x i)) a.n _ 2 rfl
  have L2 := checkLoop_zero (fun j => decide (a.wy j ≤ 0)) a.k _ 1 rfl
  by_cases hw1 : a.wx 1 ≤ 0
  · have hl := checkLoop_two (fun i => decide (a.wx i ≤ 0 ∨ a.x (i - 1) ≥ a.x i)) hn2
    simp only [hw1, if_true, hl]
    constructor
    · intro _; trivial
    · intro hno; exact absurd (Or.inl trivial) hno
  · simp only [hw1, if_false, false_or]
    by_cases hex1 : ∃ i, 2 ≤ i ∧ i ≤ a.n ∧
        decide (a.wx i ≤ 0 ∨ a.x (i - 1) ≥ a.x i) = true
    · rw [L1.1 hex1]
      constructor
      · intro _; rfl
      · intro hno; exact absurd (Or.inl hex1) hno
    · rw [L1.2 hex1]
      by_cases hex2 : ∃ j, 1 ≤ j ∧ j ≤ a.k ∧ decide (a.wy j ≤ 0) = true
      · rw [L2.1 hex2]
        constructor
        · intro _; rfl
        · intro hno; exact absurd (Or.inr hex2) hno
      · rw [L2.2 hex2]
        constructor
        · rintro (h5 | h5)
          · exact absurd h5 hex1
          · exact absurd h5 hex2
        · intro _; rfl

theorem iabs_eq_abs (a : Int) : iabs a = |a| := by
  unfold iabs
  split
  · rw [abs_of_nonneg]; assumption
  · rw [abs_of_neg]; omega

theorem gcvspl_of_returned (fuel : Nat) (a : Args) (c : Arr2) (wk : Wk)
    (st : Statics) (h : (gcvsplCheck a st).returned = true) :
    gcvspl fuel a c wk st =
      some { ier := (gcvsplCheck a st).ier, c := c, wk := wk,
             st := (gcvsplCheck a st).st } := by
  simp [gcvspl, h]

theorem gcvspl_of_not_returned (fuel : Nat) (a : Args) (c : Arr2) (wk : Wk)
    (st : Statics) (h : (gcvsplCheck a st).returned = false) (o : Out)
    (ho : gcvspl fuel a c wk st = some o) :
    o.ier = (gcvsplCheck a st).ier ∧
      o.st.m2 = (gcvsplCheck a st).st.m2 ∧ o.st.nm1 = (gcvsplCheck a st).st.nm1 := by
  simp only [gcvspl, h, Bool.false_eq_true, if_false, Option.map_eq_some'] at ho
  obtain ⟨r, _, hr⟩ := ho
  subst hr
  refine ⟨rfl, ?_, ?_⟩ <;> (simp only [gcvsplSetup]; split <;> rfl)

/-- C1: a call with `md > 0` and a mode/value combination that passes the
first test returns `ier = 1` whenever `m <= 0` or `n < 2*m`. -/
theorem gcvspl_invalid_order_or_size (fuel : Nat) (a : Args) (c : Arr2)
    (wk : Wk) (st : Statics) (hmd : a.md > 0)
    (hmode : ¬ modeValueBad a.md a.val a.n a.m)
    (hsize : a.m ≤ 0 ∨ a.n < 2 * a.m) :
    (gcvspl fuel a c wk st).map Out.ier = some 1 := by
  have hc := gcvsplCheck_size a st hmode (Or.inl hmd) hsize
  rw [gcvspl_of_returned fuel a c wk st (by rw [hc]), hc]
  rfl

theorem gcvspl_invalid_order_or_size_witness :
    (threeKnots 2 0).md > 0 ∧ (threeKnots 2 0).n < 2 * (threeKnots 2 0).m ∧
      (gcvspl 0 (threeKnots 2 0) zero2 wkZero Statics.init).map Out.ier = some 1 :=
  ⟨by decide, by decide,
    gcvspl_invalid_order_or_size 0 (threeKnots 2 0) zero2 wkZero Statics.init
      (by decide) (by decide!) (Or.inr (by decide))⟩
theorem gcvsplCheck_not_returned (a : Args) (st : Statics)
    (h : (gcvsplCheck a st).returned = false) : (gcvsplCheck a st).ier = 0 := by
  by_cases hmode : modeValueBad a.md a.val a.n a.m
  · rw [gcvsplCheck_mode a st hmode] at h; simp at h
  by_cases hst : a.md > 0 ∨ ¬ sizesStale a st
  · by_cases hsize : a.m ≤ 0 ∨ a.n < 2 * a.m
    · rw [gcvsplCheck_size a st hmode hst hsize] at h; simp at h
    · have hw := gcvsplCheck_weights a st hmode hst (by omega) (by omega)
      by_cases hbad : weightsKnotsBad a
      · rw [hw.1 hbad] at h; simp at h
      · rw [hw.2 hbad]
  · have h1 : ¬ a.md > 0 := fun h1 => hst (Or.inl h1)
    have h2 : sizesStale a st := by
      by_contra h2; exact hst (Or.inr h2)
    rw [gcvsplCheck_stale a st hmode h1 h2] at h; simp at h

theorem weightsKnotsBad_unsortedKnots (md : Int) (val : ℚ) :
    weightsKnotsBad (unsortedKnots md val) :=
  Or.inr (Or.inr ⟨3, by decide,
    show (3 : Int) ≤ 4 by decide,
    show vecOf [0, 2, 1, 3] (3 - 1) ≥ vecOf [0, 2, 1, 3] 3 by decide!⟩)

theorem not_weightsKnotsBad_twoKnots (md : Int) (val : ℚ) :
    ¬ weightsKnotsBad (twoKnots 1 md val) := by
  rintro (⟨i, h1, h2, h3⟩ | ⟨j, h1, h2, h3⟩ | ⟨i, h1, h2, h3⟩)
  · have h2' : i ≤ 2 := h2
    interval_cases i
    · change vecOf [1, 1] 1 ≤ 0 at h3; revert h3; decide!
    · change vecOf [1, 1] 2 ≤ 0 at h3; revert h3; decide!
  · have h2' : j ≤ 1 := h2
    interval_cases j
    change vecOf [1] 1 ≤ 0 at h3; revert h3; decide!
  · have h2' : i ≤ 2 := h2
    interval_cases i
    change vecOf [0, 1] (2 - 1) ≥ vecOf [0, 1] 2 at h3; revert h3; decide!

/-- C2, counterexample: the call `md = -1`, `val = 0` on two increasing knots
with positive weights, made before any call with `md > 0`, has a mode/value
combination that passes the first test, `m >= 1`, `n >= 2*m` and no bad weight
or knot, and yet returns `ier = 3`, neither 2 nor 0. -/
theorem gcvspl_weights_knots_counterexample :
    ¬ modeValueBad (twoKnots 1 (-1) 0).md (twoKnots 1 (-1) 0).val
        (twoKnots 1 (-1) 0).n (twoKnots 1 (-1) 0).m ∧
      1 ≤ (twoKnots 1 (-1) 0).m ∧
      2 * (twoKnots 1 (-1) 0).m ≤ (twoKnots 1 (-1) 0).n ∧
      ¬ weightsKnotsBad (twoKnots 1 (-1) 0) ∧
      (gcvspl 0 (twoKnots 1 (-1) 0) zero2 wkZero Statics.init).map Out.ier =
        some 3 := by
  refine ⟨by decide!, by decide, by decide, not_weightsKnotsBad_twoKnots _ _, ?_⟩
  have hc := gcvsplCheck_stale (twoKnots 1 (-1) 0) Statics.init (by decide!)
    (by decide) (Or.inl (by decide))
  rw [gcvspl_of_returned 0 _ zero2 wkZero Statics.init (by rw [hc]), hc]
  rfl

/-- C2, amended: for a call whose mode/value combination passes the first test
and which, when `md <= 0`, has the sizes remembered from the last call with
`md > 0`, with `m >= 1` and `n >= 2*m`: the call returns `ier = 2` if some knot
weight or channel weight is not positive or two consecutive knots are not
increasing; otherwise `*ier` is 0 when the validation ends and every call that
returns does so with `ier = 0`. -/
theorem gcvspl_weights_knots (fuel : Nat) (a : Args) (c : Arr2) (wk : Wk)
    (st : Statics) (hmode : ¬ modeValueBad a.md a.val a.n a.m)
    (hsizes : a.md > 0 ∨ ¬ sizesStale a st) (hm : 1 ≤ a.m)
    (hn : 2 * a.m ≤ a.n) :
    (weightsKnotsBad a → (gcvspl fuel a c wk st).map Out.ier = some 2) ∧
    (¬ weightsKnotsBad a →
      (gcvsplCheck a st).ier = 0 ∧
        ∀ o, gcvspl fuel a c wk st = some o → o.ier = 0) := by
  have hw := gcvsplCheck_weights a st hmode hsizes hm hn
  constructor
  · intro hbad
    have hc := hw.1 hbad
    rw [gcvspl_of_returned fuel a c wk st (by rw [hc]), hc]
    rfl
  · intro hgood
    have hc := hw.2 hgood
    refine ⟨by rw [hc], ?_⟩
    intro o ho
    have := (gcvspl_of_not_returned fuel a c wk st (by rw [hc]) o ho).1
    rw [this, hc]

theorem gcvspl_weights_knots_witness :
    weightsKnotsBad (unsortedKnots 2 0) ∧
      (gcvspl 0 (unsortedKnots 2 0) zero2 wkZero Statics.init).map Out.ier =
        some 2 :=
  ⟨weightsKnotsBad_unsortedKnots 2 0,
    (gcvspl_weights_knots 0 (unsortedKnots 2 0) zero2 wkZero Statics.init
      (by decide!) (Or.inl (by decide)) (by decide) (by decide)).1
      (weightsKnotsBad_unsortedKnots 2 0)⟩

theorem gcvsplCheck_ier_le_two (a : Args) (st : Statics)
    (hmode : ¬ modeValueBad a.md a.val a.n a.m)
    (hst : a.md > 0 ∨ ¬ sizesStale a st) :
    (gcvsplCheck a st).ier ≠ 3 ∧ (gcvsplCheck a st).st = entryStatics a st := by
  by_cases hsize : a.m ≤ 0 ∨ a.n < 2 * a.m
  · rw [gcvsplCheck_size a st hmode hst hsize]; exact ⟨show (1 : Int) ≠ 3 by decide, rfl⟩
  · have hw := gcvsplCheck_weights a st hmode hst (by omega) (by omega)
    by_cases hbad : weightsKnotsBad a
    · rw [hw.1 hbad]; exact ⟨show (2 : Int) ≠ 3 by decide, rfl⟩
    · rw [hw.2 hbad]; exact ⟨show (0 : Int) ≠ 3 by decide, rfl⟩

theorem gcvspl_ier (fuel : Nat) (a : Args) (c : Arr2) (wk : Wk) (st : Statics)
    (o : Out) (ho : gcvspl fuel a c wk st = some o) :
    o.ier = (gcvsplCheck a st).ier ∧ o.st.m2 = (gcvsplCheck a st).st.m2 ∧
      o.st.nm1 = (gcvsplCheck a st).st.nm1 := by
  by_cases hr : (gcvsplCheck a st).returned = true
  · rw [gcvspl_of_returned fuel a c wk st hr] at ho
    cases ho
    exact ⟨rfl, rfl, rfl⟩
  · exact gcvspl_of_not_returned fuel a c wk st (by simpa using hr) o ho

theorem modeValueBad_iff (md : Int) (val : ℚ) (n m : Int) :
    modeValueBad md val n m ↔
      (|md| > 4 ∨ md = 0 ∨ (|md| = 1 ∧ val < 0) ∨ (|md| = 3 ∧ val < 0) ∨
        (|md| = 4 ∧ (val < 0 ∨ val > ((n - m : Int) : ℚ)))) := by
  unfold modeValueBad
  rw [iabs_eq_abs]

/-- C3: for a call with `md > 0`, `ier = 3` is returned if and only if
`|md| > 4`, or `md = 0`, or `|md| = 1` and `val < 0`, or `|md| = 3` and
`val < 0`, or `|md| = 4` and (`val < 0` or `val > n - m`).  A call with
`md < 0` returns `ier = 3` also when `2*m` or `n - 1` differs from the value
held in the statics `m2`, `nm1`; and these hold `2*m` and `n - 1` after every
call with `md > 0` that passes the first test. -/
theorem gcvspl_invalid_mode_or_value (fuel : Nat) (a : Args) (c : Arr2)
    (wk : Wk) (st : Statics) :
    (a.md > 0 →
      ((gcvspl fuel a c wk st).map Out.ier = some 3 ↔
        (|a.md| > 4 ∨ a.md = 0 ∨ (|a.md| = 1 ∧ a.val < 0) ∨
          (|a.md| = 3 ∧ a.val < 0) ∨
          (|a.md| = 4 ∧ (a.val < 0 ∨ a.val > ((a.n - a.m : Int) : ℚ)))))) ∧
    (a.md < 0 → (st.m2 ≠ 2 * a.m ∨ st.nm1 ≠ a.n - 1) →
      (gcvspl fuel a c wk st).map Out.ier = some 3) ∧
    (a.md > 0 → ¬ modeValueBad a.md a.val a.n a.m →
      ∀ o, gcvspl fuel a c wk st = some o →
        o.st.m2 = 2 * a.m ∧ o.st.nm1 = a.n - 1) := by
  refine ⟨?_, ?_, ?_⟩
  · intro hmd
    rw [← modeValueBad_iff]
    constructor
    · intro h
      by_contra hmode
      obtain ⟨o, ho, hi⟩ := Option.map_eq_some'.mp h
      have h1 := (gcvspl_ier fuel a c wk st o ho).1
      have h2 := (gcvsplCheck_ier_le_two a st hmode (Or.inl hmd)).1
      rw [← h1, hi] at h2
      exact h2 rfl
    · intro hmode
      have hc := gcvsplCheck_mode a st hmode
      rw [gcvspl_of_returned fuel a c wk st (by rw [hc]), hc]
      rfl
  · intro hmd hstale
    by_cases hmode : modeValueBad a.md a.val a.n a.m
    · have hc := gcvsplCheck_mode a st hmode
      rw [gcvspl_of_returned fuel a c wk st (by rw [hc]), hc]
      rfl
    · have hc := gcvsplCheck_stale a st hmode (by omega) hstale
      rw [gcvspl_of_returned fuel a c wk st (by rw [hc]), hc]
      rfl
  · intro hmd hmode o ho
    have h1 := gcvspl_ier fuel a c wk st o ho
    have h2 := (gcvsplCheck_ier_le_two a st hmode (Or.inl hmd)).2
    rw [h1.2.1, h1.2.2, h2]
    simp [entryStatics, hmd]

/-- C4: a call that returns with `ier != 0` leaves the coefficient table `c`
and the work array `wk` exactly as they were on entry. -/
theorem gcvspl_error_atomic (fuel : Nat) (a : Args) (c : Arr2) (wk : Wk)
    (st : Statics) (o : Out) (ho : gcvspl fuel a c wk st = some o)
    (hier : o.ier ≠ 0) : o.c = c ∧ o.wk = wk := by
  by_cases hr : (gcvsplCheck a st).returned = true
  · rw [gcvspl_of_returned fuel a c wk st hr] at ho
    cases ho
    exact ⟨rfl, rfl⟩
  · have hr' : (gcvsplCheck a st).returned = false := by simpa using hr
    have h1 := (gcvspl_of_not_returned fuel a c wk st hr' o ho).1
    rw [h1, gcvsplCheck_not_returned a st hr'] at hier
    exact absurd rfl hier

theorem gcvspl_error_atomic_witness :
    ∃ o, gcvspl 0 (threeKnots 1 0) zero2 wkZero Statics.init = some o ∧
      o.ier = 1 ∧ o.c = zero2 ∧ o.wk = wkZero := by
  have hc := gcvsplCheck_size (threeKnots 1 0) Statics.init (by decide!)
    (Or.inl (by decide)) (Or.inr (by decide))
  have ho := gcvspl_of_returned 0 (threeKnots 1 0) zero2 wkZero Statics.init
    (by rw [hc])
  have hi : (gcvsplCheck (threeKnots 1 0) Statics.init).ier = 1 := by rw [hc]
  exact ⟨_, ho, hi,
    gcvspl_error_atomic 0 (threeKnots 1 0) zero2 wkZero Statics.init _ ho
      (by rw [hi]; decide)⟩

/-- C5, counterexample: the input with `n = 3`, `m = 2` (so `n < 2*m`) and the
invalid mode `md = 5` returns `ier = 3`, not `ier = 1`. -/
theorem gcvspl_check_order_counterexample :
    (threeKnots 5 0).n < 2 * (threeKnots 5 0).m ∧
      modeValueBad (threeKnots 5 0).md (threeKnots 5 0).val (threeKnots 5 0).n
        (threeKnots 5 0).m ∧
      (gcvspl 0 (threeKnots 5 0) zero2 wkZero Statics.init).map Out.ier =
        some 3 := by
  have hmode : modeValueBad (threeKnots 5 0).md (threeKnots 5 0).val
      (threeKnots 5 0).n (threeKnots 5 0).m := by decide!
  refine ⟨by decide, hmode, ?_⟩
  have hc := gcvsplCheck_mode (threeKnots 5 0) Statics.init hmode
  rw [gcvspl_of_returned 0 _ zero2 wkZero Statics.init (by rw [hc]), hc]
  rfl

/-- C5, amended: the error code reported is that of the first violated check
in the order in which `gcvspl` makes them: mode/value validity, with the
remembered sizes when `md <= 0` (code 3), then order positivity and
`n >= 2*m` (code 1), then weight positivity and strict knot monotonicity
(code 2).  In particular an input with `n < 2*m` and an invalid mode returns
`ier = 3`. -/
theorem gcvspl_check_order (fuel : Nat) (a : Args) (c : Arr2) (wk : Wk)
    (st : Statics) :
    ((modeValueBad a.md a.val a.n a.m ∨ (¬ a.md > 0 ∧ sizesStale a st)) →
      (gcvspl fuel a c wk st).map Out.ier = some 3) ∧
    (¬ modeValueBad a.md a.val a.n a.m → (a.md > 0 ∨ ¬ sizesStale a st) →
      (a.m ≤ 0 ∨ a.n < 2 * a.m) →
      (gcvspl fuel a c wk st).map Out.ier = some 1) ∧
    (¬ modeValueBad a.md a.val a.n a.m → (a.md > 0 ∨ ¬ sizesStale a st) →
      1 ≤ a.m → 2 * a.m ≤ a.n → weightsKnotsBad a →
      (gcvspl fuel a c wk st).map Out.ier = some 2) := by
  refine ⟨?_, ?_, ?_⟩
  · intro h
    by_cases hmode : modeValueBad a.md a.val a.n a.m
    · have hc := gcvsplCheck_mode a st hmode
      rw [gcvspl_of_returned fuel a c wk st (by rw [hc]), hc]
      rfl
    · rcases h with h | ⟨h1, h2⟩
      · exact absurd h hmode
      · have hc := gcvsplCheck_stale a st hmode h1 h2
        rw [gcvspl_of_returned fuel a c wk st (by rw [hc]), hc]
        rfl
  · intro hmode hst hsize
    have hc := gcvsplCheck_size a st hmode hst hsize
    rw [gcvspl_of_returned fuel a c wk st (by rw [hc]), hc]
    rfl
  · intro hmode hst hm hn hbad
    have hc := (gcvsplCheck_weights a st hmode hst hm hn).1 hbad
    rw [gcvspl_of_returned fuel a c wk st (by rw [hc]), hc]
    rfl

theorem setV_same (a : Vec) (i : Int) (v : ℚ) : setV a i v i = v := by
  simp [setV]

theorem setV_other (a : Vec) {i j : Int} (v : ℚ) (h : j ≠ i) :
    setV a i v j = a j := by
  simp [setV, h]


/-- C10, counterexample: in GCV mode, on two knots `0, 1` with unit weights,
data `0, 1` and `p = 1`, `splc` stores `esn = 1/9` in `stat[2]` and `2/3` in
`stat[3]` and returns 1, whereas `esn / (1 - stat[3]/n)^2` is `1/4`. -/
theorem splc_gcv_score_counterexample :
    (trialAt (twoKnots 1 2 0) 1).stat 2 = 1 / 9 ∧
      (trialAt (twoKnots 1 2 0) 1).stat 3 = 2 / 3 ∧
      (trialAt (twoKnots 1 2 0) 1).ret = 1 ∧
      (trialAt (twoKnots 1 2 0) 1).ret ≠
        (trialAt (twoKnots 1 2 0) 1).stat 2 /
          (1 - (trialAt (twoKnots 1 2 0) 1).stat 3 / (2 : ℚ)) ^ 2 := by
  decide!

/-- C10, amended: in GCV mode (`|mode| = 2`) the score returned by `splc`
equals `esn / (stat[3]/n)^2`, where `esn` is the weighted mean-squared residual
it stores in `stat[2]` and `stat[3]` is the trace statistic it stores, the
value of `trinv` times `dp`. -/
theorem splc_gcv_score (m n k : Int) (y : Arr2) (wx wy : Vec) (mode : Int)
    (val p eps : ℚ) (c : Arr2) (stat : Vec) (b we : Arr2) (el : ℚ) (bwe : Arr2)
    (hmode : iabs mode = 2) :
    (splc m n k y wx wy mode val p eps c stat b we el bwe).ret =
      (splc m n k y wx wy mode val p eps c stat b we el bwe).stat 2 /
        ((splc m n k y wx wy mode val p eps c stat b we el bwe).stat 3 /
          (n : ℚ)) ^ 2 := by
  have h3 : iabs mode ≠ 3 := by rw [hmode]; decide
  have h1 : iabs mode ≠ 1 := by rw [hmode]; decide
  have h4 : iabs mode ≠ 4 := by rw [hmode]; decide
  simp only [splc, h3, h1, h4, hmode, ne_eq, not_false_eq_true, if_true, if_false]
  simp [setV, div_div, pow_two, mul_assoc]

theorem splc_gcv_score_witness :
    iabs 2 = 2 ∧
      (trialAt (twoKnots 1 2 0) 1).ret =
        (trialAt (twoKnots 1 2 0) 1).stat 2 /
          ((trialAt (twoKnots 1 2 0) 1).stat 3 / ((2 : Int) : ℚ)) ^ 2 :=
  ⟨rfl, splc_gcv_score 1 2 1 _ _ _ 2 _ _ _ _ _ _ _ _ _ rfl⟩

/-- C9, the code at a failing input: on two knots `0, 2097152` with unit
weights (so that `el = 2^-20`), in mode `md = 4` with `val = 1`, the search
starts from `r1 = 1/el = 1048576`, the doubling loop ends at the ceiling test
(the last trial reports `stat[4] = 2^50`, which is at least
`999999999999999.88`) and `L100` is reached with `r1` unchanged: the call
returns `ier = 0` with `wk[4] = 1048576`, `wk[3] = 1/2` and coefficients
`1/4, 3/4`.  The objective at that `p` is `1/2`, while the trial point
`p = 2097152`, evaluated first, has the strictly lower objective `1/3`; the
final fit does not use the trial point with the lowest objective. -/
theorem gcvspl_ceiling_keeps_r1 :
    (searchAt 60 (twoKnots 2097152 4 1)).map (fun r => r.1) = some 1048576 ∧
      (searchAt 60 (twoKnots 2097152 4 1)).map (fun r => r.2.stat 4) =
        some 1125899906842624 ∧
      (999999999999999.88 : ℚ) ≤ 1125899906842624 ∧
      (gcvspl 60 (twoKnots 2097152 4 1) zero2 wkZero Statics.init).map
        (fun o => (o.ier, o.wk.stat 4, o.wk.stat 3, o.c 1 1, o.c 2 1)) =
          some (0, 1048576, 1 / 2, 1 / 4, 3 / 4) ∧
      (trialAt (twoKnots 2097152 4 1) 1048576).ret = 1 / 2 ∧
      (trialAt (twoKnots 2097152 4 1) 2097152).ret = 1 / 3 ∧
      (trialAt (twoKnots 2097152 4 1) 2097152).ret <
        (trialAt (twoKnots 2097152 4 1) 1048576).ret := by
  decide!

theorem forUp_1_2 {σ : Type} (f : Int → σ → σ) (s : σ) :
    forUp 1 2 f s = f 2 (f 1 s) := rfl

theorem forUp_1_1 {σ : Type} (f : Int → σ → σ) (s : σ) :
    forUp 1 1 f s = f 1 s := rfl

theorem forUp_0_1 {σ : Type} (f : Int → σ → σ) (s : σ) :
    forUp 0 1 f s = f 1 (f 0 s) := rfl

theorem forUp_m1_0 {σ : Type} (f : Int → σ → σ) (s : σ) :
    forUp (-1) 0 f s = f 0 (f (-1) s) := rfl

theorem forUp_1_0 {σ : Type} (f : Int → σ → σ) (s : σ) :
    forUp 1 0 f s = s := rfl

theorem forUp_0_0 {σ : Type} (f : Int → σ → σ) (s : σ) :
    forUp 0 0 f s = f 0 s := rfl

theorem forDown_1_1 {σ : Type} (f : Int → σ → σ) (s : σ) :
    forDown 1 1 f s = f 1 s := rfl

/-! ## The band solver -/

open Finset in
theorem forUp_sub_sum (f : Int → ℚ) (lo : Int) :
    ∀ (cnt : Nat) (hi : Int) (a : ℚ), (hi + 1 - lo).toNat = cnt →
      forUp lo hi (fun k acc => acc - f k) a = a - ∑ k ∈ Icc lo hi, f k := by
  intro cnt
  induction cnt with
  | zero =>
    intro hi a h
    have hlt : hi < lo := by omega
    rw [forUp_of_lt hlt, Finset.Icc_eq_empty (by omega)]
    simp
  | succ n ih =>
    intro hi a h
    have h1 : lo ≤ (hi - 1) + 1 := by omega
    have h2 : hi = (hi - 1) + 1 := by ring
    rw [h2, forUp_last h1, ih (hi - 1) a (by omega)]
    rw [← h2]
    have h3 : Icc lo hi = insert hi (Icc lo (hi - 1)) := by
      ext t; simp only [mem_Icc, mem_insert]; omega
    rw [h3, sum_insert (by simp)]
    ring
theorem forUp_sub_sum' (f : Int → ℚ) (lo hi : Int) (a : ℚ) :
    forUp lo hi (fun k acc => acc - f k) a = a - ∑ k ∈ Finset.Icc lo hi, f k :=
  forUp_sub_sum f lo _ hi a rfl

theorem forUp_pair_sub_sum (f g : Int → ℚ) (lo : Int) :
    ∀ (cnt : Nat) (hi : Int) (a b : ℚ), (hi + 1 - lo).toNat = cnt →
      forUp lo hi (fun k (s : ℚ × ℚ) => (s.1 - f k, s.2 - g k)) (a, b) =
        (a - ∑ k ∈ Finset.Icc lo hi, f k, b - ∑ k ∈ Finset.Icc lo hi, g k) := by
  intro cnt
  induction cnt with
  | zero =>
    intro hi a b h
    have hlt : hi < lo := by omega
    rw [forUp_of_lt hlt, Finset.Icc_eq_empty (by omega)]
    simp
  | succ n ih =>
    intro hi a b h
    have h1 : lo ≤ (hi - 1) + 1 := by omega
    have h2 : hi = (hi - 1) + 1 := by ring
    rw [h2, forUp_last h1, ih (hi - 1) a b (by omega)]
    rw [← h2]
    have h3 : Finset.Icc lo hi = insert hi (Finset.Icc lo (hi - 1)) := by
      ext t; simp only [Finset.mem_Icc, Finset.mem_insert]; omega
    rw [h3, Finset.sum_insert (by simp), Finset.sum_insert (by simp)]
    ext <;> simp <;> ring

theorem set2_same (a : Arr2) (l i : Int) (v : ℚ) : set2 a l i v l i = v := by
  simp [set2]

theorem set2_other (a : Arr2) (l i : Int) (v : ℚ) {l' i' : Int}
    (h : ¬ (l' = l ∧ i' = i)) : set2 a l i v l' i' = a l' i' := by
  simp only [set2, if_neg h]

theorem set2_self (a : Arr2) (l i : Int) : set2 a l i (a l i) = a := by
  funext l' i'
  simp only [set2]
  split
  · rename_i h; rw [h.1, h.2]
  · rfl

/-- One pass of the inner loop of `bandet`, in closed form. -/
theorem bandet_inner_eq (m i l : Int) (di : ℚ) (e : Arr2) :
    bandetInner m i di l e =
      set2 (set2 e l i (uval m e e l i)) (-l) (i + l) (lnum m e e l i / di) := by
  simp only [bandetInner, uval, lnum]
  by_cases hk : min (m - l) (i - 1) ≥ 1
  · simp only [hk, if_true]
    rw [forUp_pair_sub_sum _ _ 1 _ _ _ _ rfl]
  · simp only [hk, if_false]
    rw [Finset.Icc_eq_empty (by omega)]
    simp only [Finset.sum_empty, sub_zero, set2_self]
/-- The array after the passes `1..L` of the inner loop of row `i`. -/
theorem bandet_inner_loop_nat (m i : Int) (di : ℚ) (e1 : Arr2) (t : Nat) :
    forUp 1 (t : Int) (fun l e =>
        set2 (set2 e l i (uval m e e l i)) (-l) (i + l) (lnum m e e l i / di)) e1 =
      fun a r =>
        if r = i ∧ 1 ≤ a ∧ a ≤ (t : Int) then uval m e1 e1 a i
        else if a < 0 ∧ r + a = i ∧ -a ≤ (t : Int) then lnum m e1 e1 (-a) i / di
        else e1 a r := by
  induction t with
  | zero =>
    rw [forUp_of_lt (by norm_num)]
    funext a r
    simp only [Nat.cast_zero]
    have h1 : ¬ (r = i ∧ 1 ≤ a ∧ a ≤ 0) := by omega
    have h2 : ¬ (a < 0 ∧ r + a = i ∧ -a ≤ 0) := by omega
    simp only [h1, h2, if_false]
  | succ t ih =>
    rw [Nat.cast_succ]
    have hL : (0 : Int) ≤ (t : Int) := Int.ofNat_nonneg t
    generalize (t : Int) = L at ih hL ⊢
    rw [forUp_last (by omega), ih]
    set eL : Arr2 := fun a r =>
        if r = i ∧ 1 ≤ a ∧ a ≤ L then uval m e1 e1 a i
        else if a < 0 ∧ r + a = i ∧ -a ≤ L then lnum m e1 e1 (-a) i / di
        else e1 a r with heL
    have hread : ∀ a r, ¬ (r = i ∧ 1 ≤ a ∧ a ≤ L) → ¬ (a < 0 ∧ r + a = i ∧ -a ≤ L) →
        eL a r = e1 a r := by
      intro a r h1 h2
      simp only [heL, h1, h2, if_false]
    have hu : uval m eL eL (L + 1) i = uval m e1 e1 (L + 1) i := by
      simp only [uval]
      rw [hread _ _ (by omega) (by omega)]
      congr 1
      apply Finset.sum_congr rfl
      intro k hk
      simp only [Finset.mem_Icc] at hk
      rw [hread _ _ (by omega) (by omega), hread _ _ (by omega) (by omega)]
    have hl : lnum m eL eL (L + 1) i = lnum m e1 e1 (L + 1) i := by
      simp only [lnum]
      rw [hread _ _ (by omega) (by omega)]
      congr 1
      apply Finset.sum_congr rfl
      intro k hk
      simp only [Finset.mem_Icc] at hk
      rw [hread _ _ (by omega) (by omega), hread _ _ (by omega) (by omega)]
    rw [hu, hl]
    funext a r
    simp only [set2]
    by_cases c1 : a = -(L + 1) ∧ r = i + (L + 1)
    · obtain ⟨ha, hr⟩ := c1
      subst ha hr
      have h1 : ¬ (i + (L + 1) = i ∧ 1 ≤ -(L + 1) ∧ -(L + 1) ≤ L + 1) := by omega
      have h2 : -(L + 1) < 0 ∧ i + (L + 1) + -(L + 1) = i ∧ - -(L + 1) ≤ L + 1 := by omega
      rw [if_neg h1, if_pos h2, if_pos ⟨rfl, rfl⟩, neg_neg]
    · simp only [c1, if_false]
      by_cases c2 : a = L + 1 ∧ r = i
      · obtain ⟨ha, hr⟩ := c2
        subst ha hr
        have h1 : r = r ∧ 1 ≤ L + 1 ∧ L + 1 ≤ L + 1 := by omega
        rw [if_pos ⟨rfl, rfl⟩, if_pos h1]
      · simp only [c2, if_false]
        by_cases c3 : r = i ∧ 1 ≤ a ∧ a ≤ L
        · have h1 : r = i ∧ 1 ≤ a ∧ a ≤ L + 1 := by omega
          simp only [heL, c3, h1, if_true, and_self]
        · have h1 : ¬ (r = i ∧ 1 ≤ a ∧ a ≤ L + 1) := by omega
          by_cases c4 : a < 0 ∧ r + a = i ∧ -a ≤ L
          · have h2 : a < 0 ∧ r + a = i ∧ -a ≤ L + 1 := by omega
            simp only [heL, c3, c4, h1, h2, if_true, if_false, and_self]
          · have h2 : ¬ (a < 0 ∧ r + a = i ∧ -a ≤ L + 1) := by omega
            simp only [heL, c3, c4, h1, h2, if_false]

theorem bandet_inner_loop (m i : Int) (di : ℚ) (e1 : Arr2) (L : Int) (hL : 0 ≤ L) :
    forUp 1 L (fun l e =>
        set2 (set2 e l i (uval m e e l i)) (-l) (i + l) (lnum m e e l i / di)) e1 =
      fun a r =>
        if r = i ∧ 1 ≤ a ∧ a ≤ L then uval m e1 e1 a i
        else if a < 0 ∧ r + a = i ∧ -a ≤ L then lnum m e1 e1 (-a) i / di
        else e1 a r := by
  have h := bandet_inner_loop_nat m i di e1 L.toNat
  rw [Int.toNat_of_nonneg hL] at h
  exact h
theorem bandet_eq_rows (e : Arr2) (m n : Int) (hm : 1 ≤ m) :
    bandet e m n = forUp 1 n (bandetRow m n) e := by
  have h : ¬ m ≤ 0 := by omega
  simp only [bandet, h, if_false]
  rfl

theorem bandetRow_eq (m n i : Int) (e : Arr2) (hm : 1 ≤ m) (hin : i ≤ n) :
    bandetRow m n i e = rowSpec m n i e := by
  have hdi : (if min m (i - 1) ≥ 1 then
      forUp 1 (min m (i - 1)) (fun k di => di - e (-k) i * e k (i - k)) (e 0 i)
    else e 0 i) = uval m e e 0 i := by
    simp only [uval, sub_zero, zero_add]
    by_cases h : min m (i - 1) ≥ 1
    · rw [if_pos h, forUp_sub_sum']
    · rw [if_neg h, Finset.Icc_eq_empty (by omega)]
      simp
  have he1 : (if min m (i - 1) ≥ 1 then set2 e 0 i (uval m e e 0 i) else e) =
      set2 e 0 i (uval m e e 0 i) := by
    by_cases h : min m (i - 1) ≥ 1
    · rw [if_pos h]
    · rw [if_neg h]
      have : uval m e e 0 i = e 0 i := by
        simp only [uval, sub_zero]
        rw [Finset.Icc_eq_empty (by omega)]
        simp
      rw [this, set2_self]
  simp only [bandetRow]
  rw [hdi, he1]
  have hbody : bandetInner m i (uval m e e 0 i) = fun l e' =>
      set2 (set2 e' l i (uval m e' e' l i)) (-l) (i + l)
        (lnum m e' e' l i / uval m e e 0 i) := by
    funext l e'
    exact bandet_inner_eq m i l _ e'
  rw [hbody]
  set e1 := set2 e 0 i (uval m e e 0 i) with he1d
  have hread : ∀ a r, ¬ (a = 0 ∧ r = i) → e1 a r = e a r := by
    intro a r h
    exact set2_other e 0 i _ h
  have hu : ∀ a, 1 ≤ a → uval m e1 e1 a i = uval m e e a i := by
    intro a ha
    simp only [uval]
    rw [hread _ _ (by omega)]
    congr 1
    apply Finset.sum_congr rfl
    intro k hk
    simp only [Finset.mem_Icc] at hk
    rw [hread _ _ (by omega), hread _ _ (by omega)]
  have hl : ∀ l, 1 ≤ l → lnum m e1 e1 l i = lnum m e e l i := by
    intro l hl
    simp only [lnum]
    rw [hread _ _ (by omega)]
    congr 1
    apply Finset.sum_congr rfl
    intro k hk
    simp only [Finset.mem_Icc] at hk
    rw [hread _ _ (by omega), hread _ _ (by omega)]
  have hspec : (fun a r =>
        if r = i ∧ 1 ≤ a ∧ a ≤ max 0 (min m (n - i)) then uval m e1 e1 a i
        else if a < 0 ∧ r + a = i ∧ -a ≤ max 0 (min m (n - i)) then
          lnum m e1 e1 (-a) i / uval m e e 0 i
        else e1 a r) = rowSpec m n i e := by
    funext a r
    simp only [rowSpec]
    by_cases c1 : r = i ∧ 1 ≤ a ∧ a ≤ max 0 (min m (n - i))
    · have c1' : r = i ∧ 0 ≤ a ∧ a ≤ max 0 (min m (n - i)) := by omega
      rw [if_pos c1, if_pos c1', hu a c1.2.1]
    · rw [if_neg c1]
      by_cases c2 : a < 0 ∧ r + a = i ∧ -a ≤ max 0 (min m (n - i))
      · have c2' : a < 0 ∧ r + a = i ∧ -a ≤ min m (n - i) := by omega
        have c1' : ¬ (r = i ∧ 0 ≤ a ∧ a ≤ max 0 (min m (n - i))) := by omega
        rw [if_pos c2, if_neg c1', if_pos c2', hl _ (by omega)]
      · have c2' : ¬ (a < 0 ∧ r + a = i ∧ -a ≤ min m (n - i)) := by omega
        rw [if_neg c2, if_neg c2']
        by_cases c3 : a = 0 ∧ r = i
        · have c1' : r = i ∧ 0 ≤ a ∧ a ≤ max 0 (min m (n - i)) := by omega
          rw [if_pos c1']
          obtain ⟨ha, hr⟩ := c3
          subst ha hr
          exact set2_same e 0 r _
        · have c1' : ¬ (r = i ∧ 0 ≤ a ∧ a ≤ max 0 (min m (n - i))) := by omega
          rw [if_neg c1', hread a r c3]
  rw [← hspec]
  by_cases hlm : min m (n - i) ≥ 1
  · rw [if_pos hlm, bandet_inner_loop m i _ e1 _ (by omega)]
    have hmax : max 0 (min m (n - i)) = min m (n - i) := by omega
    rw [hmax]
  · rw [if_neg hlm]
    funext a r
    have hmax : max 0 (min m (n - i)) = 0 := by omega
    rw [hmax]
    have c1 : ¬ (r = i ∧ 1 ≤ a ∧ a ≤ 0) := by omega
    have c2 : ¬ (a < 0 ∧ r + a = i ∧ -a ≤ 0) := by omega
    rw [if_neg c1, if_neg c2]
theorem rowSpec_frame (m n i : Int) (E : Arr2) (a r : Int)
    (h1 : ¬ (r = i ∧ 0 ≤ a)) (h2 : ¬ (a < 0 ∧ r + a = i)) :
    rowSpec m n i E a r = E a r := by
  simp only [rowSpec]
  rw [if_neg (by omega), if_neg (by omega)]

theorem uval_congr (m : Int) (e0 E E' : Arr2) (a r : Int)
    (h : ∀ k, 1 ≤ k → k ≤ min (m - a) (r - 1) →
      E' (-k) r = E (-k) r ∧ E' (a + k) (r - k) = E (a + k) (r - k)) :
    uval m e0 E' a r = uval m e0 E a r := by
  simp only [uval]
  congr 1
  apply Finset.sum_congr rfl
  intro k hk
  simp only [Finset.mem_Icc] at hk
  rw [(h k hk.1 hk.2).1, (h k hk.1 hk.2).2]

theorem lnum_congr (m : Int) (e0 E E' : Arr2) (l r : Int)
    (h : ∀ k, 1 ≤ k → k ≤ min (m - l) (r - 1) →
      E' (-l - k) (l + r) = E (-l - k) (l + r) ∧ E' k (r - k) = E k (r - k)) :
    lnum m e0 E' l r = lnum m e0 E l r := by
  simp only [lnum]
  congr 1
  apply Finset.sum_congr rfl
  intro k hk
  simp only [Finset.mem_Icc] at hk
  rw [(h k hk.1 hk.2).1, (h k hk.1 hk.2).2]

theorem uval_orig (m : Int) (e0 e0' E : Arr2) (a r : Int) (h : e0' a r = e0 a r) :
    uval m e0' E a r = uval m e0 E a r := by
  simp only [uval, h]

theorem lnum_orig (m : Int) (e0 e0' E : Arr2) (l r : Int)
    (h : e0' (-l) (r + l) = e0 (-l) (r + l)) :
    lnum m e0' E l r = lnum m e0 E l r := by
  simp only [lnum, h]

theorem bandetInv_step (m n : Int) (e : Arr2) (i : Int) (E : Arr2) (hm : 1 ≤ m)
    (hi0 : 0 ≤ i) (hin : i + 1 ≤ n) (h : bandetInv m n e i E) :
    bandetInv m n e (i + 1) (rowSpec m n (i + 1) E) := by
  obtain ⟨hA, hB, hC⟩ := h
  have hfr : ∀ a r, ¬ (r = i + 1 ∧ 0 ≤ a) → ¬ (a < 0 ∧ r + a = i + 1) →
      rowSpec m n (i + 1) E a r = E a r :=
    fun a r h1 h2 => rowSpec_frame m n (i + 1) E a r h1 h2
  have hmax : max 0 (min m (n - (i + 1))) = min m (n - (i + 1)) :=
    max_eq_right (le_min (by omega) (by omega))
  have hUnew : ∀ a, 0 ≤ a → a ≤ min m (n - (i + 1)) →
      rowSpec m n (i + 1) E a (i + 1) = uval m E E a (i + 1) := by
    intro a h0 h1
    simp only [rowSpec, hmax]
    rw [if_pos ⟨trivial, h0, h1⟩]
  have hLnew : ∀ l, 1 ≤ l → l ≤ min m (n - (i + 1)) →
      rowSpec m n (i + 1) E (-l) (i + 1 + l) =
        lnum m E E l (i + 1) / uval m E E 0 (i + 1) := by
    intro l h0 h1
    simp only [rowSpec]
    rw [if_neg (by omega), if_pos (by omega), neg_neg]
  refine ⟨?_, ?_, ?_⟩
  · intro a r hnd
    have hnd' : ¬ bandetDone m n i a r := by
      intro hd; apply hnd
      rcases hd with hd | hd
      · exact Or.inl (by omega)
      · exact Or.inr (by omega)
    rw [← hA a r hnd']
    by_cases c1 : r = i + 1 ∧ 0 ≤ a
    · by_cases c3 : a ≤ min m (n - r)
      · exact absurd (Or.inl (by omega)) hnd
      · simp only [rowSpec, hmax]
        rw [if_neg (by omega), if_neg (by omega)]
    · by_cases c2 : a < 0 ∧ r + a = i + 1
      · by_cases c3 : -a ≤ min m (n - (r + a))
        · exact absurd (Or.inr (by omega)) hnd
        · simp only [rowSpec]
          rw [if_neg (by omega), if_neg (by omega)]
      · exact hfr a r c1 c2
  · intro r hr1 hr2 a ha0 ha1
    by_cases hr : r ≤ i
    · rw [hfr a r (by omega) (by omega), hB r hr1 hr a ha0 ha1]
      symm
      apply uval_congr
      intro k hk1 hk2
      exact ⟨hfr _ _ (by omega) (by omega), hfr _ _ (by omega) (by omega)⟩
    · have hre : r = i + 1 := by omega
      subst hre
      rw [hUnew a ha0 ha1]
      have h1 : uval m e (rowSpec m n (i + 1) E) a (i + 1) = uval m e E a (i + 1) := by
        apply uval_congr
        intro k hk1 hk2
        exact ⟨hfr _ _ (by omega) (by omega), hfr _ _ (by omega) (by omega)⟩
      rw [h1]
      apply uval_orig
      apply hA
      intro hd
      rcases hd with hd | hd <;> omega
  · intro r hr1 hr2 l hl0 hl1
    by_cases hr : r ≤ i
    · rw [hfr _ _ (by omega) (by omega), hfr 0 r (by omega) (by omega),
        hC r hr1 hr l hl0 hl1]
      congr 1
      symm
      apply lnum_congr
      intro k hk1 hk2
      exact ⟨hfr _ _ (by omega) (by omega), hfr _ _ (by omega) (by omega)⟩
    · have hre : r = i + 1 := by omega
      subst hre
      rw [hLnew l hl0 hl1, hUnew 0 (le_refl _) (by omega)]
      congr 1
      have h1 : lnum m e (rowSpec m n (i + 1) E) l (i + 1) = lnum m e E l (i + 1) := by
        apply lnum_congr
        intro k hk1 hk2
        exact ⟨hfr _ _ (by omega) (by omega), hfr _ _ (by omega) (by omega)⟩
      rw [h1]
      apply lnum_orig
      apply hA
      intro hd
      rcases hd with hd | hd <;> omega

theorem bandetInv_rows (m n : Int) (e : Arr2) (hm : 1 ≤ m) :
    ∀ t : Nat, (t : Int) ≤ n →
      bandetInv m n e t (forUp 1 (t : Int) (bandetRow m n) e) := by
  intro t
  induction t with
  | zero =>
    intro _
    rw [Nat.cast_zero, forUp_of_lt (by norm_num)]
    refine ⟨fun _ _ _ => rfl, ?_, ?_⟩
    · intro r h1 h2; omega
    · intro r h1 h2; omega
  | succ t ih =>
    intro ht
    rw [Nat.cast_succ] at ht ⊢
    have h0 : (0 : Int) ≤ (t : Int) := Int.ofNat_nonneg t
    rw [forUp_last (by omega), bandetRow_eq m n _ _ hm ht]
    exact bandetInv_step m n e t _ hm h0 ht (ih (by omega))

theorem bandet_inv (m n : Int) (e : Arr2) (hm : 1 ≤ m) (hn : 0 ≤ n) :
    bandetInv m n e n (bandet e m n) := by
  have h := bandetInv_rows m n e hm n.toNat (by omega)
  rw [Int.toNat_of_nonneg hn] at h
  rw [bandet_eq_rows e m n hm]
  exact h
theorem iterUp_congr {σ : Type} (f g : Int → σ → σ) :
    ∀ (cnt : Nat) (i : Int) (s : σ),
      (∀ t s', i ≤ t → t < i + cnt → f t s' = g t s') →
      iterUp cnt i f s = iterUp cnt i g s := by
  intro cnt
  induction cnt with
  | zero => intro i s _; rfl
  | succ k ih =>
    intro i s h
    simp only [iterUp]
    rw [h i s (le_refl _) (by push_cast; omega)]
    apply ih
    intro t s' h1 h2
    exact h t s' (by omega) (by push_cast; omega)

theorem forUp_congr {σ : Type} (f g : Int → σ → σ) (lo hi : Int) (s : σ)
    (h : ∀ t s', lo ≤ t → t ≤ hi → f t s' = g t s') :
    forUp lo hi f s = forUp lo hi g s := by
  apply iterUp_congr
  intro t s' h1 h2
  exact h t s' h1 (by omega)

theorem iterDown_congr {σ : Type} (f g : Int → σ → σ) :
    ∀ (cnt : Nat) (i : Int) (s : σ),
      (∀ t s', t ≤ i → i - cnt < t → f t s' = g t s') →
      iterDown cnt i f s = iterDown cnt i g s := by
  intro cnt
  induction cnt with
  | zero => intro i s _; rfl
  | succ k ih =>
    intro i s h
    simp only [iterDown]
    rw [h i s (le_refl _) (by push_cast; omega)]
    apply ih
    intro t s' h1 h2
    exact h t s' (by omega) (by push_cast; omega)

theorem forDown_congr {σ : Type} (f g : Int → σ → σ) (hi lo : Int) (s : σ)
    (h : ∀ t s', lo ≤ t → t ≤ hi → f t s' = g t s') :
    forDown hi lo f s = forDown hi lo g s := by
  apply iterDown_congr
  intro t s' h1 h2
  exact h t s' (by omega) h1

theorem forDown_of_lt {σ : Type} {lo hi : Int} (h : hi < lo) (f : Int → σ → σ)
    (s : σ) : forDown hi lo f s = s := by
  have h0 : (hi + 1 - lo).toNat = 0 := by omega
  simp [forDown, h0, iterDown]

theorem iterDown_succ_last {σ : Type} (f : Int → σ → σ) :
    ∀ (cnt : Nat) (i : Int) (s : σ),
      iterDown (cnt + 1) i f s = f (i - cnt) (iterDown cnt i f s) := by
  intro cnt
  induction cnt with
  | zero => intro i s; simp [iterDown]
  | succ k ih =>
    intro i s
    have h1 : iterDown (k + 1 + 1) i f s = iterDown (k + 1) (i - 1) f (f i s) := rfl
    have h2 : iterDown (k + 1) i f s = iterDown k (i - 1) f (f i s) := rfl
    rw [h1, ih, h2]
    have h3 : i - 1 - (k : Int) = i - ((k + 1 : Nat) : Int) := by push_cast; ring
    rw [h3]

/-- The last pass of a descending loop is the one at its lower bound. -/
theorem forDown_last {σ : Type} {lo hi : Int} (h : lo ≤ hi) (f : Int → σ → σ)
    (s : σ) : forDown hi lo f s = f lo (forDown hi (lo + 1) f s) := by
  obtain ⟨k, hk⟩ : ∃ k : Nat, (hi + 1 - (lo + 1)).toNat = k := ⟨_, rfl⟩
  have hk2 : (hi + 1 - lo).toNat = k + 1 := by omega
  have hk3 : hi - (k : Int) = lo := by omega
  simp only [forDown, hk, hk2]
  rw [iterDown_succ_last, hk3]
theorem bansol_eq_channels (e y c : Arr2) (m n k : Int) (hm : 1 ≤ m) :
    bansol e y c m n k = forUp 1 k (bansolChannel e y m n) c := by
  have h1 : ¬ m - 1 < 0 := by omega
  by_cases h2 : m - 1 = 0
  · have hm1 : m = 1 := by omega
    subst hm1
    simp only [bansol, h1, h2, if_false, if_true]
    apply forUp_congr
    intro j c' _ _
    simp only [bansolChannel, bansolBack, bansolForward]
    have hf : forUp 2 n (fun i c => set2 c i j (y i j - e (-1) i * c (i - 1) j))
          (set2 c' 1 j (y 1 j)) =
        forUp 2 n (fun i c => set2 c i j
          (forUp 1 (min 1 (i - 1)) (fun l d => d - e (-l) i * c (i - l) j) (y i j)))
          (set2 c' 1 j (y 1 j)) := by
      apply forUp_congr
      intro i c'' hi1 hi2
      have : min 1 (i - 1) = 1 := by omega
      rw [this]
      rfl
    rw [hf]
    apply forDown_congr
    intro i c'' hi1 hi2
    have : min 1 (n - i) = 1 := by omega
    rw [this]
    rfl
  · simp only [bansol, h1, h2, if_false]
    rfl

theorem bansolForward_nat (e y c : Arr2) (m n j : Int) :
    ∀ t : Nat, 1 + (t : Int) ≤ n →
      (∀ i, 1 ≤ i → i ≤ 1 + (t : Int) →
        forUp 2 (1 + (t : Int)) (fun i c =>
          let mi := min m (i - 1)
          let d := forUp 1 mi (fun l d => d - e (-l) i * c (i - l) j) (y i j)
          set2 c i j d) (set2 c 1 j (y 1 j)) i j =
        y i j - ∑ l ∈ Finset.Icc 1 (min m (i - 1)), e (-l) i *
          forUp 2 (1 + (t : Int)) (fun i c =>
            let mi := min m (i - 1)
            let d := forUp 1 mi (fun l d => d - e (-l) i * c (i - l) j) (y i j)
            set2 c i j d) (set2 c 1 j (y 1 j)) (i - l) j) ∧
      (∀ i' j', ¬ (j' = j ∧ 1 ≤ i' ∧ i' ≤ 1 + (t : Int)) →
        forUp 2 (1 + (t : Int)) (fun i c =>
          let mi := min m (i - 1)
          let d := forUp 1 mi (fun l d => d - e (-l) i * c (i - l) j) (y i j)
          set2 c i j d) (set2 c 1 j (y 1 j)) i' j' = c i' j') := by
  intro t
  induction t with
  | zero =>
    intro _
    rw [Nat.cast_zero, add_zero, forUp_of_lt (by norm_num)]
    constructor
    · intro i h1 h2
      have hi : i = 1 := by omega
      subst hi
      rw [Finset.Icc_eq_empty (by omega)]
      simp [set2]
    · intro i' j' h
      exact set2_other c 1 j _ (by omega)
  | succ t ih =>
    intro ht
    rw [Nat.cast_succ] at ht ⊢
    have h0 : (0 : Int) ≤ (t : Int) := Int.ofNat_nonneg t
    obtain ⟨ihA, ihB⟩ := ih (by omega)
    have hI : 1 + ((t : Int) + 1) = (1 + (t : Int)) + 1 := by ring
    rw [hI, forUp_last (by omega)]
    generalize hcur : forUp 2 (1 + (t : Int)) (fun i c =>
          let mi := min m (i - 1)
          let d := forUp 1 mi (fun l d => d - e (-l) i * c (i - l) j) (y i j)
          set2 c i j d) (set2 c 1 j (y 1 j)) = cur at ihA ihB ⊢
    generalize hI2 : 1 + (t : Int) = I at ihA ihB ht ⊢
    rw [forUp_sub_sum']
    have hI0 : 1 ≤ I := by omega
    constructor
    · intro i h1 h2
      by_cases hi : i ≤ I
      · rw [set2_other _ _ _ _ (by omega), ihA i h1 hi]
        congr 1
        apply Finset.sum_congr rfl
        intro l hl
        simp only [Finset.mem_Icc] at hl
        rw [set2_other _ _ _ _ (by omega)]
      · have hie : i = I + 1 := by omega
        subst hie
        rw [set2_same]
        congr 1
        apply Finset.sum_congr rfl
        intro l hl
        simp only [Finset.mem_Icc] at hl
        rw [set2_other _ _ _ _ (by omega)]
    · intro i' j' h
      rw [set2_other _ _ _ _ (by omega)]
      exact ihB i' j' (by omega)
theorem bansolForward_spec (e y c : Arr2) (m n j : Int) (hn : 1 ≤ n) :
    (∀ i, 1 ≤ i → i ≤ n →
      bansolForward e y m n j c i j =
        y i j - ∑ l ∈ Finset.Icc 1 (min m (i - 1)),
          e (-l) i * bansolForward e y m n j c (i - l) j) ∧
    (∀ i' j', j' ≠ j → bansolForward e y m n j c i' j' = c i' j') := by
  have h := bansolForward_nat e y c m n j (n - 1).toNat (by omega)
  have hn' : 1 + ((n - 1).toNat : Int) = n := by omega
  rw [hn'] at h
  exact ⟨h.1, fun i' j' hj => h.2 i' j' (by omega)⟩

theorem bansolBack_nat (e c2 : Arr2) (m n j : Int) (hm : 1 ≤ m) :
    ∀ t : Nat, 1 ≤ n - (t : Int) →
      (∀ i, n - (t : Int) ≤ i → i ≤ n →
        forDown (n - 1) (n - (t : Int)) (fun i c =>
          let mi := min m (n - i)
          let d := forUp 1 mi (fun l d => d - e l i * c (i + l) j) (c i j)
          set2 c i j (d / e 0 i)) (set2 c2 n j (c2 n j / e 0 n)) i j =
        (c2 i j - ∑ l ∈ Finset.Icc 1 (min m (n - i)), e l i *
          forDown (n - 1) (n - (t : Int)) (fun i c =>
            let mi := min m (n - i)
            let d := forUp 1 mi (fun l d => d - e l i * c (i + l) j) (c i j)
            set2 c i j (d / e 0 i)) (set2 c2 n j (c2 n j / e 0 n)) (i + l) j) /
          e 0 i) ∧
      (∀ i' j', ¬ (j' = j ∧ n - (t : Int) ≤ i' ∧ i' ≤ n) →
        forDown (n - 1) (n - (t : Int)) (fun i c =>
          let mi := min m (n - i)
          let d := forUp 1 mi (fun l d => d - e l i * c (i + l) j) (c i j)
          set2 c i j (d / e 0 i)) (set2 c2 n j (c2 n j / e 0 n)) i' j' =
        c2 i' j') := by
  intro t
  induction t with
  | zero =>
    intro _
    rw [Nat.cast_zero, sub_zero, forDown_of_lt (by omega)]
    constructor
    · intro i h1 h2
      have hi : i = n := by omega
      subst hi
      rw [Finset.Icc_eq_empty (by omega)]
      simp [set2]
    · intro i' j' h
      exact set2_other c2 n j _ (by omega)
  | succ t ih =>
    intro ht
    rw [Nat.cast_succ] at ht ⊢
    have h0 : (0 : Int) ≤ (t : Int) := Int.ofNat_nonneg t
    obtain ⟨ihA, ihB⟩ := ih (by omega)
    have hI : n - (t : Int) = (n - ((t : Int) + 1)) + 1 := by ring
    rw [forDown_last (by omega), ← hI]
    generalize hcur : forDown (n - 1) (n - (t : Int)) (fun i c =>
          let mi := min m (n - i)
          let d := forUp 1 mi (fun l d => d - e l i * c (i + l) j) (c i j)
          set2 c i j (d / e 0 i)) (set2 c2 n j (c2 n j / e 0 n)) = cur at ihA ihB ⊢
    generalize hI2 : n - ((t : Int) + 1) = I at ht ⊢
    have hI3 : n - (t : Int) = I + 1 := by omega
    rw [hI3] at ihA ihB
    rw [forUp_sub_sum']
    constructor
    · intro i h1 h2
      by_cases hi : I + 1 ≤ i
      · rw [set2_other _ _ _ _ (by omega), ihA i hi h2]
        congr 2
        apply Finset.sum_congr rfl
        intro l hl
        simp only [Finset.mem_Icc] at hl
        rw [set2_other _ _ _ _ (by omega)]
      · have hie : i = I := by omega
        subst hie
        rw [set2_same, ihB i j (by omega)]
        congr 2
        apply Finset.sum_congr rfl
        intro l hl
        simp only [Finset.mem_Icc] at hl
        rw [set2_other _ _ _ _ (by omega)]
    · intro i' j' h
      rw [set2_other _ _ _ _ (by omega)]
      exact ihB i' j' (by omega)

theorem bansolBack_spec (e c2 : Arr2) (m n j : Int) (hm : 1 ≤ m) (hn : 1 ≤ n) :
    (∀ i, 1 ≤ i → i ≤ n →
      bansolBack e m n j c2 i j =
        (c2 i j - ∑ l ∈ Finset.Icc 1 (min m (n - i)),
          e l i * bansolBack e m n j c2 (i + l) j) / e 0 i) ∧
    (∀ i' j', j' ≠ j → bansolBack e m n j c2 i' j' = c2 i' j') := by
  have h := bansolBack_nat e c2 m n j hm (n - 1).toNat (by omega)
  have hn' : n - ((n - 1).toNat : Int) = 1 := by omega
  rw [hn'] at h
  exact ⟨h.1, fun i' j' hj => h.2 i' j' (by omega)⟩
theorem sum_Icc_window_sub (f : Int → ℚ) (a b n r : Int)
    (h : a ≤ b → 1 ≤ r - b ∧ r - a ≤ n) :
    ∑ t ∈ Finset.Icc 1 n, (if r - b ≤ t ∧ t ≤ r - a then f (r - t) else 0) =
      ∑ k ∈ Finset.Icc a b, f k := by
  rw [← Finset.sum_filter]
  apply Finset.sum_nbij' (fun t => r - t) (fun k => r - k)
  · intro t ht
    simp only [Finset.mem_filter, Finset.mem_Icc] at ht ⊢
    omega
  · intro k hk
    simp only [Finset.mem_filter, Finset.mem_Icc] at hk ⊢
    omega
  · intro t _; ring
  · intro k _; ring
  · intro t _; rfl

theorem sum_Icc_window_add (f : Int → ℚ) (a b n r : Int)
    (h : a ≤ b → 1 ≤ r + a ∧ r + b ≤ n) :
    ∑ s ∈ Finset.Icc 1 n, (if r + a ≤ s ∧ s ≤ r + b then f (s - r) else 0) =
      ∑ k ∈ Finset.Icc a b, f k := by
  rw [← Finset.sum_filter]
  apply Finset.sum_nbij' (fun s => s - r) (fun k => r + k)
  · intro t ht
    simp only [Finset.mem_filter, Finset.mem_Icc] at ht ⊢
    omega
  · intro k hk
    simp only [Finset.mem_filter, Finset.mem_Icc] at hk ⊢
    omega
  · intro t _; ring
  · intro k _; ring
  · intro t _; rfl

theorem sum_Icc_single (g : Int → ℚ) (n r : Int) (h1 : 1 ≤ r) (h2 : r ≤ n) :
    ∑ t ∈ Finset.Icc 1 n, (if t = r then g t else 0) = g r := by
  rw [Finset.sum_ite_eq' (Finset.Icc 1 n) r g, if_pos (by simp [h1, h2])]
theorem lower_apply (m n : Int) (E : Arr2) (y z : Int → ℚ) (r : Int) (hr1 : 1 ≤ r)
    (hr2 : r ≤ n)
    (hF : z r = y r - ∑ l ∈ Finset.Icc 1 (min m (r - 1)), E (-l) r * z (r - l)) :
    ∑ t ∈ Finset.Icc 1 n, lowerEntry m E r t * z t = y r := by
  have hpt : ∀ t ∈ Finset.Icc 1 n, lowerEntry m E r t * z t =
      (if t = r then z t else 0) +
        (if r - min m (r - 1) ≤ t ∧ t ≤ r - 1 then
          (fun k => E (-k) r * z (r - k)) (r - t) else 0) := by
    intro t ht
    simp only [Finset.mem_Icc] at ht
    simp only [lowerEntry]
    by_cases c1 : t = r
    · rw [if_pos c1, if_pos c1, if_neg (by omega)]; simp
    · rw [if_neg c1, if_neg c1]
      by_cases c2 : 1 ≤ t ∧ t < r ∧ r - t ≤ m
      · rw [if_pos c2, if_pos (by omega)]
        have e1 : -(r - t) = t - r := by ring
        have e2 : r - (r - t) = t := by ring
        simp only [e1, e2, zero_add]
      · rw [if_neg c2, if_neg (by omega)]; simp
  rw [Finset.sum_congr rfl hpt, Finset.sum_add_distrib, sum_Icc_single z n r hr1 hr2,
    sum_Icc_window_sub (fun k => E (-k) r * z (r - k)) 1 (min m (r - 1)) n r (by omega), hF]
  ring

theorem upper_apply (m n : Int) (E : Arr2) (z c : Int → ℚ) (t : Int) (ht1 : 1 ≤ t)
    (ht2 : t ≤ n) (hm : 1 ≤ m)
    (hB : c t * E 0 t = z t - ∑ l ∈ Finset.Icc 1 (min m (n - t)), E l t * c (t + l)) :
    ∑ s ∈ Finset.Icc 1 n, upperEntry m n E t s * c s = z t := by
  have hpt : ∀ s ∈ Finset.Icc 1 n, upperEntry m n E t s * c s =
      (if s = t then (fun s => E 0 t * c s) s else 0) +
        (if t + 1 ≤ s ∧ s ≤ t + min m (n - t) then
          (fun k => E k t * c (t + k)) (s - t) else 0) := by
    intro s hs
    simp only [Finset.mem_Icc] at hs
    simp only [upperEntry]
    by_cases c1 : s = t
    · subst c1
      rw [if_pos (by omega), if_pos rfl, if_neg (by omega)]
      simp
    · rw [if_neg c1]
      by_cases c2 : t ≤ s ∧ s - t ≤ m ∧ s ≤ n
      · rw [if_pos c2, if_pos (by omega)]
        have e2 : t + (s - t) = s := by ring
        simp only [e2, zero_add]
      · rw [if_neg c2, if_neg (by omega)]; simp
  rw [Finset.sum_congr rfl hpt, Finset.sum_add_distrib,
    sum_Icc_single (fun s => E 0 t * c s) n t ht1 ht2,
    sum_Icc_window_add (fun k => E k t * c (t + k)) 1 (min m (n - t)) n t (by omega)]
  have := hB
  linarith [mul_comm (c t) (E 0 t)]

theorem lu_entry (m n : Int) (e E : Arr2) (hm : 1 ≤ m)
    (hU : ∀ r, 1 ≤ r → r ≤ n → ∀ a, 0 ≤ a → a ≤ min m (n - r) → E a r = uval m e E a r)
    (hL : ∀ r, 1 ≤ r → r ≤ n → ∀ l, 1 ≤ l → l ≤ min m (n - r) →
      E (-l) (r + l) * E 0 r = lnum m e E l r)
    (r s : Int) (hr1 : 1 ≤ r) (hr2 : r ≤ n) (hs1 : 1 ≤ s) (hs2 : s ≤ n) :
    ∑ t ∈ Finset.Icc 1 n, lowerEntry m E r t * upperEntry m n E t s =
      if r - s ≤ m ∧ s - r ≤ m then e (s - r) r else 0 := by
  by_cases hband : r - s ≤ m ∧ s - r ≤ m
  · rw [if_pos hband]
    by_cases hrs : r ≤ s
    · -- on or right of the diagonal
      have hpt : ∀ t ∈ Finset.Icc 1 n, lowerEntry m E r t * upperEntry m n E t s =
          (if t = r then (fun _ => E (s - r) r) t else 0) +
            (if r - min (m - (s - r)) (r - 1) ≤ t ∧ t ≤ r - 1 then
              (fun k => E (-k) r * E (s - r + k) (r - k)) (r - t) else 0) := by
        intro t ht
        simp only [Finset.mem_Icc] at ht
        simp only [lowerEntry, upperEntry]
        by_cases c1 : t = r
        · subst c1
          rw [if_pos rfl, if_pos (by omega), if_pos rfl, if_neg (by omega)]
          simp
        · rw [if_neg c1, if_neg c1]
          by_cases c2 : r - min (m - (s - r)) (r - 1) ≤ t ∧ t ≤ r - 1
          · rw [if_pos (by omega), if_pos (by omega), if_pos c2]
            have e1 : -(r - t) = t - r := by ring
            have e2 : s - r + (r - t) = s - t := by ring
            have e3 : r - (r - t) = t := by ring
            simp only [e1, e2, e3, zero_add]
          · rw [if_neg c2]
            by_cases c3 : 1 ≤ t ∧ t < r ∧ r - t ≤ m
            · rw [if_pos c3, if_neg (by omega)]; simp
            · rw [if_neg c3]; simp
      rw [Finset.sum_congr rfl hpt, Finset.sum_add_distrib,
        sum_Icc_single (fun _ => E (s - r) r) n r hr1 hr2,
        sum_Icc_window_sub (fun k => E (-k) r * E (s - r + k) (r - k)) 1
          (min (m - (s - r)) (r - 1)) n r (by omega)]
      have h := hU r hr1 hr2 (s - r) (by omega) (by omega)
      simp only [uval] at h
      linarith
    · -- below the diagonal
      have hpt : ∀ t ∈ Finset.Icc 1 n, lowerEntry m E r t * upperEntry m n E t s =
          (if t = s then (fun _ => E (s - r) r * E 0 s) t else 0) +
            (if s - min (m - (r - s)) (s - 1) ≤ t ∧ t ≤ s - 1 then
              (fun k => E (-(r - s) - k) (r - s + s) * E k (s - k)) (s - t) else 0) := by
        intro t ht
        simp only [Finset.mem_Icc] at ht
        simp only [lowerEntry, upperEntry]
        by_cases c1 : t = s
        · subst c1
          rw [if_neg (by omega), if_pos (by omega), if_pos (by omega), if_pos rfl,
            if_neg (by omega)]
          simp
        · rw [if_neg c1]
          by_cases c2 : s - min (m - (r - s)) (s - 1) ≤ t ∧ t ≤ s - 1
          · rw [if_neg (by omega), if_pos (by omega), if_pos (by omega), if_pos c2]
            have e1 : -(r - s) - (s - t) = t - r := by ring
            have e2 : r - s + s = r := by ring
            have e3 : s - (s - t) = t := by ring
            simp only [e1, e2, e3, zero_add]
          · rw [if_neg c2]
            by_cases c0 : t = r
            · rw [if_pos c0, if_neg (by omega)]; simp
            · rw [if_neg c0]
              by_cases c3 : 1 ≤ t ∧ t < r ∧ r - t ≤ m
              · by_cases c4 : t ≤ s ∧ s - t ≤ m ∧ s ≤ n
                · exfalso; omega
                · rw [if_neg c4]; simp
              · rw [if_neg c3]; simp
      rw [Finset.sum_congr rfl hpt, Finset.sum_add_distrib,
        sum_Icc_single (fun _ => E (s - r) r * E 0 s) n s hs1 hs2,
        sum_Icc_window_sub (fun k => E (-(r - s) - k) (r - s + s) * E k (s - k)) 1
          (min (m - (r - s)) (s - 1)) n s (by omega)]
      have h := hL s hs1 hs2 (r - s) (by omega) (by omega)
      simp only [lnum] at h
      have e1 : -(r - s) = s - r := by ring
      have e2 : s + (r - s) = r := by ring
      have e3 : r - s + s = r := by ring
      rw [e1, e2] at h
      simp only [e3] at h
      simp only [e1, e3]
      linarith
  · rw [if_neg hband]
    apply Finset.sum_eq_zero
    intro t ht
    simp only [Finset.mem_Icc] at ht
    simp only [lowerEntry, upperEntry]
    by_cases c1 : t = r
    · subst c1
      rw [if_pos rfl, if_neg (by omega)]; simp
    · rw [if_neg c1]
      by_cases c3 : 1 ≤ t ∧ t < r ∧ r - t ≤ m
      · rw [if_pos c3, if_neg (by omega)]; simp
      · rw [if_neg c3]; simp
/-- Forward and back substitution with the factors of `E` solve the banded
system with matrix `E`. -/
theorem lu_solve (m n : Int) (e E : Arr2) (y z c : Int → ℚ) (hm : 1 ≤ m)
    (hU : ∀ r, 1 ≤ r → r ≤ n → ∀ a, 0 ≤ a → a ≤ min m (n - r) → E a r = uval m e E a r)
    (hL : ∀ r, 1 ≤ r → r ≤ n → ∀ l, 1 ≤ l → l ≤ min m (n - r) →
      E (-l) (r + l) * E 0 r = lnum m e E l r)
    (hF : ∀ r, 1 ≤ r → r ≤ n →
      z r = y r - ∑ l ∈ Finset.Icc 1 (min m (r - 1)), E (-l) r * z (r - l))
    (hB : ∀ t, 1 ≤ t → t ≤ n →
      c t * E 0 t = z t - ∑ l ∈ Finset.Icc 1 (min m (n - t)), E l t * c (t + l))
    (i : Int) (hi1 : 1 ≤ i) (hi2 : i ≤ n) :
    ∑ l ∈ Finset.Icc (-min m (i - 1)) (min m (n - i)), e l i * c (i + l) = y i := by
  rw [← sum_Icc_window_add (fun l => e l i * c (i + l)) (-min m (i - 1))
    (min m (n - i)) n i (by omega)]
  have h1 : ∀ s ∈ Finset.Icc 1 n,
      (if i + -min m (i - 1) ≤ s ∧ s ≤ i + min m (n - i) then
        (fun l => e l i * c (i + l)) (s - i) else 0) =
      ∑ t ∈ Finset.Icc 1 n, lowerEntry m E i t * (upperEntry m n E t s * c s) := by
    intro s hs
    simp only [Finset.mem_Icc] at hs
    have h2 : ∑ t ∈ Finset.Icc 1 n, lowerEntry m E i t * (upperEntry m n E t s * c s) =
        (∑ t ∈ Finset.Icc 1 n, lowerEntry m E i t * upperEntry m n E t s) * c s := by
      rw [Finset.sum_mul]
      apply Finset.sum_congr rfl
      intro t _
      ring
    rw [h2, lu_entry m n e E hm hU hL i s hi1 hi2 hs.1 hs.2]
    by_cases hb : i - s ≤ m ∧ s - i ≤ m
    · rw [if_pos hb, if_pos (by omega)]
      have e1 : i + (s - i) = s := by ring
      simp only [e1]
    · rw [if_neg hb, if_neg (by omega)]
      simp
  rw [Finset.sum_congr rfl h1, Finset.sum_comm]
  have h3 : ∀ t ∈ Finset.Icc 1 n,
      ∑ s ∈ Finset.Icc 1 n, lowerEntry m E i t * (upperEntry m n E t s * c s) =
        lowerEntry m E i t * z t := by
    intro t ht
    simp only [Finset.mem_Icc] at ht
    rw [← Finset.mul_sum, upper_apply m n E z c t ht.1 ht.2 hm (hB t ht.1 ht.2)]
  rw [Finset.sum_congr rfl h3]
  exact lower_apply m n E y z i hi1 hi2 (hF i hi1 hi2)
theorem bansolChannel_solved (m n : Int) (E y c : Arr2) (j : Int) (hm : 1 ≤ m)
    (hn : 1 ≤ n) : channelSolved m n E y j (bansolChannel E y m n j c) := by
  refine ⟨fun i => bansolForward E y m n j c i j, ?_, ?_⟩
  · intro i h1 h2
    exact (bansolForward_spec E y c m n j hn).1 i h1 h2
  · intro i h1 h2
    exact (bansolBack_spec E (bansolForward E y m n j c) m n j hm hn).1 i h1 h2

theorem bansolChannel_frame (m n : Int) (E y c : Arr2) (j : Int) (hm : 1 ≤ m)
    (hn : 1 ≤ n) (i' j' : Int) (h : j' ≠ j) :
    bansolChannel E y m n j c i' j' = c i' j' := by
  simp only [bansolChannel]
  rw [(bansolBack_spec E _ m n j hm hn).2 i' j' h,
    (bansolForward_spec E y c m n j hn).2 i' j' h]

theorem channelSolved_congr (m n : Int) (E y : Arr2) (j : Int) (C C' : Arr2)
    (h : ∀ i, C' i j = C i j) (hs : channelSolved m n E y j C) :
    channelSolved m n E y j C' := by
  obtain ⟨z, hz1, hz2⟩ := hs
  refine ⟨z, hz1, ?_⟩
  intro i h1 h2
  rw [h i, hz2 i h1 h2]
  congr 2
  apply Finset.sum_congr rfl
  intro l _
  rw [h]

theorem bansol_channels_nat (m n : Int) (E y c : Arr2) (hm : 1 ≤ m) (hn : 1 ≤ n) :
    ∀ t : Nat, ∀ j, 1 ≤ j → j ≤ (t : Int) →
      channelSolved m n E y j (forUp 1 (t : Int) (bansolChannel E y m n) c) := by
  intro t
  induction t with
  | zero => intro j h1 h2; simp at h2; omega
  | succ t ih =>
    intro j h1 h2
    rw [Nat.cast_succ] at h2 ⊢
    have h0 : (0 : Int) ≤ (t : Int) := Int.ofNat_nonneg t
    rw [forUp_last (by omega)]
    by_cases hj : j ≤ (t : Int)
    · apply channelSolved_congr m n E y j _ _ _ (ih j h1 hj)
      intro i
      exact bansolChannel_frame m n E y _ _ hm hn i j (by omega)
    · have hje : j = (t : Int) + 1 := by omega
      rw [hje]
      exact bansolChannel_solved m n E y _ _ hm hn

theorem bansol_solved (m n k : Int) (E y c : Arr2) (hm : 1 ≤ m) (hn : 1 ≤ n)
    (j : Int) (hj1 : 1 ≤ j) (hj2 : j ≤ k) :
    channelSolved m n E y j (bansol E y c m n k) := by
  rw [bansol_eq_channels E y c m n k hm]
  have h := bansol_channels_nat m n E y c hm hn k.toNat j hj1 (by omega)
  rw [Int.toNat_of_nonneg (by omega)] at h
  exact h

/-- The generic statement: `bandet` followed by `bansol` solves the banded
system, provided the pivots are nonzero. -/
theorem bandet_bansol_solve (m n k : Int) (e y c : Arr2) (hm : 1 ≤ m)
    (hpiv : ∀ i, 1 ≤ i → i ≤ n → bandet e m n 0 i ≠ 0)
    (j : Int) (hj1 : 1 ≤ j) (hj2 : j ≤ k) (i : Int) (hi1 : 1 ≤ i) (hi2 : i ≤ n) :
    ∑ l ∈ Finset.Icc (-min m (i - 1)) (min m (n - i)),
      e l i * bansol (bandet e m n) y c m n k (i + l) j = y i j := by
  have hn : 1 ≤ n := by omega
  obtain ⟨_, hU, hL⟩ := bandet_inv m n e hm (by omega)
  obtain ⟨z, hz1, hz2⟩ := bansol_solved m n k (bandet e m n) y c hm hn j hj1 hj2
  apply lu_solve m n e (bandet e m n) (fun i => y i j) z
    (fun i => bansol (bandet e m n) y c m n k i j) hm hU ?_ hz1 ?_ i hi1 hi2
  · intro r hr1 hr2 l hl1 hl2
    rw [hL r hr1 hr2 l hl1 hl2, div_mul_cancel₀ _ (hpiv r hr1 hr2)]
  · intro t ht1 ht2
    simp only []
    rw [hz2 t ht1 ht2, div_mul_cancel₀ _ (hpiv t ht1 ht2)]

theorem fill_row_nat (g : Int → ℚ) (i lo : Int) (a0 : Arr2) :
    ∀ t : Nat, forUp lo (lo + (t : Int) - 1) (fun l a => set2 a l i (g l)) a0 =
      fun l' i' => if i' = i ∧ lo ≤ l' ∧ l' ≤ lo + (t : Int) - 1 then g l' else a0 l' i' := by
  intro t
  induction t with
  | zero =>
    rw [forUp_of_lt (by simp)]
    funext l' i'
    rw [if_neg (by simp; omega)]
  | succ t ih =>
    have h0 : (0 : Int) ≤ (t : Int) := Int.ofNat_nonneg t
    have e1 : lo + ((t + 1 : Nat) : Int) - 1 = (lo + (t : Int) - 1) + 1 := by
      push_cast; ring
    rw [e1, forUp_last (by omega), ih]
    funext l' i'
    simp only [set2]
    by_cases c1 : l' = lo + (t : Int) - 1 + 1 ∧ i' = i
    · rw [if_pos c1, if_pos (by omega), c1.1]
    · rw [if_neg c1]
      by_cases c2 : i' = i ∧ lo ≤ l' ∧ l' ≤ lo + (t : Int) - 1
      · rw [if_pos c2, if_pos (by omega)]
      · rw [if_neg c2, if_neg (by omega)]

theorem fill_row (g : Int → ℚ) (i lo hi : Int) (a0 : Arr2) :
    forUp lo hi (fun l a => set2 a l i (g l)) a0 =
      fun l' i' => if i' = i ∧ lo ≤ l' ∧ l' ≤ hi then g l' else a0 l' i' := by
  by_cases h : hi < lo
  · rw [forUp_of_lt h]
    funext l' i'
    rw [if_neg (by omega)]
  · have h1 := fill_row_nat g i lo a0 (hi + 1 - lo).toNat
    have e1 : lo + ((hi + 1 - lo).toNat : Int) - 1 = hi := by omega
    rw [e1] at h1
    exact h1

theorem splcAssemble_nat (m n : Int) (dp : ℚ) (b we bwe : Arr2) :
    ∀ t : Nat, ∀ l i, 1 ≤ i → i ≤ (t : Int) → -min m (i - 1) ≤ l → l ≤ min m (n - i) →
      forUp 1 (t : Int) (fun i bwe =>
        let km := -min m (i - 1)
        let kp := min m (n - i)
        forUp km kp (fun l bwe =>
          if iabs l = m then set2 bwe l i (dp * we l i)
          else set2 bwe l i (b l i + dp * we l i)) bwe) bwe l i =
        (if iabs l = m then 0 else b l i) + dp * we l i := by
  intro t
  induction t with
  | zero => intro l i h1 h2; simp at h2; omega
  | succ t ih =>
    intro l i h1 h2 h3 h4
    rw [Nat.cast_succ] at h2 ⊢
    have h0 : (0 : Int) ≤ (t : Int) := Int.ofNat_nonneg t
    rw [forUp_last (by omega)]
    have hbody : ∀ (i0 : Int), (fun (l : Int) (bwe : Arr2) =>
          if iabs l = m then set2 bwe l i0 (dp * we l i0)
          else set2 bwe l i0 (b l i0 + dp * we l i0)) =
        fun l bwe => set2 bwe l i0 ((if iabs l = m then 0 else b l i0) + dp * we l i0) := by
      intro i0
      funext l bwe
      split <;> simp
    simp only [hbody, fill_row]
    by_cases hi : i ≤ (t : Int)
    · have hc : ¬ (i = (t : Int) + 1 ∧ -min m ((t : Int) + 1 - 1) ≤ l ∧
          l ≤ min m (n - ((t : Int) + 1))) := by omega
      rw [if_neg hc]
      have := ih l i h1 hi h3 h4
      simp only [hbody, fill_row] at this
      exact this
    · have hie : i = (t : Int) + 1 := by omega
      subst hie
      have hc : (t : Int) + 1 = (t : Int) + 1 ∧ -min m ((t : Int) + 1 - 1) ≤ l ∧
          l ≤ min m (n - ((t : Int) + 1)) := ⟨rfl, h3, h4⟩
      rw [if_pos hc]

/-- The entries of the matrix that `splc` hands to `bandet`: `B + dp WE`,
where `B` has no entry at the band offsets `-m` and `m`. -/
theorem splcAssemble_spec (m n : Int) (dp : ℚ) (b we bwe : Arr2) (l i : Int)
    (h1 : 1 ≤ i) (h2 : i ≤ n) (h3 : -min m (i - 1) ≤ l) (h4 : l ≤ min m (n - i)) :
    splcAssemble m n dp b we bwe l i =
      (if iabs l = m then 0 else b l i) + dp * we l i := by
  have h := splcAssemble_nat m n dp b we bwe n.toNat l i h1 (by omega) h3 h4
  rw [Int.toNat_of_nonneg (by omega)] at h
  exact h
theorem splc_c (m n k : Int) (y : Arr2) (wx wy : Vec) (mode : Int) (val p eps : ℚ)
    (c : Arr2) (stat : Vec) (b we : Arr2) (el : ℚ) (bwe : Arr2) :
    (splc m n k y wx wy mode val p eps c stat b we el bwe).c =
      bansol (bandet (splcAssemble m n (splcDp p eps el).1 b we bwe) m n) y c m n k := by
  simp only [splc]
  split <;> rfl

theorem splc_stat4 (m n k : Int) (y : Arr2) (wx wy : Vec) (mode : Int) (val p eps : ℚ)
    (c : Arr2) (stat : Vec) (b we : Arr2) (el : ℚ) (bwe : Arr2) :
    (splc m n k y wx wy mode val p eps c stat b we el bwe).stat 4 =
      (splcDp p eps el).2 := by
  simp only [splc]
  split <;> simp [setV]

/-- Each call of `splc` leaves coefficients that solve the system with matrix
`B + dp WE`, provided the pivots of its factorisation are nonzero. -/
theorem splc_solve (m n k : Int) (y : Arr2) (wx wy : Vec) (mode : Int)
    (val p eps : ℚ) (c : Arr2) (stat : Vec) (b we : Arr2) (el : ℚ) (bwe : Arr2)
    (hm : 1 ≤ m)
    (hpiv : ∀ i, 1 ≤ i → i ≤ n →
      bandet (splcAssemble m n (splcDp p eps el).1 b we bwe) m n 0 i ≠ 0)
    (j : Int) (hj1 : 1 ≤ j) (hj2 : j ≤ k) (i : Int) (hi1 : 1 ≤ i) (hi2 : i ≤ n) :
    ∑ l ∈ Finset.Icc (-min m (i - 1)) (min m (n - i)),
      ((if iabs l = m then 0 else b l i) + (splcDp p eps el).1 * we l i) *
        (splc m n k y wx wy mode val p eps c stat b we el bwe).c (i + l) j = y i j := by
  rw [splc_c]
  rw [← bandet_bansol_solve m n k (splcAssemble m n (splcDp p eps el).1 b we bwe) y c hm
    hpiv j hj1 hj2 i hi1 hi2]
  apply Finset.sum_congr rfl
  intro l hl
  simp only [Finset.mem_Icc] at hl
  rw [splcAssemble_spec m n _ b we bwe l i hi1 hi2 hl.1 hl.2]

theorem gcvsplCheck_returned_ier (a : Args) (st : Statics)
    (h : (gcvsplCheck a st).returned = true) : (gcvsplCheck a st).ier ≠ 0 := by
  by_cases hmode : modeValueBad a.md a.val a.n a.m
  · rw [gcvsplCheck_mode a st hmode]; exact (by decide : (3 : Int) ≠ 0)
  by_cases hst : a.md > 0 ∨ ¬ sizesStale a st
  · by_cases hsize : a.m ≤ 0 ∨ a.n < 2 * a.m
    · rw [gcvsplCheck_size a st hmode hst hsize]; exact (by decide : (1 : Int) ≠ 0)
    · have hw := gcvsplCheck_weights a st hmode hst (by omega) (by omega)
      by_cases hbad : weightsKnotsBad a
      · rw [hw.1 hbad]; exact (by decide : (2 : Int) ≠ 0)
      · rw [hw.2 hbad] at h; simp at h
  · have h1 : ¬ a.md > 0 := fun h1 => hst (Or.inl h1)
    have h2 : sizesStale a st := by
      by_contra h2; exact hst (Or.inr h2)
    rw [gcvsplCheck_stale a st hmode h1 h2]; exact (by decide : (3 : Int) ≠ 0)

theorem gcvsplCheck_passed_order (a : Args) (st : Statics)
    (h : (gcvsplCheck a st).returned = false) : 1 ≤ a.m := by
  by_contra hm
  by_cases hmode : modeValueBad a.md a.val a.n a.m
  · rw [gcvsplCheck_mode a st hmode] at h; simp at h
  by_cases hst : a.md > 0 ∨ ¬ sizesStale a st
  · rw [gcvsplCheck_size a st hmode hst (Or.inl (by omega))] at h; simp at h
  · have h1 : ¬ a.md > 0 := fun h1 => hst (Or.inl h1)
    have h2 : sizesStale a st := by
      by_contra h2; exact hst (Or.inr h2)
    rw [gcvsplCheck_stale a st hmode h1 h2] at h; simp at h

/-- The coefficient table and statistics of a call of `gcvspl` that passes
validation and returns are those left by one call of `splc`, made on the
matrices `b`, `we` and the static `el` that the call leaves behind. -/
theorem gcvspl_final_fit (fuel : Nat) (a : Args) (c : Arr2) (wk : Wk) (st : Statics)
    (o : Out) (ho : gcvspl fuel a c wk st = some o) (hier : o.ier = 0) :
    1 ≤ a.m ∧ ∃ (p : ℚ) (s : SplcOut),
      o.c = (splc a.m a.n a.k a.y a.wx a.wy a.md a.val p c_b6 s.c s.stat o.wk.b
        o.wk.we o.st.el s.bwe).c ∧
      o.wk.stat = (splc a.m a.n a.k a.y a.wx a.wy a.md a.val p c_b6 s.c s.stat o.wk.b
        o.wk.we o.st.el s.bwe).stat := by
  by_cases hr : (gcvsplCheck a st).returned = true
  · have h1 := gcvspl_of_returned fuel a c wk st hr
    rw [h1] at ho
    cases ho
    exact absurd hier (gcvsplCheck_returned_ier a st hr)
  · have hr' : (gcvsplCheck a st).returned = false := by simpa using hr
    refine ⟨gcvsplCheck_passed_order a st hr', ?_⟩
    simp only [gcvspl, hr', Bool.false_eq_true, if_false, Option.map_eq_some'] at ho
    obtain ⟨r, _, hr2⟩ := ho
    subst hr2
    exact ⟨r.1, r.2, rfl, rfl⟩
/-- C6: for every banded matrix `E` of half-bandwidth `m >= 1`, stored by row
and band offset, whose pivots are nonzero, and every right-hand side `y`,
`bandet` followed by `bansol` yields `c` with
`sum over l of E[i, i+l] * c[i+l] = y[i]` for every row `i` in `1..n` and every
channel; hence the coefficients that a call of `gcvspl` which passes validation
leaves behind solve `(B + dp WE) c = y` at the smoothing value `dp` of its last
call of `splc`, the one reported in `wk[4]`. -/
theorem bandet_bansol_solves_system :
    (∀ (m n k : Int) (e y c : Arr2), 1 ≤ m →
      (∀ i, 1 ≤ i → i ≤ n → bandet e m n 0 i ≠ 0) →
      ∀ j, 1 ≤ j → j ≤ k → ∀ i, 1 ≤ i → i ≤ n →
        ∑ l ∈ Finset.Icc (-min m (i - 1)) (min m (n - i)),
          e l i * bansol (bandet e m n) y c m n k (i + l) j = y i j) ∧
    (∀ (fuel : Nat) (a : Args) (c : Arr2) (wk : Wk) (st : Statics) (o : Out),
      gcvspl fuel a c wk st = some o → o.ier = 0 →
      ∃ (p : ℚ) (bwe0 : Arr2),
        o.wk.stat 4 = (splcDp p c_b6 o.st.el).2 ∧
        ((∀ i, 1 ≤ i → i ≤ a.n →
            bandet (splcAssemble a.m a.n (splcDp p c_b6 o.st.el).1 o.wk.b o.wk.we bwe0)
              a.m a.n 0 i ≠ 0) →
          ∀ j, 1 ≤ j → j ≤ a.k → ∀ i, 1 ≤ i → i ≤ a.n →
            ∑ l ∈ Finset.Icc (-min a.m (i - 1)) (min a.m (a.n - i)),
              ((if iabs l = a.m then 0 else o.wk.b l i) +
                (splcDp p c_b6 o.st.el).1 * o.wk.we l i) * o.c (i + l) j = a.y i j)) := by
  constructor
  · intro m n k e y c hm hpiv j hj1 hj2 i hi1 hi2
    exact bandet_bansol_solve m n k e y c hm hpiv j hj1 hj2 i hi1 hi2
  · intro fuel a c wk st o ho hier
    obtain ⟨hm, p, s, hc, hstat⟩ := gcvspl_final_fit fuel a c wk st o ho hier
    refine ⟨p, s.bwe, ?_, ?_⟩
    · rw [hstat, splc_stat4]
    · intro hpiv j hj1 hj2 i hi1 hi2
      rw [hc]
      exact splc_solve a.m a.n a.k a.y a.wx a.wy a.md a.val p c_b6 s.c s.stat o.wk.b
        o.wk.we o.st.el s.bwe hm hpiv j hj1 hj2 i hi1 hi2

theorem secondDifference_pivots :
    ∀ i, 1 ≤ i → i ≤ (2 : Int) → bandet secondDifference 1 2 0 i ≠ 0 := by
  intro i h1 h2
  interval_cases i <;> decide!

theorem bandet_bansol_solves_system_witness :
    (∀ i, 1 ≤ i → i ≤ (2 : Int) → bandet secondDifference 1 2 0 i ≠ 0) ∧
      ∑ l ∈ Finset.Icc (-min (1 : Int) (2 - 1)) (min 1 (2 - 2)),
        secondDifference l 2 *
          bansol (bandet secondDifference 1 2) (fun i _ => vecOf [0, 1] i) zero2 1 2 1
            (2 + l) 1 = (fun i _ => vecOf [0, 1] i) 2 1 :=
  ⟨secondDifference_pivots,
    bandet_bansol_solves_system.1 1 2 1 secondDifference (fun i _ => vecOf [0, 1] i)
      zero2 (by decide) secondDifference_pivots 1 (by decide) (by decide) 2 (by decide)
      (by decide)⟩

/-! ## The interval search -/

theorem tdiv_two (a : Int) (h : 0 ≤ a) : Int.tdiv a 2 = a / 2 :=
  Int.tdiv_eq_ediv h (by decide)

theorem search_L4_spec (n : Int) (x : Vec) (t : ℚ) :
    ∀ (fuel : Nat) (il iu : Int) (rd : List Int), 1 ≤ il → il < iu → iu ≤ n →
      x il ≤ t → t < x iu → iu - il ≤ (fuel : Int) → (∀ i ∈ rd, 1 ≤ i ∧ i ≤ n) →
      ∃ l rd', search_L4 x t fuel il iu rd = some (l, rd') ∧ 1 ≤ l ∧ l ≤ n - 1 ∧
        x l ≤ t ∧ t < x (l + 1) ∧ ∀ i ∈ rd', 1 ≤ i ∧ i ≤ n := by
  intro fuel
  induction fuel with
  | zero => intro il iu rd h1 h2 h3 h4 h5 h6; simp at h6; omega
  | succ f ih =>
    intro il iu rd h1 h2 h3 h4 h5 h6 h7
    have hd : Int.tdiv (il + iu) 2 = (il + iu) / 2 := tdiv_two _ (by omega)
    simp only [search_L4, hd]
    push_cast at h6
    by_cases hc : iu - il ≤ 1
    · rw [if_pos hc]
      have hl : (il + iu) / 2 = il := by omega
      have hu : iu = il + 1 := by omega
      refine ⟨_, _, rfl, ?_, ?_, ?_, ?_, h7⟩
      · omega
      · omega
      · rw [hl]; exact h4
      · rw [hl, ← hu]; exact h5
    · rw [if_neg hc]
      have hrd : ∀ i ∈ ((il + iu) / 2 :: rd), 1 ≤ i ∧ i ≤ n := by
        intro i hi
        rcases List.mem_cons.mp hi with h | h
        · rw [h]; omega
        · exact h7 i h
      by_cases ht : t < x ((il + iu) / 2)
      · rw [if_pos ht]
        exact ih il _ _ h1 (by omega) (by omega) h4 ht (by omega) hrd
      · rw [if_neg ht]
        exact ih _ iu _ (by omega) (by omega) h3 (not_lt.mp ht) h5 (by omega) hrd

theorem search_spec (fuel : Nat) (n : Int) (x : Vec) (t : ℚ) (l0 : Int) (hn : 2 ≤ n)
    (hf : n ≤ (fuel : Int)) :
    ∃ l rd, search fuel n x t l0 = some (l, rd) ∧ (∀ i ∈ rd, 1 ≤ i ∧ i ≤ n) ∧
      (t < x 1 → l = 0) ∧ (x 1 ≤ t → x n ≤ t → l = n) ∧
      (x 1 ≤ t → t < x n → 1 ≤ l ∧ l ≤ n - 1 ∧ x l ≤ t ∧ t < x (l + 1)) := by
  unfold search
  by_cases h1 : t < x 1
  · rw [if_pos h1]
    refine ⟨_, _, rfl, ?_, fun _ => rfl, fun h => absurd h1 (not_lt.mpr h),
      fun h => absurd h1 (not_lt.mpr h)⟩
    intro i hi; simp at hi; omega
  rw [if_neg h1]
  by_cases h2 : t ≥ x n
  · rw [if_pos h2]
    refine ⟨_, _, rfl, ?_, fun h => absurd h h1, fun _ _ => rfl,
      fun _ h => absurd h (not_lt.mpr h2)⟩
    intro i hi; simp at hi; omega
  rw [if_neg h2]
  have h1' : x 1 ≤ t := not_lt.mp h1
  have h2' : t < x n := not_le.mp h2
  obtain ⟨l2, hl2, hl2a, hl2b⟩ : ∃ l2, (if max l0 1 ≥ n then n - 1 else max l0 1) = l2 ∧
      1 ≤ l2 ∧ l2 ≤ n - 1 := by
    refine ⟨_, rfl, ?_, ?_⟩ <;> split_ifs <;> omega
  simp only [hl2]
  have key : ∀ (r : Option (Int × List Int)),
      (∃ l rd, r = some (l, rd) ∧ 1 ≤ l ∧ l ≤ n - 1 ∧ x l ≤ t ∧ t < x (l + 1) ∧
        ∀ i ∈ rd, 1 ≤ i ∧ i ≤ n) →
      ∃ l rd, r = some (l, rd) ∧ (∀ i ∈ rd, 1 ≤ i ∧ i ≤ n) ∧
        (t < x 1 → l = 0) ∧ (x 1 ≤ t → x n ≤ t → l = n) ∧
        (x 1 ≤ t → t < x n → 1 ≤ l ∧ l ≤ n - 1 ∧ x l ≤ t ∧ t < x (l + 1)) := by
    rintro r ⟨l, rd, hr, ha, hb, hc, hd, he⟩
    exact ⟨l, rd, hr, he, fun h => absurd h h1, fun _ h => absurd h h2,
      fun _ _ => ⟨ha, hb, hc, hd⟩⟩
  apply key
  by_cases h3 : t ≥ x l2
  · rw [if_pos h3]
    by_cases h4 : t < x (l2 + 1)
    · rw [if_pos h4]
      refine ⟨_, _, rfl, hl2a, hl2b, h3, h4, ?_⟩
      intro i hi; simp at hi; omega
    rw [if_neg h4]
    have h4' : x (l2 + 1) ≤ t := not_lt.mp h4
    have hl3 : l2 + 1 ≤ n - 1 := by
      by_contra hcon
      have : l2 + 1 = n := by omega
      rw [this] at h4'
      exact absurd h2' (not_lt.mpr h4')
    by_cases h5 : t < x (l2 + 1 + 1)
    · rw [if_pos h5]
      refine ⟨_, _, rfl, by omega, hl3, h4', h5, ?_⟩
      intro i hi; simp at hi; omega
    rw [if_neg h5]
    have h5' : x (l2 + 1 + 1) ≤ t := not_lt.mp h5
    have hl4 : l2 + 1 + 1 < n := by
      by_contra hcon
      have : l2 + 1 + 1 = n := by omega
      rw [this] at h5'
      exact absurd h2' (not_lt.mpr h5')
    exact search_L4_spec n x t fuel _ _ _ (by omega) hl4 le_rfl h5' h2' (by omega)
      (by intro i hi; simp at hi; omega)
  · rw [if_neg h3]
    have h3' : t < x l2 := not_le.mp h3
    have hl3 : 2 ≤ l2 := by
      by_contra hcon
      have : l2 = 1 := by omega
      rw [this] at h3'
      exact absurd h3' h1
    by_cases h4 : t ≥ x (l2 - 1)
    · rw [if_pos h4]
      refine ⟨_, _, rfl, by omega, by omega, h4, ?_, ?_⟩
      · rw [sub_add_cancel]; exact h3'
      · intro i hi; simp at hi; omega
    rw [if_neg h4]
    have h4' : t < x (l2 - 1) := not_le.mp h4
    have hl4 : 1 < l2 - 1 := by
      by_contra hcon
      have : l2 - 1 = 1 := by omega
      rw [this] at h4'
      exact absurd h4' h1
    exact search_L4_spec n x t fuel _ _ _ le_rfl hl4 (by omega) h1' h4' (by omega)
      (by intro i hi; simp at hi; omega)
theorem increasing_le (n : Int) (x : Vec) (hx : Increasing n x) (i j : Int) (hi : 1 ≤ i)
    (hij : i ≤ j) (hj : j ≤ n) : x i ≤ x j := by
  rcases eq_or_lt_of_le hij with h | h
  · rw [h]
  · exact le_of_lt (hx i j hi h hj)

theorem located_unique (n : Int) (x : Vec) (t : ℚ) (hx : Increasing n x) (l l' : Int)
    (h1 : 1 ≤ l) (h2 : l ≤ n - 1) (h3 : x l ≤ t) (h4 : t < x (l + 1))
    (h1' : 1 ≤ l') (h2' : l' ≤ n - 1) (h3' : x l' ≤ t) (h4' : t < x (l' + 1)) : l' = l := by
  by_contra hne
  rcases lt_or_gt_of_ne hne with h | h
  · have := increasing_le n x hx (l' + 1) l (by omega) (by omega) (by omega)
    exact absurd (lt_of_lt_of_le h4' (le_trans this h3)) (lt_irrefl _)
  · have := increasing_le n x hx (l + 1) l' (by omega) (by omega) (by omega)
    exact absurd (lt_of_lt_of_le h4 (le_trans this h3')) (lt_irrefl _)

theorem search_located (fuel : Nat) (n : Int) (x : Vec) (t : ℚ) (l0 : Int) (hn : 2 ≤ n)
    (hx : Increasing n x) (hf : n ≤ (fuel : Int)) :
    ∃ l rd, search fuel n x t l0 = some (l, rd) ∧ (∀ i ∈ rd, 1 ≤ i ∧ i ≤ n) ∧
      Located n x t l := by
  obtain ⟨l, rd, h, hrd, ha, hb, hc⟩ := search_spec fuel n x t l0 hn hf
  have h1n : x 1 ≤ x n := increasing_le n x hx 1 n le_rfl (by omega) le_rfl
  exact ⟨l, rd, h, hrd, ha, fun h => hb (le_trans h1n h) h, hc⟩

theorem increasing_two (a b : ℚ) (h : a < b) : Increasing 2 (vecOf [a, b]) := by
  intro i j h1 h2 h3
  have hi : i = 1 := by omega
  have hj : j = 2 := by omega
  subst hi; subst hj
  simpa [vecOf] using h

/-- C16: for `n ≥ 2`, strictly increasing knots, any query point and any
initial cursor, `search` returns once its fuel is at least `n`; the cursor it
leaves is `0` for `t < x[1]`, `n` for `t ≥ x[n]`, and otherwise the only `l`
in `1..n-1` with `x[l] ≤ t < x[l+1]`; every subscript of `x` it reads lies in
`1..n`. -/
theorem search_locates_interval (fuel : Nat) (n : Int) (x : Vec) (t : ℚ) (l0 : Int)
    (hn : 2 ≤ n) (hx : Increasing n x) (hf : n ≤ (fuel : Int)) :
    ∃ l rd, search fuel n x t l0 = some (l, rd) ∧ (∀ i ∈ rd, 1 ≤ i ∧ i ≤ n) ∧
      Located n x t l ∧
      ∀ l', 1 ≤ l' → l' ≤ n - 1 → x l' ≤ t → t < x (l' + 1) → l' = l := by
  obtain ⟨l, rd, h, hrd, hloc⟩ := search_located fuel n x t l0 hn hx hf
  refine ⟨l, rd, h, hrd, hloc, ?_⟩
  intro l' h1 h2 h3 h4
  have ha : x 1 ≤ t := le_trans (increasing_le n x hx 1 l' le_rfl h1 (by omega)) h3
  have hb : t < x n := lt_of_lt_of_le h4 (increasing_le n x hx (l' + 1) n (by omega) (by omega) le_rfl)
  obtain ⟨g1, g2, g3, g4⟩ := hloc.2.2 ha hb
  exact located_unique n x t hx l l' g1 g2 g3 g4 h1 h2 h3 h4

theorem search_locates_interval_witness :
    (2 : Int) ≤ 3 ∧ ((3 : Int) ≤ ((3 : Nat) : Int)) ∧
      ∃ l rd, search 3 3 (vecOf [0, 1, 3]) 2 7 = some (l, rd) ∧ (∀ i ∈ rd, 1 ≤ i ∧ i ≤ 3) ∧
        Located 3 (vecOf [0, 1, 3]) 2 l ∧
        ∀ l', 1 ≤ l' → l' ≤ 3 - 1 → vecOf [0, 1, 3] l' ≤ 2 → 2 < vecOf [0, 1, 3] (l' + 1) →
          l' = l :=
  ⟨by decide, by decide,
    search_locates_interval 3 3 (vecOf [0, 1, 3]) 2 7 (by decide)
      (by
        intro i j h1 h2 h3
        have hi : i = 1 ∨ i = 2 := by omega
        rcases hi with hi | hi
        · have hj : j = 2 ∨ j = 3 := by omega
          rcases hj with hj | hj <;> subst hi <;> subst hj <;> decide!
        · have hj : j = 3 := by omega
          subst hi; subst hj; decide!)
      (by decide)⟩

/-- C15: for every order `m`, every `n`, `x`, `c`, every query point and every
derivative order `ider ≥ 2m`, `splder` returns exactly `0`; it does so before
`search` is called, whatever the fuel, and leaves the cursor and the scratch
array as they were. -/
theorem splder_high_order_zero (fuel : Nat) (ider m n : Int) (t : ℚ) (x c : Vec) (l0 : Int)
    (q : Vec) (h : 2 * m ≤ ider) :
    splder fuel ider m n t x c l0 q = some ⟨0, l0, q⟩ := by
  unfold splder
  simp only
  rw [if_pos (by omega)]

theorem splder_high_order_zero_witness :
    splder 0 2 1 2 (1 / 2) (vecOf [0, 1]) (vecOf [3, 5]) 1 (fun _ => 0) =
      some ⟨0, 1, fun _ => 0⟩ :=
  splder_high_order_zero 0 2 1 2 (1 / 2) (vecOf [0, 1]) (vecOf [3, 5]) 1 (fun _ => 0)
    (by decide)

theorem splder_cursor (fuel : Nat) (ider m n : Int) (t : ℚ) (x c : Vec) (l0 : Int) (q : Vec)
    (h : ider < 2 * m) :
    (splder fuel ider m n t x c l0 q).map (fun o => o.l) =
      (search fuel n x t l0).map (fun sr => sr.1) := by
  unfold splder
  simp only
  rw [if_neg (by omega)]
  cases search fuel n x t l0 <;> rfl

/-- C18, counterexample: with `m = 1` and `ider = 2` the call returns before
`search`, and the cursor keeps the value `5` it had, although `t = -1` lies
left of the first knot, where the located index is `0`. -/
theorem splder_cursor_counterexample :
    (splder 5 2 1 2 (-1) (vecOf [0, 1]) (vecOf [3, 5]) 5 (fun _ => 0)).map (fun o => o.l) =
        some 5 ∧
      ¬ Located 2 (vecOf [0, 1]) (-1) 5 := by
  refine ⟨by decide!, ?_⟩
  intro h
  have := h.1 (by decide!)
  omega

/-- C18, amended: for `n ≥ 2`, strictly increasing knots and fuel at least
`n`, a call of `splder` with `ider < 2m` returns and leaves in the cursor the
index of the knot interval located for `t`; a call with `ider ≥ 2m` returns
with the cursor unchanged. -/
theorem splder_cursor_located (fuel : Nat) (ider m n : Int) (t : ℚ) (x c : Vec) (l0 : Int)
    (q : Vec) (hn : 2 ≤ n) (hx : Increasing n x) (hf : n ≤ (fuel : Int)) :
    (ider < 2 * m → ∃ o, splder fuel ider m n t x c l0 q = some o ∧ Located n x t o.l) ∧
      (2 * m ≤ ider → ∃ o, splder fuel ider m n t x c l0 q = some o ∧ o.l = l0) := by
  constructor
  · intro h
    obtain ⟨l, rd, hs, _, hloc⟩ := search_located fuel n x t l0 hn hx hf
    have hc := splder_cursor fuel ider m n t x c l0 q h
    rw [hs] at hc
    cases hsp : splder fuel ider m n t x c l0 q with
    | none => rw [hsp] at hc; simp at hc
    | some o =>
      rw [hsp] at hc
      simp at hc
      exact ⟨o, rfl, by rw [hc]; exact hloc⟩
  · intro h
    refine ⟨⟨0, l0, q⟩, ?_, rfl⟩
    unfold splder
    simp only
    rw [if_pos (by omega)]

theorem splder_cursor_located_witness :
    (2 : Int) ≤ 2 ∧ ((2 : Int) ≤ ((2 : Nat) : Int)) ∧
      ((0 : Int) < 2 * 1 → ∃ o, splder 2 0 1 2 (1 / 2) (vecOf [0, 1]) (vecOf [3, 5]) 9
          (fun _ => 0) = some o ∧ Located 2 (vecOf [0, 1]) (1 / 2) o.l) ∧
      (2 * 1 ≤ (0 : Int) → ∃ o, splder 2 0 1 2 (1 / 2) (vecOf [0, 1]) (vecOf [3, 5]) 9
          (fun _ => 0) = some o ∧ o.l = 9) :=
  ⟨by decide, by decide,
    splder_cursor_located 2 0 1 2 (1 / 2) (vecOf [0, 1]) (vecOf [3, 5]) 9 (fun _ => 0)
      (by decide) (increasing_two 0 1 (by decide!)) (by decide)⟩

theorem forUp_single {σ : Type} (lo : Int) (f : Int → σ → σ) (s : σ) :
    forUp lo lo f s = f lo s := by
  rw [forUp_first le_rfl, forUp_of_lt (by omega)]

theorem forUp_pair {σ : Type} (lo : Int) (f : Int → σ → σ) (s : σ) :
    forUp lo (lo + 1) f s = f (lo + 1) (f lo s) := by
  rw [forUp_first (by omega), forUp_single]

/-- The initial fill for `m = 1`. -/
theorem splderFill_one (n l : Int) (c q : Vec) :
    splderFill 1 n l c q =
      setV (setV q 1 (if 1 ≤ l ∧ l ≤ n then c l else 0)) 2
        (if 0 ≤ l ∧ l + 1 ≤ n then c (l + 1) else 0) := by
  unfold splderFill
  simp only
  have e : l + 2 * 1 = l + 1 + 1 := by ring
  rw [e, forUp_pair]
  have e1 : l + 1 + -l = 1 := by ring
  have e2 : l + 1 + 1 + -l = 2 := by ring
  have e3 : l + 1 - 1 = l := by ring
  have e4 : l + 1 + 1 - 1 = l + 1 := by ring
  simp only [e1, e2, e3, e4]
  have c1 : (l + 1 ≥ 1 + 1 ∧ l + 1 ≤ n + 1) ↔ (1 ≤ l ∧ l ≤ n) := by omega
  have c2 : (l + 1 + 1 ≥ 1 + 1 ∧ l + 1 + 1 ≤ n + 1) ↔ (0 ≤ l ∧ l + 1 ≤ n) := by omega
  simp only [c1, c2]
  by_cases h1 : 1 ≤ l ∧ l ≤ n <;> by_cases h2 : 0 ≤ l ∧ l + 1 ≤ n <;> simp [h1, h2]

/-- The single evaluation level of `m = 1`, `ider = 0` inside the knots:
linear interpolation of `q[1]` and `q[2]`. -/
theorem splderLevel_one_inner (n l : Int) (t : ℚ) (x q : Vec) (h1 : 1 ≤ l) (h2 : l ≤ n - 1) :
    splderLevel 2 n l t x 1 q 2 =
      q 2 + (x (l + 1) - t) * (q 1 - q 2) / (x (l + 1) - x l) := by
  unfold splderLevel
  simp only
  rw [if_neg (by omega)]
  have e1 : max 1 (l - 2 + 1 + 1) = l := by omega
  have e2 : min l (n - 2 + 1) = l := by omega
  rw [e1, e2, if_pos le_rfl, forUp_single, if_neg (by omega)]
  simp [setV]

/-- The single evaluation level of `m = 1`, `ider = 0` from the last knot
on. -/
theorem splderLevel_one_right (n : Int) (t : ℚ) (x q : Vec) (hn : 1 ≤ n) :
    splderLevel 2 n n t x 1 q 2 = q 1 + (t - x n) * q 2 := by
  unfold splderLevel
  simp only
  have e0 : n - 2 + 1 + 1 = n := by ring
  rw [e0, if_pos le_rfl, forUp_single]
  have e1 : max 1 n = n := by omega
  have e2 : min n (n - 2 + 1) = n - 1 := by omega
  simp only [e1, e2]
  rw [if_neg (by omega), if_neg (by omega)]
  simp [setV]

/-- The single evaluation level of `m = 1`, `ider = 0` left of the first
knot. -/
theorem splderLevel_one_left (n : Int) (t : ℚ) (x q : Vec) (hn : 1 ≤ n) :
    splderLevel 2 n 0 t x 1 q 2 = q 2 + (x 1 - t) * q 1 := by
  unfold splderLevel
  simp only
  have hc : ¬ ((0 : Int) ≥ n - 2 + 1 + 1) := by omega
  rw [if_neg hc]
  have e0 : (0 : Int) - 2 + 1 + 1 = 0 := by ring
  have e2 : min 0 (n - 2 + 1) = 0 := by omega
  have e5 : max (1 : Int) 0 = 1 := by decide
  simp only [e0, e2, e5]
  have hc2 : ¬ ((1 : Int) ≤ 0) := by decide
  rw [if_neg hc2, if_pos le_rfl]
  have e3 : (1 : Int) - 0 = 1 := by ring
  have e4 : (2 : Int) - 1 = 1 := by ring
  rw [e3, forUp_single]
  simp [setV, e4]

/-- Value of `splder` for `m = 1`, `ider = 0`, in terms of the cursor that
`search` returns. -/
theorem splder_one (fuel : Nat) (n : Int) (t : ℚ) (x c : Vec) (l0 : Int) (q : Vec) (l : Int)
    (rd : List Int) (hs : search fuel n x t l0 = some (l, rd)) :
    (splder fuel 0 1 n t x c l0 q).map (fun o => o.val) =
      some (splderLevel 2 n l t x 1 (splderFill 1 n l c q) 2) := by
  unfold splder
  simp only
  rw [if_neg (by decide), hs]
  simp [forUp_single]
/-- C19: for order `m = 1`, `n ≥ 2`, strictly increasing knots, every
coefficient vector and every knot index `i` in `1..n`, `splder` with
`ider = 0` at `t = x[i]` returns exactly `c[i]` (once the fuel of `search` is
at least `n`), for every initial cursor and scratch array. -/
theorem splder_order_one_at_knot (fuel : Nat) (n : Int) (x c : Vec) (l0 : Int) (q : Vec)
    (i : Int) (hn : 2 ≤ n) (hx : Increasing n x) (hf : n ≤ (fuel : Int)) (hi1 : 1 ≤ i)
    (hi2 : i ≤ n) :
    (splder fuel 0 1 n (x i) x c l0 q).map (fun o => o.val) = some (c i) := by
  obtain ⟨l, rd, hs, _, hloc⟩ := search_located fuel n x (x i) l0 hn hx hf
  rw [splder_one fuel n (x i) x c l0 q l rd hs]
  congr 1
  rcases eq_or_lt_of_le hi2 with hin | hin
  · have hl : l = n := hloc.2.1 (by rw [hin])
    subst hl
    rw [splderLevel_one_right l (x i) x _ (by omega), splderFill_one]
    have hc1 : 1 ≤ l ∧ l ≤ l := ⟨by omega, le_rfl⟩
    have hc2 : ¬ (0 ≤ l ∧ l + 1 ≤ l) := by omega
    simp [setV, hc1, hc2, hin]
  · have ha : x 1 ≤ x i := increasing_le n x hx 1 i le_rfl hi1 hi2
    have hb : x i < x n := hx i n hi1 hin le_rfl
    obtain ⟨g1, g2, g3, g4⟩ := hloc.2.2 ha hb
    have hl : i = l :=
      located_unique n x (x i) hx l i g1 g2 g3 g4 hi1 (by omega) le_rfl
        (hx i (i + 1) hi1 (by omega) (by omega))
    subst hl
    rw [splderLevel_one_inner n i (x i) x _ hi1 (by omega), splderFill_one]
    have hc1 : 1 ≤ i ∧ i ≤ n := ⟨hi1, hi2⟩
    have hc2 : 0 ≤ i ∧ i + 1 ≤ n := by omega
    have hne : x (i + 1) - x i ≠ 0 := sub_ne_zero.mpr (ne_of_gt (hx i (i + 1) hi1 (by omega) (by omega)))
    simp only [setV, hc1, hc2]
    simp
    field_simp

theorem splder_order_one_at_knot_witness :
    (2 : Int) ≤ 2 ∧ ((2 : Int) ≤ ((2 : Nat) : Int)) ∧ (1 : Int) ≤ 2 ∧ (2 : Int) ≤ 2 ∧
      (splder 2 0 1 2 (vecOf [0, 1] 2) (vecOf [0, 1]) (vecOf [3, 5]) 0 (fun _ => 0)).map
        (fun o => o.val) = some (vecOf [3, 5] 2) :=
  ⟨by decide, by decide, by decide, by decide,
    splder_order_one_at_knot 2 2 (vecOf [0, 1]) (vecOf [3, 5]) 0 (fun _ => 0) 2 (by decide)
      (increasing_two 0 1 (by decide!)) (by decide) (by decide) (by decide)⟩

theorem dabs_eq_abs (a : ℚ) : dabs a = |a| := by
  unfold dabs
  split
  · rw [abs_of_nonneg]; assumption
  · rw [abs_of_neg]; linarith

/-- C12: the score returned by `splc` is `0` for `|mode| = 1`,
`|stat[3] - val|` for `|mode| = 4`, and `esn - val * (2 * stat[3] / n - 1)`
for `|mode| = 3`, where `esn`, the weighted residual sum of squares divided
by `n * k`, is what the call stores in `stat[2]`, and `stat[3]` is the trace
statistic it stores. -/
theorem splc_score_other_modes (m n k : Int) (y : Arr2) (wx wy : Vec) (mode : Int)
    (val p eps : ℚ) (c : Arr2) (stat : Vec) (b we : Arr2) (el : ℚ) (bwe : Arr2) :
    (iabs mode = 1 → (splc m n k y wx wy mode val p eps c stat b we el bwe).ret = 0) ∧
    (iabs mode = 4 → (splc m n k y wx wy mode val p eps c stat b we el bwe).ret =
      |(splc m n k y wx wy mode val p eps c stat b we el bwe).stat 3 - val|) ∧
    (iabs mode = 3 → (splc m n k y wx wy mode val p eps c stat b we el bwe).ret =
      (splc m n k y wx wy mode val p eps c stat b we el bwe).stat 2 -
        val * (2 * (splc m n k y wx wy mode val p eps c stat b we el bwe).stat 3 / (n : ℚ)
          - 1)) ∧
    (splc m n k y wx wy mode val p eps c stat b we el bwe).stat 2 =
      splcResidual m n k y wx wy b
        (splc m n k y wx wy mode val p eps c stat b we el bwe).c / ((n * k : Int) : ℚ) := by
  refine ⟨?_, ?_, ?_, ?_⟩
  · intro h
    have h3 : iabs mode ≠ 3 := by omega
    have h2 : iabs mode ≠ 2 := by omega
    have h4 : iabs mode ≠ 4 := by omega
    simp [splc, h, h3]
  · intro h
    have h3 : iabs mode ≠ 3 := by omega
    simp [splc, h, h3, setV, dabs_eq_abs]
  · intro h
    simp [splc, h, setV]
    left
    ring
  · simp only [splc]
    split <;> simp [setV]
/-- C13, counterexample: on the two knots `0, 1` with data `0, 1` the call of
`splc` with `p = 0` reports `stat[4] = 0`, while the value multiplied into the
penalty matrix is `dp = eps / el = 1 / (2 * 10^15)`: the first coefficient is
`dp / (1 + 2 dp)`, not the `0` of the interpolant. -/
theorem splc_stat4_counterexample :
    (trialAt (twoKnots 1 1 0) 0).stat 4 = 0 ∧
      (splcDp 0 c_b6 (searchEl (twoKnots 1 1 0))).1 = 1 / (2 * 10 ^ 15) ∧
      (trialAt (twoKnots 1 1 0) 0).c 1 1 = 1 / (2 * 10 ^ 15 + 2) := by
  refine ⟨by decide!, by decide!, by decide!⟩

/-- C13, amended: after every call of `splc` the coefficients are those of
the system assembled with `dp`, and `stat[4]` equals `dp` unless the floor
replaced `p` (`p * el < eps` and no clamp), in which case `stat[4]` is `0`;
with `eps = 1e-15` and `el ≠ 0` the floor gives `dp = eps / el ≠ 0`. -/
theorem splc_stat4_reports (m n k : Int) (y : Arr2) (wx wy : Vec) (mode : Int)
    (val p eps : ℚ) (c : Arr2) (stat : Vec) (b we : Arr2) (el : ℚ) (bwe : Arr2) :
    (splc m n k y wx wy mode val p eps c stat b we el bwe).c =
        bansol (bandet (splcAssemble m n (splcDp p eps el).1 b we bwe) m n) y c m n k ∧
      (splc m n k y wx wy mode val p eps c stat b we el bwe).stat 4 =
        (if p * el < eps ∧ ¬ p * el * eps > 1 then 0 else (splcDp p eps el).1) ∧
      (p * el < c_b6 → el ≠ 0 →
        (splc m n k y wx wy mode val p c_b6 c stat b we el bwe).stat 4 = 0 ∧
          (splcDp p c_b6 el).1 = c_b6 / el ∧ (splcDp p c_b6 el).1 ≠ 0) := by
  refine ⟨splc_c .., ?_, ?_⟩
  · rw [splc_stat4]
    simp only [splcDp]
    by_cases h1 : p * el < eps <;> by_cases h2 : p * el * eps > 1 <;> simp [h1, h2]
  · intro h hel
    have h2 : ¬ p * el * c_b6 > 1 := by
      have hc : c_b6 = 1 / 10 ^ 15 := by norm_num [c_b6]
      rw [hc] at h ⊢
      have : p * el * (1 / 10 ^ 15) < 1 / 10 ^ 15 * (1 / 10 ^ 15) :=
        mul_lt_mul_of_pos_right h (by norm_num)
      intro h3
      have h4 : (1 : ℚ) / 10 ^ 15 * (1 / 10 ^ 15) < 1 := by norm_num
      linarith
    rw [splc_stat4]
    have hc0 : c_b6 ≠ 0 := by norm_num [c_b6]
    simp only [splcDp]
    simp [h, h2, hel, hc0]

theorem splcDp_bounds_eps (p el eps : ℚ) (hel : 0 < el) (he0 : 0 < eps) (he1 : eps ≤ 1) :
    eps ≤ (splcDp p eps el).1 * el ∧ (splcDp p eps el).1 * el ≤ 1 / eps ∧
      (eps ≤ p * el → p * el ≤ 1 / eps → (splcDp p eps el).1 = p) ∧
      ¬ (p * el < eps ∧ p * el * eps > 1) := by
  have hne : el ≠ 0 := ne_of_gt hel
  have hne2 : eps ≠ 0 := ne_of_gt he0
  have hinv : eps ≤ 1 / eps := by
    rw [le_div_iff₀ he0]
    nlinarith
  have hboth : ¬ (p * el < eps ∧ p * el * eps > 1) := by
    rintro ⟨h1, h2⟩
    have : p * el * eps < eps * eps := mul_lt_mul_of_pos_right h1 he0
    nlinarith
  simp only [splcDp]
  by_cases h2 : p * el * eps > 1
  · have h1 : ¬ p * el < eps := fun h => hboth ⟨h, h2⟩
    rw [if_pos h2]
    have e : 1 / (el * eps) * el = 1 / eps := by field_simp
    refine ⟨by rw [e]; exact hinv, by rw [e], ?_, hboth⟩
    intro _ h4
    rw [le_div_iff₀ he0] at h4
    exact absurd h2 (not_lt.mpr h4)
  · rw [if_neg h2]
    by_cases h1 : p * el < eps
    · rw [if_pos h1]
      have e : eps / el * el = eps := by field_simp
      refine ⟨by rw [e], by rw [e]; exact hinv, ?_, hboth⟩
      intro h3 _
      exact absurd h1 (not_lt.mpr h3)
    · rw [if_neg h1]
      refine ⟨not_lt.mp h1, ?_, fun _ _ => rfl, hboth⟩
      rw [le_div_iff₀ he0]
      exact not_lt.mp h2

/-- C14: for every `el > 0` and every requested `p`, the value `dp` that
`splc` uses with `eps = 1e-15` satisfies `eps ≤ dp * el ≤ 1 / eps`, it is `p`
whenever `eps ≤ p * el ≤ 1 / eps`, and the floor and the clamp are never both
applied. -/
theorem splcDp_bounds (p el : ℚ) (hel : 0 < el) :
    c_b6 ≤ (splcDp p c_b6 el).1 * el ∧ (splcDp p c_b6 el).1 * el ≤ 1 / c_b6 ∧
      (c_b6 ≤ p * el → p * el ≤ 1 / c_b6 → (splcDp p c_b6 el).1 = p) ∧
      ¬ (p * el < c_b6 ∧ p * el * c_b6 > 1) :=
  splcDp_bounds_eps p el c_b6 hel (by norm_num [c_b6]) (by norm_num [c_b6])

theorem splcDp_bounds_witness :
    (0 : ℚ) < 2 ∧ c_b6 ≤ (splcDp 0 c_b6 2).1 * 2 ∧ (splcDp 0 c_b6 2).1 * 2 ≤ 1 / c_b6 ∧
      (c_b6 ≤ 0 * 2 → 0 * 2 ≤ 1 / c_b6 → (splcDp 0 c_b6 2).1 = 0) ∧
      ¬ ((0 : ℚ) * 2 < c_b6 ∧ 0 * 2 * c_b6 > 1) :=
  ⟨by decide!, splcDp_bounds 0 2 (by decide!)⟩

/-! ## The evaluator does not depend on the scratch array -/

theorem iterUp_rel {σ : Type} (R : Int → σ → σ → Prop) (f : Int → σ → σ) :
    ∀ (cnt : Nat) (lo : Int) (s s' : σ), R lo s s' →
      (∀ i a a', lo ≤ i → i < lo + cnt → R i a a' → R (i + 1) (f i a) (f i a')) →
      R (lo + cnt) (iterUp cnt lo f s) (iterUp cnt lo f s') := by
  intro cnt
  induction cnt with
  | zero => intro lo s s' h0 _; simpa [iterUp] using h0
  | succ c ih =>
    intro lo s s' h0 hstep
    simp only [iterUp]
    have h1 := ih (lo + 1) (f lo s) (f lo s') (hstep lo s s' le_rfl (by push_cast; omega) h0)
      (fun i a a' hi1 hi2 hr => hstep i a a' (by omega) (by push_cast; omega) hr)
    have e : lo + 1 + (c : Int) = lo + ((c + 1 : Nat) : Int) := by push_cast; ring
    rw [e] at h1
    exact h1

theorem forUp_rel {σ : Type} (R : Int → σ → σ → Prop) (f : Int → σ → σ) (lo hi : Int)
    (s s' : σ) (hlohi : lo ≤ hi + 1) (h0 : R lo s s')
    (hstep : ∀ i a a', lo ≤ i → i ≤ hi → R i a a' → R (i + 1) (f i a) (f i a')) :
    R (hi + 1) (forUp lo hi f s) (forUp lo hi f s') := by
  have h := iterUp_rel R f (hi + 1 - lo).toNat lo s s' h0
    (fun i a a' h1 h2 hr => hstep i a a' h1 (by omega) hr)
  have e : lo + ((hi + 1 - lo).toNat : Int) = hi + 1 := by omega
  rw [e] at h
  exact h

theorem agreeOn_setV (hi : Int) (q q' : Vec) (i : Int) (v v' : ℚ) (h : AgreeOn hi q q')
    (hv : v = v') : AgreeOn hi (setV q i v) (setV q' i v') := by
  intro j h1 h2
  simp only [setV]
  split
  · exact hv
  · exact h j h1 h2

theorem splderFill_agree (m n l : Int) (c q q' : Vec) (hm : 0 ≤ m) :
    AgreeOn (2 * m) (splderFill m n l c q) (splderFill m n l c q') := by
  unfold splderFill
  simp only
  have h := forUp_rel (fun j a a' => AgreeOn (j - l - 1) a a')
    (fun j q => if j ≥ m + 1 ∧ j ≤ n + m then setV q (j + -l) (c (j - m))
      else setV q (j + -l) 0) (l + 1) (l + 2 * m) q q' (by omega)
    (by intro j h1 h2; omega)
    (by
      intro i a a' h1 h2 hr j hj1 hj2
      dsimp only
      by_cases hj : j = i + -l
      · split <;> simp [setV, hj]
      · have := hr j hj1 (by omega)
        split <;> simp [setV, hj, this])
  have e : l + 2 * m + 1 - l - 1 = 2 * m := by ring
  simp only [e] at h
  exact h

/-- A loop over `EvalSt` whose body reads `q[ir]`, `q[ir-1]` and `jj` only,
writes `q[ir]` and decrements `ir`: two runs from states that agree on
`q[1..K]` end in states that agree, as long as `ir` stays above `1`. -/
theorem evalLoop_agree (K : Int) (b : EvalSt → EvalSt)
    (hb : ∀ s s' : EvalSt, AgreeOn K s.q s'.q → s.ir = s'.ir → s.jj = s'.jj → 2 ≤ s.ir →
      s.ir ≤ K → AgreeOn K (b s).q (b s').q ∧ (b s).ir = s.ir - 1 ∧ (b s').ir = s'.ir - 1 ∧
        (b s).jj = (b s').jj)
    (lo hi : Int) (s s' : EvalSt) (hq : AgreeOn K s.q s'.q) (hir : s.ir = s'.ir)
    (hjj : s.jj = s'.jj) (hcnt : ((hi + 1 - lo).toNat : Int) ≤ s.ir - 1) (hK : s.ir ≤ K) :
    AgreeOn K (forUp lo hi (fun _ => b) s).q (forUp lo hi (fun _ => b) s').q ∧
      (forUp lo hi (fun _ => b) s).ir = (forUp lo hi (fun _ => b) s').ir ∧
      (forUp lo hi (fun _ => b) s).jj = (forUp lo hi (fun _ => b) s').jj ∧
      (forUp lo hi (fun _ => b) s).ir = s.ir - ((hi + 1 - lo).toNat : Int) := by
  have h := iterUp_rel
    (fun j (a a' : EvalSt) => AgreeOn K a.q a'.q ∧ a.ir = a'.ir ∧ a.jj = a'.jj ∧
      a.ir = s.ir - (j - lo))
    (fun _ => b) (hi + 1 - lo).toNat lo s s' ⟨hq, hir, hjj, by ring⟩
    (by
      intro i a a' h1 h2 ⟨r1, r2, r3, r4⟩
      obtain ⟨g1, g2, g3, g4⟩ := hb a a' r1 r2 r3 (by omega) (by omega)
      dsimp only
      exact ⟨g1, by omega, g4, by omega⟩)
  obtain ⟨g1, g2, g3, g4⟩ := h
  simp only [forUp]
  refine ⟨g1, g2, g3, ?_⟩
  rw [g4]
  ring

theorem splderLevel_agree (K k n l : Int) (t : ℚ) (x : Vec) (i : Int) (q q' : Vec)
    (hi1 : 1 ≤ i) (hi2 : i ≤ k - 1) (hl0 : 0 ≤ l) (hln : l ≤ n) (hkn : k ≤ n) (hK : k ≤ K)
    (h : AgreeOn K q q') :
    AgreeOn K (splderLevel k n l t x i q) (splderLevel k n l t x i q') := by
  -- the three loop bodies
  have hb1 : ∀ s s' : EvalSt, AgreeOn K s.q s'.q → s.ir = s'.ir → s.jj = s'.jj → 2 ≤ s.ir →
      s.ir ≤ K →
      AgreeOn K (EvalSt.mk (setV s.q s.ir (s.q (s.ir - 1) + (t - x s.jj) * s.q s.ir))
          (s.ir - 1) (s.jj - 1)).q
        (EvalSt.mk (setV s'.q s'.ir (s'.q (s'.ir - 1) + (t - x s'.jj) * s'.q s'.ir))
          (s'.ir - 1) (s'.jj - 1)).q ∧
      (EvalSt.mk (setV s.q s.ir (s.q (s.ir - 1) + (t - x s.jj) * s.q s.ir))
          (s.ir - 1) (s.jj - 1)).ir = s.ir - 1 ∧
      (EvalSt.mk (setV s'.q s'.ir (s'.q (s'.ir - 1) + (t - x s'.jj) * s'.q s'.ir))
          (s'.ir - 1) (s'.jj - 1)).ir = s'.ir - 1 ∧
      (EvalSt.mk (setV s.q s.ir (s.q (s.ir - 1) + (t - x s.jj) * s.q s.ir))
          (s.ir - 1) (s.jj - 1)).jj =
        (EvalSt.mk (setV s'.q s'.ir (s'.q (s'.ir - 1) + (t - x s'.jj) * s'.q s'.ir))
          (s'.ir - 1) (s'.jj - 1)).jj := by
    intro s s' hq hir hjj h2 hk
    refine ⟨?_, rfl, rfl, by simp [hjj]⟩
    dsimp only
    rw [← hir, ← hjj, ← hq s.ir (by omega) hk, ← hq (s.ir - 1) (by omega) (by omega)]
    exact agreeOn_setV K _ _ _ _ _ hq rfl
  have hb2 : ∀ s s' : EvalSt, AgreeOn K s.q s'.q → s.ir = s'.ir → s.jj = s'.jj → 2 ≤ s.ir →
      s.ir ≤ K →
      AgreeOn K (EvalSt.mk (setV s.q s.ir (s.q s.ir + (x (s.jj + (k - i)) - t) *
          (s.q (s.ir - 1) - s.q s.ir) / (x (s.jj + (k - i)) - x s.jj))) (s.ir - 1) (s.jj - 1)).q
        (EvalSt.mk (setV s'.q s'.ir (s'.q s'.ir + (x (s'.jj + (k - i)) - t) *
          (s'.q (s'.ir - 1) - s'.q s'.ir) / (x (s'.jj + (k - i)) - x s'.jj))) (s'.ir - 1)
          (s'.jj - 1)).q ∧
      (EvalSt.mk (setV s.q s.ir (s.q s.ir + (x (s.jj + (k - i)) - t) *
          (s.q (s.ir - 1) - s.q s.ir) / (x (s.jj + (k - i)) - x s.jj))) (s.ir - 1)
          (s.jj - 1)).ir = s.ir - 1 ∧
      (EvalSt.mk (setV s'.q s'.ir (s'.q s'.ir + (x (s'.jj + (k - i)) - t) *
          (s'.q (s'.ir - 1) - s'.q s'.ir) / (x (s'.jj + (k - i)) - x s'.jj))) (s'.ir - 1)
          (s'.jj - 1)).ir = s'.ir - 1 ∧
      (EvalSt.mk (setV s.q s.ir (s.q s.ir + (x (s.jj + (k - i)) - t) *
          (s.q (s.ir - 1) - s.q s.ir) / (x (s.jj + (k - i)) - x s.jj))) (s.ir - 1)
          (s.jj - 1)).jj =
        (EvalSt.mk (setV s'.q s'.ir (s'.q s'.ir + (x (s'.jj + (k - i)) - t) *
          (s'.q (s'.ir - 1) - s'.q s'.ir) / (x (s'.jj + (k - i)) - x s'.jj))) (s'.ir - 1)
          (s'.jj - 1)).jj := by
    intro s s' hq hir hjj h2 hk
    refine ⟨?_, rfl, rfl, by simp [hjj]⟩
    dsimp only
    rw [← hir, ← hjj, ← hq s.ir (by omega) hk, ← hq (s.ir - 1) (by omega) (by omega)]
    exact agreeOn_setV K _ _ _ _ _ hq rfl
  have hb3 : ∀ s s' : EvalSt, AgreeOn K s.q s'.q → s.ir = s'.ir → s.jj = s'.jj → 2 ≤ s.ir →
      s.ir ≤ K →
      AgreeOn K (EvalSt.mk (setV s.q s.ir (s.q s.ir + (x s.jj - t) * s.q (s.ir - 1)))
          (s.ir - 1) (s.jj - 1)).q
        (EvalSt.mk (setV s'.q s'.ir (s'.q s'.ir + (x s'.jj - t) * s'.q (s'.ir - 1)))
          (s'.ir - 1) (s'.jj - 1)).q ∧
      (EvalSt.mk (setV s.q s.ir (s.q s.ir + (x s.jj - t) * s.q (s.ir - 1)))
          (s.ir - 1) (s.jj - 1)).ir = s.ir - 1 ∧
      (EvalSt.mk (setV s'.q s'.ir (s'.q s'.ir + (x s'.jj - t) * s'.q (s'.ir - 1)))
          (s'.ir - 1) (s'.jj - 1)).ir = s'.ir - 1 ∧
      (EvalSt.mk (setV s.q s.ir (s.q s.ir + (x s.jj - t) * s.q (s.ir - 1)))
          (s.ir - 1) (s.jj - 1)).jj =
        (EvalSt.mk (setV s'.q s'.ir (s'.q s'.ir + (x s'.jj - t) * s'.q (s'.ir - 1)))
          (s'.ir - 1) (s'.jj - 1)).jj := by
    intro s s' hq hir hjj h2 hk
    refine ⟨?_, rfl, rfl, by simp [hjj]⟩
    dsimp only
    rw [← hir, ← hjj, ← hq s.ir (by omega) hk, ← hq (s.ir - 1) (by omega) (by omega)]
    exact agreeOn_setV K _ _ _ _ _ hq rfl
  unfold splderLevel
  simp only
  -- first loop
  have e1 : ∀ s : EvalSt, (if l ≥ n - k + i + 1 then
      forUp (n - k + i + 1) l (fun _ (s : EvalSt) =>
        EvalSt.mk (setV s.q s.ir (s.q (s.ir - 1) + (t - x s.jj) * s.q s.ir)) (s.ir - 1)
          (s.jj - 1)) s else s) =
      forUp (n - k + i + 1) l (fun _ (s : EvalSt) =>
        EvalSt.mk (setV s.q s.ir (s.q (s.ir - 1) + (t - x s.jj) * s.q s.ir)) (s.ir - 1)
          (s.jj - 1)) s := by
    intro s
    split
    · rfl
    · rw [forUp_of_lt (by omega)]
  simp only [e1]
  obtain ⟨a1, a2, a3, a4⟩ := evalLoop_agree K _ hb1 (n - k + i + 1) l ⟨q, k, l⟩ ⟨q', k, l⟩ h rfl
    rfl (by dsimp only; omega) hK
  dsimp only at a4
  -- second loop
  have e2 : ∀ s : EvalSt, (if max 1 (l - k + 1 + i) ≤ min l (n - k + i) then
      forUp (max 1 (l - k + 1 + i)) (min l (n - k + i)) (fun _ (s : EvalSt) =>
        EvalSt.mk (setV s.q s.ir (s.q s.ir + (x (s.jj + (k - i)) - t) *
          (s.q (s.ir - 1) - s.q s.ir) / (x (s.jj + (k - i)) - x s.jj))) (s.ir - 1)
          (s.jj - 1)) s else s) =
      forUp (max 1 (l - k + 1 + i)) (min l (n - k + i)) (fun _ (s : EvalSt) =>
        EvalSt.mk (setV s.q s.ir (s.q s.ir + (x (s.jj + (k - i)) - t) *
          (s.q (s.ir - 1) - s.q s.ir) / (x (s.jj + (k - i)) - x s.jj))) (s.ir - 1)
          (s.jj - 1)) s := by
    intro s
    split
    · rfl
    · rw [forUp_of_lt (by omega)]
  simp only [e2]
  obtain ⟨b1, b2, b3, b4⟩ := evalLoop_agree K _ hb2 (max 1 (l - k + 1 + i))
    (min l (n - k + i)) _ _ a1 a2 a3 (by rw [a4]; omega) (by rw [a4]; omega)
  rw [a4] at b4
  -- third loop
  by_cases hc : l - k + 1 + i ≤ 0
  · rw [if_pos hc, if_pos hc]
    have hc3 : ((1 - (l - k + 1 + i) + 1 - 1).toNat : Int) ≤
        k - ((l + 1 - (n - k + i + 1)).toNat : Int) -
          ((min l (n - k + i) + 1 - max 1 (l - k + 1 + i)).toNat : Int) - 1 := by omega
    have hc4 : k - ((l + 1 - (n - k + i + 1)).toNat : Int) -
          ((min l (n - k + i) + 1 - max 1 (l - k + 1 + i)).toNat : Int) ≤ K := by omega
    rw [← b4] at hc3 hc4
    obtain ⟨c1, _, _, _⟩ := evalLoop_agree K _ hb3 1 (1 - (l - k + 1 + i)) ⟨_, _, k - i⟩
      ⟨_, _, k - i⟩ b1 b2 rfl hc3 hc4
    exact c1
  · rw [if_neg hc, if_neg hc]
    exact b1

theorem splderLevels_agree (K k n l : Int) (t : ℚ) (x : Vec) (q q' : Vec)
    (hl0 : 0 ≤ l) (hln : l ≤ n) (hkn : k ≤ n) (hK : k ≤ K) (h : AgreeOn K q q') :
    AgreeOn K (forUp 1 (k - 1) (splderLevel k n l t x) q)
      (forUp 1 (k - 1) (splderLevel k n l t x) q') := by
  by_cases hk : 1 ≤ k - 1 + 1
  · exact forUp_rel (fun _ a a' => AgreeOn K a a') (splderLevel k n l t x) 1 (k - 1) q q' hk h
      (fun i a a' h1 h2 hr => splderLevel_agree K k n l t x i a a' h1 h2 hl0 hln hkn hK hr)
  · rw [forUp_of_lt (by omega), forUp_of_lt (by omega)]
    exact h

/-- A loop over a pair `(q, j)` whose body decrements `j` and then reads and
writes `q` at subscripts inside `1..K`: two runs from arrays that agree on
`q[1..K]` end in arrays that agree. -/
theorem pairLoop_agree (K lower upper : Int) (b : Vec × Int → Vec × Int)
    (hb : ∀ u u' : Vec × Int, AgreeOn K u.1 u'.1 → u.2 = u'.2 → lower ≤ u.2 - 1 →
      u.2 - 1 ≤ upper → AgreeOn K (b u).1 (b u').1 ∧ (b u).2 = u.2 - 1 ∧ (b u').2 = u'.2 - 1)
    (lo hi : Int) (u u' : Vec × Int) (hq : AgreeOn K u.1 u'.1) (hj : u.2 = u'.2)
    (hlow : lower ≤ u.2 - ((hi + 1 - lo).toNat : Int)) (hup : u.2 - 1 ≤ upper) :
    AgreeOn K (forUp lo hi (fun _ => b) u).1 (forUp lo hi (fun _ => b) u').1 := by
  have h := iterUp_rel
    (fun j (a a' : Vec × Int) => AgreeOn K a.1 a'.1 ∧ a.2 = a'.2 ∧ a.2 = u.2 - (j - lo))
    (fun _ => b) (hi + 1 - lo).toNat lo u u' ⟨hq, hj, by ring⟩
    (by
      intro i a a' h1 h2 ⟨r1, r2, r3⟩
      obtain ⟨g1, g2, g3⟩ := hb a a' r1 r2 (by omega) (by omega)
      dsimp only
      exact ⟨g1, by omega, by omega⟩)
  exact h.1

theorem splderShift_agree (K k ider : Int) (q q' : Vec) (hider : 0 ≤ ider) (hK : k + ider ≤ K)
    (h : AgreeOn K q q') :
    AgreeOn K (forUp 1 k (fun j q => setV q j (q (j + ider))) q)
      (forUp 1 k (fun j q => setV q j (q (j + ider))) q') := by
  by_cases hk : 1 ≤ k + 1
  · exact forUp_rel (fun _ a a' => AgreeOn K a a') (fun j q => setV q j (q (j + ider))) 1 k
      q q' hk h
      (fun i a a' h1 h2 hr => agreeOn_setV K a a' i _ _ hr (hr (i + ider) (by omega) (by omega)))
  · rw [forUp_of_lt (by omega), forUp_of_lt (by omega)]
    exact h

theorem derivDiff_agree (K ml mi j1 j2 : Int) (x q q' : Vec) (h1 : 1 ≤ ml + j1 - 1)
    (h2 : ml + j2 ≤ K) (hj12 : j1 ≤ j2) (h : AgreeOn K q q') :
    AgreeOn K
      (forUp j1 j2 (fun _ (u : Vec × Int) =>
        (setV u.1 (ml + (u.2 - 1)) ((u.1 (ml + (u.2 - 1)) - u.1 (ml + (u.2 - 1) - 1)) /
          (x (u.2 - 1 + mi) - x (u.2 - 1))), u.2 - 1)) (q, j2 + 1)).1
      (forUp j1 j2 (fun _ (u : Vec × Int) =>
        (setV u.1 (ml + (u.2 - 1)) ((u.1 (ml + (u.2 - 1)) - u.1 (ml + (u.2 - 1) - 1)) /
          (x (u.2 - 1 + mi) - x (u.2 - 1))), u.2 - 1)) (q', j2 + 1)).1 := by
  apply pairLoop_agree K j1 j2 _ _ j1 j2 (q, j2 + 1) (q', j2 + 1) h rfl
  · dsimp only; omega
  · dsimp only; omega
  · intro u u' hq hj hlo hup
    refine ⟨?_, rfl, rfl⟩
    dsimp only
    rw [← hj, ← hq (ml + (u.2 - 1)) (by omega) (by omega),
      ← hq (ml + (u.2 - 1) - 1) (by omega) (by omega)]
    exact agreeOn_setV K _ _ _ _ _ hq rfl

theorem derivNeg_agree (K i1 ml : Int) (q q' : Vec) (h1 : 1 ≤ i1 - 1) (h2 : ml ≤ K)
    (hj12 : i1 ≤ ml) (h : AgreeOn K q q') :
    AgreeOn K
      (forUp i1 ml (fun _ (u : Vec × Int) =>
        (setV u.1 (u.2 - 1) (-u.1 (u.2 - 1 - 1)), u.2 - 1)) (q, ml + 1)).1
      (forUp i1 ml (fun _ (u : Vec × Int) =>
        (setV u.1 (u.2 - 1) (-u.1 (u.2 - 1 - 1)), u.2 - 1)) (q', ml + 1)).1 := by
  apply pairLoop_agree K i1 ml _ _ i1 ml (q, ml + 1) (q', ml + 1) h rfl
  · dsimp only; omega
  · dsimp only; omega
  · intro u u' hq hj hlo hup
    refine ⟨?_, rfl, rfl⟩
    dsimp only
    rw [← hj, ← hq (u.2 - 1 - 1) (by omega) (by omega)]
    exact agreeOn_setV K _ _ _ _ _ hq rfl

theorem splderDeriv_agree (ider m n l : Int) (x q q' : Vec) (hider : 1 ≤ ider)
    (hm : ider < 2 * m) (hl0 : 0 ≤ l) (hln : l ≤ n) (h : AgreeOn (2 * m) q q') :
    AgreeOn (2 * m) (splderDeriv ider m n l x q) (splderDeriv ider m n l x q') := by
  unfold splderDeriv
  simp only
  apply splderShift_agree (2 * m) (2 * m - ider) ider _ _ (by omega) (by omega)
  refine (forUp_rel (fun i (s s' : DerivSt) => AgreeOn (2 * m) s.q s'.q ∧ s.jl = s'.jl ∧
    s.ii = s'.ii ∧ s.jl = l + 1 - 2 * m + (i - 1) ∧ s.ii = n - 2 * m + (i - 1)) _ 1 ider
    ⟨q, l + 1 - 2 * m, n - 2 * m⟩ ⟨q', l + 1 - 2 * m, n - 2 * m⟩ (by omega)
    ⟨h, rfl, rfl, by dsimp only; ring, by dsimp only; ring⟩ ?_).1
  intro i a a' h1 h2 ⟨r1, r2, r3, r4, r5⟩
  dsimp only
  rw [← r2, ← r3]
  refine ⟨?_, rfl, rfl, by omega, by omega⟩
  -- the divided differences
  have hq1 : AgreeOn (2 * m)
      (if max 1 (a.jl + 1) ≤ min l (a.ii + 1) then
        (forUp (max 1 (a.jl + 1)) (min l (a.ii + 1)) (fun _ (u : Vec × Int) =>
          (setV u.1 (-l + 2 * m + (u.2 - 1))
            ((u.1 (-l + 2 * m + (u.2 - 1)) - u.1 (-l + 2 * m + (u.2 - 1) - 1)) /
              (x (u.2 - 1 + (2 * m - i)) - x (u.2 - 1))), u.2 - 1))
          (a.q, min l (a.ii + 1) + 1)).1 else a.q)
      (if max 1 (a.jl + 1) ≤ min l (a.ii + 1) then
        (forUp (max 1 (a.jl + 1)) (min l (a.ii + 1)) (fun _ (u : Vec × Int) =>
          (setV u.1 (-l + 2 * m + (u.2 - 1))
            ((u.1 (-l + 2 * m + (u.2 - 1)) - u.1 (-l + 2 * m + (u.2 - 1) - 1)) /
              (x (u.2 - 1 + (2 * m - i)) - x (u.2 - 1))), u.2 - 1))
          (a'.q, min l (a.ii + 1) + 1)).1 else a'.q) := by
    split
    · rename_i hj12
      exact derivDiff_agree (2 * m) (-l + 2 * m) (2 * m - i) _ _ x a.q a'.q (by omega)
        (by omega) hj12 r1
    · exact r1
  by_cases hc1 : a.jl + 1 ≥ 1
  · rw [if_pos hc1, if_pos hc1]
    exact hq1
  · rw [if_neg hc1, if_neg hc1]
    by_cases hc2 : i + 1 ≤ -l + 2 * m
    · rw [if_pos hc2, if_pos hc2]
      exact derivNeg_agree (2 * m) (i + 1) (-l + 2 * m) _ _ (by omega) (by omega) hc2 hq1
    · rw [if_neg hc2, if_neg hc2]
      exact hq1

theorem located_range (n : Int) (x : Vec) (t : ℚ) (l : Int) (hn : 2 ≤ n)
    (h : Located n x t l) : 0 ≤ l ∧ l ≤ n := by
  by_cases h1 : t < x 1
  · have := h.1 h1; omega
  · by_cases h2 : x n ≤ t
    · have := h.2.1 h2; omega
    · have := h.2.2 (not_lt.mp h1) (not_le.mp h2); omega

theorem located_eq (n : Int) (x : Vec) (t : ℚ) (l l' : Int) (hx : Increasing n x)
    (h : Located n x t l) (h' : Located n x t l') : l' = l := by
  by_cases h1 : t < x 1
  · rw [h.1 h1, h'.1 h1]
  · by_cases h2 : x n ≤ t
    · rw [h.2.1 h2, h'.2.1 h2]
    · obtain ⟨a1, a2, a3, a4⟩ := h.2.2 (not_lt.mp h1) (not_le.mp h2)
      obtain ⟨b1, b2, b3, b4⟩ := h'.2.2 (not_lt.mp h1) (not_le.mp h2)
      exact located_unique n x t hx l l' a1 a2 a3 a4 b1 b2 b3 b4

/-- After `search` has returned the cursor `l` in `0..n`, the value of
`splder` does not depend on the content of the scratch array. -/
theorem splder_scratch (fuel fuel' : Nat) (ider m n : Int) (t : ℚ) (x c : Vec)
    (l0 l0' : Int) (q q' : Vec) (l : Int) (rd rd' : List Int) (hn : 2 * m ≤ n)
    (hi0 : 0 ≤ ider) (hi1 : ider < 2 * m) (hl0 : 0 ≤ l) (hln : l ≤ n)
    (hs : search fuel n x t l0 = some (l, rd)) (hs' : search fuel' n x t l0' = some (l, rd')) :
    ∃ o o', splder fuel ider m n t x c l0 q = some o ∧
      splder fuel' ider m n t x c l0' q' = some o' ∧ o.val = o'.val ∧ o.l = o'.l := by
  unfold splder
  simp only
  have hk : ¬ (2 * m - ider < 1) := by omega
  simp only [if_neg hk, hs, hs', Option.map]
  refine ⟨_, _, rfl, rfl, ?_, rfl⟩
  dsimp only
  have h1 : AgreeOn (2 * m) (splderFill m n l c q) (splderFill m n l c q') :=
    splderFill_agree m n l c q q' (by omega)
  have h2 : AgreeOn (2 * m)
      (if ider > 0 then splderDeriv ider m n l x (splderFill m n l c q)
        else splderFill m n l c q)
      (if ider > 0 then splderDeriv ider m n l x (splderFill m n l c q')
        else splderFill m n l c q') := by
    split
    · exact splderDeriv_agree ider m n l x _ _ (by omega) hi1 hl0 hln h1
    · exact h1
  have h4 : ∀ a a' : Vec, AgreeOn (2 * m) a a' →
      AgreeOn (2 * m)
        (if 2 * m - ider - 1 ≥ 1 then forUp 1 (2 * m - ider - 1)
          (splderLevel (2 * m - ider) n l t x) a else a)
        (if 2 * m - ider - 1 ≥ 1 then forUp 1 (2 * m - ider - 1)
          (splderLevel (2 * m - ider) n l t x) a' else a') := by
    intro a a' haa
    split
    · exact splderLevels_agree (2 * m) (2 * m - ider) n l t x _ _ hl0 hln (by omega)
        (by omega) haa
    · exact haa
  have h5 := h4 _ _ h2 (2 * m - ider) (by omega) (by omega)
  rw [h5]

/-- C17: for `n ≥ 2m`, strictly increasing knots and `0 ≤ ider < 2m`, two
calls of `splder` on the same `(m, n, x, c, t, ider)` return (once the fuel of
`search` is at least `n`) the same value and leave the same cursor, whatever
the two initial cursors and the two initial contents of the scratch array
`q`. -/
theorem splder_cursor_only_accelerates (fuel fuel' : Nat) (ider m n : Int) (t : ℚ)
    (x c : Vec) (l0 l0' : Int) (q q' : Vec) (hn : 2 * m ≤ n) (hx : Increasing n x)
    (hi0 : 0 ≤ ider) (hi1 : ider < 2 * m) (hf : n ≤ (fuel : Int)) (hf' : n ≤ (fuel' : Int)) :
    ∃ o o', splder fuel ider m n t x c l0 q = some o ∧
      splder fuel' ider m n t x c l0' q' = some o' ∧ o.val = o'.val ∧ o.l = o'.l := by
  obtain ⟨l, rd, hs, _, hloc⟩ := search_located fuel n x t l0 (by omega) hx hf
  obtain ⟨l', rd', hs', _, hloc'⟩ := search_located fuel' n x t l0' (by omega) hx hf'
  have hl : l' = l := located_eq n x t l l' hx hloc hloc'
  subst hl
  obtain ⟨h0, h1⟩ := located_range n x t l' (by omega) hloc
  exact splder_scratch fuel fuel' ider m n t x c l0 l0' q q' l' rd rd' hn hi0 hi1 h0 h1 hs hs'

theorem splder_cursor_only_accelerates_witness :
    (2 * 1 : Int) ≤ 2 ∧ (0 : Int) ≤ 0 ∧ (0 : Int) < 2 * 1 ∧ (2 : Int) ≤ ((2 : Nat) : Int) ∧
      (2 : Int) ≤ ((5 : Nat) : Int) ∧
      ∃ o o', splder 2 0 1 2 (1 / 2) (vecOf [0, 1]) (vecOf [3, 5]) 0 (fun _ => 0) = some o ∧
        splder 5 0 1 2 (1 / 2) (vecOf [0, 1]) (vecOf [3, 5]) 7 (fun _ => 9) = some o' ∧
        o.val = o'.val ∧ o.l = o'.l :=
  ⟨by decide, by decide, by decide, by decide, by decide,
    splder_cursor_only_accelerates 2 5 0 1 2 (1 / 2) (vecOf [0, 1]) (vecOf [3, 5]) 0 7
      (fun _ => 0) (fun _ => 9) (by decide) (increasing_two 0 1 (by decide!)) (by decide)
      (by decide) (by decide) (by decide)⟩

/-! ## The inverse bands of `trinv` -/

theorem trinv_eq_bands (b e : Arr2) (m n : Int) :
    (trinv b e m n).1 = trinvSum b (trinvBands e m n) m n := rfl

theorem forUp_inv {σ : Type} (P : Int → σ → Prop) (f : Int → σ → σ) (lo hi : Int) (s : σ)
    (hlohi : lo ≤ hi + 1) (h0 : P lo s)
    (hstep : ∀ i a, lo ≤ i → i ≤ hi → P i a → P (i + 1) (f i a)) :
    P (hi + 1) (forUp lo hi f s) :=
  forUp_rel (fun i a _ => P i a) f lo hi s s hlohi h0
    (fun i a _ h1 h2 hr => hstep i a h1 h2 hr)

theorem iterDown_inv {σ : Type} (P : Int → σ → Prop) (f : Int → σ → σ) :
    ∀ (cnt : Nat) (hi : Int) (s : σ), P hi s →
      (∀ i a, i ≤ hi → hi - cnt < i → P i a → P (i - 1) (f i a)) →
      P (hi - cnt) (iterDown cnt hi f s) := by
  intro cnt
  induction cnt with
  | zero => intro hi s h0 _; simpa [iterDown] using h0
  | succ c ih =>
    intro hi s h0 hstep
    simp only [iterDown]
    have h1 := ih (hi - 1) (f hi s) (hstep hi s le_rfl (by push_cast; omega) h0)
      (fun i a hi1 hi2 hr => hstep i a (by omega) (by push_cast; omega) hr)
    have e : hi - 1 - (c : Int) = hi - ((c + 1 : Nat) : Int) := by push_cast; ring
    rw [e] at h1
    exact h1

theorem forDown_inv {σ : Type} (P : Int → σ → Prop) (f : Int → σ → σ) (hi lo : Int) (s : σ)
    (hlohi : lo ≤ hi + 1) (h0 : P hi s)
    (hstep : ∀ i a, lo ≤ i → i ≤ hi → P i a → P (i - 1) (f i a)) :
    P (lo - 1) (forDown hi lo f s) := by
  have h := iterDown_inv P f (hi + 1 - lo).toNat hi s h0
    (fun i a h1 h2 hr => hstep i a (by omega) h1 hr)
  have e : hi - ((hi + 1 - lo).toNat : Int) = lo - 1 := by omega
  rw [e] at h
  exact h

theorem lu_mul_right (m n : Int) (e E : Arr2) (z : Int → Int → ℚ) (hm : 1 ≤ m)
    (hU : ∀ r, 1 ≤ r → r ≤ n → ∀ a, 0 ≤ a → a ≤ min m (n - r) → E a r = uval m e E a r)
    (hL : ∀ r, 1 ≤ r → r ≤ n → ∀ l, 1 ≤ l → l ≤ min m (n - r) →
      E (-l) (r + l) * E 0 r = lnum m e E l r)
    (r j : Int) (hr1 : 1 ≤ r) (hr2 : r ≤ n) :
    ∑ t ∈ Finset.Icc 1 n, lowerEntry m E r t *
        ∑ s ∈ Finset.Icc 1 n, upperEntry m n E t s * z s j =
      ∑ s ∈ Finset.Icc 1 n, bandEntry m e r s * z s j := by
  simp only [Finset.mul_sum]
  rw [Finset.sum_comm]
  apply Finset.sum_congr rfl
  intro s hs
  simp only [Finset.mem_Icc] at hs
  have h := lu_entry m n e E hm hU hL r s hr1 hr2 hs.1 hs.2
  simp only [bandEntry]
  rw [← h, Finset.sum_mul]
  apply Finset.sum_congr rfl
  intro t _
  ring

theorem lu_mul_left (m n : Int) (e E : Arr2) (z : Int → Int → ℚ) (hm : 1 ≤ m)
    (hU : ∀ r, 1 ≤ r → r ≤ n → ∀ a, 0 ≤ a → a ≤ min m (n - r) → E a r = uval m e E a r)
    (hL : ∀ r, 1 ≤ r → r ≤ n → ∀ l, 1 ≤ l → l ≤ min m (n - r) →
      E (-l) (r + l) * E 0 r = lnum m e E l r)
    (i j : Int) (hj1 : 1 ≤ j) (hj2 : j ≤ n) :
    ∑ s ∈ Finset.Icc 1 n, (∑ t ∈ Finset.Icc 1 n, z i t * lowerEntry m E t s) *
        upperEntry m n E s j =
      ∑ t ∈ Finset.Icc 1 n, z i t * bandEntry m e t j := by
  simp only [Finset.sum_mul]
  rw [Finset.sum_comm]
  apply Finset.sum_congr rfl
  intro t ht
  simp only [Finset.mem_Icc] at ht
  have h := lu_entry m n e E hm hU hL t j ht.1 ht.2 hj1 hj2
  simp only [bandEntry]
  rw [← h, Finset.mul_sum]
  apply Finset.sum_congr rfl
  intro s _
  ring

/-- Rows of `U Z`: with `E = L U` and `E Z = I`, the product `U Z` is `L⁻¹`,
which is zero right of the diagonal and one on it. -/
theorem upper_times_inverse (m n : Int) (e E : Arr2) (z : Int → Int → ℚ) (hm : 1 ≤ m)
    (hU : ∀ r, 1 ≤ r → r ≤ n → ∀ a, 0 ≤ a → a ≤ min m (n - r) → E a r = uval m e E a r)
    (hL : ∀ r, 1 ≤ r → r ≤ n → ∀ l, 1 ≤ l → l ≤ min m (n - r) →
      E (-l) (r + l) * E 0 r = lnum m e E l r)
    (hz : IsInverse m n e z) :
    ∀ (b : Nat) (r j : Int), 1 ≤ r → r ≤ (b : Int) → r ≤ j → j ≤ n →
      ∑ s ∈ Finset.Icc 1 n, upperEntry m n E r s * z s j = if r = j then 1 else 0 := by
  intro b
  induction b with
  | zero => intro r j h1 h2; simp at h2; omega
  | succ b ih =>
    intro r j h1 h2 h3 h4
    by_cases hb : r ≤ (b : Int)
    · exact ih r j h1 hb h3 h4
    · have hrb : r = (b : Int) + 1 := by push_cast at h2; omega
      have h5 := lu_mul_right m n e E z hm hU hL r j h1 (by omega)
      rw [hz.1 r j h1 (by omega) (by omega) h4] at h5
      rw [← h5]
      symm
      rw [Finset.sum_eq_single r]
      · simp [lowerEntry]
      · intro t ht htr
        simp only [Finset.mem_Icc] at ht
        by_cases hlt : t < r
        · rw [ih t j ht.1 (by omega) (by omega) h4, if_neg (by omega), mul_zero]
        · have : lowerEntry m E r t = 0 := by
            simp only [lowerEntry]
            rw [if_neg htr, if_neg (by omega)]
          rw [this, zero_mul]
      · intro hr
        simp only [Finset.mem_Icc] at hr
        omega

/-- Columns of `Z L`: with `E = L U` and `Z E = I`, the product `Z L` is
`U⁻¹`, which is zero below the diagonal and the inverse pivot on it. -/
theorem inverse_times_lower (m n : Int) (e E : Arr2) (z : Int → Int → ℚ) (hm : 1 ≤ m)
    (hU : ∀ r, 1 ≤ r → r ≤ n → ∀ a, 0 ≤ a → a ≤ min m (n - r) → E a r = uval m e E a r)
    (hL : ∀ r, 1 ≤ r → r ≤ n → ∀ l, 1 ≤ l → l ≤ min m (n - r) →
      E (-l) (r + l) * E 0 r = lnum m e E l r)
    (hpiv : ∀ r, 1 ≤ r → r ≤ n → E 0 r ≠ 0)
    (hz : IsInverse m n e z) :
    ∀ (b : Nat) (i s : Int), 1 ≤ s → s ≤ (b : Int) → s ≤ i → i ≤ n →
      ∑ t ∈ Finset.Icc 1 n, z i t * lowerEntry m E t s = (if i = s then 1 else 0) / E 0 s := by
  intro b
  induction b with
  | zero => intro i s h1 h2; simp at h2; omega
  | succ b ih =>
    intro i s h1 h2 h3 h4
    by_cases hb : s ≤ (b : Int)
    · exact ih i s h1 hb h3 h4
    · have hsb : s = (b : Int) + 1 := by push_cast at h2; omega
      have h5 := lu_mul_left m n e E z hm hU hL i s h1 (by omega)
      rw [hz.2 i s (by omega) h4 h1 (by omega)] at h5
      rw [eq_div_iff (hpiv s h1 (by omega)), ← h5]
      symm
      rw [Finset.sum_eq_single s]
      · have hu : upperEntry m n E s s = E 0 s := by
          simp only [upperEntry]
          rw [if_pos (by omega), sub_self]
        rw [hu]
      · intro t ht hts
        simp only [Finset.mem_Icc] at ht
        by_cases hlt : t < s
        · rw [ih i t ht.1 (by omega) (by omega) h4, if_neg (by omega), zero_div, zero_mul]
        · have : upperEntry m n E t s = 0 := by
            simp only [upperEntry]
            rw [if_neg (by omega)]
          rw [this, mul_zero]
      · intro hr
        simp only [Finset.mem_Icc] at hr
        omega

theorem upper_sum (m n : Int) (E : Arr2) (c : Int → ℚ) (t : Int) (ht1 : 1 ≤ t)
    (ht2 : t ≤ n) (hm : 1 ≤ m) :
    ∑ s ∈ Finset.Icc 1 n, upperEntry m n E t s * c s =
      E 0 t * c t + ∑ l ∈ Finset.Icc 1 (min m (n - t)), E l t * c (t + l) := by
  have hpt : ∀ s ∈ Finset.Icc 1 n, upperEntry m n E t s * c s =
      (if s = t then (fun s => E 0 t * c s) s else 0) +
        (if t + 1 ≤ s ∧ s ≤ t + min m (n - t) then
          (fun k => E k t * c (t + k)) (s - t) else 0) := by
    intro s hs
    simp only [Finset.mem_Icc] at hs
    simp only [upperEntry]
    by_cases c1 : s = t
    · subst c1
      rw [if_pos (by omega), if_pos rfl, if_neg (by omega)]
      simp
    · rw [if_neg c1]
      by_cases c2 : t ≤ s ∧ s - t ≤ m ∧ s ≤ n
      · rw [if_pos c2, if_pos (by omega)]
        have e2 : t + (s - t) = s := by ring
        simp only [e2, zero_add]
      · rw [if_neg c2, if_neg (by omega)]; simp
  rw [Finset.sum_congr rfl hpt, Finset.sum_add_distrib,
    sum_Icc_single (fun s => E 0 t * c s) n t ht1 ht2,
    sum_Icc_window_add (fun k => E k t * c (t + k)) 1 (min m (n - t)) n t (by omega)]

theorem lower_col_sum (m n : Int) (E : Arr2) (c : Int → ℚ) (s : Int) (hs1 : 1 ≤ s)
    (hs2 : s ≤ n) (hm : 1 ≤ m) :
    ∑ t ∈ Finset.Icc 1 n, c t * lowerEntry m E t s =
      c s + ∑ l ∈ Finset.Icc 1 (min m (n - s)), c (s + l) * E (-l) (s + l) := by
  have hpt : ∀ t ∈ Finset.Icc 1 n, c t * lowerEntry m E t s =
      (if t = s then c t else 0) +
        (if s + 1 ≤ t ∧ t ≤ s + min m (n - s) then
          (fun k => c (s + k) * E (-k) (s + k)) (t - s) else 0) := by
    intro t ht
    simp only [Finset.mem_Icc] at ht
    simp only [lowerEntry]
    by_cases c1 : t = s
    · subst c1
      rw [if_pos rfl, if_pos rfl, if_neg (by omega)]
      simp
    · rw [if_neg (fun h => c1 h.symm), if_neg c1]
      by_cases c2 : 1 ≤ s ∧ s < t ∧ t - s ≤ m
      · rw [if_pos c2, if_pos (by omega)]
        have e1 : -(t - s) = s - t := by ring
        have e2 : s + (t - s) = t := by ring
        simp only [e1, e2, zero_add]
      · rw [if_neg c2, if_neg (by omega)]; simp
  rw [Finset.sum_congr rfl hpt, Finset.sum_add_distrib, sum_Icc_single c n s hs1 hs2,
    sum_Icc_window_add (fun k => c (s + k) * E (-k) (s + k)) 1 (min m (n - s)) n s (by omega)]

/-- The equations that determine the inverse from the factors, row form:
`d_i z[i,j] + Σ_k U[i,i+k] z[i+k,j] = δ_ij` for `j ≥ i`. -/
theorem inverse_row_eq (m n : Int) (e E : Arr2) (z : Int → Int → ℚ) (hm : 1 ≤ m)
    (hU : ∀ r, 1 ≤ r → r ≤ n → ∀ a, 0 ≤ a → a ≤ min m (n - r) → E a r = uval m e E a r)
    (hL : ∀ r, 1 ≤ r → r ≤ n → ∀ l, 1 ≤ l → l ≤ min m (n - r) →
      E (-l) (r + l) * E 0 r = lnum m e E l r)
    (hz : IsInverse m n e z) (i j : Int) (hi1 : 1 ≤ i) (hij : i ≤ j) (hj : j ≤ n) :
    E 0 i * z i j + ∑ k ∈ Finset.Icc 1 (min m (n - i)), E k i * z (i + k) j =
      if i = j then 1 else 0 := by
  rw [← upper_sum m n E (fun s => z s j) i hi1 (by omega) hm]
  exact upper_times_inverse m n e E z hm hU hL hz i.toNat i j hi1 (by omega) hij hj

/-- The equations that determine the inverse from the factors, column form:
`z[i,s] + Σ_k z[i,s+k] L[s+k,s] = δ_is / d_s` for `i ≥ s`. -/
theorem inverse_col_eq (m n : Int) (e E : Arr2) (z : Int → Int → ℚ) (hm : 1 ≤ m)
    (hU : ∀ r, 1 ≤ r → r ≤ n → ∀ a, 0 ≤ a → a ≤ min m (n - r) → E a r = uval m e E a r)
    (hL : ∀ r, 1 ≤ r → r ≤ n → ∀ l, 1 ≤ l → l ≤ min m (n - r) →
      E (-l) (r + l) * E 0 r = lnum m e E l r)
    (hpiv : ∀ r, 1 ≤ r → r ≤ n → E 0 r ≠ 0)
    (hz : IsInverse m n e z) (i s : Int) (hs1 : 1 ≤ s) (hsi : s ≤ i) (hi : i ≤ n) :
    z i s + ∑ k ∈ Finset.Icc 1 (min m (n - s)), z i (s + k) * E (-k) (s + k) =
      (if i = s then 1 else 0) / E 0 s := by
  rw [← lower_col_sum m n E (fun t => z i t) s hs1 (by omega) hm]
  exact inverse_times_lower m n e E z hm hU hL hpiv hz s.toNat i s hs1 (by omega) hsi hi

theorem trinv_scratch (m n i : Int) (e : Arr2) (dd0 : ℚ) (hm : 1 ≤ m) (hi1 : 1 ≤ i)
    (hin : i + 1 ≤ n) (a r : Int) :
    forUp 1 (min m (n - i)) (fun k e =>
        set2 (set2 e k n (e k i * dd0)) (-k) 1 (set2 e k n (e k i * dd0) (-k) (k + i))) e a r =
      if r = n ∧ 1 ≤ a ∧ a ≤ min m (n - i) then e a i * dd0
      else if r = 1 ∧ -min m (n - i) ≤ a ∧ a ≤ -1 then e a (-a + i) else e a r := by
  have h := forUp_inv
    (fun k (x : Arr2) => ∀ a r, x a r =
      if r = n ∧ 1 ≤ a ∧ a < k then e a i * dd0
      else if r = 1 ∧ -k < a ∧ a ≤ -1 then e a (-a + i) else e a r)
    (fun k e =>
      set2 (set2 e k n (e k i * dd0)) (-k) 1 (set2 e k n (e k i * dd0) (-k) (k + i)))
    1 (min m (n - i)) e (by omega)
    (by
      intro a r
      rw [if_neg (by omega), if_neg (by omega)])
    (by
      intro k x hk1 hk2 hP a r
      have hx1 : x k i = e k i := by
        rw [hP k i, if_neg (by omega), if_neg (by omega)]
      have hx2 : x (-k) (k + i) = e (-k) (k + i) := by
        rw [hP (-k) (k + i), if_neg (by omega), if_neg (by omega)]
      simp only [set2]
      by_cases c1 : a = -k ∧ r = 1
      · have n1 : ¬ (-k = k ∧ k + i = n) := by omega
        have n2 : ¬ (r = n ∧ 1 ≤ a ∧ a < k + 1) := by omega
        have n3 : r = 1 ∧ -(k + 1) < a ∧ a ≤ -1 := by omega
        rw [if_pos c1, if_neg n1, hx2, if_neg n2, if_pos n3]
        obtain ⟨ca, cr⟩ := c1
        subst ca
        rw [neg_neg]
      · rw [if_neg c1]
        by_cases c2 : a = k ∧ r = n
        · have n1 : r = n ∧ 1 ≤ a ∧ a < k + 1 := by omega
          rw [if_pos c2, if_pos n1, hx1, c2.1]
        · rw [if_neg c2, hP a r]
          by_cases c3 : r = n ∧ 1 ≤ a ∧ a < k
          · have n1 : r = n ∧ 1 ≤ a ∧ a < k + 1 := by omega
            rw [if_pos c3, if_pos n1]
          · have n1 : ¬ (r = n ∧ 1 ≤ a ∧ a < k + 1) := by omega
            rw [if_neg c3, if_neg n1]
            by_cases c4 : r = 1 ∧ -k < a ∧ a ≤ -1
            · have n2 : r = 1 ∧ -(k + 1) < a ∧ a ≤ -1 := by omega
              rw [if_pos c4, if_pos n2]
            · have n2 : ¬ (r = 1 ∧ -(k + 1) < a ∧ a ≤ -1) := by omega
              rw [if_neg c4, if_neg n2])
  have h2 := h a r
  rw [h2]
  by_cases c3 : r = n ∧ 1 ≤ a ∧ a ≤ min m (n - i)
  · have n1 : r = n ∧ 1 ≤ a ∧ a < min m (n - i) + 1 := by omega
    rw [if_pos c3, if_pos n1]
  · have n1 : ¬ (r = n ∧ 1 ≤ a ∧ a < min m (n - i) + 1) := by omega
    rw [if_neg c3, if_neg n1]
    by_cases c4 : r = 1 ∧ -min m (n - i) ≤ a ∧ a ≤ -1
    · have n2 : r = 1 ∧ -(min m (n - i) + 1) < a ∧ a ≤ -1 := by omega
      rw [if_pos c4, if_pos n2]
    · have n2 : ¬ (r = 1 ∧ -(min m (n - i) + 1) < a ∧ a ≤ -1) := by omega
      rw [if_neg c4, if_neg n2]
theorem trinvRow_eq_steps (m n i : Int) (e : Arr2) :
    trinvRow m n i e =
      set2 (forDown (min m (n - i)) 1 (trinvStep m n i)
          (forUp 1 (min m (n - i)) (fun k e' =>
            set2 (set2 e' k n (e' k i * (1 / e 0 i))) (-k) 1
              (set2 e' k n (e' k i * (1 / e 0 i)) (-k) (k + i))) e,
            1 / e 0 i + 1 / e 0 i)).1 0 i
        ((forDown (min m (n - i)) 1 (trinvStep m n i)
          (forUp 1 (min m (n - i)) (fun k e' =>
            set2 (set2 e' k n (e' k i * (1 / e 0 i))) (-k) 1
              (set2 e' k n (e' k i * (1 / e 0 i)) (-k) (k + i))) e,
            1 / e 0 i + 1 / e 0 i)).2 * (1 / 2)) := rfl

theorem sum_Icc_pop_left (f : Int → ℚ) (lo hi : Int) (h : lo ≤ hi) :
    ∑ k ∈ Finset.Icc lo hi, f k = f lo + ∑ k ∈ Finset.Icc (lo + 1) hi, f k := by
  have h3 : Finset.Icc lo hi = insert lo (Finset.Icc (lo + 1) hi) := by
    ext t; simp only [Finset.mem_Icc, Finset.mem_insert]; omega
  rw [h3, Finset.sum_insert (by simp)]

theorem trinv_jloop (m n i : Int) (ea : Arr2) (dd1 : ℚ) (hm : 1 ≤ m) (hi1 : 1 ≤ i)
    (hin : i + 1 ≤ n) :
    (∀ a r, (forDown (min m (n - i)) 1 (trinvStep m n i) (ea, dd1)).1 a r =
      if r = i ∧ 1 ≤ a ∧ a ≤ min m (n - i) then trinvDu m n i ea a
      else if a ≤ -1 ∧ -min m (n - i) ≤ a ∧ r = i - a then trinvDl m n i ea (-a)
      else ea a r) ∧
    (forDown (min m (n - i)) 1 (trinvStep m n i) (ea, dd1)).2 =
      dd1 - ∑ j ∈ Finset.Icc 1 (min m (n - i)),
        (ea j n * trinvDl m n i ea j + ea (-j) 1 * trinvDu m n i ea j) := by
  have h := forDown_inv
    (fun j (s : Arr2 × ℚ) =>
      (∀ a r, s.1 a r =
        if r = i ∧ j < a ∧ a ≤ min m (n - i) then trinvDu m n i ea a
        else if a ≤ -1 ∧ j < -a ∧ -min m (n - i) ≤ a ∧ r = i - a then trinvDl m n i ea (-a)
        else ea a r) ∧
      s.2 = dd1 - ∑ j' ∈ Finset.Icc (j + 1) (min m (n - i)),
        (ea j' n * trinvDl m n i ea j' + ea (-j') 1 * trinvDu m n i ea j'))
    (trinvStep m n i) (min m (n - i)) 1 (ea, dd1) (by omega)
    (by
      constructor
      · intro a r
        have n1 : ¬ (r = i ∧ min m (n - i) < a ∧ a ≤ min m (n - i)) := by omega
        have n2 : ¬ (a ≤ -1 ∧ min m (n - i) < -a ∧ -min m (n - i) ≤ a ∧ r = i - a) := by
          omega
        rw [if_neg n1, if_neg n2]
      · rw [Finset.Icc_eq_empty (by omega)]
        simp)
    (by
      intro j s hj1 hj2 ⟨hP, hS⟩
      have r1 : ∀ k, 1 ≤ k → k ≤ min m (n - i) → s.1 k n = ea k n := by
        intro k hk1 hk2
        have n1 : ¬ (n = i ∧ j < k ∧ k ≤ min m (n - i)) := by omega
        have n2 : ¬ (k ≤ -1 ∧ j < -k ∧ -min m (n - i) ≤ k ∧ n = i - k) := by omega
        rw [hP k n, if_neg n1, if_neg n2]
      have r2 : ∀ k, 1 ≤ k → k ≤ min m (n - i) → s.1 (j - k) (i + k) = ea (j - k) (i + k) := by
        intro k hk1 hk2
        have n1 : ¬ (i + k = i ∧ j < j - k ∧ j - k ≤ min m (n - i)) := by omega
        have n2 : ¬ (j - k ≤ -1 ∧ j < -(j - k) ∧ -min m (n - i) ≤ j - k ∧
            i + k = i - (j - k)) := by omega
        rw [hP (j - k) (i + k), if_neg n1, if_neg n2]
      have r3 : ∀ k, 1 ≤ k → k ≤ min m (n - i) → s.1 (-k) 1 = ea (-k) 1 := by
        intro k hk1 hk2
        have n1 : ¬ (1 = i ∧ j < -k ∧ -k ≤ min m (n - i)) := by omega
        have n2 : ¬ (-k ≤ -1 ∧ j < - -k ∧ -min m (n - i) ≤ -k ∧ 1 = i - -k) := by omega
        rw [hP (-k) 1, if_neg n1, if_neg n2]
      have r4 : ∀ k, 1 ≤ k → k ≤ min m (n - i) → s.1 (k - j) (i + j) = ea (k - j) (i + j) := by
        intro k hk1 hk2
        have n1 : ¬ (i + j = i ∧ j < k - j ∧ k - j ≤ min m (n - i)) := by omega
        have n2 : ¬ (k - j ≤ -1 ∧ j < -(k - j) ∧ -min m (n - i) ≤ k - j ∧
            i + j = i - (k - j)) := by omega
        rw [hP (k - j) (i + j), if_neg n1, if_neg n2]
      have hT : forUp 1 (min m (n - i)) (fun k (t : ℚ × ℚ) =>
          (t.1 - s.1 k n * s.1 (j - k) (i + k),
           t.2 - s.1 (-k) 1 * s.1 (k - j) (i + j))) (0, 0) =
          (trinvDu m n i ea j, trinvDl m n i ea j) := by
        rw [forUp_pair_sub_sum (fun k => s.1 k n * s.1 (j - k) (i + k))
          (fun k => s.1 (-k) 1 * s.1 (k - j) (i + j)) 1 _ (min m (n - i)) 0 0 rfl]
        simp only [trinvDu, trinvDl]
        congr 2
        · apply Finset.sum_congr rfl
          intro k hk
          simp only [Finset.mem_Icc] at hk
          rw [r1 k hk.1 hk.2, r2 k hk.1 hk.2]
        · apply Finset.sum_congr rfl
          intro k hk
          simp only [Finset.mem_Icc] at hk
          rw [r3 k hk.1 hk.2, r4 k hk.1 hk.2]
      simp only [trinvStep, hT]
      constructor
      · intro a r
        simp only [set2]
        by_cases c1 : a = -j ∧ r = j + i
        · have n1 : ¬ (r = i ∧ j - 1 < a ∧ a ≤ min m (n - i)) := by omega
          have n2 : a ≤ -1 ∧ j - 1 < -a ∧ -min m (n - i) ≤ a ∧ r = i - a := by omega
          rw [if_pos c1, if_neg n1, if_pos n2, c1.1, neg_neg]
        · rw [if_neg c1]
          by_cases c2 : a = j ∧ r = i
          · have n1 : r = i ∧ j - 1 < a ∧ a ≤ min m (n - i) := by omega
            rw [if_pos c2, if_pos n1, c2.1]
          · rw [if_neg c2, hP a r]
            by_cases c3 : r = i ∧ j < a ∧ a ≤ min m (n - i)
            · have n1 : r = i ∧ j - 1 < a ∧ a ≤ min m (n - i) := by omega
              rw [if_pos c3, if_pos n1]
            · have n1 : ¬ (r = i ∧ j - 1 < a ∧ a ≤ min m (n - i)) := by omega
              rw [if_neg c3, if_neg n1]
              by_cases c4 : a ≤ -1 ∧ j < -a ∧ -min m (n - i) ≤ a ∧ r = i - a
              · have n2 : a ≤ -1 ∧ j - 1 < -a ∧ -min m (n - i) ≤ a ∧ r = i - a := by omega
                rw [if_pos c4, if_pos n2]
              · have n2 : ¬ (a ≤ -1 ∧ j - 1 < -a ∧ -min m (n - i) ≤ a ∧ r = i - a) := by
                  omega
                rw [if_neg c4, if_neg n2]
      · have e1 : set2 (set2 s.1 j i (trinvDu m n i ea j)) (-j) (j + i)
            (trinvDl m n i ea j) j n = ea j n := by
          rw [set2_other _ _ _ _ (by omega), set2_other _ _ _ _ (by omega), r1 j hj1 hj2]
        have e2 : set2 (set2 s.1 j i (trinvDu m n i ea j)) (-j) (j + i)
            (trinvDl m n i ea j) (-j) 1 = ea (-j) 1 := by
          rw [set2_other _ _ _ _ (by omega), set2_other _ _ _ _ (by omega), r3 j hj1 hj2]
        rw [e1, e2, hS]
        have e3 : j - 1 + 1 = j := by ring
        rw [e3, sum_Icc_pop_left _ j (min m (n - i)) hj2]
        ring)
  obtain ⟨hP, hS⟩ := h
  constructor
  · intro a r
    rw [hP a r]
    by_cases c3 : r = i ∧ 1 ≤ a ∧ a ≤ min m (n - i)
    · have n1 : r = i ∧ 1 - 1 < a ∧ a ≤ min m (n - i) := by omega
      rw [if_pos c3, if_pos n1]
    · have n1 : ¬ (r = i ∧ 1 - 1 < a ∧ a ≤ min m (n - i)) := by omega
      rw [if_neg c3, if_neg n1]
      by_cases c4 : a ≤ -1 ∧ -min m (n - i) ≤ a ∧ r = i - a
      · have n2 : a ≤ -1 ∧ 1 - 1 < -a ∧ -min m (n - i) ≤ a ∧ r = i - a := by omega
        rw [if_pos c4, if_pos n2]
      · have n2 : ¬ (a ≤ -1 ∧ 1 - 1 < -a ∧ -min m (n - i) ≤ a ∧ r = i - a) := by omega
        rw [if_neg c4, if_neg n2]
  · rw [hS]
    have e3 : (1 : Int) - 1 + 1 = 1 := by ring
    rw [e3]

theorem trinvRow_eq (m n i : Int) (e : Arr2) :
    trinvRow m n i e =
      set2 (forDown (min m (n - i)) 1 (trinvStep m n i)
          (trinvScratch m n i e, 1 / e 0 i + 1 / e 0 i)).1 0 i
        ((forDown (min m (n - i)) 1 (trinvStep m n i)
          (trinvScratch m n i e, 1 / e 0 i + 1 / e 0 i)).2 * (1 / 2)) := rfl

theorem trinvScratch_spec (m n i : Int) (e : Arr2) (hm : 1 ≤ m) (hi1 : 1 ≤ i)
    (hin : i + 1 ≤ n) (a r : Int) :
    trinvScratch m n i e a r =
      if r = n ∧ 1 ≤ a ∧ a ≤ min m (n - i) then e a i * (1 / e 0 i)
      else if r = 1 ∧ -min m (n - i) ≤ a ∧ a ≤ -1 then e a (-a + i) else e a r :=
  trinv_scratch m n i e (1 / e 0 i) hm hi1 hin a r

/-- Row step `i` of `trinv`, cell by cell. -/
theorem trinvRow_cells (m n i : Int) (e : Arr2) (hm : 1 ≤ m) (hi1 : 1 ≤ i)
    (hin : i + 1 ≤ n) (a r : Int) :
    trinvRow m n i e a r =
      if a = 0 ∧ r = i then
        (1 / e 0 i + 1 / e 0 i - ∑ j ∈ Finset.Icc 1 (min m (n - i)),
          (trinvScratch m n i e j n * trinvDl m n i (trinvScratch m n i e) j +
            trinvScratch m n i e (-j) 1 * trinvDu m n i (trinvScratch m n i e) j)) * (1 / 2)
      else if r = i ∧ 1 ≤ a ∧ a ≤ min m (n - i) then trinvDu m n i (trinvScratch m n i e) a
      else if a ≤ -1 ∧ -min m (n - i) ≤ a ∧ r = i - a then
        trinvDl m n i (trinvScratch m n i e) (-a)
      else trinvScratch m n i e a r := by
  obtain ⟨h1, h2⟩ := trinv_jloop m n i (trinvScratch m n i e) (1 / e 0 i + 1 / e 0 i) hm hi1 hin
  rw [trinvRow_eq]
  simp only [set2]
  by_cases c : a = 0 ∧ r = i
  · rw [if_pos c, if_pos c, h2]
  · rw [if_neg c, if_neg c, h1 a r]

theorem trinvRow_inv (m n i : Int) (E e : Arr2) (z : Int → Int → ℚ) (hm : 1 ≤ m)
    (hi1 : 1 ≤ i) (hin : i + 1 ≤ n) (hpiv : E 0 i ≠ 0)
    (hrow : ∀ j, i ≤ j → j ≤ n →
      E 0 i * z i j + ∑ k ∈ Finset.Icc 1 (min m (n - i)), E k i * z (i + k) j =
        if i = j then 1 else 0)
    (hcol : ∀ r, i ≤ r → r ≤ n →
      z r i + ∑ k ∈ Finset.Icc 1 (min m (n - i)), z r (i + k) * E (-k) (i + k) =
        (if r = i then 1 else 0) / E 0 i)
    (h : trinvInv m n E z (i + 1) e) : trinvInv m n E z i (trinvRow m n i e) := by
  obtain ⟨hZ, hF⟩ := h
  have he0 : e 0 i = E 0 i := hF 0 i hi1 (by omega) (by omega) (by omega) (by omega)
    (by omega) (by omega)
  -- the scratch array
  have s5 : ∀ a r, 1 ≤ r → r ≤ n → 1 ≤ r + a → r + a ≤ n →
      trinvScratch m n i e a r = e a r := by
    intro a r h1 h2 h3 h4
    have n1 : ¬ (r = n ∧ 1 ≤ a ∧ a ≤ min m (n - i)) := by omega
    have n2 : ¬ (r = 1 ∧ -min m (n - i) ≤ a ∧ a ≤ -1) := by omega
    rw [trinvScratch_spec m n i e hm hi1 hin, if_neg n1, if_neg n2]
  have s1 : ∀ k, 1 ≤ k → k ≤ min m (n - i) →
      trinvScratch m n i e k n = E k i * (1 / E 0 i) := by
    intro k h1 h2
    have n1 : n = n ∧ 1 ≤ k ∧ k ≤ min m (n - i) := ⟨rfl, h1, h2⟩
    rw [trinvScratch_spec m n i e hm hi1 hin, if_pos n1, he0,
      hF k i hi1 (by omega) (by omega) (by omega) (by omega) (by omega) (by omega)]
  have s2 : ∀ k, 1 ≤ k → k ≤ min m (n - i) →
      trinvScratch m n i e (-k) 1 = E (-k) (i + k) := by
    intro k h1 h2
    have n1 : ¬ ((1 : Int) = n ∧ 1 ≤ -k ∧ -k ≤ min m (n - i)) := by omega
    have n2 : (1 : Int) = 1 ∧ -min m (n - i) ≤ -k ∧ -k ≤ -1 := by omega
    rw [trinvScratch_spec m n i e hm hi1 hin, if_neg n1, if_pos n2, neg_neg, add_comm k i,
      hF (-k) (i + k) (by omega) (by omega) (by omega) (by omega) (by omega) (by omega)
        (by omega)]
  have s3 : ∀ r c, i + 1 ≤ r → r ≤ n → i + 1 ≤ c → c ≤ n → c - r ≤ m → r - c ≤ m →
      trinvScratch m n i e (c - r) r = z r c := by
    intro r c h1 h2 h3 h4 h5 h6
    rw [s5 (c - r) r (by omega) h2 (by omega) (by omega), hZ r c h1 h2 h3 h4 h5 h6]
  -- the new entries
  have hDu : ∀ j, 1 ≤ j → j ≤ min m (n - i) →
      trinvDu m n i (trinvScratch m n i e) j = z i (i + j) := by
    intro j h1 h2
    have hr := hrow (i + j) (by omega) (by omega)
    rw [if_neg (by omega)] at hr
    simp only [trinvDu]
    have hs : ∑ k ∈ Finset.Icc 1 (min m (n - i)),
        trinvScratch m n i e k n * trinvScratch m n i e (j - k) (i + k) =
        (1 / E 0 i) * ∑ k ∈ Finset.Icc 1 (min m (n - i)), E k i * z (i + k) (i + j) := by
      rw [Finset.mul_sum]
      apply Finset.sum_congr rfl
      intro k hk
      simp only [Finset.mem_Icc] at hk
      have e1 : j - k = (i + j) - (i + k) := by ring
      rw [s1 k hk.1 hk.2, e1, s3 (i + k) (i + j) (by omega) (by omega) (by omega) (by omega)
        (by omega) (by omega)]
      ring
    rw [hs]
    have : ∑ k ∈ Finset.Icc 1 (min m (n - i)), E k i * z (i + k) (i + j) =
        -(E 0 i * z i (i + j)) := by linarith
    rw [this]
    field_simp
  have hDl : ∀ j, 1 ≤ j → j ≤ min m (n - i) →
      trinvDl m n i (trinvScratch m n i e) j = z (i + j) i := by
    intro j h1 h2
    have hc := hcol (i + j) (by omega) (by omega)
    rw [if_neg (by omega), zero_div] at hc
    simp only [trinvDl]
    have hs : ∑ k ∈ Finset.Icc 1 (min m (n - i)),
        trinvScratch m n i e (-k) 1 * trinvScratch m n i e (k - j) (i + j) =
        ∑ k ∈ Finset.Icc 1 (min m (n - i)), z (i + j) (i + k) * E (-k) (i + k) := by
      apply Finset.sum_congr rfl
      intro k hk
      simp only [Finset.mem_Icc] at hk
      have e1 : k - j = (i + k) - (i + j) := by ring
      rw [s2 k hk.1 hk.2, e1, s3 (i + j) (i + k) (by omega) (by omega) (by omega) (by omega)
        (by omega) (by omega)]
      ring
    rw [hs]
    linarith
  have hD : (1 / e 0 i + 1 / e 0 i - ∑ j ∈ Finset.Icc 1 (min m (n - i)),
      (trinvScratch m n i e j n * trinvDl m n i (trinvScratch m n i e) j +
        trinvScratch m n i e (-j) 1 * trinvDu m n i (trinvScratch m n i e) j)) * (1 / 2) =
      z i i := by
    have hr := hrow i le_rfl (by omega)
    have hc := hcol i le_rfl (by omega)
    rw [if_pos rfl] at hr hc
    have hs : ∑ j ∈ Finset.Icc 1 (min m (n - i)),
        (trinvScratch m n i e j n * trinvDl m n i (trinvScratch m n i e) j +
          trinvScratch m n i e (-j) 1 * trinvDu m n i (trinvScratch m n i e) j) =
        (1 / E 0 i) * ∑ k ∈ Finset.Icc 1 (min m (n - i)), E k i * z (i + k) i +
          ∑ k ∈ Finset.Icc 1 (min m (n - i)), z i (i + k) * E (-k) (i + k) := by
      rw [Finset.mul_sum, ← Finset.sum_add_distrib]
      apply Finset.sum_congr rfl
      intro k hk
      simp only [Finset.mem_Icc] at hk
      rw [s1 k hk.1 hk.2, s2 k hk.1 hk.2, hDl k hk.1 hk.2, hDu k hk.1 hk.2]
      ring
    rw [hs, he0]
    have h1 : ∑ k ∈ Finset.Icc 1 (min m (n - i)), E k i * z (i + k) i =
        1 - E 0 i * z i i := by linarith
    have h2 : ∑ k ∈ Finset.Icc 1 (min m (n - i)), z i (i + k) * E (-k) (i + k) =
        1 / E 0 i - z i i := by linarith
    rw [h1, h2]
    field_simp
    ring
  constructor
  · intro r c h1 h2 h3 h4 h5 h6
    rw [trinvRow_cells m n i e hm hi1 hin]
    by_cases c0 : c - r = 0 ∧ r = i
    · rw [if_pos c0, hD]
      have : c = i := by omega
      rw [c0.2, this]
    · rw [if_neg c0]
      by_cases c1 : r = i ∧ 1 ≤ c - r ∧ c - r ≤ min m (n - i)
      · rw [if_pos c1, hDu (c - r) c1.2.1 c1.2.2, c1.1]
        congr 1
        omega
      · rw [if_neg c1]
        by_cases c2 : c - r ≤ -1 ∧ -min m (n - i) ≤ c - r ∧ r = i - (c - r)
        · rw [if_pos c2, hDl (-(c - r)) (by omega) (by omega)]
          have e1 : i + -(c - r) = r := by omega
          have e2 : c = i := by omega
          rw [e1, e2]
        · rw [if_neg c2]
          exact s3 r c (by omega) h2 (by omega) h4 h5 h6
  · intro a r h1 h2 h3 h4 h5 h6 h7
    have n0 : ¬ (a = 0 ∧ r = i) := by omega
    have n1 : ¬ (r = i ∧ 1 ≤ a ∧ a ≤ min m (n - i)) := by omega
    have n2 : ¬ (a ≤ -1 ∧ -min m (n - i) ≤ a ∧ r = i - a) := by omega
    rw [trinvRow_cells m n i e hm hi1 hin, if_neg n0, if_neg n1, if_neg n2,
      s5 a r h1 h2 h3 h4]
    exact hF a r h1 h2 h3 h4 h5 h6 (by omega)

theorem trinvBands_inv (m n : Int) (e E : Arr2) (z : Int → Int → ℚ) (hm : 1 ≤ m)
    (hn : 1 ≤ n)
    (hU : ∀ r, 1 ≤ r → r ≤ n → ∀ a, 0 ≤ a → a ≤ min m (n - r) → E a r = uval m e E a r)
    (hL : ∀ r, 1 ≤ r → r ≤ n → ∀ l, 1 ≤ l → l ≤ min m (n - r) →
      E (-l) (r + l) * E 0 r = lnum m e E l r)
    (hpiv : ∀ r, 1 ≤ r → r ≤ n → E 0 r ≠ 0)
    (hz : IsInverse m n e z) :
    trinvInv m n E z 1 (trinvBands E m n) := by
  have h := forDown_inv (fun i a => trinvInv m n E z (i + 1) a) (trinvRow m n) (n - 1) 1
    (set2 E 0 n (1 / E 0 n)) (by omega)
    (by
      have e1 : n - 1 + 1 = n := by ring
      dsimp only
      rw [e1]
      constructor
      · intro r c h1 h2 h3 h4 _ _
        have hr : r = n := by omega
        have hc : c = n := by omega
        rw [hr, hc, sub_self, set2_same]
        have h5 := inverse_row_eq m n e E z hm hU hL hz n n hn le_rfl le_rfl
        rw [if_pos rfl, Finset.Icc_eq_empty (by omega), Finset.sum_empty, add_zero] at h5
        rw [eq_comm, eq_div_iff (hpiv n hn le_rfl)]
        linarith
      · intro a r h1 h2 h3 h4 _ _ h7
        rw [set2_other _ _ _ _ (by omega)])
    (by
      intro i a h1 h2 hP
      have e1 : i - 1 + 1 = i := by ring
      show trinvInv m n E z (i - 1 + 1) (trinvRow m n i a)
      have hP' : trinvInv m n E z (i + 1) a := hP
      rw [e1]
      exact trinvRow_inv m n i E a z hm h1 (by omega) (hpiv i h1 (by omega))
        (fun j hj1 hj2 => inverse_row_eq m n e E z hm hU hL hz i j h1 hj1 hj2)
        (fun r hr1 hr2 => inverse_col_eq m n e E z hm hU hL hpiv hz r i h1 hr1 hr2) hP')
  have e2 : (1 : Int) - 1 + 1 = 1 := by ring
  simp only [e2] at h
  exact h

theorem forUp_add_sum (f : Int → ℚ) (lo hi : Int) (a : ℚ) :
    forUp lo hi (fun k acc => acc + f k) a = a + ∑ k ∈ Finset.Icc lo hi, f k := by
  have h := forUp_sub_sum' (fun k => -f k) lo hi a
  simp only [sub_neg_eq_add, Finset.sum_neg_distrib] at h
  exact h

theorem trinvSum_eq (b e1 : Arr2) (m n : Int) :
    trinvSum b e1 m n =
      ∑ i ∈ Finset.Icc 1 n, ∑ k ∈ Finset.Icc (-min m (i - 1)) (min m (n - i)),
        b k i * e1 (-k) (k + i) := by
  unfold trinvSum
  simp only [forUp_add_sum, zero_add]

/-- The value of `trinv` on the factors of a band matrix with nonzero pivots
is the trace of `b` times the inverse of that matrix. -/
theorem trinv_trace (m n : Int) (b e : Arr2) (z : Int → Int → ℚ) (hm : 1 ≤ m) (hn : 1 ≤ n)
    (hpiv : ∀ i, 1 ≤ i → i ≤ n → bandet e m n 0 i ≠ 0) (hz : IsInverse m n e z) :
    (trinv b (bandet e m n) m n).1 =
      ∑ i ∈ Finset.Icc 1 n, ∑ k ∈ Finset.Icc (-min m (i - 1)) (min m (n - i)),
        b k i * z (i + k) i := by
  obtain ⟨_, hU, hL⟩ := bandet_inv m n e hm (by omega)
  have hL' : ∀ r, 1 ≤ r → r ≤ n → ∀ l, 1 ≤ l → l ≤ min m (n - r) →
      bandet e m n (-l) (r + l) * bandet e m n 0 r = lnum m e (bandet e m n) l r := by
    intro r hr1 hr2 l hl1 hl2
    rw [hL r hr1 hr2 l hl1 hl2, div_mul_cancel₀ _ (hpiv r hr1 hr2)]
  obtain ⟨hZ, _⟩ := trinvBands_inv m n e (bandet e m n) z hm hn hU hL' hpiv hz
  rw [trinv_eq_bands, trinvSum_eq]
  apply Finset.sum_congr rfl
  intro i hi
  apply Finset.sum_congr rfl
  intro k hk
  simp only [Finset.mem_Icc] at hi hk
  have e1 : -k = i - (k + i) := by ring
  rw [e1, hZ (k + i) i (by omega) (by omega) hi.1 hi.2 (by omega) (by omega), add_comm k i]

theorem splc_stat3 (m n k : Int) (y : Arr2) (wx wy : Vec) (mode : Int) (val p eps : ℚ)
    (c : Arr2) (stat : Vec) (b we : Arr2) (el : ℚ) (bwe : Arr2) :
    (splc m n k y wx wy mode val p eps c stat b we el bwe).stat 3 =
      (trinv we (bandet (splcAssemble m n (splcDp p eps el).1 b we bwe) m n) m n).1 *
        (splcDp p eps el).1 := by
  simp only [splc]
  split <;> simp [setV]

theorem isInverse_congr (m n : Int) (e e' : Arr2) (z : Int → Int → ℚ)
    (h : ∀ i s, 1 ≤ i → i ≤ n → 1 ≤ s → s ≤ n → bandEntry m e i s = bandEntry m e' i s)
    (hz : IsInverse m n e z) : IsInverse m n e' z := by
  constructor
  · intro i j hi1 hi2 hj1 hj2
    rw [← hz.1 i j hi1 hi2 hj1 hj2]
    apply Finset.sum_congr rfl
    intro s hs
    simp only [Finset.mem_Icc] at hs
    rw [h i s hi1 hi2 hs.1 hs.2]
  · intro i j hi1 hi2 hj1 hj2
    rw [← hz.2 i j hi1 hi2 hj1 hj2]
    apply Finset.sum_congr rfl
    intro s hs
    simp only [Finset.mem_Icc] at hs
    rw [h s j hs.1 hs.2 hj1 hj2]

theorem bandEntry_assemble (m n : Int) (dp : ℚ) (b we bwe : Arr2) (i s : Int)
    (hi1 : 1 ≤ i) (hi2 : i ≤ n) (hs1 : 1 ≤ s) (hs2 : s ≤ n) :
    bandEntry m (systemMatrix m dp b we) i s =
      bandEntry m (splcAssemble m n dp b we bwe) i s := by
  simp only [bandEntry]
  split
  · rw [splcAssemble_spec m n dp b we bwe (s - i) i hi1 hi2 (by omega) (by omega)]
    rfl
  · rfl

theorem band_row_sum (m n : Int) (e : Arr2) (c : Int → ℚ) (i : Int) (hm : 1 ≤ m)
    (hi1 : 1 ≤ i) (hi2 : i ≤ n) :
    ∑ s ∈ Finset.Icc 1 n, bandEntry m e i s * c s =
      ∑ l ∈ Finset.Icc (-min m (i - 1)) (min m (n - i)), e l i * c (i + l) := by
  rw [← sum_Icc_window_add (fun l => e l i * c (i + l)) (-min m (i - 1)) (min m (n - i)) n i
    (by omega)]
  apply Finset.sum_congr rfl
  intro s hs
  simp only [Finset.mem_Icc] at hs
  simp only [bandEntry]
  by_cases c1 : i - s ≤ m ∧ s - i ≤ m
  · have n1 : i + -min m (i - 1) ≤ s ∧ s ≤ i + min m (n - i) := by omega
    have e1 : i + (s - i) = s := by ring
    rw [if_pos c1, if_pos n1, e1]
  · have n1 : ¬ (i + -min m (i - 1) ≤ s ∧ s ≤ i + min m (n - i)) := by omega
    rw [if_neg c1, if_neg n1, zero_mul]

theorem sum_inner_band (m n i : Int) (f : Int → ℚ) (hm : 1 ≤ m) (hi1 : 1 ≤ i) (hi2 : i ≤ n) :
    ∑ l ∈ Finset.Icc (-min m (i - 1)) (min m (n - i)), (if iabs l = m then 0 else f l) =
      ∑ l ∈ Finset.Icc (-min (m - 1) (i - 1)) (min (m - 1) (n - i)), f l := by
  symm
  have hsub : Finset.Icc (-min (m - 1) (i - 1)) (min (m - 1) (n - i)) ⊆
      Finset.Icc (-min m (i - 1)) (min m (n - i)) := by
    intro l hl
    simp only [Finset.mem_Icc] at hl ⊢
    omega
  rw [← Finset.sum_subset hsub]
  · apply Finset.sum_congr rfl
    intro l hl
    simp only [Finset.mem_Icc] at hl
    have : iabs l ≠ m := by
      simp only [iabs]
      split <;> omega
    rw [if_neg this]
  · intro l hl hl'
    simp only [Finset.mem_Icc] at hl hl'
    have : iabs l = m := by
      simp only [iabs]
      split <;> omega
    rw [if_pos this]

/-- With `Z` the inverse of `B + dp WE`, the traces of `B Z` and `dp WE Z`
add up to `n`. -/
theorem trace_split (m n : Int) (dp : ℚ) (b we : Arr2) (z : Int → Int → ℚ) (hm : 1 ≤ m)
    (hn : 1 ≤ n) (hz : IsInverse m n (systemMatrix m dp b we) z) :
    dp * (∑ i ∈ Finset.Icc 1 n, ∑ k ∈ Finset.Icc (-min m (i - 1)) (min m (n - i)),
        we k i * z (i + k) i) = (n : ℚ) - hatTrace m n b z := by
  have h1 : ∀ i ∈ Finset.Icc 1 n,
      (∑ l ∈ Finset.Icc (-min (m - 1) (i - 1)) (min (m - 1) (n - i)), b l i * z (i + l) i) +
        dp * ∑ k ∈ Finset.Icc (-min m (i - 1)) (min m (n - i)), we k i * z (i + k) i =
      1 := by
    intro i hi
    simp only [Finset.mem_Icc] at hi
    have h2 := hz.1 i i hi.1 hi.2 hi.1 hi.2
    rw [if_pos rfl, band_row_sum m n _ (fun s => z s i) i hm hi.1 hi.2] at h2
    rw [← h2, ← sum_inner_band m n i (fun l => b l i * z (i + l) i) hm hi.1 hi.2,
      Finset.mul_sum, ← Finset.sum_add_distrib]
    apply Finset.sum_congr rfl
    intro l _
    simp only [systemMatrix]
    split <;> ring
  have h3 := Finset.sum_congr rfl h1
  rw [Finset.sum_add_distrib, ← Finset.mul_sum] at h3
  simp only [Finset.sum_const, Int.card_Icc, nsmul_eq_mul, mul_one] at h3
  have e1 : (((n + 1 - 1).toNat : Nat) : ℚ) = (n : ℚ) := by
    have : ((n + 1 - 1).toNat : Int) = n := by omega
    exact_mod_cast this
  rw [e1] at h3
  simp only [hatTrace]
  linarith

theorem twoKnots_isInverse (dp : ℚ) (h : dp = 1) :
    IsInverse 1 2
      (systemMatrix 1 dp (searchWk (twoKnots 1 1 0)).b (searchWk (twoKnots 1 1 0)).we)
      twoKnotsInverse := by
  subst h
  constructor
  · intro i j hi1 hi2 hj1 hj2
    interval_cases i <;> interval_cases j <;> decide!
  · intro i j hi1 hi2 hj1 hj2
    interval_cases i <;> interval_cases j <;> decide!

theorem twoKnots_pivots (dp : ℚ) (h : dp = 1) :
    ∀ i, 1 ≤ i → i ≤ (2 : Int) →
      bandet (splcAssemble 1 2 dp (searchWk (twoKnots 1 1 0)).b
        (searchWk (twoKnots 1 1 0)).we zero2) 1 2 0 i ≠ 0 := by
  subst h
  intro i h1 h2
  interval_cases i <;> decide!

/-- C11, counterexample: on the two knots `0, 1` with unit weights and
`p = 1` (so `dp = 1`, `B = I`, `B + dp WE = [[2, -1], [-1, 2]]`) the call of
`splc` stores `stat[3] = 2/3`, while the trace of the hat operator
`B (B + dp WE)⁻¹` is `4/3`. -/
theorem splc_trace_counterexample :
    (trialAt (twoKnots 1 1 0) 1).stat 3 = 2 / 3 ∧
      (splcDp 1 c_b6 (searchEl (twoKnots 1 1 0))).1 = 1 ∧
      IsInverse 1 2
        (systemMatrix 1 1 (searchWk (twoKnots 1 1 0)).b (searchWk (twoKnots 1 1 0)).we)
        twoKnotsInverse ∧
      hatTrace 1 2 (searchWk (twoKnots 1 1 0)).b twoKnotsInverse = 4 / 3 := by
  refine ⟨by decide!, by decide!, twoKnots_isInverse 1 rfl, by decide!⟩
/-- C11, amended: when the pivots of the factorisation are nonzero and `Z` is
the inverse of `B + dp WE`, the statistic that `splc` stores in `stat[3]` is
`dp` times the trace of `WE Z`, which is `n` minus the trace of the hat
operator `B Z`. -/
theorem splc_trace_statistic (m n k : Int) (y : Arr2) (wx wy : Vec) (mode : Int)
    (val p eps : ℚ) (c : Arr2) (stat : Vec) (b we : Arr2) (el : ℚ) (bwe : Arr2)
    (z : Int → Int → ℚ) (hm : 1 ≤ m) (hn : 1 ≤ n)
    (hpiv : ∀ i, 1 ≤ i → i ≤ n →
      bandet (splcAssemble m n (splcDp p eps el).1 b we bwe) m n 0 i ≠ 0)
    (hz : IsInverse m n (systemMatrix m (splcDp p eps el).1 b we) z) :
    (splc m n k y wx wy mode val p eps c stat b we el bwe).stat 3 =
        (splcDp p eps el).1 *
          ∑ i ∈ Finset.Icc 1 n, ∑ l ∈ Finset.Icc (-min m (i - 1)) (min m (n - i)),
            we l i * z (i + l) i ∧
      (splc m n k y wx wy mode val p eps c stat b we el bwe).stat 3 =
        (n : ℚ) - hatTrace m n b z := by
  have hz' : IsInverse m n (splcAssemble m n (splcDp p eps el).1 b we bwe) z :=
    isInverse_congr m n _ _ z
      (fun i s h1 h2 h3 h4 => bandEntry_assemble m n _ b we bwe i s h1 h2 h3 h4) hz
  have h1 := trinv_trace m n we _ z hm hn hpiv hz'
  have h2 := trace_split m n (splcDp p eps el).1 b we z hm hn hz
  rw [splc_stat3, h1, mul_comm]
  exact ⟨rfl, h2⟩

theorem splc_trace_statistic_witness :
    (1 : Int) ≤ 1 ∧ (1 : Int) ≤ 2 ∧
      (∀ i, 1 ≤ i → i ≤ (2 : Int) →
        bandet (splcAssemble 1 2 (splcDp 1 c_b6 2).1 (searchWk (twoKnots 1 1 0)).b
          (searchWk (twoKnots 1 1 0)).we zero2) 1 2 0 i ≠ 0) ∧
      IsInverse 1 2
        (systemMatrix 1 (splcDp 1 c_b6 2).1 (searchWk (twoKnots 1 1 0)).b
          (searchWk (twoKnots 1 1 0)).we) twoKnotsInverse ∧
      (splc 1 2 1 (fun i _ => vecOf [0, 1] i) (vecOf [1, 1]) (vecOf [1]) 1 0 1 c_b6 zero2
          (fun _ => 0) (searchWk (twoKnots 1 1 0)).b (searchWk (twoKnots 1 1 0)).we 2
          zero2).stat 3 =
        (splcDp 1 c_b6 2).1 *
          ∑ i ∈ Finset.Icc 1 (2 : Int),
            ∑ l ∈ Finset.Icc (-min (1 : Int) (i - 1)) (min 1 (2 - i)),
              (searchWk (twoKnots 1 1 0)).we l i * twoKnotsInverse (i + l) i ∧
      (splc 1 2 1 (fun i _ => vecOf [0, 1] i) (vecOf [1, 1]) (vecOf [1]) 1 0 1 c_b6 zero2
          (fun _ => 0) (searchWk (twoKnots 1 1 0)).b (searchWk (twoKnots 1 1 0)).we 2
          zero2).stat 3 =
        ((2 : Int) : ℚ) - hatTrace 1 2 (searchWk (twoKnots 1 1 0)).b twoKnotsInverse :=
  ⟨by decide, by decide, twoKnots_pivots _ (by decide!),
    twoKnots_isInverse _ (by decide!),
    splc_trace_statistic 1 2 1 (fun i _ => vecOf [0, 1] i) (vecOf [1, 1]) (vecOf [1]) 1 0 1
      c_b6 zero2 (fun _ => 0) (searchWk (twoKnots 1 1 0)).b (searchWk (twoKnots 1 1 0)).we 2
      zero2 twoKnotsInverse (by decide) (by decide) (twoKnots_pivots _ (by decide!))
      (twoKnots_isInverse _ (by decide!))⟩

/-! ## The penalty matrix for `m = 1` -/

theorem prep_eq_stages (m n : Int) (x w : Vec) (we : Arr2) :
    prep m n x w we =
      ((prepWeigh m n w (prepZero m n (prepColumns m n x we).we).1).1,
        (prepWeigh m n w (prepZero m n (prepColumns m n x we).we).1).2.1 / (n : ℚ)) := rfl

theorem weSet_one (we : Arr2) (jj : Int) (v : ℚ) :
    weSet 1 we jj v = set2 we ((jj - 1) % 3 - 1) ((jj - 1) / 3 + 1) v := rfl

theorem weGet_one (we : Arr2) (jj : Int) :
    weGet 1 we jj = we ((jj - 1) % 3 - 1) ((jj - 1) / 3 + 1) := rfl
theorem prepColumn_first (n : Int) (x : Vec) (st : PrepSt) (hn : 2 ≤ n) (hf : st.f1 = -1)
    (h1 : st.i1 = 1) (h2 : st.i2 = 1) (hjm : st.jm = 2) :
    prepColumn 1 n x 1 st =
      { we := set2 (set2 st.we 0 1 (prepEntry n x 1 1)) (-1) 2 (prepEntry n x 1 2),
        f1 := -1, i1 := 1, i2 := 2, jm := 3 } := by
  have c1 : ¬ ((1 : Int) > n - 1) := by omega
  have c2 : (1 : Int) < 1 + 1 := by decide
  have c3 : ¬ ((1 : Int) > 1 + 1) := by decide
  have c4 : (1 : Int) < n := by omega
  have c5 : ¬ ((1 : Int) + 1 ≤ 1 + 1 - 1) := by decide
  have e1 : prepEntry n x 1 1 = -1 / (x 1 - x 2) := by
    have hn1 : ¬ ((1 : Int) = n) := by omega
    unfold prepEntry
    rw [if_neg hn1, if_pos rfl, if_pos rfl]
  have e2 : prepEntry n x 1 2 = -1 / (x 2 - x 1) := by
    have hn1 : ¬ ((1 : Int) = n) := by omega
    have h21 : ¬ ((2 : Int) = 1) := by decide
    unfold prepEntry
    rw [if_neg hn1, if_pos rfl, if_neg h21]
  simp only [prepColumn, hf, h1, h2, hjm, c1, c2, c3, c4, c5, if_true, if_false, weSet_one]
  rw [e1, e2]
  have e3 : (1 : Int) + 1 - 1 = 1 := by decide
  have e4 : (1 : Int) + 1 = 2 := by decide
  simp only [e3, e4, forUp_single]
  rfl

theorem forUp_one {σ : Type} (lo hi : Int) (h : hi = lo) (f : Int → σ → σ) (s : σ) :
    forUp lo hi f s = f lo s := by
  subst h
  exact forUp_single _ f s

theorem forUp_two {σ : Type} (lo hi : Int) (h : hi = lo + 1) (f : Int → σ → σ) (s : σ) :
    forUp lo hi f s = f hi (f lo s) := by
  subst h
  exact forUp_pair _ f s

theorem prepColumn_mid (n : Int) (x : Vec) (j : Int) (st : PrepSt) (hj1 : 2 ≤ j)
    (hj2 : j ≤ n - 1) (hf : st.f1 = -1) (h1 : st.i1 = max 1 (j - 2)) (h2 : st.i2 = j)
    (hjm : st.jm = 3 * (j - 1)) :
    prepColumn 1 n x j st =
      { we := set2 (set2 (set2 st.we 1 (j - 1) (prepEntry n x j (j - 1))) 0 j
          (prepEntry n x j j)) (-1) (j + 1) (prepEntry n x j (j + 1)),
        f1 := -1, i1 := j - 1, i2 := j + 1, jm := 3 * (j - 1) + 3 } := by
  have c1 : ¬ (j > n - 1) := by omega
  have c2 : ¬ (j < 1 + 1) := by omega
  have c4 : j < n := by omega
  have hi1 : (if j > 1 + 1 then st.i1 + 1 else st.i1) = j - 1 := by
    rw [h1]; split <;> omega
  simp only [prepColumn, hf, h2, hjm, c1, c2, c4, if_true, if_false, hi1, weSet_one]
  have e1 : j - 1 + 1 = j := by ring
  have e2 : j + 1 - 1 = j := by ring
  have i1 : (3 * (j - 1) - 1) % 3 - 1 = 1 := by omega
  have i2 : (3 * (j - 1) - 1) / 3 + 1 = j - 1 := by omega
  have i3 : (3 * (j - 1) + 2 * 1 - 1) % 3 - 1 = 0 := by omega
  have i4 : (3 * (j - 1) + 2 * 1 - 1) / 3 + 1 = j := by omega
  have i5 : (3 * (j - 1) + 2 * 1 + 2 * 1 - 1) % 3 - 1 = -1 := by omega
  have i6 : (3 * (j - 1) + 2 * 1 + 2 * 1 - 1) / 3 + 1 = j + 1 := by omega
  have i7 : 3 * (j - 1) + (2 * 1 + 1) = 3 * (j - 1) + 3 := by ring
  have n1 : ¬ (j = n) := by omega
  have n2 : ¬ (j = 1) := by omega
  have n3 : ¬ (j = j - 1) := by omega
  have n4 : ¬ (j + 1 = j - 1) := by omega
  have n5 : ¬ (j + 1 = j) := by omega
  have p1 : prepEntry n x j (j - 1) =
      -1 * (x (j + 1) - x (j - 1)) / (x (j - 1) - x j) / (x (j - 1) - x (j + 1)) := by
    unfold prepEntry
    rw [if_neg n1, if_neg n2, if_pos rfl]
  have p2 : prepEntry n x j j =
      -1 * (x (j + 1) - x (j - 1)) / (x j - x (j - 1)) / (x j - x (j + 1)) := by
    unfold prepEntry
    rw [if_neg n1, if_neg n2, if_neg n3, if_pos rfl]
  have p3 : prepEntry n x j (j + 1) =
      -1 * (x (j + 1) - x (j - 1)) / (x (j + 1) - x (j - 1)) / (x (j + 1) - x j) := by
    unfold prepEntry
    rw [if_neg n1, if_neg n2, if_neg n4, if_neg n5]
  simp only [e1, e2, le_refl, if_true, forUp_single, forUp_pair, forUp_two (j - 1) j (by ring),
    i1, i2, i3, i4, i5, i6, i7, p1, p2, p3]
theorem prepColumn_last (n : Int) (x : Vec) (st : PrepSt) (hn : 2 ≤ n)
    (hf : st.f1 = -1) (h1 : st.i1 = max 1 (n - 2)) (h2 : st.i2 = n)
    (hjm : st.jm = 3 * (n - 1)) :
    prepColumn 1 n x n st =
      { we := set2 (set2 st.we 1 (n - 1) (prepEntry n x n (n - 1))) 0 n (prepEntry n x n n),
        f1 := 1, i1 := n - 1, i2 := n, jm := 3 * (n - 1) + 3 } := by
  have c1 : n > n - 1 := by omega
  have c4 : ¬ (n < n) := by omega
  have hi1 : (if n > 1 + 1 then st.i1 + 1 else st.i1) = n - 1 := by
    rw [h1]; split <;> omega
  simp only [prepColumn, hf, h2, hjm, c1, c4, if_true, if_false, hi1, weSet_one, neg_neg]
  have e1 : n - 1 + 1 = n := by ring
  have c5 : ¬ (n ≤ n - 1) := by omega
  have i1 : (3 * (n - 1) - 1) % 3 - 1 = 1 := by omega
  have i2 : (3 * (n - 1) - 1) / 3 + 1 = n - 1 := by omega
  have i3 : (3 * (n - 1) + 2 * 1 - 1) % 3 - 1 = 0 := by omega
  have i4 : (3 * (n - 1) + 2 * 1 - 1) / 3 + 1 = n := by omega
  have i7 : 3 * (n - 1) + (2 * 1 + 1) = 3 * (n - 1) + 3 := by ring
  have n3 : ¬ (n - 1 = n) := by omega
  have p1 : prepEntry n x n (n - 1) = 1 / (x (n - 1) - x n) := by
    unfold prepEntry
    rw [if_pos rfl, if_neg n3]
  have p2 : prepEntry n x n n = 1 / (x n - x (n - 1)) := by
    unfold prepEntry
    rw [if_pos rfl, if_pos rfl]
  simp only [e1, c5, if_false, forUp_single, i1, i2, i3, i4, i7, p1, p2]

/-- For `m = 1` the first stage of `prep` leaves in `we`, for every column
`j` and every row `r` next to it, the coefficient `prepEntry n x j r`. -/
theorem prepColumns_one (n : Int) (x : Vec) (we : Arr2) (hn : 2 ≤ n) :
    ∀ j r, 1 ≤ j → j ≤ n → 1 ≤ r → r ≤ n → j - r ≤ 1 → r - j ≤ 1 →
      (prepColumns 1 n x we).we (j - r) r = prepEntry n x j r := by
  have h := forUp_inv
    (fun j (st : PrepSt) => st.f1 = (if j ≤ n then -1 else 1) ∧ st.i1 = max 1 (j - 2) ∧
      st.i2 = min n j ∧ st.jm = (if j = 1 then 2 else 3 * (j - 1)) ∧
      ∀ j' r, 1 ≤ j' → j' < j → 1 ≤ r → r ≤ n → j' - r ≤ 1 → r - j' ≤ 1 →
        st.we (j' - r) r = prepEntry n x j' r)
    (prepColumn 1 n x) 1 n { we := we, f1 := -1, i1 := 1, i2 := 1, jm := 1 + 1 } (by omega)
    (by
      refine ⟨?_, ?_, ?_, ?_, ?_⟩
      · rw [if_pos (by omega)]
      · simp
      · dsimp only; omega
      · rfl
      · intro j' r h1 h2
        omega)
    (by
      intro j st hj1 hj2 ⟨hf, hi1, hi2, hjm, hc⟩
      rw [if_pos hj2] at hf
      by_cases c1 : j = 1
      · subst c1
        rw [if_pos rfl] at hjm
        rw [prepColumn_first n x st hn hf (by rw [hi1]; decide) (by rw [hi2]; omega) hjm]
        refine ⟨?_, ?_, ?_, ?_, ?_⟩
        · rw [if_pos (by omega)]
        · dsimp only; decide
        · dsimp only; omega
        · dsimp only; decide
        · intro j' r h1 h2 h3 h4 h5 h6
          have hj' : j' = 1 := by omega
          subst hj'
          dsimp only
          have hr : r = 1 ∨ r = 2 := by omega
          rcases hr with hr | hr
          · subst hr
            rw [set2_other _ _ _ _ (by decide)]
            exact set2_same _ _ _ _
          · subst hr
            exact set2_same _ _ _ _
      · rw [if_neg c1] at hjm
        by_cases c2 : j = n
        · subst c2
          rw [prepColumn_last j x st hn hf hi1 (by rw [hi2]; omega) hjm]
          refine ⟨?_, ?_, ?_, ?_, ?_⟩
          · rw [if_neg (by omega)]
          · dsimp only; omega
          · dsimp only; omega
          · dsimp only
            rw [if_neg (by omega)]
            ring
          · intro j' r h1 h2 h3 h4 h5 h6
            dsimp only
            by_cases c3 : j' = j
            · subst c3
              have hr : r = j' - 1 ∨ r = j' := by omega
              rcases hr with hr | hr
              · rw [hr, set2_other _ _ _ _ (by omega)]
                have e1 : j' - (j' - 1) = 1 := by ring
                rw [e1]
                exact set2_same _ _ _ _
              · rw [hr, sub_self]
                exact set2_same _ _ _ _
            · rw [set2_other _ _ _ _ (by omega), set2_other _ _ _ _ (by omega)]
              exact hc j' r h1 (by omega) h3 h4 h5 h6
        · rw [prepColumn_mid n x j st (by omega) (by omega) hf hi1 (by rw [hi2]; omega) hjm]
          refine ⟨?_, ?_, ?_, ?_, ?_⟩
          · rw [if_pos (by omega)]
          · dsimp only; omega
          · dsimp only; omega
          · dsimp only
            rw [if_neg (by omega)]
            ring
          · intro j' r h1 h2 h3 h4 h5 h6
            dsimp only
            by_cases c3 : j' = j
            · subst c3
              have hr : r = j' - 1 ∨ r = j' ∨ r = j' + 1 := by omega
              rcases hr with hr | hr | hr
              · rw [hr, set2_other _ _ _ _ (by omega), set2_other _ _ _ _ (by omega)]
                have e1 : j' - (j' - 1) = 1 := by ring
                rw [e1]
                exact set2_same _ _ _ _
              · rw [hr, sub_self, set2_other _ _ _ _ (by omega)]
                exact set2_same _ _ _ _
              · rw [hr]
                have e1 : j' - (j' + 1) = -1 := by ring
                rw [e1]
                exact set2_same _ _ _ _
            · rw [set2_other _ _ _ _ (by omega), set2_other _ _ _ _ (by omega),
                set2_other _ _ _ _ (by omega)]
              exact hc j' r h1 (by omega) h3 h4 h5 h6)
  intro j r h1 h2 h3 h4 h5 h6
  exact h.2.2.2.2 j r h1 (by omega) h3 h4 h5 h6

theorem prepZero_one (n : Int) (we : Arr2) :
    (prepZero 1 n we).1 = set2 (set2 we (-1) 1 0) 1 n 0 := by
  have e1 : (1 : Int) + 1 - 1 = 1 := by decide
  have i1 : ((1 : Int) - 1) % 3 - 1 = -1 := by decide
  have i2 : ((1 : Int) - 1) / 3 + 1 = 1 := by decide
  have i3 : ((2 * 1 + 1) * n + 1 - 1 - 1) % 3 - 1 = 1 := by omega
  have i4 : ((2 * 1 + 1) * n + 1 - 1 - 1) / 3 + 1 = n := by omega
  simp only [prepZero, forUp_single, e1, weSet_one, i1, i2, i3, i4]

theorem forUp_three {σ : Type} (f : Int → σ → σ) (s : σ) :
    forUp 1 (2 * 1 + 1) f s = f 3 (f 2 (f 1 s)) := rfl

/-- One pass of the inner loop of the third stage of `prep` for `m = 1`: the
three entries of row `i` are divided by `w[i]`. -/
theorem prepWeigh_row (w : Vec) (i : Int) (s : Arr2 × ℚ × Int) (hjj : s.2.2 = 3 * (i - 1)) :
    prepWeighRow 1 w i s =
      (set2 (set2 (set2 s.1 (-1) i (s.1 (-1) i / w i)) 0 i (s.1 0 i / w i)) 1 i
          (s.1 1 i / w i),
        s.2.1 + dabs (s.1 (-1) i / w i) + dabs (s.1 0 i / w i) + dabs (s.1 1 i / w i),
        3 * (i - 1) + 1 + 1 + 1) := by
  have i1 : (3 * (i - 1) + 1 - 1) % 3 - 1 = -1 := by omega
  have i2 : (3 * (i - 1) + 1 - 1) / 3 + 1 = i := by omega
  have i3 : (3 * (i - 1) + 1 + 1 - 1) % 3 - 1 = 0 := by omega
  have i4 : (3 * (i - 1) + 1 + 1 - 1) / 3 + 1 = i := by omega
  have i5 : (3 * (i - 1) + 1 + 1 + 1 - 1) % 3 - 1 = 1 := by omega
  have i6 : (3 * (i - 1) + 1 + 1 + 1 - 1) / 3 + 1 = i := by omega
  unfold prepWeighRow
  rw [forUp_three]
  simp only [hjj, weSet_one, weGet_one, i1, i2, i3, i4, i5, i6, set2_same]
  have o1 : set2 s.1 (-1) i (s.1 (-1) i / w i) 0 i = s.1 0 i :=
    set2_other _ _ _ _ (by omega)
  have o2 : set2 (set2 s.1 (-1) i (s.1 (-1) i / w i)) 0 i (s.1 0 i / w i) 1 i = s.1 1 i := by
    rw [set2_other _ _ _ _ (by omega), set2_other _ _ _ _ (by omega)]
  simp only [o1, o2]

theorem dabs_nonneg (a : ℚ) : 0 ≤ dabs a := by
  rw [dabs_eq_abs]
  exact abs_nonneg a

/-- For `m = 1` the third stage of `prep` divides the three band entries of
every row `i` in `1..n` by `w[i]`; the sum it accumulates is not negative. -/
theorem prepWeigh_one (n : Int) (w : Vec) (we : Arr2) (hn : 1 ≤ n) :
    (∀ l i, 1 ≤ i → i ≤ n → -1 ≤ l → l ≤ 1 → (prepWeigh 1 n w we).1 l i = we l i / w i) ∧
      0 ≤ (prepWeigh 1 n w we).2.1 := by
  have h := forUp_inv
    (fun i (s : Arr2 × ℚ × Int) => s.2.2 = 3 * (i - 1) ∧ 0 ≤ s.2.1 ∧
      (∀ l i', 1 ≤ i' → i' < i → -1 ≤ l → l ≤ 1 → s.1 l i' = we l i' / w i') ∧
      (∀ l i', i ≤ i' → s.1 l i' = we l i'))
    (prepWeighRow 1 w) 1 n (we, 0, 0) (by omega)
    (by
      refine ⟨by dsimp only; decide, le_refl _, ?_, ?_⟩
      · intro l i' h1 h2
        omega
      · intro l i' _
        rfl)
    (by
      intro i s hi1 hi2 ⟨hjj, hacc, hdone, hrest⟩
      rw [prepWeigh_row w i s hjj]
      refine ⟨by dsimp only; ring, ?_, ?_, ?_⟩
      · dsimp only
        have := dabs_nonneg (s.1 (-1) i / w i)
        have := dabs_nonneg (s.1 0 i / w i)
        have := dabs_nonneg (s.1 1 i / w i)
        linarith
      · intro l i' h1 h2 h3 h4
        dsimp only
        by_cases c : i' = i
        · subst c
          have hl : l = -1 ∨ l = 0 ∨ l = 1 := by omega
          rcases hl with hl | hl | hl
          · subst hl
            rw [set2_other _ _ _ _ (by omega), set2_other _ _ _ _ (by omega), set2_same,
              hrest (-1) i' le_rfl]
          · subst hl
            rw [set2_other _ _ _ _ (by omega), set2_same, hrest 0 i' le_rfl]
          · subst hl
            rw [set2_same, hrest 1 i' le_rfl]
        · rw [set2_other _ _ _ _ (by omega), set2_other _ _ _ _ (by omega),
            set2_other _ _ _ _ (by omega)]
          exact hdone l i' h1 (by omega) h3 h4
      · intro l i' h1
        dsimp only
        rw [set2_other _ _ _ _ (by omega), set2_other _ _ _ _ (by omega),
          set2_other _ _ _ _ (by omega)]
        exact hrest l i' (by omega))
  exact ⟨fun l i h1 h2 h3 h4 => h.2.2.1 l i h1 (by omega) h3 h4, h.2.1⟩

theorem increasing_gap (n : Int) (x : Vec) (hx : Increasing n x) (i j : Int) (hi : 1 ≤ i)
    (hij : i < j) (hj : j ≤ n) : x j - x i ≠ 0 :=
  sub_ne_zero.mpr (ne_of_gt (hx i j hi hij hj))

theorem increasing_gap' (n : Int) (x : Vec) (hx : Increasing n x) (i j : Int) (hi : 1 ≤ i)
    (hij : i < j) (hj : j ≤ n) : x i - x j ≠ 0 :=
  sub_ne_zero.mpr (ne_of_lt (hx i j hi hij hj))

theorem lowerGap_first (x : Vec) : lowerGap x 1 = 0 := by
  unfold lowerGap
  rw [if_pos rfl]

theorem lowerGap_of_ne (x : Vec) (i : Int) (h : i ≠ 1) :
    lowerGap x i = 1 / (x i - x (i - 1)) := by
  unfold lowerGap
  rw [if_neg h]

theorem upperGap_last (n : Int) (x : Vec) : upperGap n x n = 0 := by
  unfold upperGap
  rw [if_pos rfl]

theorem upperGap_of_ne (n : Int) (x : Vec) (i : Int) (h : i ≠ n) :
    upperGap n x i = 1 / (x (i + 1) - x i) := by
  unfold upperGap
  rw [if_neg h]

theorem prepEntry_lower (n : Int) (x : Vec) (hx : Increasing n x) (i : Int) (hi1 : 2 ≤ i)
    (hi2 : i ≤ n) : prepEntry n x (i - 1) i = -lowerGap x i := by
  have n1 : ¬ (i - 1 = n) := by omega
  have n2 : ¬ (i = 1) := by omega
  rw [lowerGap_of_ne x i n2]
  unfold prepEntry
  rw [if_neg n1]
  by_cases c : i - 1 = 1
  · rw [if_pos c, if_neg n2]
    have e : i = 2 := by omega
    subst e
    have e1 : (2 : Int) - 1 = 1 := by decide
    rw [e1]
    ring
  · have n3 : ¬ (i = i - 1 - 1) := by omega
    have n4 : ¬ (i = i - 1) := by omega
    have e1 : i - 1 + 1 = i := by ring
    rw [if_neg c, if_neg n3, if_neg n4, e1]
    have g1 := increasing_gap n x hx (i - 1 - 1) i (by omega) (by omega) hi2
    have g2 := increasing_gap n x hx (i - 1) i (by omega) (by omega) hi2
    field_simp
    ring

theorem prepEntry_upper (n : Int) (x : Vec) (hx : Increasing n x) (i : Int) (hi1 : 1 ≤ i)
    (hi2 : i ≤ n - 1) : prepEntry n x (i + 1) i = -upperGap n x i := by
  have n2 : ¬ (i = n) := by omega
  have n1 : ¬ (i + 1 = 1) := by omega
  rw [upperGap_of_ne n x i n2]
  unfold prepEntry
  have g2 := increasing_gap n x hx i (i + 1) hi1 (by omega) (by omega)
  have g3 := increasing_gap' n x hx i (i + 1) hi1 (by omega) (by omega)
  by_cases c : i + 1 = n
  · have e1 : n - 1 = i := by omega
    rw [if_pos c, if_neg n2, e1, ← c]
    field_simp
    try ring
  · have e1 : i + 1 - 1 = i := by ring
    rw [if_neg c, if_neg n1, if_pos e1.symm, e1]
    have g1 := increasing_gap n x hx i (i + 1 + 1) hi1 (by omega) (by omega)
    have g4 := increasing_gap' n x hx i (i + 1 + 1) hi1 (by omega) (by omega)
    field_simp
    try ring

theorem prepEntry_diag (n : Int) (x : Vec) (hx : Increasing n x) (hn : 2 ≤ n) (i : Int)
    (hi1 : 1 ≤ i) (hi2 : i ≤ n) : prepEntry n x i i = lowerGap x i + upperGap n x i := by
  by_cases c1 : i = n
  · have n1 : ¬ (i = 1) := by omega
    rw [lowerGap_of_ne x i n1, c1, upperGap_last, add_zero]
    unfold prepEntry
    rw [if_pos rfl, if_pos rfl]
  · rw [upperGap_of_ne n x i c1]
    by_cases c2 : i = 1
    · rw [c2, lowerGap_first, zero_add]
      have hn1 : ¬ ((1 : Int) = n) := by omega
      unfold prepEntry
      have e1 : (1 : Int) + 1 = 2 := by decide
      have g1 := increasing_gap n x hx 1 2 le_rfl (by decide) (by omega)
      have g2 := increasing_gap' n x hx 1 2 le_rfl (by decide) (by omega)
      rw [if_neg hn1, if_pos rfl, if_pos rfl, e1]
      field_simp
      try ring
    · rw [lowerGap_of_ne x i c2]
      have n3 : ¬ (i = i - 1) := by omega
      unfold prepEntry
      rw [if_neg c1, if_neg c2, if_neg n3, if_pos rfl]
      have g1 := increasing_gap n x hx (i - 1) i (by omega) (by omega) hi2
      have g2 := increasing_gap' n x hx i (i + 1) hi1 (by omega) (by omega)
      have g3 := increasing_gap n x hx i (i + 1) hi1 (by omega) (by omega)
      have g4 := increasing_gap' n x hx (i - 1) i (by omega) (by omega) hi2
      field_simp
      try ring

/-- The weighted penalty matrix that `prep` builds for `m = 1`: row `i` holds
`-1/h[i-1]`, `1/h[i-1] + 1/h[i]`, `-1/h[i]` divided by `w[i]`, where `h` are
the gaps between the knots, and the terms of a gap outside `x[1..n]` are
zero. -/
theorem prep_one (n : Int) (x w : Vec) (we : Arr2) (hn : 2 ≤ n) (hx : Increasing n x)
    (i : Int) (hi1 : 1 ≤ i) (hi2 : i ≤ n) :
    (prep 1 n x w we).1 (-1) i = -lowerGap x i / w i ∧
      (prep 1 n x w we).1 0 i = (lowerGap x i + upperGap n x i) / w i ∧
      (prep 1 n x w we).1 1 i = -upperGap n x i / w i := by
  rw [prep_eq_stages]
  dsimp only
  have hw := (prepWeigh_one n w (prepZero 1 n (prepColumns 1 n x we).we).1 (by omega)).1
  rw [hw (-1) i hi1 hi2 (by decide) (by decide), hw 0 i hi1 hi2 (by decide) (by decide),
    hw 1 i hi1 hi2 (by decide) (by decide), prepZero_one]
  have hc := prepColumns_one n x we hn
  refine ⟨?_, ?_, ?_⟩
  · congr 1
    rw [set2_other _ _ _ _ (by omega)]
    by_cases c : i = 1
    · rw [c, set2_same, lowerGap_first, neg_zero]
    · rw [set2_other _ _ _ _ (by omega), ← prepEntry_lower n x hx i (by omega) hi2,
        ← hc (i - 1) i (by omega) (by omega) hi1 hi2 (by omega) (by omega)]
      congr 1
      ring
  · congr 1
    rw [set2_other _ _ _ _ (by omega), set2_other _ _ _ _ (by omega),
      ← prepEntry_diag n x hx hn i hi1 hi2,
      ← hc i i hi1 hi2 hi1 hi2 (by omega) (by omega), sub_self]
  · congr 1
    by_cases c : i = n
    · rw [c, set2_same, upperGap_last, neg_zero]
    · rw [set2_other _ _ _ _ (by omega), set2_other _ _ _ _ (by omega),
        ← prepEntry_upper n x hx i hi1 (by omega),
        ← hc (i + 1) i (by omega) (by omega) hi1 hi2 (by omega) (by omega)]
      congr 1
      ring

theorem prep_one_el (n : Int) (x w : Vec) (we : Arr2) (hn : 1 ≤ n) :
    0 ≤ (prep 1 n x w we).2 := by
  rw [prep_eq_stages]
  dsimp only
  apply div_nonneg
  · exact (prepWeigh_one n w _ hn).2
  · exact_mod_cast (by omega : (0 : Int) ≤ n)

theorem lowerGap_nonneg (n : Int) (x : Vec) (hx : Increasing n x) (i : Int) (hi1 : 1 ≤ i)
    (hi2 : i ≤ n) : 0 ≤ lowerGap x i := by
  unfold lowerGap
  split
  · exact le_refl _
  · apply div_nonneg zero_le_one
    exact le_of_lt (sub_pos.mpr (hx (i - 1) i (by omega) (by omega) hi2))

theorem upperGap_nonneg (n : Int) (x : Vec) (hx : Increasing n x) (i : Int) (hi1 : 1 ≤ i)
    (hi2 : i ≤ n) : 0 ≤ upperGap n x i := by
  unfold upperGap
  split
  · exact le_refl _
  · apply div_nonneg zero_le_one
    exact le_of_lt (sub_pos.mpr (hx i (i + 1) hi1 (by omega) (by omega)))

/-- The design matrix that `basis` builds for `m = 1` is the identity. -/
theorem basis_one (n : Int) (x : Vec) (b : Arr2) (q : Vec) (i : Int) (hi1 : 1 ≤ i)
    (hi2 : i ≤ n) : (basis 1 n x b q).b 0 i = 1 := by
  have h : (basis 1 n x b q).b = forUp 1 n (fun i b => set2 b 0 i 1) b := by
    simp [basis]
  rw [h]
  have h2 := forUp_inv (fun k (a : Arr2) => ∀ i', 1 ≤ i' → i' < k → a 0 i' = 1)
    (fun i b => set2 b 0 i 1) 1 n b (by omega)
    (by intro i' h1 h2; omega)
    (by
      intro k a hk1 hk2 hP i' h1 h2
      dsimp only
      by_cases c : i' = k
      · rw [c, set2_same]
      · rw [set2_other _ _ _ _ (by omega)]
        exact hP i' h1 (by omega))
  exact h2 i hi1 (by omega)

/-! ## Tridiagonal systems with unit row sums -/

theorem tri_upper (n : Int) (e : Arr2) (hn : 1 ≤ n) (r : Int) (hr1 : 1 ≤ r)
    (hr2 : r ≤ n - 1) : bandet e 1 n 1 r = e 1 r := by
  obtain ⟨_, hU, _⟩ := bandet_inv 1 n e le_rfl (by omega)
  rw [hU r hr1 (by omega) 1 (by decide) (by omega)]
  simp only [uval]
  rw [Finset.Icc_eq_empty (by omega), Finset.sum_empty, sub_zero]

theorem tri_pivot_first (n : Int) (e : Arr2) (hn : 1 ≤ n) : bandet e 1 n 0 1 = e 0 1 := by
  obtain ⟨_, hU, _⟩ := bandet_inv 1 n e le_rfl (by omega)
  rw [hU 1 le_rfl hn 0 le_rfl (by omega)]
  simp only [uval]
  rw [Finset.Icc_eq_empty (by omega), Finset.sum_empty, sub_zero]

theorem tri_pivot_next (n : Int) (e : Arr2) (r : Int) (hr1 : 2 ≤ r) (hr2 : r ≤ n) :
    bandet e 1 n 0 r = e 0 r - bandet e 1 n (-1) r * e 1 (r - 1) := by
  obtain ⟨_, hU, _⟩ := bandet_inv 1 n e le_rfl (by omega)
  rw [hU r (by omega) hr2 0 le_rfl (by omega)]
  simp only [uval]
  have e1 : min ((1 : Int) - 0) (r - 1) = 1 := by omega
  rw [e1, Finset.Icc_self, Finset.sum_singleton, zero_add,
    tri_upper n e (by omega) (r - 1) (by omega) (by omega)]

theorem tri_lower (n : Int) (e : Arr2) (r : Int) (hr1 : 2 ≤ r) (hr2 : r ≤ n) :
    bandet e 1 n (-1) r = e (-1) r / bandet e 1 n 0 (r - 1) := by
  obtain ⟨_, _, hL⟩ := bandet_inv 1 n e le_rfl (by omega)
  have h := hL (r - 1) (by omega) (by omega) 1 le_rfl (by omega)
  have e1 : r - 1 + 1 = r := by ring
  rw [e1] at h
  rw [h]
  simp only [lnum]
  rw [Finset.Icc_eq_empty (by omega), Finset.sum_empty, sub_zero, e1]

/-- For a tridiagonal matrix with unit row sums and off-diagonal entries
`lo[i]` (left) and `up[i]` (right) that are not positive, the pivots of
`bandet` are at least `1 - up[i]`, hence at least `1`. -/
theorem tri_pivot_bound (n : Int) (e : Arr2) (lo up : Int → ℚ) (hn : 1 ≤ n)
    (hlo : ∀ i, 2 ≤ i → i ≤ n → e (-1) i = lo i) (hup : ∀ i, 1 ≤ i → i ≤ n - 1 → e 1 i = up i)
    (hR : ∀ i, 1 ≤ i → i ≤ n → e 0 i = 1 - lo i - up i)
    (hL : ∀ i, 1 ≤ i → i ≤ n → lo i ≤ 0) (hU : ∀ i, 1 ≤ i → i ≤ n → up i ≤ 0)
    (h1 : lo 1 = 0) :
    ∀ (b : Nat) (i : Int), 1 ≤ i → i ≤ n → i ≤ (b : Int) → 1 - up i ≤ bandet e 1 n 0 i := by
  intro b
  induction b with
  | zero => intro i h1 _ h3; simp at h3; omega
  | succ b ih =>
    intro i hi1 hi2 hi3
    by_cases c : i = 1
    · subst c
      rw [tri_pivot_first n e hn, hR 1 le_rfl hn, h1]
      linarith
    · have hp := ih (i - 1) (by omega) (by omega) (by push_cast at hi3; omega)
      have hu := hU (i - 1) (by omega) (by omega)
      have hl := hL i hi1 hi2
      have hd : 0 < bandet e 1 n 0 (i - 1) := by linarith
      rw [tri_pivot_next n e i (by omega) hi2, tri_lower n e i (by omega) hi2, hR i hi1 hi2,
        hlo i (by omega) hi2, hup (i - 1) (by omega) (by omega)]
      have key : lo i / bandet e 1 n 0 (i - 1) * up (i - 1) ≤ -lo i := by
        rw [div_mul_eq_mul_div, div_le_iff₀ hd]
        nlinarith
      linarith

theorem tri_pivot_pos (n : Int) (e : Arr2) (lo up : Int → ℚ) (hn : 1 ≤ n)
    (hlo : ∀ i, 2 ≤ i → i ≤ n → e (-1) i = lo i) (hup : ∀ i, 1 ≤ i → i ≤ n - 1 → e 1 i = up i)
    (hR : ∀ i, 1 ≤ i → i ≤ n → e 0 i = 1 - lo i - up i)
    (hL : ∀ i, 1 ≤ i → i ≤ n → lo i ≤ 0) (hU : ∀ i, 1 ≤ i → i ≤ n → up i ≤ 0)
    (h1 : lo 1 = 0) (i : Int) (hi1 : 1 ≤ i) (hi2 : i ≤ n) : 0 < bandet e 1 n 0 i := by
  have h := tri_pivot_bound n e lo up hn hlo hup hR hL hU h1 i.toNat i hi1 hi2 (by omega)
  have := hU i hi1 hi2
  linarith

/-- For a tridiagonal matrix with unit row sums and off-diagonal entries that
are not positive, `bandet` and `bansol` turn a constant right-hand side into
the same constant. -/
theorem tri_constant (n k : Int) (e y c : Arr2) (lo up : Int → ℚ) (α : ℚ) (hn : 1 ≤ n)
    (hlo : ∀ i, 2 ≤ i → i ≤ n → e (-1) i = lo i) (hup : ∀ i, 1 ≤ i → i ≤ n - 1 → e 1 i = up i)
    (hR : ∀ i, 1 ≤ i → i ≤ n → e 0 i = 1 - lo i - up i)
    (hL : ∀ i, 1 ≤ i → i ≤ n → lo i ≤ 0) (hU : ∀ i, 1 ≤ i → i ≤ n → up i ≤ 0)
    (h1 : lo 1 = 0) (hlast : up n = 0) (j : Int) (hj1 : 1 ≤ j) (hj2 : j ≤ k)
    (hy : ∀ i, 1 ≤ i → i ≤ n → y i j = α) (i : Int) (hi1 : 1 ≤ i) (hi2 : i ≤ n) :
    bansol (bandet e 1 n) y c 1 n k i j = α := by
  obtain ⟨z, hz, hc⟩ := bansol_solved 1 n k (bandet e 1 n) y c le_rfl hn j hj1 hj2
  have hpos := tri_pivot_pos n e lo up hn hlo hup hR hL hU h1
  have hfwd : ∀ (b : Nat) (i : Int), 1 ≤ i → i ≤ n → i ≤ (b : Int) →
      z i = α * (bandet e 1 n 0 i + up i) := by
    intro b
    induction b with
    | zero => intro i h1 _ h3; simp at h3; omega
    | succ b ih =>
      intro i hi1 hi2 hi3
      rw [hz i hi1 hi2, hy i hi1 hi2]
      by_cases c1 : i = 1
      · subst c1
        rw [Finset.Icc_eq_empty (by omega), Finset.sum_empty, sub_zero,
          tri_pivot_first n e hn, hR 1 le_rfl hn, h1]
        ring
      · have e1 : min (1 : Int) (i - 1) = 1 := by omega
        have hd := ne_of_gt (hpos (i - 1) (by omega) (by omega))
        rw [e1, Finset.Icc_self, Finset.sum_singleton,
          ih (i - 1) (by omega) (by omega) (by push_cast at hi3; omega),
          tri_pivot_next n e i (by omega) hi2, tri_lower n e i (by omega) hi2, hR i hi1 hi2,
          hlo i (by omega) hi2, hup (i - 1) (by omega) (by omega)]
        field_simp
        ring
  have hbwd : ∀ (b : Nat) (i : Int), 1 ≤ i → i ≤ n → n - i ≤ (b : Int) →
      bansol (bandet e 1 n) y c 1 n k i j = α := by
    intro b
    induction b with
    | zero =>
      intro i hi1 hi2 hi3
      have hin : i = n := by simp at hi3; omega
      have hd := ne_of_gt (hpos i hi1 hi2)
      have he : up i = 0 := by rw [hin]; exact hlast
      rw [hc i hi1 hi2, hfwd i.toNat i hi1 hi2 (by omega),
        Finset.Icc_eq_empty (by omega), Finset.sum_empty, sub_zero, he, add_zero,
        mul_div_assoc, div_self hd, mul_one]
    | succ b ih =>
      intro i hi1 hi2 hi3
      by_cases c1 : i = n
      · exact ih i hi1 hi2 (by omega)
      · have e1 : min (1 : Int) (n - i) = 1 := by omega
        have hd := ne_of_gt (hpos i hi1 hi2)
        rw [hc i hi1 hi2, hfwd i.toNat i hi1 hi2 (by omega), e1, Finset.Icc_self,
          Finset.sum_singleton, ih (i + 1) (by omega) (by omega) (by push_cast at hi3; omega),
          tri_upper n e hn i hi1 (by omega), hup i hi1 (by omega)]
        field_simp
        ring
  exact hbwd (n - i).toNat i hi1 hi2 (by omega)

theorem splcDp_nonneg (p eps el : ℚ) (hp : 0 ≤ p) (heps : 0 ≤ eps) (hel : 0 ≤ el) :
    0 ≤ (splcDp p eps el).1 := by
  simp only [splcDp]
  split
  · exact div_nonneg zero_le_one (mul_nonneg hel heps)
  · split
    · exact div_nonneg heps hel
    · exact hp

/-- For `m = 1`, with the identity as design matrix and the penalty matrix of
`prep`, `splc` returns constant coefficients for constant data. -/
theorem splc_constant (n k : Int) (y : Arr2) (wx wy : Vec) (mode : Int) (val p eps : ℚ)
    (c : Arr2) (stat : Vec) (b we : Arr2) (el : ℚ) (bwe : Arr2) (x : Vec) (α : ℚ)
    (hn : 2 ≤ n) (hx : Increasing n x) (hw : ∀ i, 1 ≤ i → i ≤ n → 0 < wx i)
    (hb : ∀ i, 1 ≤ i → i ≤ n → b 0 i = 1)
    (hwe : ∀ i, 1 ≤ i → i ≤ n → we (-1) i = -lowerGap x i / wx i ∧
      we 0 i = (lowerGap x i + upperGap n x i) / wx i ∧ we 1 i = -upperGap n x i / wx i)
    (hdp : 0 ≤ (splcDp p eps el).1) (j : Int) (hj1 : 1 ≤ j) (hj2 : j ≤ k)
    (hy : ∀ i, 1 ≤ i → i ≤ n → y i j = α) (i : Int) (hi1 : 1 ≤ i) (hi2 : i ≤ n) :
    (splc 1 n k y wx wy mode val p eps c stat b we el bwe).c i j = α := by
  rw [splc_c]
  have h0 : iabs 0 ≠ 1 := by decide
  have h1 : iabs 1 = 1 := by decide
  have hm1 : iabs (-1) = 1 := by decide
  apply tri_constant n k _ y c
    (fun i => -((splcDp p eps el).1 * lowerGap x i / wx i))
    (fun i => -((splcDp p eps el).1 * upperGap n x i / wx i)) α (by omega)
  · intro r hr1 hr2
    rw [splcAssemble_spec 1 n _ b we bwe (-1) r (by omega) hr2 (by omega) (by omega),
      if_pos hm1, (hwe r (by omega) hr2).1]
    ring
  · intro r hr1 hr2
    rw [splcAssemble_spec 1 n _ b we bwe 1 r hr1 (by omega) (by omega) (by omega),
      if_pos h1, (hwe r hr1 (by omega)).2.2]
    ring
  · intro r hr1 hr2
    rw [splcAssemble_spec 1 n _ b we bwe 0 r hr1 hr2 (by omega) (by omega),
      if_neg h0, (hwe r hr1 hr2).2.1, hb r hr1 hr2]
    ring
  · intro r hr1 hr2
    rw [neg_nonpos]
    exact div_nonneg (mul_nonneg hdp (lowerGap_nonneg n x hx r hr1 hr2))
      (le_of_lt (hw r hr1 hr2))
  · intro r hr1 hr2
    rw [neg_nonpos]
    exact div_nonneg (mul_nonneg hdp (upperGap_nonneg n x hx r hr1 hr2))
      (le_of_lt (hw r hr1 hr2))
  · rw [lowerGap_first]
    simp
  · rw [upperGap_last]
    simp
  · exact hj1
  · exact hj2
  · exact hy
  · exact hi1
  · exact hi2

/-- For `m = 1` and `ider = 0`, `splder` returns the constant when the
coefficients `c[1..n]` are constant, at every query point. -/
theorem splder_one_constant (fuel : Nat) (n : Int) (t : ℚ) (x cv : Vec) (l0 : Int) (q : Vec)
    (α : ℚ) (hn : 2 ≤ n) (hx : Increasing n x) (hf : n ≤ (fuel : Int))
    (hc : ∀ i, 1 ≤ i → i ≤ n → cv i = α) :
    (splder fuel 0 1 n t x cv l0 q).map (fun o => o.val) = some α := by
  obtain ⟨l, rd, hs, _, hloc⟩ := search_located fuel n x t l0 hn hx hf
  obtain ⟨hl0, hln⟩ := located_range n x t l hn hloc
  rw [splder_one fuel n t x cv l0 q l rd hs]
  congr 1
  by_cases c1 : l = 0
  · subst c1
    have n1 : ¬ ((1 : Int) ≤ 0 ∧ (0 : Int) ≤ n) := by omega
    have n2 : (0 : Int) ≤ 0 ∧ (0 : Int) + 1 ≤ n := by omega
    rw [splderLevel_one_left n t x _ (by omega), splderFill_one, setV_same,
      setV_other _ _ (by decide), setV_same, if_neg n1, if_pos n2,
      hc (0 + 1) (by omega) (by omega)]
    ring
  · by_cases c2 : l = n
    · subst c2
      have n1 : (1 : Int) ≤ l ∧ l ≤ l := by omega
      have n2 : ¬ ((0 : Int) ≤ l ∧ l + 1 ≤ l) := by omega
      rw [splderLevel_one_right l t x _ (by omega), splderFill_one, setV_same,
        setV_other _ _ (by decide), setV_same, if_pos n1, if_neg n2, hc l (by omega) le_rfl]
      ring
    · have n1 : (1 : Int) ≤ l ∧ l ≤ n := by omega
      have n2 : (0 : Int) ≤ l ∧ l + 1 ≤ n := by omega
      rw [splderLevel_one_inner n l t x _ (by omega) (by omega), splderFill_one, setV_same,
        setV_other _ _ (by decide), setV_same, if_pos n1, if_pos n2, hc l (by omega) (by omega),
        hc (l + 1) (by omega) (by omega)]
      simp

theorem gcvsplCheck_fixed_valid (x : Vec) (y : Arr2) (wx wy : Vec) (m n k : Int) (p : ℚ)
    (st : Statics) (hm : 1 ≤ m) (hn : 2 * m ≤ n) (hx : Increasing n x)
    (hwx : ∀ i, 1 ≤ i → i ≤ n → 0 < wx i) (hwy : ∀ j, 1 ≤ j → j ≤ k → 0 < wy j)
    (hp : 0 ≤ p) :
    gcvsplCheck ⟨x, y, wx, wy, m, n, k, 1, p⟩ st =
      { ier := 0, returned := false, st := entryStatics ⟨x, y, wx, wy, m, n, k, 1, p⟩ st } := by
  have hmode : ¬ modeValueBad 1 p n m := by
    unfold modeValueBad
    rintro (h | h | ⟨_, h⟩ | ⟨h, _⟩ | ⟨h, _⟩)
    · revert h; decide
    · revert h; decide
    · linarith
    · revert h; decide
    · revert h; decide
  have hbad : ¬ weightsKnotsBad ⟨x, y, wx, wy, m, n, k, 1, p⟩ := by
    rintro (⟨i, h1, h2, h3⟩ | ⟨j, h1, h2, h3⟩ | ⟨i, h1, h2, h3⟩)
    · have := hwx i h1 h2
      exact absurd h3 (not_le.mpr this)
    · have := hwy j h1 h2
      exact absurd h3 (not_le.mpr this)
    · have := hx (i - 1) i (by omega) (by omega) h2
      exact absurd h3 (not_le.mpr this)
  exact (gcvsplCheck_weights ⟨x, y, wx, wy, m, n, k, 1, p⟩ st hmode
    (Or.inl (show (1 : Int) > 0 by decide)) hm hn).2 hbad

/-- The coefficients with which a call of `gcvspl` in fixed-p mode that
passes validation returns: those of one call of `splc` at `p = val`, on the
matrices of `basis` and `prep`. -/
theorem gcvspl_fixed (fuel : Nat) (x : Vec) (y : Arr2) (wx wy : Vec) (m n k : Int) (p : ℚ)
    (c : Arr2) (wk : Wk) (st : Statics) (hm : 1 ≤ m) (hn : 2 * m ≤ n) (hx : Increasing n x)
    (hwx : ∀ i, 1 ≤ i → i ≤ n → 0 < wx i) (hwy : ∀ j, 1 ≤ j → j ≤ k → 0 < wy j)
    (hp : 0 ≤ p) :
    ∃ o, gcvspl fuel ⟨x, y, wx, wy, m, n, k, 1, p⟩ c wk st = some o ∧ o.ier = 0 ∧
      o.wk.b = (basis m n x wk.b (fun j => wk.bwe (j - 1) 1)).b ∧
      ∃ (stat : Vec) (bwe : Arr2),
        o.c = (splc m n k y wx wy 1 p p c_b6 c stat
          (basis m n x wk.b (fun j => wk.bwe (j - 1) 1)).b (prep m n x wx wk.we).1
          ((prep m n x wx wk.we).2 / (basis m n x wk.b (fun j => wk.bwe (j - 1) 1)).bl)
          bwe).c := by
  have hchk := gcvsplCheck_fixed_valid x y wx wy m n k p st hm hn hx hwx hwy hp
  have h1 : iabs (1 : Int) = 1 := by decide
  simp only [gcvspl, hchk, Bool.false_eq_true, if_false, gcvsplSearch, h1, ne_eq,
    not_true_eq_false, Option.map_some']
  refine ⟨_, rfl, rfl, ?_, ?_⟩
  · simp [gcvsplSetup]
  · refine ⟨(gcvsplSetup ⟨x, y, wx, wy, m, n, k, 1, p⟩ wk
        (entryStatics ⟨x, y, wx, wy, m, n, k, 1, p⟩ st)).1.stat,
      (gcvsplSetup ⟨x, y, wx, wy, m, n, k, 1, p⟩ wk
        (entryStatics ⟨x, y, wx, wy, m, n, k, 1, p⟩ st)).1.bwe, ?_⟩
    simp [gcvsplTrial, gcvsplSetup, entryStatics]

/-- Polynomial data of degree `2m - 1` are not reproduced: for `m = 1` the
data `y[i] = x[i]` on the knots `0, 1` are those of a polynomial of degree
`1 = 2m - 1`, and the fit with the fixed `p = 1` returns `c = (1/3, 2/3)`: the
residual at the first knot is `1/3`, and `splder` at `t = 0` returns `1/3`,
not `P(0) = 0`. -/
theorem gcvspl_round_trip_counterexample :
    (∀ i, 1 ≤ i → i ≤ (2 : Int) → (twoKnots 1 1 1).y i 1 = (twoKnots 1 1 1).x i) ∧
      (gcvspl 1 (twoKnots 1 1 1) zero2 wkZero Statics.init).map
          (fun o => (o.ier, o.c 1 1, o.c 2 1, o.wk.b 0 1 * o.c 1 1 - (twoKnots 1 1 1).y 1 1)) =
        some (0, 1 / 3, 2 / 3, 1 / 3) ∧
      (splder 2 0 1 2 0 (twoKnots 1 1 1).x (vecOf [1 / 3, 2 / 3]) 0 (fun _ => 0)).map
          (fun o => o.val) = some (1 / 3) := by
  refine ⟨?_, by decide!, by decide!⟩
  intro i h1 h2
  interval_cases i <;> decide!

/-- Constant data are reproduced by the order `m = 1`: for valid knots and
weights and every fixed `p ≥ 0`, if the data of every channel are constant (a
polynomial of degree `0 = m - 1`), then `gcvspl` returns with `ier = 0`, every
coefficient is that constant, the residuals `(B c)[i] - y[i]` are zero, and
`splder` with `ider = 0` returns the constant at every query point. -/
theorem gcvspl_constant_round_trip (fuel : Nat) (x : Vec) (y : Arr2) (wx wy : Vec)
    (n k : Int) (p : ℚ) (c : Arr2) (wk : Wk) (st : Statics) (α : Int → ℚ) (hn : 2 ≤ n)
    (hx : Increasing n x) (hwx : ∀ i, 1 ≤ i → i ≤ n → 0 < wx i)
    (hwy : ∀ j, 1 ≤ j → j ≤ k → 0 < wy j) (hp : 0 ≤ p)
    (hy : ∀ i j, 1 ≤ i → i ≤ n → 1 ≤ j → j ≤ k → y i j = α j) :
    ∃ o, gcvspl fuel ⟨x, y, wx, wy, 1, n, k, 1, p⟩ c wk st = some o ∧ o.ier = 0 ∧
      (∀ i j, 1 ≤ i → i ≤ n → 1 ≤ j → j ≤ k →
        o.c i j = α j ∧ o.wk.b 0 i * o.c i j - y i j = 0) ∧
      ∀ j, 1 ≤ j → j ≤ k → ∀ (fuel' : Nat) (t : ℚ) (l0 : Int) (q : Vec), n ≤ (fuel' : Int) →
        (splder fuel' 0 1 n t x (fun i => o.c i j) l0 q).map (fun r => r.val) =
          some (α j) := by
  obtain ⟨o, ho, hier, hb, stat, bwe, hc⟩ :=
    gcvspl_fixed fuel x y wx wy 1 n k p c wk st le_rfl (by omega) hx hwx hwy hp
  have hel : 0 ≤ (prep 1 n x wx wk.we).2 /
      (basis 1 n x wk.b (fun j => wk.bwe (j - 1) 1)).bl := by
    have hbl : (basis 1 n x wk.b (fun j => wk.bwe (j - 1) 1)).bl = 1 := by simp [basis]
    rw [hbl, div_one]
    exact prep_one_el n x wx wk.we (by omega)
  have hcs : ∀ i j, 1 ≤ i → i ≤ n → 1 ≤ j → j ≤ k → o.c i j = α j := by
    intro i j hi1 hi2 hj1 hj2
    rw [hc]
    exact splc_constant n k y wx wy 1 p p c_b6 c stat _ _ _ bwe x (α j) hn hx hwx
      (fun r hr1 hr2 => basis_one n x wk.b _ r hr1 hr2)
      (fun r hr1 hr2 => prep_one n x wx wk.we hn hx r hr1 hr2)
      (splcDp_nonneg p c_b6 _ hp (by norm_num [c_b6]) hel) j hj1 hj2
      (fun r hr1 hr2 => hy r j hr1 hr2 hj1 hj2) i hi1 hi2
  refine ⟨o, ho, hier, ?_, ?_⟩
  · intro i j hi1 hi2 hj1 hj2
    refine ⟨hcs i j hi1 hi2 hj1 hj2, ?_⟩
    rw [hb, basis_one n x wk.b _ i hi1 hi2, hcs i j hi1 hi2 hj1 hj2, hy i j hi1 hi2 hj1 hj2]
    ring
  · intro j hj1 hj2 fuel' t l0 q hf
    exact splder_one_constant fuel' n t x (fun i => o.c i j) l0 q (α j) hn hx hf
      (fun i hi1 hi2 => hcs i j hi1 hi2 hj1 hj2)

theorem gcvspl_constant_round_trip_witness :
    (2 : Int) ≤ 2 ∧ Increasing 2 (vecOf [0, 1]) ∧
      (∀ i, 1 ≤ i → i ≤ (2 : Int) → 0 < vecOf [1, 1] i) ∧
      (∀ j, 1 ≤ j → j ≤ (1 : Int) → 0 < vecOf [1] j) ∧ (0 : ℚ) ≤ 1 ∧
      (∀ i j, 1 ≤ i → i ≤ (2 : Int) → 1 ≤ j → j ≤ (1 : Int) →
        (fun (_ : Int) (_ : Int) => (5 : ℚ)) i j = (fun (_ : Int) => (5 : ℚ)) j) ∧
      ∃ o, gcvspl 0 ⟨vecOf [0, 1], fun _ _ => 5, vecOf [1, 1], vecOf [1], 1, 2, 1, 1, 1⟩
          zero2 wkZero Statics.init = some o ∧ o.ier = 0 ∧
        (∀ i j, 1 ≤ i → i ≤ (2 : Int) → 1 ≤ j → j ≤ (1 : Int) →
          o.c i j = (fun (_ : Int) => (5 : ℚ)) j ∧
            o.wk.b 0 i * o.c i j - (fun (_ : Int) (_ : Int) => (5 : ℚ)) i j = 0) ∧
        ∀ j, 1 ≤ j → j ≤ (1 : Int) → ∀ (fuel' : Nat) (t : ℚ) (l0 : Int) (q : Vec),
          (2 : Int) ≤ (fuel' : Int) →
          (splder fuel' 0 1 2 t (vecOf [0, 1]) (fun i => o.c i j) l0 q).map
            (fun r => r.val) = some ((fun (_ : Int) => (5 : ℚ)) j) :=
  ⟨by decide, increasing_two 0 1 (by decide!),
    (by intro i h1 h2; interval_cases i <;> decide!),
    (by intro j h1 h2; interval_cases j; decide!), by decide!,
    (fun _ _ _ _ _ _ => rfl),
    gcvspl_constant_round_trip 0 (vecOf [0, 1]) (fun _ _ => 5) (vecOf [1, 1]) (vecOf [1]) 2 1
      1 zero2 wkZero Statics.init (fun _ => 5) (by decide) (increasing_two 0 1 (by decide!))
      (by intro i h1 h2; interval_cases i <;> decide!)
      (by intro j h1 h2; interval_cases j; decide!) (by decide!)
      (fun _ _ _ _ _ _ => rfl)⟩


/-! ## The residual and the score of `splc` -/

theorem splcResidual_eq (m n k : Int) (y : Arr2) (wx wy : Vec) (b c : Arr2) :
    splcResidual m n k y wx wy b c =
      ∑ j ∈ Finset.Icc 1 k, ∑ i ∈ Finset.Icc 1 n,
        (-(y i j) + ∑ l ∈ Finset.Icc (-min (m - 1) (i - 1)) (min (m - 1) (n - i)),
          b l i * c (i + l) j) *
        (-(y i j) + ∑ l ∈ Finset.Icc (-min (m - 1) (i - 1)) (min (m - 1) (n - i)),
          b l i * c (i + l) j) * wx i * wy j := by
  unfold splcResidual
  simp only [forUp_add_sum, zero_add]

theorem splc_stat2 (m n k : Int) (y : Arr2) (wx wy : Vec) (mode : Int) (val p eps : ℚ)
    (c : Arr2) (stat : Vec) (b we : Arr2) (el : ℚ) (bwe : Arr2) :
    (splc m n k y wx wy mode val p eps c stat b we el bwe).stat 2 =
      splcResidual m n k y wx wy b
        (splc m n k y wx wy mode val p eps c stat b we el bwe).c / ((n * k : Int) : ℚ) := by
  rw [splc_c]
  simp only [splc]
  split <;> simp [setV]

theorem splc_stat1 (m n k : Int) (y : Arr2) (wx wy : Vec) (mode : Int) (val p eps : ℚ)
    (c : Arr2) (stat : Vec) (b we : Arr2) (el : ℚ) (bwe : Arr2) :
    (splc m n k y wx wy mode val p eps c stat b we el bwe).stat 1 =
      (splc m n k y wx wy mode val p eps c stat b we el bwe).stat 2 /
        ((splc m n k y wx wy mode val p eps c stat b we el bwe).stat 3 / (n : ℚ)) /
        ((splc m n k y wx wy mode val p eps c stat b we el bwe).stat 3 / (n : ℚ)) := by
  simp only [splc]
  split <;> simp [setV]

theorem splc_ret_two (m n k : Int) (y : Arr2) (wx wy : Vec) (mode : Int) (val p eps : ℚ)
    (c : Arr2) (stat : Vec) (b we : Arr2) (el : ℚ) (bwe : Arr2) (h : iabs mode = 2) :
    (splc m n k y wx wy mode val p eps c stat b we el bwe).ret =
      (splc m n k y wx wy mode val p eps c stat b we el bwe).stat 1 := by
  have h3 : iabs mode ≠ 3 := by rw [h]; decide
  have h1 : ¬ iabs mode = 1 := by rw [h]; decide
  have h4 : ¬ iabs mode = 4 := by rw [h]; decide
  simp only [splc, if_pos h3, if_neg h1, if_neg h4, if_pos h, ne_eq, not_false_eq_true,
    if_true]


/-- What a call of `gcvspl` in fixed-p mode that passes validation returns:
the matrices of `basis` and `prep`, and the coefficients and statistics of one
call of `splc` at `p = val`. -/
theorem gcvspl_fixed_out (fuel : Nat) (x : Vec) (y : Arr2) (wx wy : Vec) (m n k : Int) (p : ℚ)
    (c : Arr2) (wk : Wk) (st : Statics) (hm : 1 ≤ m) (hn : 2 * m ≤ n) (hx : Increasing n x)
    (hwx : ∀ i, 1 ≤ i → i ≤ n → 0 < wx i) (hwy : ∀ j, 1 ≤ j → j ≤ k → 0 < wy j)
    (hp : 0 ≤ p) :
    ∃ (o : Out) (stat : Vec) (bwe : Arr2),
      gcvspl fuel ⟨x, y, wx, wy, m, n, k, 1, p⟩ c wk st = some o ∧ o.ier = 0 ∧
      o.wk.b = (basis m n x wk.b (fun j => wk.bwe (j - 1) 1)).b ∧
      o.wk.we = (prep m n x wx wk.we).1 ∧
      o.c = (splc m n k y wx wy 1 p p c_b6 c stat
          (basis m n x wk.b (fun j => wk.bwe (j - 1) 1)).b (prep m n x wx wk.we).1
          ((prep m n x wx wk.we).2 / (basis m n x wk.b (fun j => wk.bwe (j - 1) 1)).bl)
          bwe).c ∧
      o.wk.stat = (splc m n k y wx wy 1 p p c_b6 c stat
          (basis m n x wk.b (fun j => wk.bwe (j - 1) 1)).b (prep m n x wx wk.we).1
          ((prep m n x wx wk.we).2 / (basis m n x wk.b (fun j => wk.bwe (j - 1) 1)).bl)
          bwe).stat := by
  have hchk := gcvsplCheck_fixed_valid x y wx wy m n k p st hm hn hx hwx hwy hp
  have h1 : iabs (1 : Int) = 1 := by decide
  simp only [gcvspl, hchk, Bool.false_eq_true, if_false, gcvsplSearch, h1, ne_eq,
    not_true_eq_false, Option.map_some']
  refine ⟨_, (gcvsplSetup ⟨x, y, wx, wy, m, n, k, 1, p⟩ wk
        (entryStatics ⟨x, y, wx, wy, m, n, k, 1, p⟩ st)).1.stat,
      (gcvsplSetup ⟨x, y, wx, wy, m, n, k, 1, p⟩ wk
        (entryStatics ⟨x, y, wx, wy, m, n, k, 1, p⟩ st)).1.bwe, rfl, rfl, ?_, ?_, ?_, ?_⟩
  · simp [gcvsplSetup]
  · simp [gcvsplSetup]
  · simp [gcvsplTrial, gcvsplSetup, entryStatics]
  · simp [gcvsplTrial, gcvsplSetup, entryStatics]

/-- C30: for `m = 1` every row of the weighted penalty matrix that `prep`
builds sums to zero; hence, for valid knots and weights and every fixed
`p ≥ 0`, the fit of data that are constant in every channel returns with
`ier = 0`, every coefficient is that constant, the residuals
`(B c)[i] - y[i]` are zero and so is the residual statistic `stat[2]`. -/
theorem prep_rows_sum_zero_constant_fit (fuel : Nat) (x : Vec) (y : Arr2) (wx wy : Vec)
    (n k : Int) (p : ℚ) (c : Arr2) (wk : Wk) (st : Statics) (α : Int → ℚ) (hn : 2 ≤ n)
    (hx : Increasing n x) (hwx : ∀ i, 1 ≤ i → i ≤ n → 0 < wx i)
    (hwy : ∀ j, 1 ≤ j → j ≤ k → 0 < wy j) (hp : 0 ≤ p)
    (hy : ∀ i j, 1 ≤ i → i ≤ n → 1 ≤ j → j ≤ k → y i j = α j) :
    (∀ (we : Arr2) (i : Int), 1 ≤ i → i ≤ n →
      (prep 1 n x wx we).1 (-1) i + (prep 1 n x wx we).1 0 i + (prep 1 n x wx we).1 1 i = 0) ∧
      ∃ o, gcvspl fuel ⟨x, y, wx, wy, 1, n, k, 1, p⟩ c wk st = some o ∧ o.ier = 0 ∧
        o.wk.we = (prep 1 n x wx wk.we).1 ∧
        (∀ i j, 1 ≤ i → i ≤ n → 1 ≤ j → j ≤ k →
          o.c i j = α j ∧ o.wk.b 0 i * o.c i j - y i j = 0) ∧
        o.wk.stat 2 = 0 := by
  constructor
  · intro we i hi1 hi2
    obtain ⟨h1, h2, h3⟩ := prep_one n x wx we hn hx i hi1 hi2
    rw [h1, h2, h3]
    ring
  obtain ⟨o, stat, bwe, ho, hier, hb, hwe, hc, hstat⟩ :=
    gcvspl_fixed_out fuel x y wx wy 1 n k p c wk st le_rfl (by omega) hx hwx hwy hp
  have hel : 0 ≤ (prep 1 n x wx wk.we).2 /
      (basis 1 n x wk.b (fun j => wk.bwe (j - 1) 1)).bl := by
    have hbl : (basis 1 n x wk.b (fun j => wk.bwe (j - 1) 1)).bl = 1 := by simp [basis]
    rw [hbl, div_one]
    exact prep_one_el n x wx wk.we (by omega)
  have hcs : ∀ i j, 1 ≤ i → i ≤ n → 1 ≤ j → j ≤ k → o.c i j = α j := by
    intro i j hi1 hi2 hj1 hj2
    rw [hc]
    exact splc_constant n k y wx wy 1 p p c_b6 c stat _ _ _ bwe x (α j) hn hx hwx
      (fun r hr1 hr2 => basis_one n x wk.b _ r hr1 hr2)
      (fun r hr1 hr2 => prep_one n x wx wk.we hn hx r hr1 hr2)
      (splcDp_nonneg p c_b6 _ hp (by norm_num [c_b6]) hel) j hj1 hj2
      (fun r hr1 hr2 => hy r j hr1 hr2 hj1 hj2) i hi1 hi2
  refine ⟨o, ho, hier, hwe, ?_, ?_⟩
  · intro i j hi1 hi2 hj1 hj2
    refine ⟨hcs i j hi1 hi2 hj1 hj2, ?_⟩
    rw [hb, basis_one n x wk.b _ i hi1 hi2, hcs i j hi1 hi2 hj1 hj2, hy i j hi1 hi2 hj1 hj2]
    ring
  · rw [hstat, splc_stat2, ← hc, splcResidual_eq]
    have hz : ∑ j ∈ Finset.Icc 1 k, ∑ i ∈ Finset.Icc 1 n,
        (-(y i j) + ∑ l ∈ Finset.Icc (-min ((1 : Int) - 1) (i - 1)) (min (1 - 1) (n - i)),
          (basis 1 n x wk.b (fun j => wk.bwe (j - 1) 1)).b l i * o.c (i + l) j) *
        (-(y i j) + ∑ l ∈ Finset.Icc (-min ((1 : Int) - 1) (i - 1)) (min (1 - 1) (n - i)),
          (basis 1 n x wk.b (fun j => wk.bwe (j - 1) 1)).b l i * o.c (i + l) j) *
          wx i * wy j = 0 := by
      apply Finset.sum_eq_zero
      intro j hj
      apply Finset.sum_eq_zero
      intro i hi
      simp only [Finset.mem_Icc] at hi hj
      have e1 : -min ((1 : Int) - 1) (i - 1) = 0 := by omega
      have e2 : min ((1 : Int) - 1) (n - i) = 0 := by omega
      rw [e1, e2, Finset.Icc_self, Finset.sum_singleton, add_zero,
        basis_one n x wk.b _ i hi.1 hi.2, hcs i j hi.1 hi.2 hj.1 hj.2,
        hy i j hi.1 hi.2 hj.1 hj.2]
      ring
    rw [hz, zero_div]

theorem prep_rows_sum_zero_constant_fit_witness :
    (2 : Int) ≤ 2 ∧ Increasing 2 (vecOf [0, 1]) ∧
      (∀ i, 1 ≤ i → i ≤ (2 : Int) → 0 < vecOf [1, 1] i) ∧
      (∀ j, 1 ≤ j → j ≤ (1 : Int) → 0 < vecOf [1] j) ∧ (0 : ℚ) ≤ 1 ∧
      (∀ i j, 1 ≤ i → i ≤ (2 : Int) → 1 ≤ j → j ≤ (1 : Int) →
        (fun (_ : Int) (_ : Int) => (5 : ℚ)) i j = (fun (_ : Int) => (5 : ℚ)) j) ∧
      ((∀ (we : Arr2) (i : Int), 1 ≤ i → i ≤ (2 : Int) →
        (prep 1 2 (vecOf [0, 1]) (vecOf [1, 1]) we).1 (-1) i +
          (prep 1 2 (vecOf [0, 1]) (vecOf [1, 1]) we).1 0 i +
          (prep 1 2 (vecOf [0, 1]) (vecOf [1, 1]) we).1 1 i = 0) ∧
      ∃ o, gcvspl 0 ⟨vecOf [0, 1], fun _ _ => 5, vecOf [1, 1], vecOf [1], 1, 2, 1, 1, 1⟩
          zero2 wkZero Statics.init = some o ∧ o.ier = 0 ∧
        o.wk.we = (prep 1 2 (vecOf [0, 1]) (vecOf [1, 1]) wkZero.we).1 ∧
        (∀ i j, 1 ≤ i → i ≤ (2 : Int) → 1 ≤ j → j ≤ (1 : Int) →
          o.c i j = (fun (_ : Int) => (5 : ℚ)) j ∧
            o.wk.b 0 i * o.c i j - (fun (_ : Int) (_ : Int) => (5 : ℚ)) i j = 0) ∧
        o.wk.stat 2 = 0) :=
  ⟨by decide, increasing_two 0 1 (by decide!),
    (by intro i h1 h2; interval_cases i <;> decide!),
    (by intro j h1 h2; interval_cases j; decide!), by decide!,
    (fun _ _ _ _ _ _ => rfl),
    prep_rows_sum_zero_constant_fit 0 (vecOf [0, 1]) (fun _ _ => 5) (vecOf [1, 1]) (vecOf [1])
      2 1 1 zero2 wkZero Statics.init (fun _ => 5) (by decide)
      (increasing_two 0 1 (by decide!))
      (by intro i h1 h2; interval_cases i <;> decide!)
      (by intro j h1 h2; interval_cases j; decide!) (by decide!)
      (fun _ _ _ _ _ _ => rfl)⟩


theorem gcvsplTrial_stat3 (a a' : Args) (wk : Wk) (st : Statics) (p : ℚ) (s s' : SplcOut)
    (hmd : a.md > 0) (hmd' : a'.md > 0) (hm : a.m = a'.m) (hn : a.n = a'.n)
    (hx : a.x = a'.x) (hwx : a.wx = a'.wx) (hs : s.bwe = s'.bwe) :
    (gcvsplTrial a (gcvsplSetup a wk st).1 (gcvsplSetup a wk st).2.el p s).stat 3 =
      (gcvsplTrial a' (gcvsplSetup a' wk st).1 (gcvsplSetup a' wk st).2.el p s').stat 3 := by
  unfold gcvsplTrial
  rw [splc_stat3, splc_stat3]
  simp only [gcvsplSetup, if_pos hmd, if_pos hmd', hm, hn, hx, hwx, hs]

/-- C28: the statistic that `splc` stores in `stat[3]` is `dp` times the trace
of `WE Z`, which is `n` minus the trace of `B Z`, where `Z` is the inverse of
`B + dp WE` (the pivots of the factorisation being nonzero).  It is the same
for all data values, channel weights, channel counts, modes and mode values;
in `gcvspl` (with `md > 0`) it is the same for any two calls that agree in
`m`, `n`, `x`, `wx` and the trial value `p`. -/
theorem splc_stat3_trace (m n k : Int) (y : Arr2) (wx wy : Vec) (mode : Int)
    (val p eps : ℚ) (c : Arr2) (stat : Vec) (b we : Arr2) (el : ℚ) (bwe : Arr2)
    (z : Int → Int → ℚ) (hm : 1 ≤ m) (hn : 1 ≤ n)
    (hpiv : ∀ i, 1 ≤ i → i ≤ n →
      bandet (splcAssemble m n (splcDp p eps el).1 b we bwe) m n 0 i ≠ 0)
    (hz : IsInverse m n (systemMatrix m (splcDp p eps el).1 b we) z) :
    (splc m n k y wx wy mode val p eps c stat b we el bwe).stat 3 =
        (splcDp p eps el).1 *
          ∑ i ∈ Finset.Icc 1 n, ∑ l ∈ Finset.Icc (-min m (i - 1)) (min m (n - i)),
            we l i * z (i + l) i ∧
      (splcDp p eps el).1 *
          (∑ i ∈ Finset.Icc 1 n, ∑ l ∈ Finset.Icc (-min m (i - 1)) (min m (n - i)),
            we l i * z (i + l) i) = (n : ℚ) - hatTrace m n b z ∧
      (∀ (k' : Int) (y' : Arr2) (wx' wy' : Vec) (mode' : Int) (val' : ℚ) (c' : Arr2)
        (stat' : Vec),
        (splc m n k' y' wx' wy' mode' val' p eps c' stat' b we el bwe).stat 3 =
          (splc m n k y wx wy mode val p eps c stat b we el bwe).stat 3) ∧
      ∀ (a a' : Args) (wk : Wk) (st : Statics) (q : ℚ) (s s' : SplcOut),
        a.md > 0 → a'.md > 0 → a.m = a'.m → a.n = a'.n → a.x = a'.x → a.wx = a'.wx →
        s.bwe = s'.bwe →
        (gcvsplTrial a (gcvsplSetup a wk st).1 (gcvsplSetup a wk st).2.el q s).stat 3 =
          (gcvsplTrial a' (gcvsplSetup a' wk st).1 (gcvsplSetup a' wk st).2.el q s').stat 3 := by
  have hz' : IsInverse m n (splcAssemble m n (splcDp p eps el).1 b we bwe) z :=
    isInverse_congr m n _ _ z
      (fun i s h1 h2 h3 h4 => bandEntry_assemble m n _ b we bwe i s h1 h2 h3 h4) hz
  have h1 := trinv_trace m n we _ z hm hn hpiv hz'
  have h2 := trace_split m n (splcDp p eps el).1 b we z hm hn hz
  refine ⟨?_, h2, ?_, ?_⟩
  · rw [splc_stat3, h1, mul_comm]
  · intro k' y' wx' wy' mode' val' c' stat'
    rw [splc_stat3, splc_stat3]
  · intro a a' wk st q s s' h1 h2 h3 h4 h5 h6 h7
    exact gcvsplTrial_stat3 a a' wk st q s s' h1 h2 h3 h4 h5 h6 h7

theorem splc_stat3_trace_witness :
    (1 : Int) ≤ 1 ∧ (1 : Int) ≤ 2 ∧
      (∀ i, 1 ≤ i → i ≤ (2 : Int) →
        bandet (splcAssemble 1 2 (splcDp 1 c_b6 2).1 (searchWk (twoKnots 1 1 0)).b
          (searchWk (twoKnots 1 1 0)).we zero2) 1 2 0 i ≠ 0) ∧
      IsInverse 1 2
        (systemMatrix 1 (splcDp 1 c_b6 2).1 (searchWk (twoKnots 1 1 0)).b
          (searchWk (twoKnots 1 1 0)).we) twoKnotsInverse ∧
      ((splc 1 2 1 (fun i _ => vecOf [0, 1] i) (vecOf [1, 1]) (vecOf [1]) 1 0 1 c_b6 zero2
          (fun _ => 0) (searchWk (twoKnots 1 1 0)).b (searchWk (twoKnots 1 1 0)).we 2
          zero2).stat 3 =
        (splcDp 1 c_b6 2).1 *
          ∑ i ∈ Finset.Icc 1 (2 : Int),
            ∑ l ∈ Finset.Icc (-min (1 : Int) (i - 1)) (min 1 (2 - i)),
              (searchWk (twoKnots 1 1 0)).we l i * twoKnotsInverse (i + l) i ∧
      (splcDp 1 c_b6 2).1 *
          (∑ i ∈ Finset.Icc 1 (2 : Int),
            ∑ l ∈ Finset.Icc (-min (1 : Int) (i - 1)) (min 1 (2 - i)),
              (searchWk (twoKnots 1 1 0)).we l i * twoKnotsInverse (i + l) i) =
        ((2 : Int) : ℚ) - hatTrace 1 2 (searchWk (twoKnots 1 1 0)).b twoKnotsInverse ∧
      (∀ (k' : Int) (y' : Arr2) (wx' wy' : Vec) (mode' : Int) (val' : ℚ) (c' : Arr2)
        (stat' : Vec),
        (splc 1 2 k' y' wx' wy' mode' val' 1 c_b6 c' stat' (searchWk (twoKnots 1 1 0)).b
          (searchWk (twoKnots 1 1 0)).we 2 zero2).stat 3 =
        (splc 1 2 1 (fun i _ => vecOf [0, 1] i) (vecOf [1, 1]) (vecOf [1]) 1 0 1 c_b6 zero2
          (fun _ => 0) (searchWk (twoKnots 1 1 0)).b (searchWk (twoKnots 1 1 0)).we 2
          zero2).stat 3) ∧
      ∀ (a a' : Args) (wk : Wk) (st : Statics) (q : ℚ) (s s' : SplcOut),
        a.md > 0 → a'.md > 0 → a.m = a'.m → a.n = a'.n → a.x = a'.x → a.wx = a'.wx →
        s.bwe = s'.bwe →
        (gcvsplTrial a (gcvsplSetup a wk st).1 (gcvsplSetup a wk st).2.el q s).stat 3 =
          (gcvsplTrial a' (gcvsplSetup a' wk st).1 (gcvsplSetup a' wk st).2.el q s').stat 3) :=
  ⟨by decide, by decide, twoKnots_pivots _ (by decide!),
    twoKnots_isInverse _ (by decide!),
    splc_stat3_trace 1 2 1 (fun i _ => vecOf [0, 1] i) (vecOf [1, 1]) (vecOf [1]) 1 0 1
      c_b6 zero2 (fun _ => 0) (searchWk (twoKnots 1 1 0)).b (searchWk (twoKnots 1 1 0)).we 2
      zero2 twoKnotsInverse (by decide) (by decide) (twoKnots_pivots _ (by decide!))
      (twoKnots_isInverse _ (by decide!))⟩


/-! ## The scale `el` of the penalty matrix -/

theorem sum_Icc_pop_right (f : Int → ℚ) (lo hi : Int) (h : lo ≤ hi + 1) :
    ∑ k ∈ Finset.Icc lo (hi + 1), f k = (∑ k ∈ Finset.Icc lo hi, f k) + f (hi + 1) := by
  have h3 : Finset.Icc lo (hi + 1) = insert (hi + 1) (Finset.Icc lo hi) := by
    ext t; simp only [Finset.mem_Icc, Finset.mem_insert]; omega
  rw [h3, Finset.sum_insert (by simp), add_comm]

theorem flat_index (m i t : Int) (hm : 0 ≤ m) (ht1 : 1 ≤ t) (ht2 : t ≤ 2 * m + 1) :
    ((2 * m + 1) * (i - 1) + t - 1) % (2 * m + 1) - m = t - 1 - m ∧
      ((2 * m + 1) * (i - 1) + t - 1) / (2 * m + 1) + 1 = i := by
  have e : (2 * m + 1) * (i - 1) + t - 1 = (t - 1) + (2 * m + 1) * (i - 1) := by ring
  rw [e, Int.add_mul_emod_self_left, Int.add_mul_ediv_left _ _ (by omega : (2 * m + 1) ≠ 0),
    Int.emod_eq_of_lt (by omega) (by omega), Int.ediv_eq_zero_of_lt (by omega) (by omega)]
  constructor
  · rfl
  · ring

/-- The inner loop of the third stage of `prep` divides the `2m + 1` band
entries of row `i` by `w[i]` and adds their absolute values to the sum. -/
theorem prepWeighRow_spec (m : Int) (w : Vec) (i : Int) (s : Arr2 × ℚ × Int) (hm : 0 ≤ m)
    (hjj : s.2.2 = (2 * m + 1) * (i - 1)) :
    (prepWeighRow m w i s).2.2 = (2 * m + 1) * (i - 1) + (2 * m + 1) ∧
      (prepWeighRow m w i s).2.1 =
        s.2.1 + ∑ l ∈ Finset.Icc (-m) m, dabs (s.1 l i / w i) ∧
      (∀ l, -m ≤ l → l ≤ m → (prepWeighRow m w i s).1 l i = s.1 l i / w i) ∧
      ∀ l i', i' ≠ i → (prepWeighRow m w i s).1 l i' = s.1 l i' := by
  have h := forUp_inv
    (fun t (a : Arr2 × ℚ × Int) => a.2.2 = (2 * m + 1) * (i - 1) + (t - 1) ∧
      a.2.1 = s.2.1 + ∑ l ∈ Finset.Icc (-m) (t - 2 - m), dabs (s.1 l i / w i) ∧
      (∀ l, -m ≤ l → l ≤ t - 2 - m → a.1 l i = s.1 l i / w i) ∧
      (∀ l, t - 2 - m < l → a.1 l i = s.1 l i) ∧
      ∀ l i', i' ≠ i → a.1 l i' = s.1 l i')
    (fun _ (s : Arr2 × ℚ × Int) =>
      (weSet m s.1 (s.2.2 + 1) (weGet m s.1 (s.2.2 + 1) / w i),
        s.2.1 + dabs (weGet m (weSet m s.1 (s.2.2 + 1) (weGet m s.1 (s.2.2 + 1) / w i))
          (s.2.2 + 1)), s.2.2 + 1))
    1 (2 * m + 1) s (by omega)
    (by
      refine ⟨by show s.2.2 = _; rw [hjj]; ring, ?_, ?_, ?_, ?_⟩
      · show s.2.1 = _
        rw [Finset.Icc_eq_empty (by omega), Finset.sum_empty, add_zero]
      · intro l h1 h2
        omega
      · intro l _
        rfl
      · intro l i' _
        rfl)
    (by
      intro t a ht1 ht2 ⟨hj, hacc, hdone, hrest, hoth⟩
      obtain ⟨f1, f2⟩ := flat_index m i t hm ht1 ht2
      have e1 : a.2.2 + 1 - 1 = (2 * m + 1) * (i - 1) + t - 1 := by rw [hj]; ring
      have g1 : weGet m a.1 (a.2.2 + 1) = s.1 (t - 1 - m) i := by
        unfold weGet
        rw [e1, f1, f2]
        exact hrest (t - 1 - m) (by omega)
      have g2 : ∀ v, weSet m a.1 (a.2.2 + 1) v = set2 a.1 (t - 1 - m) i v := by
        intro v
        unfold weSet
        rw [e1, f1, f2]
      have g3 : ∀ v, weGet m (set2 a.1 (t - 1 - m) i v) (a.2.2 + 1) = v := by
        intro v
        unfold weGet
        rw [e1, f1, f2, set2_same]
      dsimp only
      rw [g1, g2, g3]
      refine ⟨by rw [hj]; ring, ?_, ?_, ?_, ?_⟩
      · have e2 : t + 1 - 2 - m = (t - 2 - m) + 1 := by ring
        have e3 : t - 2 - m + 1 = t - 1 - m := by ring
        rw [e2, sum_Icc_pop_right _ _ _ (by omega), hacc, e3, add_assoc]
      · intro l h1 h2
        by_cases c : l = t - 1 - m
        · rw [c, set2_same]
        · rw [set2_other _ _ _ _ (by omega)]
          exact hdone l h1 (by omega)
      · intro l h1
        rw [set2_other _ _ _ _ (by omega)]
        exact hrest l (by omega)
      · intro l i' hi'
        rw [set2_other _ _ _ _ (by omega)]
        exact hoth l i' hi')
  have e4 : 2 * m + 1 + 1 - 2 - m = m := by ring
  have e5 : (2 * m + 1) * (i - 1) + (2 * m + 1 + 1 - 1) = (2 * m + 1) * (i - 1) + (2 * m + 1) := by
    ring
  dsimp only at h
  rw [e4, e5] at h
  exact ⟨h.1, h.2.1, h.2.2.1, h.2.2.2.2⟩

/-- The third stage of `prep`: every band entry of the rows `1..n` is divided
by the weight of its row, and the sum is that of the absolute values of the
entries so obtained. -/
theorem prepWeigh_spec (m n : Int) (w : Vec) (we : Arr2) (hm : 0 ≤ m) (hn : 0 ≤ n) :
    (∀ l i, 1 ≤ i → i ≤ n → -m ≤ l → l ≤ m → (prepWeigh m n w we).1 l i = we l i / w i) ∧
      (prepWeigh m n w we).2.1 =
        ∑ i ∈ Finset.Icc 1 n, ∑ l ∈ Finset.Icc (-m) m, dabs (we l i / w i) := by
  have h := forUp_inv
    (fun i (s : Arr2 × ℚ × Int) => s.2.2 = (2 * m + 1) * (i - 1) ∧
      s.2.1 = ∑ i' ∈ Finset.Icc 1 (i - 1), ∑ l ∈ Finset.Icc (-m) m, dabs (we l i' / w i') ∧
      (∀ l i', 1 ≤ i' → i' < i → -m ≤ l → l ≤ m → s.1 l i' = we l i' / w i') ∧
      (∀ l i', i ≤ i' → s.1 l i' = we l i'))
    (prepWeighRow m w) 1 n (we, 0, 0) (by omega)
    (by
      refine ⟨by dsimp only; ring, ?_, ?_, ?_⟩
      · dsimp only
        rw [Finset.Icc_eq_empty (by omega), Finset.sum_empty]
      · intro l i' h1 h2
        omega
      · intro l i' _
        rfl)
    (by
      intro i s hi1 hi2 ⟨hjj, hacc, hdone, hrest⟩
      obtain ⟨r1, r2, r3, r4⟩ := prepWeighRow_spec m w i s hm hjj
      refine ⟨by rw [r1]; ring, ?_, ?_, ?_⟩
      · have e1 : i + 1 - 1 = (i - 1) + 1 := by ring
        have e2 : i - 1 + 1 = i := by ring
        rw [r2, e1, sum_Icc_pop_right _ _ _ (by omega), hacc, e2]
        congr 1
        apply Finset.sum_congr rfl
        intro l _
        rw [hrest l i le_rfl]
      · intro l i' h1 h2 h3 h4
        by_cases c : i' = i
        · rw [c, r3 l h3 h4, hrest l i le_rfl]
        · rw [r4 l i' c]
          exact hdone l i' h1 (by omega) h3 h4
      · intro l i' h1
        rw [r4 l i' (by omega)]
        exact hrest l i' (by omega))
  have e : n + 1 - 1 = n := by ring
  dsimp only at h
  rw [e] at h
  exact ⟨fun l i h1 h2 h3 h4 => h.2.2.1 l i h1 (by omega) h3 h4, h.2.1⟩

theorem forUp_id {σ : Type} (f : Int → σ → σ) (lo hi : Int) (s : σ)
    (h : ∀ i a, lo ≤ i → i ≤ hi → f i a = a) : forUp lo hi f s = s := by
  by_cases c : lo ≤ hi + 1
  · exact forUp_inv (fun _ a => a = s) f lo hi s c rfl
      (fun i a h1 h2 ha => by dsimp only; rw [h i a h1 h2]; exact ha)
  · exact forUp_of_lt (by omega) f s

/-- The value `*el` that `prep` returns is the sum of the absolute values of
the `2m + 1` band entries of the rows `1..n` of the array it leaves, divided
by `n`. -/
theorem prep_el (m n : Int) (x w : Vec) (we : Arr2) :
    (prep m n x w we).2 =
      (∑ i ∈ Finset.Icc 1 n, ∑ l ∈ Finset.Icc (-m) m, |(prep m n x w we).1 l i|) / (n : ℚ) := by
  rw [prep_eq_stages]
  dsimp only
  congr 1
  by_cases hn : 0 ≤ n
  · by_cases hm : 0 ≤ m
    · obtain ⟨h1, h2⟩ := prepWeigh_spec m n w (prepZero m n (prepColumns m n x we).we).1 hm hn
      rw [h2]
      apply Finset.sum_congr rfl
      intro i hi
      apply Finset.sum_congr rfl
      intro l hl
      simp only [Finset.mem_Icc] at hi hl
      rw [h1 l i hi.1 hi.2 hl.1 hl.2, dabs_eq_abs]
    · have e : prepWeigh m n w (prepZero m n (prepColumns m n x we).we).1 =
          ((prepZero m n (prepColumns m n x we).we).1, 0, 0) := by
        unfold prepWeigh
        apply forUp_id
        intro i a _ _
        unfold prepWeighRow
        exact forUp_of_lt (by omega) _ _
      rw [e]
      dsimp only
      symm
      apply Finset.sum_eq_zero
      intro i _
      rw [Finset.Icc_eq_empty (by omega), Finset.sum_empty]
  · have e : prepWeigh m n w (prepZero m n (prepColumns m n x we).we).1 =
        ((prepZero m n (prepColumns m n x we).we).1, 0, 0) := by
      unfold prepWeigh
      exact forUp_of_lt (by omega) _ _
    rw [e, Finset.Icc_eq_empty (by omega), Finset.sum_empty]

/-- C26, counterexample: for `m = 1` and the two knots `0, 1` with unit
weights the band entries left by `prep` are `0, 1, -1` and `-1, 1, 0`; the sum
of their absolute values is `4`, and `prep` returns `el = 4 / 2 = 2`, not
`4 / (2 * 3) = 2/3`. -/
theorem prep_el_counterexample :
    (prep 1 2 (vecOf [0, 1]) (vecOf [1, 1]) zero2).2 = 2 ∧
      (∑ i ∈ Finset.Icc (1 : Int) 2, ∑ l ∈ Finset.Icc (-1 : Int) 1,
        |(prep 1 2 (vecOf [0, 1]) (vecOf [1, 1]) zero2).1 l i|) = 4 ∧
      (∑ i ∈ Finset.Icc (1 : Int) 2, ∑ l ∈ Finset.Icc (-1 : Int) 1,
        |(prep 1 2 (vecOf [0, 1]) (vecOf [1, 1]) zero2).1 l i|) /
          (((2 : Int) : ℚ) * ((2 * 1 + 1 : Int) : ℚ)) ≠
        (prep 1 2 (vecOf [0, 1]) (vecOf [1, 1]) zero2).2 := by
  have h1 : (prep 1 2 (vecOf [0, 1]) (vecOf [1, 1]) zero2).2 = 2 := by decide!
  have h2 : (∑ i ∈ Finset.Icc (1 : Int) 2, ∑ l ∈ Finset.Icc (-1 : Int) 1,
      |(prep 1 2 (vecOf [0, 1]) (vecOf [1, 1]) zero2).1 l i|) = 4 := by
    have h := prep_el 1 2 (vecOf [0, 1]) (vecOf [1, 1]) zero2
    rw [h1] at h
    have e : ((2 : Int) : ℚ) = 2 := by norm_num
    rw [e] at h
    have e1 : (-(1 : Int)) = -1 := rfl
    linarith
  refine ⟨h1, h2, ?_⟩
  rw [h1, h2]
  norm_num

/-- C26, amended: the value `*el` that `prep` returns is the sum of the
absolute values of the `2m + 1` band entries of the `n` rows of the weighted
penalty matrix divided by `n`, that is the mean over the rows of the absolute
row sums, for all `m`, `n`, knots and weights. -/
theorem prep_el_row_mean (m n : Int) (x w : Vec) (we : Arr2) :
    (prep m n x w we).2 =
      (∑ i ∈ Finset.Icc 1 n, ∑ l ∈ Finset.Icc (-m) m, |(prep m n x w we).1 l i|) / (n : ℚ) :=
  prep_el m n x w we


/-! ## The scale `bl` of the design matrix -/

theorem fill_frame (g : Int → ℚ) (lo hi r : Int) (b : Arr2) (l i : Int)
    (h : l < lo ∨ hi < l ∨ i ≠ r) :
    forUp lo hi (fun j b => set2 b j r (g j)) b l i = b l i := by
  by_cases c : lo ≤ hi + 1
  · exact forUp_inv (fun _ (a : Arr2) => a l i = b l i) _ lo hi b c rfl
      (fun j a h1 h2 ha => by
        dsimp only
        rw [set2_other _ _ _ _ (by omega)]
        exact ha)
  · rw [forUp_of_lt (by omega)]

theorem basis_bl (m n : Int) (x : Vec) (b : Arr2) (q : Vec) (hm : m ≠ 1) :
    (basis m n x b q).bl =
      (∑ i ∈ Finset.Icc 1 n, ∑ k ∈ Finset.Icc (-(m - 1)) (m - 1),
        |(basis m n x b q).b k i|) / (n : ℚ) := by
  simp only [basis, if_neg hm, forUp_add_sum, zero_add, dabs_eq_abs]

theorem basis_bl_one (n : Int) (x : Vec) (b : Arr2) (q : Vec) (hn : 1 ≤ n) :
    (basis 1 n x b q).bl =
      (∑ i ∈ Finset.Icc 1 n, ∑ k ∈ Finset.Icc (-((1 : Int) - 1)) (1 - 1),
        |(basis 1 n x b q).b k i|) / (n : ℚ) := by
  have h1 : (basis 1 n x b q).bl = 1 := by simp [basis]
  have h2 : ∑ i ∈ Finset.Icc 1 n, ∑ k ∈ Finset.Icc (-((1 : Int) - 1)) (1 - 1),
      |(basis 1 n x b q).b k i| = ∑ i ∈ Finset.Icc 1 n, (1 : ℚ) := by
    apply Finset.sum_congr rfl
    intro i hi
    simp only [Finset.mem_Icc] at hi
    have e : Finset.Icc (-((1 : Int) - 1)) (1 - 1) = {0} := by decide
    rw [e, Finset.sum_singleton, basis_one n x b q i hi.1 hi.2, abs_one]
  rw [h1, h2]
  simp only [Finset.sum_const, Int.card_Icc, nsmul_eq_mul, mul_one]
  have e1 : (((n + 1 - 1).toNat : Nat) : ℚ) = (n : ℚ) := by
    have : ((n + 1 - 1).toNat : Int) = n := by omega
    exact_mod_cast this
  rw [e1, div_self]
  have : (0 : ℚ) < (n : ℚ) := by exact_mod_cast (by omega : (0 : Int) < n)
  exact ne_of_gt this

theorem corners_frame (m n : Int) (B : Arr2) (l i : Int) (h : l < -(m - 1) ∨ m - 1 < l) :
    forUp 1 (m - 1) (fun i b =>
      forUp i (m - 1) (fun k b => set2 (set2 b (-k) i 0) k (n + 1 - i) 0) b) B l i = B l i := by
  by_cases c : (1 : Int) ≤ m - 1 + 1
  · exact forUp_inv (fun _ (a : Arr2) => a l i = B l i) _ 1 (m - 1) B c rfl
      (fun j a h1 h2 ha => by
        dsimp only
        by_cases c2 : j ≤ m - 1 + 1
        · exact forUp_inv (fun _ (a' : Arr2) => a' l i = B l i) _ j (m - 1) a c2 ha
            (fun k a' k1 k2 ha' => by
              dsimp only
              rw [set2_other _ _ _ _ (by omega), set2_other _ _ _ _ (by omega)]
              exact ha')
        · rw [forUp_of_lt (by omega)]
          exact ha)
  · rw [forUp_of_lt (by omega)]

theorem basis_frame (m n : Int) (x : Vec) (b : Arr2) (q : Vec) (l i : Int)
    (h : l < -(m - 1) ∨ m - 1 < l) : (basis m n x b q).b l i = b l i := by
  by_cases hm : m = 1
  · subst hm
    have hb : (basis 1 n x b q).b = forUp 1 n (fun i b => set2 b 0 i 1) b := by
      simp [basis]
    rw [hb]
    by_cases c : (1 : Int) ≤ n + 1
    · exact forUp_inv (fun _ (a : Arr2) => a l i = b l i) _ 1 n b c rfl
        (fun j a h1 h2 ha => by
          dsimp only
          rw [set2_other _ _ _ _ (by omega)]
          exact ha)
    · rw [forUp_of_lt (by omega)]
  · simp only [basis, if_neg hm]
    rw [corners_frame m n _ l i h]
    by_cases c : (1 : Int) ≤ n + 1
    · exact forUp_inv (fun _ (a : Arr2 × Vec) => a.1 l i = b l i) _ 1 n (b, q) c rfl
        (fun j a h1 h2 ha => (fill_frame _ _ _ _ _ _ _ (by omega)).trans ha)
    · rw [forUp_of_lt (by omega)]

/-- C27: `basis` returns in `bl` the mean over the `n` rows of the sum of the
absolute values of the band entries of the row at the offsets
`-(m-1)..m-1`, and it writes no entry of the design matrix at another offset;
for `m = 1` the design matrix is the identity and `bl = 1`. -/
theorem basis_bl_row_mean (m n : Int) (x : Vec) (b : Arr2) (q : Vec) (hn : 1 ≤ n) :
    (basis m n x b q).bl =
        (∑ i ∈ Finset.Icc 1 n, ∑ k ∈ Finset.Icc (-(m - 1)) (m - 1),
          |(basis m n x b q).b k i|) / (n : ℚ) ∧
      (∀ l i, l < -(m - 1) ∨ m - 1 < l → (basis m n x b q).b l i = b l i) ∧
      (m = 1 → (basis m n x b q).bl = 1 ∧
        ∀ i, 1 ≤ i → i ≤ n → (basis m n x b q).b 0 i = 1) := by
  refine ⟨?_, fun l i h => basis_frame m n x b q l i h, ?_⟩
  · by_cases hm : m = 1
    · rw [hm]
      exact basis_bl_one n x b q hn
    · exact basis_bl m n x b q hm
  · intro hm
    rw [hm]
    exact ⟨by simp [basis], fun i h1 h2 => basis_one n x b q i h1 h2⟩

theorem basis_bl_row_mean_witness :
    (1 : Int) ≤ 4 ∧
      ((basis 2 4 (vecOf [0, 1, 2, 3]) zero2 (fun _ => 0)).bl =
        (∑ i ∈ Finset.Icc 1 (4 : Int), ∑ k ∈ Finset.Icc (-((2 : Int) - 1)) (2 - 1),
          |(basis 2 4 (vecOf [0, 1, 2, 3]) zero2 (fun _ => 0)).b k i|) / ((4 : Int) : ℚ) ∧
      (∀ l i, l < -((2 : Int) - 1) ∨ (2 : Int) - 1 < l →
        (basis 2 4 (vecOf [0, 1, 2, 3]) zero2 (fun _ => 0)).b l i = zero2 l i) ∧
      ((2 : Int) = 1 → (basis 2 4 (vecOf [0, 1, 2, 3]) zero2 (fun _ => 0)).bl = 1 ∧
        ∀ i, 1 ≤ i → i ≤ (4 : Int) →
          (basis 2 4 (vecOf [0, 1, 2, 3]) zero2 (fun _ => 0)).b 0 i = 1)) :=
  ⟨by decide, basis_bl_row_mean 2 4 (vecOf [0, 1, 2, 3]) zero2 (fun _ => 0) (by decide)⟩


/-! ## The fit at `p = 0` -/

theorem splcDp_zero (eps el : ℚ) (heps : 0 < eps) : splcDp 0 eps el = (eps / el, 0) := by
  have h1 : (0 : ℚ) * el < eps := by rw [zero_mul]; exact heps
  have h2 : ¬ ((0 : ℚ) * el * eps > 1) := by rw [zero_mul, zero_mul]; norm_num
  simp only [splcDp, if_pos h1, if_neg h2]

/-- The residual of the coefficients that `splc` leaves: `B c - y` is
`-dp WE c`. -/
theorem splc_residual (m n k : Int) (y : Arr2) (wx wy : Vec) (mode : Int)
    (val p eps : ℚ) (c : Arr2) (stat : Vec) (b we : Arr2) (el : ℚ) (bwe : Arr2)
    (hm : 1 ≤ m)
    (hpiv : ∀ i, 1 ≤ i → i ≤ n →
      bandet (splcAssemble m n (splcDp p eps el).1 b we bwe) m n 0 i ≠ 0)
    (j : Int) (hj1 : 1 ≤ j) (hj2 : j ≤ k) (i : Int) (hi1 : 1 ≤ i) (hi2 : i ≤ n) :
    -(y i j) + ∑ l ∈ Finset.Icc (-min (m - 1) (i - 1)) (min (m - 1) (n - i)),
        b l i * (splc m n k y wx wy mode val p eps c stat b we el bwe).c (i + l) j =
      -((splcDp p eps el).1 * ∑ l ∈ Finset.Icc (-min m (i - 1)) (min m (n - i)),
        we l i * (splc m n k y wx wy mode val p eps c stat b we el bwe).c (i + l) j) := by
  have h := splc_solve m n k y wx wy mode val p eps c stat b we el bwe hm hpiv j hj1 hj2 i
    hi1 hi2
  rw [← sum_inner_band m n i
    (fun l => b l i * (splc m n k y wx wy mode val p eps c stat b we el bwe).c (i + l) j)
    hm hi1 hi2, ← h, Finset.mul_sum, ← sub_eq_zero]
  have e : ∀ (A B C : ℚ), -A + B - -C = B + C - A := by intro A B C; ring
  rw [e, ← Finset.sum_add_distrib, ← Finset.sum_sub_distrib]
  apply Finset.sum_eq_zero
  intro l _
  split <;> ring

theorem gcvsplSetup_statics (a : Args) (wk : Wk) (st st' : Statics) (h : a.md > 0) :
    (gcvsplSetup a wk st).1 = (gcvsplSetup a wk st').1 ∧
      (gcvsplSetup a wk st).2.el = (gcvsplSetup a wk st').2.el := by
  simp only [gcvsplSetup, if_pos h, and_self]

/-- The result of a call of `gcvspl` in fixed-p mode that passes validation:
one call of `splc` at `p = val` on the arrays set up by `basis` and `prep`. -/
theorem gcvspl_fixed_eq (fuel : Nat) (x : Vec) (y : Arr2) (wx wy : Vec) (m n k : Int) (p : ℚ)
    (c : Arr2) (wk : Wk) (st : Statics) (hm : 1 ≤ m) (hn : 2 * m ≤ n) (hx : Increasing n x)
    (hwx : ∀ i, 1 ≤ i → i ≤ n → 0 < wx i) (hwy : ∀ j, 1 ≤ j → j ≤ k → 0 < wy j)
    (hp : 0 ≤ p) :
    gcvspl fuel ⟨x, y, wx, wy, m, n, k, 1, p⟩ c wk st =
      some
        { ier := 0,
          c := (splc m n k y wx wy 1 p p c_b6 c
            (gcvsplSetup ⟨x, y, wx, wy, m, n, k, 1, p⟩ wk st).1.stat
            (gcvsplSetup ⟨x, y, wx, wy, m, n, k, 1, p⟩ wk st).1.b
            (gcvsplSetup ⟨x, y, wx, wy, m, n, k, 1, p⟩ wk st).1.we
            (gcvsplSetup ⟨x, y, wx, wy, m, n, k, 1, p⟩ wk st).2.el
            (gcvsplSetup ⟨x, y, wx, wy, m, n, k, 1, p⟩ wk st).1.bwe).c,
          wk :=
            { (gcvsplSetup ⟨x, y, wx, wy, m, n, k, 1, p⟩ wk st).1 with
              stat := (splc m n k y wx wy 1 p p c_b6 c
                (gcvsplSetup ⟨x, y, wx, wy, m, n, k, 1, p⟩ wk st).1.stat
                (gcvsplSetup ⟨x, y, wx, wy, m, n, k, 1, p⟩ wk st).1.b
                (gcvsplSetup ⟨x, y, wx, wy, m, n, k, 1, p⟩ wk st).1.we
                (gcvsplSetup ⟨x, y, wx, wy, m, n, k, 1, p⟩ wk st).2.el
                (gcvsplSetup ⟨x, y, wx, wy, m, n, k, 1, p⟩ wk st).1.bwe).stat,
              bwe := (splc m n k y wx wy 1 p p c_b6 c
                (gcvsplSetup ⟨x, y, wx, wy, m, n, k, 1, p⟩ wk st).1.stat
                (gcvsplSetup ⟨x, y, wx, wy, m, n, k, 1, p⟩ wk st).1.b
                (gcvsplSetup ⟨x, y, wx, wy, m, n, k, 1, p⟩ wk st).1.we
                (gcvsplSetup ⟨x, y, wx, wy, m, n, k, 1, p⟩ wk st).2.el
                (gcvsplSetup ⟨x, y, wx, wy, m, n, k, 1, p⟩ wk st).1.bwe).bwe },
          st := (gcvsplSetup ⟨x, y, wx, wy, m, n, k, 1, p⟩ wk
            (entryStatics ⟨x, y, wx, wy, m, n, k, 1, p⟩ st)).2 } := by
  have hchk := gcvsplCheck_fixed_valid x y wx wy m n k p st hm hn hx hwx hwy hp
  have h1 : iabs (1 : Int) = 1 := by decide
  have hmd : (⟨x, y, wx, wy, m, n, k, 1, p⟩ : Args).md > 0 := by
    show (1 : Int) > 0
    decide
  obtain ⟨e1, e2⟩ := gcvsplSetup_statics ⟨x, y, wx, wy, m, n, k, 1, p⟩ wk st
    (entryStatics ⟨x, y, wx, wy, m, n, k, 1, p⟩ st) hmd
  rw [e1, e2]
  simp only [gcvspl, hchk, Bool.false_eq_true, if_false, gcvsplSearch, h1, ne_eq,
    not_true_eq_false, Option.map_some', gcvsplTrial]


/-- C21, counterexample: on the two knots `0, 1` with unit weights and data
`0, 1`, the call with `md = 1` and `val = 0` returns `ier = 0` with
`(B c)[1] - y[1] = 1/(2·10¹⁵ + 2)` and `stat[2] = 1/(2·10¹⁵ + 2)²`, neither of
which is zero: `splc` has replaced `p = 0` by `dp = eps/el = 10⁻¹⁵/2`. -/
theorem gcvspl_zero_counterexample :
    (gcvspl 0 (twoKnots 1 1 0) zero2 wkZero Statics.init).map
        (fun o => (o.ier, o.wk.b 0 1 * o.c 1 1 - (twoKnots 1 1 0).y 1 1, o.wk.stat 2,
          o.wk.stat 4, c_b6 / o.st.el)) =
      some (0, 1 / 2000000000000002, 1 / (2000000000000002 * 2000000000000002), 0,
        1 / 2000000000000000) := by
  decide!

/-- C21, amended: in fixed-p mode (`md = 1`) with `val = 0` a call that passes
validation returns `ier = 0` and reports `stat[4] = 0`, but fits with the
floor value `dp = eps/el`, `eps = 10⁻¹⁵`: when the pivots of the factorisation
are nonzero, the residuals are `(B c)[i] - y[i] = -dp (WE c)[i]` at every knot
and channel, and `stat[2]` is the weighted mean of their squares. -/
theorem gcvspl_zero_floor (fuel : Nat) (x : Vec) (y : Arr2) (wx wy : Vec) (m n k : Int)
    (c : Arr2) (wk : Wk) (st : Statics) (hm : 1 ≤ m) (hn : 2 * m ≤ n) (hx : Increasing n x)
    (hwx : ∀ i, 1 ≤ i → i ≤ n → 0 < wx i) (hwy : ∀ j, 1 ≤ j → j ≤ k → 0 < wy j)
    (hpiv : ∀ i, 1 ≤ i → i ≤ n →
      bandet (splcAssemble m n
        (c_b6 / (gcvsplSetup ⟨x, y, wx, wy, m, n, k, 1, 0⟩ wk st).2.el)
        (gcvsplSetup ⟨x, y, wx, wy, m, n, k, 1, 0⟩ wk st).1.b
        (gcvsplSetup ⟨x, y, wx, wy, m, n, k, 1, 0⟩ wk st).1.we
        (gcvsplSetup ⟨x, y, wx, wy, m, n, k, 1, 0⟩ wk st).1.bwe) m n 0 i ≠ 0) :
    ∃ o, gcvspl fuel ⟨x, y, wx, wy, m, n, k, 1, 0⟩ c wk st = some o ∧ o.ier = 0 ∧
      o.wk.stat 4 = 0 ∧
      (∀ i j, 1 ≤ i → i ≤ n → 1 ≤ j → j ≤ k →
        (∑ l ∈ Finset.Icc (-min (m - 1) (i - 1)) (min (m - 1) (n - i)),
          o.wk.b l i * o.c (i + l) j) - y i j =
        -(c_b6 / o.st.el * ∑ l ∈ Finset.Icc (-min m (i - 1)) (min m (n - i)),
          o.wk.we l i * o.c (i + l) j)) ∧
      o.wk.stat 2 =
        (∑ j ∈ Finset.Icc 1 k, ∑ i ∈ Finset.Icc 1 n,
          (c_b6 / o.st.el * ∑ l ∈ Finset.Icc (-min m (i - 1)) (min m (n - i)),
            o.wk.we l i * o.c (i + l) j) *
          (c_b6 / o.st.el * ∑ l ∈ Finset.Icc (-min m (i - 1)) (min m (n - i)),
            o.wk.we l i * o.c (i + l) j) * wx i * wy j) / ((n * k : Int) : ℚ) := by
  have hmd : (⟨x, y, wx, wy, m, n, k, 1, 0⟩ : Args).md > 0 := by
    show (1 : Int) > 0
    decide
  have hdp : splcDp 0 c_b6 (gcvsplSetup ⟨x, y, wx, wy, m, n, k, 1, 0⟩ wk st).2.el =
      (c_b6 / (gcvsplSetup ⟨x, y, wx, wy, m, n, k, 1, 0⟩ wk st).2.el, 0) :=
    splcDp_zero c_b6 _ (by norm_num [c_b6])
  have hel := (gcvsplSetup_statics ⟨x, y, wx, wy, m, n, k, 1, 0⟩ wk st
    (entryStatics ⟨x, y, wx, wy, m, n, k, 1, 0⟩ st) hmd).2
  have hpiv' : ∀ i, 1 ≤ i → i ≤ n →
      bandet (splcAssemble m n
        (splcDp 0 c_b6 (gcvsplSetup ⟨x, y, wx, wy, m, n, k, 1, 0⟩ wk st).2.el).1
        (gcvsplSetup ⟨x, y, wx, wy, m, n, k, 1, 0⟩ wk st).1.b
        (gcvsplSetup ⟨x, y, wx, wy, m, n, k, 1, 0⟩ wk st).1.we
        (gcvsplSetup ⟨x, y, wx, wy, m, n, k, 1, 0⟩ wk st).1.bwe) m n 0 i ≠ 0 := by
    rw [hdp]
    exact hpiv
  have hres :=
    splc_residual m n k y wx wy 1 0 0 c_b6 c
      (gcvsplSetup ⟨x, y, wx, wy, m, n, k, 1, 0⟩ wk st).1.stat
      (gcvsplSetup ⟨x, y, wx, wy, m, n, k, 1, 0⟩ wk st).1.b
      (gcvsplSetup ⟨x, y, wx, wy, m, n, k, 1, 0⟩ wk st).1.we
      (gcvsplSetup ⟨x, y, wx, wy, m, n, k, 1, 0⟩ wk st).2.el
      (gcvsplSetup ⟨x, y, wx, wy, m, n, k, 1, 0⟩ wk st).1.bwe hm hpiv'
  rw [hdp] at hres
  refine ⟨_, gcvspl_fixed_eq fuel x y wx wy m n k 0 c wk st hm hn hx hwx hwy le_rfl, rfl,
    ?_, ?_, ?_⟩
  · dsimp only
    rw [splc_stat4, hdp]
  · intro i j hi1 hi2 hj1 hj2
    dsimp only
    rw [← hel, ← hres j hj1 hj2 i hi1 hi2]
    ring
  · dsimp only
    rw [splc_stat2, splcResidual_eq, ← hel]
    congr 1
    apply Finset.sum_congr rfl
    intro j hj
    apply Finset.sum_congr rfl
    intro i hi
    simp only [Finset.mem_Icc] at hi hj
    rw [hres j hj.1 hj.2 i hi.1 hi.2]
    ring

theorem gcvspl_zero_floor_witness :
    (1 : Int) ≤ 1 ∧ 2 * (1 : Int) ≤ 2 ∧ Increasing 2 (vecOf [0, 1]) ∧
      (∀ i, 1 ≤ i → i ≤ (2 : Int) → 0 < vecOf [1, 1] i) ∧
      (∀ j, 1 ≤ j → j ≤ (1 : Int) → 0 < vecOf [1] j) ∧
      (∀ i, 1 ≤ i → i ≤ (2 : Int) →
        bandet (splcAssemble 1 2
          (c_b6 / (gcvsplSetup ⟨vecOf [0, 1], fun i _ => vecOf [0, 1] i, vecOf [1, 1],
            vecOf [1], 1, 2, 1, 1, 0⟩ wkZero Statics.init).2.el)
          (gcvsplSetup ⟨vecOf [0, 1], fun i _ => vecOf [0, 1] i, vecOf [1, 1],
            vecOf [1], 1, 2, 1, 1, 0⟩ wkZero Statics.init).1.b
          (gcvsplSetup ⟨vecOf [0, 1], fun i _ => vecOf [0, 1] i, vecOf [1, 1],
            vecOf [1], 1, 2, 1, 1, 0⟩ wkZero Statics.init).1.we
          (gcvsplSetup ⟨vecOf [0, 1], fun i _ => vecOf [0, 1] i, vecOf [1, 1],
            vecOf [1], 1, 2, 1, 1, 0⟩ wkZero Statics.init).1.bwe) 1 2 0 i ≠ 0) ∧
      ∃ o, gcvspl 0 ⟨vecOf [0, 1], fun i _ => vecOf [0, 1] i, vecOf [1, 1], vecOf [1], 1, 2,
          1, 1, 0⟩ zero2 wkZero Statics.init = some o ∧ o.ier = 0 ∧
        o.wk.stat 4 = 0 ∧
        (∀ i j, 1 ≤ i → i ≤ (2 : Int) → 1 ≤ j → j ≤ (1 : Int) →
          (∑ l ∈ Finset.Icc (-min ((1 : Int) - 1) (i - 1)) (min (1 - 1) (2 - i)),
            o.wk.b l i * o.c (i + l) j) - (fun (i : Int) (_ : Int) => vecOf [0, 1] i) i j =
          -(c_b6 / o.st.el * ∑ l ∈ Finset.Icc (-min (1 : Int) (i - 1)) (min 1 (2 - i)),
            o.wk.we l i * o.c (i + l) j)) ∧
        o.wk.stat 2 =
          (∑ j ∈ Finset.Icc 1 (1 : Int), ∑ i ∈ Finset.Icc 1 (2 : Int),
            (c_b6 / o.st.el * ∑ l ∈ Finset.Icc (-min (1 : Int) (i - 1)) (min 1 (2 - i)),
              o.wk.we l i * o.c (i + l) j) *
            (c_b6 / o.st.el * ∑ l ∈ Finset.Icc (-min (1 : Int) (i - 1)) (min 1 (2 - i)),
              o.wk.we l i * o.c (i + l) j) * vecOf [1, 1] i * vecOf [1] j) /
            (((2 : Int) * 1 : Int) : ℚ) :=
  ⟨by decide, by decide, increasing_two 0 1 (by decide!),
    (by intro i h1 h2; interval_cases i <;> decide!),
    (by intro j h1 h2; interval_cases j; decide!),
    (by intro i h1 h2; interval_cases i <;> decide!),
    gcvspl_zero_floor 0 (vecOf [0, 1]) (fun i _ => vecOf [0, 1] i) (vecOf [1, 1]) (vecOf [1])
      1 2 1 zero2 wkZero Statics.init (by decide) (by decide)
      (increasing_two 0 1 (by decide!))
      (by intro i h1 h2; interval_cases i <;> decide!)
      (by intro j h1 h2; interval_cases j; decide!)
      (by intro i h1 h2; interval_cases i <;> decide!)⟩


/-! ## Rescaling the channel weights -/

theorem splcResidual_scale (m n k : Int) (y : Arr2) (wx wy : Vec) (b c : Arr2) (α : ℚ) :
    splcResidual m n k y wx (fun j => α * wy j) b c =
      α * splcResidual m n k y wx wy b c := by
  rw [splcResidual_eq, splcResidual_eq, Finset.mul_sum]
  apply Finset.sum_congr rfl
  intro j _
  rw [Finset.mul_sum]
  apply Finset.sum_congr rfl
  intro i _
  ring

/-- C22, counterexample: on the two knots `0, 1` with unit knot weights, data
`0, 1` and the trial value `p = 1`, `splc` in GCV mode returns the score `1`
for the channel weight `1` and the score `2` for the channel weight `2`. -/
theorem splc_rescale_counterexample :
    ((splc 1 2 1 (fun i _ => vecOf [0, 1] i) (vecOf [1, 1]) (vecOf [1]) 2 0 1 c_b6 zero2
        (fun _ => 0) (searchWk (twoKnots 1 2 0)).b (searchWk (twoKnots 1 2 0)).we
        (searchEl (twoKnots 1 2 0)) zero2).ret,
      (splc 1 2 1 (fun i _ => vecOf [0, 1] i) (vecOf [1, 1]) (vecOf [1]) 2 0 1 c_b6 zero2
        (fun _ => 0) (searchWk (twoKnots 1 2 0)).b (searchWk (twoKnots 1 2 0)).we
        (searchEl (twoKnots 1 2 0)) zero2).stat 1) = (1, 1) ∧
    ((splc 1 2 1 (fun i _ => vecOf [0, 1] i) (vecOf [1, 1]) (fun j => 2 * vecOf [1] j) 2 0 1
        c_b6 zero2 (fun _ => 0) (searchWk (twoKnots 1 2 0)).b (searchWk (twoKnots 1 2 0)).we
        (searchEl (twoKnots 1 2 0)) zero2).ret,
      (splc 1 2 1 (fun i _ => vecOf [0, 1] i) (vecOf [1, 1]) (fun j => 2 * vecOf [1] j) 2 0 1
        c_b6 zero2 (fun _ => 0) (searchWk (twoKnots 1 2 0)).b (searchWk (twoKnots 1 2 0)).we
        (searchEl (twoKnots 1 2 0)) zero2).stat 1) = (2, 2) := by
  constructor <;> decide!

/-- C22, amended: replacing every channel weight `wy[j]` by `alpha * wy[j]`
(everything else equal) leaves the coefficients, `stat[3]` and `stat[4]` of a
call of `splc` unchanged and multiplies the residual statistic `stat[2]` and
the GCV score `stat[1]` by `alpha`; in GCV mode the returned value is
multiplied by `alpha`. -/
theorem splc_rescale_channel_weights (m n k : Int) (y : Arr2) (wx wy : Vec) (mode : Int)
    (val p eps : ℚ) (c : Arr2) (stat : Vec) (b we : Arr2) (el : ℚ) (bwe : Arr2) (α : ℚ) :
    (splc m n k y wx (fun j => α * wy j) mode val p eps c stat b we el bwe).c =
        (splc m n k y wx wy mode val p eps c stat b we el bwe).c ∧
      (splc m n k y wx (fun j => α * wy j) mode val p eps c stat b we el bwe).stat 3 =
        (splc m n k y wx wy mode val p eps c stat b we el bwe).stat 3 ∧
      (splc m n k y wx (fun j => α * wy j) mode val p eps c stat b we el bwe).stat 4 =
        (splc m n k y wx wy mode val p eps c stat b we el bwe).stat 4 ∧
      (splc m n k y wx (fun j => α * wy j) mode val p eps c stat b we el bwe).stat 2 =
        α * (splc m n k y wx wy mode val p eps c stat b we el bwe).stat 2 ∧
      (splc m n k y wx (fun j => α * wy j) mode val p eps c stat b we el bwe).stat 1 =
        α * (splc m n k y wx wy mode val p eps c stat b we el bwe).stat 1 ∧
      (iabs mode = 2 →
        (splc m n k y wx (fun j => α * wy j) mode val p eps c stat b we el bwe).ret =
          α * (splc m n k y wx wy mode val p eps c stat b we el bwe).ret) := by
  have hc : (splc m n k y wx (fun j => α * wy j) mode val p eps c stat b we el bwe).c =
      (splc m n k y wx wy mode val p eps c stat b we el bwe).c := by
    rw [splc_c, splc_c]
  have h3 : (splc m n k y wx (fun j => α * wy j) mode val p eps c stat b we el bwe).stat 3 =
      (splc m n k y wx wy mode val p eps c stat b we el bwe).stat 3 := by
    rw [splc_stat3, splc_stat3]
  have h2 : (splc m n k y wx (fun j => α * wy j) mode val p eps c stat b we el bwe).stat 2 =
      α * (splc m n k y wx wy mode val p eps c stat b we el bwe).stat 2 := by
    rw [splc_stat2, splc_stat2, hc, splcResidual_scale, mul_div_assoc]
  have h1 : (splc m n k y wx (fun j => α * wy j) mode val p eps c stat b we el bwe).stat 1 =
      α * (splc m n k y wx wy mode val p eps c stat b we el bwe).stat 1 := by
    rw [splc_stat1, splc_stat1, h2, h3, mul_div_assoc, mul_div_assoc]
  refine ⟨hc, h3, ?_, h2, h1, ?_⟩
  · rw [splc_stat4, splc_stat4]
  · intro hmode
    rw [splc_ret_two _ _ _ _ _ _ _ _ _ _ _ _ _ _ _ _ hmode,
      splc_ret_two _ _ _ _ _ _ _ _ _ _ _ _ _ _ _ _ hmode, h1]


/-! ## The statics between calls -/

theorem gcvsplCheck_statics (a : Args) (st st' : Statics) (h : a.md > 0) :
    (gcvsplCheck a st).ier = (gcvsplCheck a st').ier ∧
      (gcvsplCheck a st).returned = (gcvsplCheck a st').returned := by
  by_cases hmode : modeValueBad a.md a.val a.n a.m
  · rw [gcvsplCheck_mode a st hmode, gcvsplCheck_mode a st' hmode]
    exact ⟨rfl, rfl⟩
  by_cases hsize : a.m ≤ 0 ∨ a.n < 2 * a.m
  · rw [gcvsplCheck_size a st hmode (Or.inl h) hsize,
      gcvsplCheck_size a st' hmode (Or.inl h) hsize]
    exact ⟨rfl, rfl⟩
  have hw := gcvsplCheck_weights a st hmode (Or.inl h) (by omega) (by omega)
  have hw' := gcvsplCheck_weights a st' hmode (Or.inl h) (by omega) (by omega)
  by_cases hbad : weightsKnotsBad a
  · rw [hw.1 hbad, hw'.1 hbad]
    exact ⟨rfl, rfl⟩
  · rw [hw.2 hbad, hw'.2 hbad]
    exact ⟨rfl, rfl⟩

theorem gcvspl_statics (fuel : Nat) (a : Args) (c : Arr2) (wk : Wk) (st st' : Statics)
    (h : a.md > 0) :
    (gcvspl fuel a c wk st).map (fun o => (o.ier, o.c, o.wk)) =
      (gcvspl fuel a c wk st').map (fun o => (o.ier, o.c, o.wk)) := by
  obtain ⟨h1, h2⟩ := gcvsplCheck_statics a st st' h
  obtain ⟨e1, e2⟩ := gcvsplSetup_statics a wk (gcvsplCheck a st).st (gcvsplCheck a st').st h
  simp only [gcvspl]
  rw [h1, h2, e1, e2]
  split
  · rfl
  · simp only [Option.map_map]
    rfl

/-- C23, counterexample: after a first call with `md = 1` on the two knots
`0, 1`, the call with `md = -1`, the same arguments otherwise and the buffers
left by the first call returns `ier = 0`; the same call with the same buffer
contents made when the statics still hold their initial values (no call with
`md > 0` before it) returns `ier = 3`. -/
theorem gcvspl_statics_counterexample :
    (gcvspl 0 (twoKnots 1 1 0) zero2 wkZero Statics.init).bind (fun o1 =>
      (gcvspl 0 (twoKnots 1 (-1) 0) o1.c o1.wk Statics.init).bind (fun o2 =>
        (gcvspl 0 (twoKnots 1 (-1) 0) o1.c o1.wk o1.st).map (fun o3 =>
          (o1.ier, o1.st.m2, o1.st.nm1, o1.st.el, o2.ier, o3.ier)))) =
      some (0, 2, 1, 2, 3, 0) := by
  decide!

/-- C23, amended: `gcvspl` keeps three statics between calls (`m2`, `nm1` and
`el`).  For `md > 0` two calls with identical arguments and identical buffer
contents return identical `ier`, coefficients and work array whatever the
statics hold, that is whichever calls preceded them. -/
theorem gcvspl_statics_positive_mode (fuel : Nat) (a : Args) (c : Arr2) (wk : Wk)
    (st st' : Statics) (h : a.md > 0) :
    (gcvspl fuel a c wk st).map (fun o => (o.ier, o.c, o.wk)) =
      (gcvspl fuel a c wk st').map (fun o => (o.ier, o.c, o.wk)) :=
  gcvspl_statics fuel a c wk st st' h

theorem gcvspl_statics_positive_mode_witness :
    (twoKnots 1 1 1).md > 0 ∧
      (gcvspl 0 (twoKnots 1 1 1) zero2 wkZero Statics.init).map (fun o => (o.ier, o.c, o.wk)) =
        (gcvspl 0 (twoKnots 1 1 1) zero2 wkZero { m2 := 6, nm1 := 9, el := 5 }).map
          (fun o => (o.ier, o.c, o.wk)) :=
  ⟨by decide, gcvspl_statics_positive_mode 0 (twoKnots 1 1 1) zero2 wkZero Statics.init
    { m2 := 6, nm1 := 9, el := 5 } (by decide)⟩


/-! ## The bracket and the golden section -/

theorem gcvspl_L60_eq (trial : ℚ → SplcOut → SplcOut) :
    ∀ (fuel : Nat) (r1 r2 r3 gf1 gf2 : ℚ) (s : SplcOut),
      gcvspl_L60 trial fuel r1 r2 r3 gf2 s =
        (bracketL60 trial fuel r1 r2 r3 gf1 gf2 s).bind (fun e =>
          match e with
          | SearchExit.final r s' => some (r, s')
          | SearchExit.golden b s' f => gcvspl_L70 trial f b.r1 b.r3 s') := by
  intro fuel
  induction fuel with
  | zero => intro r1 r2 r3 gf1 gf2 s; rfl
  | succ k ih =>
    intro r1 r2 r3 gf1 gf2 s
    simp only [gcvspl_L60, bracketL60]
    split
    · rfl
    · split
      · rfl
      · exact ih _ _ _ _ _ _

theorem gcvspl_L40_eq (trial : ℚ → SplcOut → SplcOut) :
    ∀ (fuel : Nat) (r1 r2 gf2 : ℚ) (s : SplcOut),
      gcvspl_L40 trial fuel r1 r2 gf2 s =
        (bracketL40 trial fuel r1 r2 gf2 s).bind (fun e =>
          match e with
          | SearchExit.final r s' => some (r, s')
          | SearchExit.golden b s' f => gcvspl_L70 trial f b.r1 b.r3 s') := by
  intro fuel
  induction fuel with
  | zero => intro r1 r2 gf2 s; rfl
  | succ k ih =>
    intro r1 r2 gf2 s
    simp only [gcvspl_L40, bracketL40]
    split
    · exact gcvspl_L60_eq trial _ _ _ _ _ _ _
    · split
      · rfl
      · exact ih _ _ _ _

/-- The search of `gcvspl` is its bracketing phase followed, when that phase
arrives at `L70`, by the golden section. -/
theorem gcvsplSearch_eq (fuel : Nat) (a : Args) (wk : Wk) (el : ℚ) (s0 : SplcOut) :
    gcvsplSearch fuel a wk el s0 =
      (gcvsplBracket fuel a wk el s0).bind (fun e =>
        match e with
        | SearchExit.final r s' => some (r, s')
        | SearchExit.golden b s' f => gcvspl_L70 (gcvsplTrial a wk el) f b.r1 b.r3 s') := by
  simp only [gcvsplSearch, gcvsplBracket]
  split
  · exact gcvspl_L40_eq _ _ _ _ _ _
  · rfl

theorem gcvspl_L70_eq (trial : ℚ → SplcOut → SplcOut) (fuel : Nat) (r1 r3 : ℚ)
    (s : SplcOut) :
    gcvspl_L70 trial fuel r1 r3 s = goldenRun trial fuel (goldenEntry trial r1 r3 s) := rfl

theorem goldenRun_succ (trial : ℚ → SplcOut → SplcOut) (fuel : Nat) (g : Golden) :
    goldenRun trial (fuel + 1) g =
      if (goldenStep trial g).2 then
        some (((goldenStep trial g).1.r1 + (goldenStep trial g).1.r2) * 0.5,
          (goldenStep trial g).1.s)
      else goldenRun trial fuel (goldenStep trial g).1 := by
  simp only [goldenRun, gcvspl_L80, goldenStep]
  split
  · split
    · rfl
    · rfl
  · split
    · rfl
    · rfl

theorem goldenIter_succ (trial : ℚ → SplcOut → SplcOut) (k : Nat) (g : Golden) :
    goldenIter trial (k + 1) g = goldenIter trial k (goldenStep trial g).1 := rfl

/-- A golden-section loop that arrives at `L100` has left through `L90` after
finitely many passes, with the midpoint of the bracket of the last pass. -/
theorem goldenRun_exit (trial : ℚ → SplcOut → SplcOut) :
    ∀ (fuel : Nat) (g : Golden), (goldenRun trial fuel g).isSome = true →
      ∃ k, k < fuel ∧
        (∀ i, i < k → (goldenStep trial (goldenIter trial i g)).2 = false) ∧
        (goldenStep trial (goldenIter trial k g)).2 = true ∧
        goldenRun trial fuel g =
          some (((goldenStep trial (goldenIter trial k g)).1.r1 +
            (goldenStep trial (goldenIter trial k g)).1.r2) * 0.5,
            (goldenStep trial (goldenIter trial k g)).1.s) := by
  intro fuel
  induction fuel with
  | zero =>
    intro g h
    simp [goldenRun, gcvspl_L80] at h
  | succ n ih =>
    intro g h
    rw [goldenRun_succ] at h ⊢
    by_cases c : (goldenStep trial g).2 = true
    · refine ⟨0, by omega, ?_, c, ?_⟩
      · intro i hi
        omega
      · rw [if_pos c]
        rfl
    · rw [if_neg c] at h ⊢
      obtain ⟨k, hk, h1, h2, h3⟩ := ih _ h
      refine ⟨k + 1, by omega, ?_, ?_, ?_⟩
      · intro i hi
        cases i with
        | zero => simpa using c
        | succ j =>
          rw [goldenIter_succ]
          exact h1 j (by omega)
      · rw [goldenIter_succ]
        exact h2
      · rw [goldenIter_succ]
        exact h3

/-- A pass of `L80` that leaves through `L90` does so with a bracket of
relative width at most `10⁻⁶`. -/
theorem goldenStep_exit (trial : ℚ → SplcOut → SplcOut) (g : Golden)
    (h : (goldenStep trial g).2 = true) :
    ((goldenStep trial g).1.r2 - (goldenStep trial g).1.r1) /
      ((goldenStep trial g).1.r1 + (goldenStep trial g).1.r2) ≤ 1e-6 := by
  have key : ∀ err : ℚ, err * err + 1 = 1 ∨ err ≤ 1e-6 → err ≤ 1e-6 := by
    intro err h
    rcases h with h | h
    · have h0 : err * err = 0 := by linarith
      have h1 : err = 0 := by
        rcases mul_eq_zero.mp h0 with h | h <;> exact h
      rw [h1]
      norm_num
    · exact h
  by_cases c1 : g.gf3 ≤ g.gf4
  · by_cases c2 : (g.r4 - g.r1) / (g.r1 + g.r4) * ((g.r4 - g.r1) / (g.r1 + g.r4)) + 1 = 1 ∨
        (g.r4 - g.r1) / (g.r1 + g.r4) ≤ 1e-6
    · have e : goldenStep trial g = ({ g with r2 := g.r4 }, true) := by
        simp only [goldenStep, if_pos c1, if_pos c2]
      rw [e]
      exact key _ c2
    · have e : (goldenStep trial g).2 = false := by
        simp only [goldenStep, if_pos c1, if_neg c2]
      rw [e] at h
      exact absurd h (by decide)
  · by_cases c2 : (g.r2 - g.r3) / (g.r3 + g.r2) * ((g.r2 - g.r3) / (g.r3 + g.r2)) + 1 = 1 ∨
        (g.r2 - g.r3) / (g.r3 + g.r2) ≤ 1e-6
    · have e : goldenStep trial g = ({ g with r1 := g.r3 }, true) := by
        simp only [goldenStep, if_neg c1, if_pos c2]
      rw [e]
      exact key _ c2
    · have e : (goldenStep trial g).2 = false := by
        simp only [goldenStep, if_neg c1, if_neg c2]
      rw [e] at h
      exact absurd h (by decide)

theorem goldenStep_cases (trial : ℚ → SplcOut → SplcOut) (g : Golden) :
    (g.gf3 ≤ g.gf4 ∧ goldenStep trial g = ({ g with r2 := g.r4 }, true)) ∨
    (g.gf3 ≤ g.gf4 ∧ goldenStep trial g =
      ({ r1 := g.r1, r2 := g.r4, r3 := g.r4 - g.alpha / 1.618033983, r4 := g.r3,
         gf3 := (trial (g.r4 - g.alpha / 1.618033983) g.s).ret, gf4 := g.gf3,
         alpha := g.alpha / 1.618033983,
         s := trial (g.r4 - g.alpha / 1.618033983) g.s }, false)) ∨
    (g.gf4 < g.gf3 ∧ goldenStep trial g = ({ g with r1 := g.r3 }, true)) ∨
    (g.gf4 < g.gf3 ∧ goldenStep trial g =
      ({ r1 := g.r3, r2 := g.r2, r3 := g.r4, r4 := g.r3 + g.alpha / 1.618033983,
         gf3 := g.gf4, gf4 := (trial (g.r3 + g.alpha / 1.618033983) g.s).ret,
         alpha := g.alpha / 1.618033983,
         s := trial (g.r3 + g.alpha / 1.618033983) g.s }, false)) := by
  by_cases c1 : g.gf3 ≤ g.gf4
  · by_cases c2 : (g.r4 - g.r1) / (g.r1 + g.r4) * ((g.r4 - g.r1) / (g.r1 + g.r4)) + 1 = 1 ∨
        (g.r4 - g.r1) / (g.r1 + g.r4) ≤ 1e-6
    · left
      refine ⟨c1, ?_⟩
      simp only [goldenStep, if_pos c1, if_pos c2]
    · right; left
      refine ⟨c1, ?_⟩
      simp only [goldenStep, if_pos c1, if_neg c2]
  · by_cases c2 : (g.r2 - g.r3) / (g.r3 + g.r2) * ((g.r2 - g.r3) / (g.r3 + g.r2)) + 1 = 1 ∨
        (g.r2 - g.r3) / (g.r3 + g.r2) ≤ 1e-6
    · right; right; left
      refine ⟨not_le.mp c1, ?_⟩
      simp only [goldenStep, if_neg c1, if_pos c2]
    · right; right; right
      refine ⟨not_le.mp c1, ?_⟩
      simp only [goldenStep, if_neg c1, if_neg c2]

/-- What one pass of `L80` does to the bracket and to `alpha`. -/
theorem goldenStep_spec (trial : ℚ → SplcOut → SplcOut) (g : Golden) :
    ((g.gf3 ≤ g.gf4 ∧ (goldenStep trial g).1.r1 = g.r1 ∧ (goldenStep trial g).1.r2 = g.r4 ∧
        ((goldenStep trial g).2 = false →
          (goldenStep trial g).1.r4 = g.r3 ∧
          (goldenStep trial g).1.r3 =
            (goldenStep trial g).1.r2 - (goldenStep trial g).1.alpha)) ∨
      (g.gf4 < g.gf3 ∧ (goldenStep trial g).1.r1 = g.r3 ∧ (goldenStep trial g).1.r2 = g.r2 ∧
        ((goldenStep trial g).2 = false →
          (goldenStep trial g).1.r3 = g.r4 ∧
          (goldenStep trial g).1.r4 =
            (goldenStep trial g).1.r1 + (goldenStep trial g).1.alpha))) ∧
      ((goldenStep trial g).2 = false →
        (goldenStep trial g).1.alpha = g.alpha / 1.618033983) := by
  rcases goldenStep_cases trial g with ⟨c, e⟩ | ⟨c, e⟩ | ⟨c, e⟩ | ⟨c, e⟩
  · rw [e]
    exact ⟨Or.inl ⟨c, rfl, rfl, fun h => Bool.noConfusion h⟩, fun h => Bool.noConfusion h⟩
  · rw [e]
    exact ⟨Or.inl ⟨c, rfl, rfl, fun _ => ⟨rfl, rfl⟩⟩, fun _ => rfl⟩
  · rw [e]
    exact ⟨Or.inr ⟨c, rfl, rfl, fun h => Bool.noConfusion h⟩, fun h => Bool.noConfusion h⟩
  · rw [e]
    exact ⟨Or.inr ⟨c, rfl, rfl, fun _ => ⟨rfl, rfl⟩⟩, fun _ => rfl⟩

/-- The first pass of `L80` divides the width of the bracket by
`1.618033983`. -/
theorem goldenStep_first (trial : ℚ → SplcOut → SplcOut) (r1 r3 : ℚ) (s : SplcOut) :
    (goldenStep trial (goldenEntry trial r1 r3 s)).1.r2 -
        (goldenStep trial (goldenEntry trial r1 r3 s)).1.r1 =
      (r3 - r1) / 1.618033983 := by
  rcases (goldenStep_spec trial (goldenEntry trial r1 r3 s)).1 with ⟨_, h1, h2, _⟩ | ⟨_, h1, h2, _⟩
  · rw [h1, h2]
    simp only [goldenEntry]
    ring
  · rw [h1, h2]
    simp only [goldenEntry]
    ring

/-- C25, counterexample: in the search of `gcvspl` on the two knots `0, 1`
with data `0, 1`, `md = 3` and `val = 1/4` (zeroed arrays, first call), `L70`
is reached with the bracket `r1 = 1/4`, `r3 = 1`; the first four passes of
`L80` all continue, and the fourth replaces a bracket of width `w` by one
whose width is not `w / 1.618033983`: it moves `r2` to the trial point `r4`
that was computed two passes earlier as `r2 - alpha`. -/
theorem golden_width_counterexample :
    bracketAt 5 (twoKnots 1 3 (1 / 4)) =
        some { r1 := 1 / 4, r2 := 1 / 2, r3 := 1, gf1 := 7 / 36, gf2 := 3 / 16,
               gf3 := 7 / 36 } ∧
      (∀ k, k ≤ 3 → (goldenAt 5 (twoKnots 1 3 (1 / 4)) k).map (fun g =>
        (goldenStep (gcvsplTrial (twoKnots 1 3 (1 / 4)) (searchWk (twoKnots 1 3 (1 / 4)))
          (searchEl (twoKnots 1 3 (1 / 4)))) g).2) = some false) ∧
      (goldenAt 5 (twoKnots 1 3 (1 / 4)) 3).bind (fun g3 =>
        (goldenAt 5 (twoKnots 1 3 (1 / 4)) 4).map (fun g4 =>
          (decide (g4.r1 = g3.r1), decide (g4.r2 = g3.r4),
            decide (g4.r2 - g4.r1 = (g3.r2 - g3.r1) / 1.618033983)))) =
        some (true, true, false) := by
  refine ⟨by decide!, ?_, by decide!⟩
  intro k hk
  interval_cases k <;> decide!

/-! ## The bracket on arrival at `L70` -/

theorem bracketL60_spec (trial : ℚ → SplcOut → SplcOut) :
    ∀ (fuel : Nat) (r1 r2 r3 gf1 gf2 : ℚ) (s : SplcOut) (b : Bracket),
      r1 < r2 → r2 < r3 → 0 < r3 → gf1 > gf2 →
      (∃ s1, gf1 = (trial r1 s1).ret) → (∃ s2, gf2 = (trial r2 s2).ret) →
      (bracketL60 trial fuel r1 r2 r3 gf1 gf2 s).bind SearchExit.bracket = some b →
      b.r1 < b.r2 ∧ b.r2 < b.r3 ∧ b.gf1 > b.gf2 ∧ b.gf3 > b.gf2 ∧
        (∃ s1, b.gf1 = (trial b.r1 s1).ret) ∧ (∃ s2, b.gf2 = (trial b.r2 s2).ret) ∧
        ∃ s3, b.gf3 = (trial b.r3 s3).ret := by
  intro fuel
  induction fuel with
  | zero =>
    intro r1 r2 r3 gf1 gf2 s b _ _ _ _ _ _ h
    simp [bracketL60] at h
  | succ k ih =>
    intro r1 r2 r3 gf1 gf2 s b h12 h23 h3 hgf hs1 hs2 h
    simp only [bracketL60] at h
    by_cases c1 : (trial r3 s).ret > gf2
    · rw [if_pos c1] at h
      simp only [Option.some_bind, SearchExit.bracket, Option.some.injEq] at h
      subst h
      exact ⟨h12, h23, hgf, c1, hs1, hs2, s, rfl⟩
    · rw [if_neg c1] at h
      by_cases c2 : (trial r3 s).stat 4 ≥ 999999999999999.88
      · rw [if_pos c2] at h
        simp [SearchExit.bracket] at h
      · rw [if_neg c2] at h
        exact ih r1 r3 (r3 * 2) gf1 (trial r3 s).ret (trial r3 s) b (by linarith)
          (by linarith) (by linarith) (by linarith [not_lt.mp c1]) hs1 ⟨s, rfl⟩ h

theorem bracketL40_spec (trial : ℚ → SplcOut → SplcOut) :
    ∀ (fuel : Nat) (r1 gf2 : ℚ) (s : SplcOut) (b : Bracket),
      0 < r1 → (∃ s2, gf2 = (trial (r1 * 2) s2).ret) →
      (bracketL40 trial fuel r1 (r1 * 2) gf2 s).bind SearchExit.bracket = some b →
      b.r1 < b.r2 ∧ b.r2 < b.r3 ∧ b.gf1 > b.gf2 ∧ b.gf3 > b.gf2 ∧
        (∃ s1, b.gf1 = (trial b.r1 s1).ret) ∧ (∃ s2, b.gf2 = (trial b.r2 s2).ret) ∧
        ∃ s3, b.gf3 = (trial b.r3 s3).ret := by
  intro fuel
  induction fuel with
  | zero =>
    intro r1 gf2 s b _ _ h
    simp [bracketL40] at h
  | succ k ih =>
    intro r1 gf2 s b h1 hs2 h
    simp only [bracketL40] at h
    by_cases c1 : (trial r1 s).ret > gf2
    · rw [if_pos c1] at h
      exact bracketL60_spec trial k r1 (r1 * 2) (r1 * 2 * 2) _ gf2 _ b (by linarith)
        (by linarith) (by linarith) c1 ⟨s, rfl⟩ hs2 h
    · rw [if_neg c1] at h
      by_cases c2 : (trial r1 s).stat 4 ≤ 0
      · rw [if_pos c2] at h
        simp [SearchExit.bracket] at h
      · rw [if_neg c2] at h
        have e : r1 / 2 * 2 = r1 := by ring
        have h' : (bracketL40 trial k (r1 / 2) (r1 / 2 * 2) (trial (r1 / 2 * 2) s).ret
            (trial (r1 / 2 * 2) s)).bind SearchExit.bracket = some b := by
          rw [e]
          exact h
        exact ih (r1 / 2) (trial (r1 / 2 * 2) s).ret (trial (r1 / 2 * 2) s) b (by linarith)
          ⟨s, rfl⟩ h'


/-! ## The value of `splc` does not depend on the arrays it overwrites -/

theorem uval_agree (m n : Int) (e e' : Arr2) (a i : Int) (h : BandAgree m n e e')
    (hi1 : 1 ≤ i) (hi2 : i ≤ n) (ha0 : 0 ≤ a) (ha : a ≤ min m (n - i)) :
    uval m e e a i = uval m e' e' a i := by
  unfold uval
  rw [h a i hi1 hi2 (by omega) (by omega) (by omega) (by omega)]
  congr 1
  apply Finset.sum_congr rfl
  intro k hk
  simp only [Finset.mem_Icc] at hk
  rw [h (-k) i hi1 hi2 (by omega) (by omega) (by omega) (by omega),
    h (a + k) (i - k) (by omega) (by omega) (by omega) (by omega) (by omega) (by omega)]

theorem lnum_agree (m n : Int) (e e' : Arr2) (l i : Int) (h : BandAgree m n e e')
    (hi1 : 1 ≤ i) (hi2 : i ≤ n) (hl0 : 1 ≤ l) (hl : l ≤ min m (n - i)) :
    lnum m e e l i = lnum m e' e' l i := by
  unfold lnum
  rw [h (-l) (i + l) (by omega) (by omega) (by omega) (by omega) (by omega) (by omega)]
  congr 1
  apply Finset.sum_congr rfl
  intro k hk
  simp only [Finset.mem_Icc] at hk
  rw [h (-l - k) (l + i) (by omega) (by omega) (by omega) (by omega) (by omega) (by omega),
    h k (i - k) (by omega) (by omega) (by omega) (by omega) (by omega) (by omega)]

theorem rowSpec_agree (m n i : Int) (e e' : Arr2) (h : BandAgree m n e e') (hm : 1 ≤ m)
    (hi1 : 1 ≤ i) (hi2 : i ≤ n) : BandAgree m n (rowSpec m n i e) (rowSpec m n i e') := by
  intro a r hr1 hr2 hc1 hc2 ha1 ha2
  simp only [rowSpec]
  by_cases c1 : r = i ∧ 0 ≤ a ∧ a ≤ max 0 (min m (n - i))
  · rw [if_pos c1, if_pos c1]
    exact uval_agree m n e e' a i h hi1 hi2 (by omega) (by omega)
  · rw [if_neg c1, if_neg c1]
    by_cases c2 : a < 0 ∧ r + a = i ∧ -a ≤ min m (n - i)
    · rw [if_pos c2, if_pos c2, lnum_agree m n e e' (-a) i h hi1 hi2 (by omega) (by omega),
        uval_agree m n e e' 0 i h hi1 hi2 (by omega) (by omega)]
    · rw [if_neg c2, if_neg c2]
      exact h a r hr1 hr2 hc1 hc2 ha1 ha2

/-- The factors that `bandet` leaves in the band depend only on the entries
of the band. -/
theorem bandet_agree (m n : Int) (e e' : Arr2) (hm : 1 ≤ m) (h : BandAgree m n e e') :
    BandAgree m n (bandet e m n) (bandet e' m n) := by
  rw [bandet_eq_rows e m n hm, bandet_eq_rows e' m n hm]
  by_cases hn : 1 ≤ n + 1
  · exact forUp_rel (fun _ a a' => BandAgree m n a a') (bandetRow m n) 1 n e e' hn h
      (fun i a a' h1 h2 hr => by
        dsimp only
        rw [bandetRow_eq m n i a hm h2, bandetRow_eq m n i a' hm h2]
        exact rowSpec_agree m n i a a' hr hm h1 h2)
  · rw [forUp_of_lt (by omega), forUp_of_lt (by omega)]
    exact h

theorem channelSolved_unique (m n : Int) (E E' y : Arr2) (j : Int) (C C' : Arr2)
    (hm : 0 ≤ m) (hE : BandAgree m n E E') (h : channelSolved m n E y j C)
    (h' : channelSolved m n E' y j C') :
    ∀ i, 1 ≤ i → i ≤ n → C i j = C' i j := by
  obtain ⟨z, hz1, hz2⟩ := h
  obtain ⟨z', hz1', hz2'⟩ := h'
  have hz : ∀ t : Nat, ∀ i, 1 ≤ i → i ≤ n → i ≤ (t : Int) → z i = z' i := by
    intro t
    induction t with
    | zero => intro i h1 _ h3; simp at h3; omega
    | succ t ih =>
      intro i h1 h2 h3
      rw [hz1 i h1 h2, hz1' i h1 h2]
      congr 1
      apply Finset.sum_congr rfl
      intro l hl
      simp only [Finset.mem_Icc] at hl
      rw [hE (-l) i h1 h2 (by omega) (by omega) (by omega) (by omega),
        ih (i - l) (by omega) (by omega) (by push_cast at h3; omega)]
  have hc : ∀ t : Nat, ∀ i, 1 ≤ i → i ≤ n → n - i < (t : Int) → C i j = C' i j := by
    intro t
    induction t with
    | zero => intro i _ h2 h3; simp at h3; omega
    | succ t ih =>
      intro i h1 h2 h3
      rw [hz2 i h1 h2, hz2' i h1 h2, hz n.toNat i h1 h2 (by omega),
        hE 0 i h1 h2 (by omega) (by omega) (by omega) (by omega)]
      congr 2
      apply Finset.sum_congr rfl
      intro l hl
      simp only [Finset.mem_Icc] at hl
      rw [hE l i h1 h2 (by omega) (by omega) (by omega) (by omega),
        ih (i + l) (by omega) (by omega) (by push_cast at h3; omega)]
  intro i h1 h2
  exact hc (n - i + 1).toNat i h1 h2 (by omega)

/-- The coefficients that `bansol` leaves in rows `1..n` of the channels
`1..k` depend only on the factors in the band and on the data. -/
theorem bansol_agree (m n k : Int) (E E' y c c' : Arr2) (hm : 1 ≤ m) (hn : 1 ≤ n)
    (hE : BandAgree m n E E') (i j : Int) (hi1 : 1 ≤ i) (hi2 : i ≤ n) (hj1 : 1 ≤ j)
    (hj2 : j ≤ k) : bansol E y c m n k i j = bansol E' y c' m n k i j :=
  channelSolved_unique m n E E' y j _ _ (by omega) hE (bansol_solved m n k E y c hm hn j hj1 hj2)
    (bansol_solved m n k E' y c' hm hn j hj1 hj2) i hi1 hi2

theorem iterDown_rel {σ : Type} (R : Int → σ → σ → Prop) (f : Int → σ → σ) :
    ∀ (cnt : Nat) (hi : Int) (s s' : σ), R hi s s' →
      (∀ i a a', i ≤ hi → hi - cnt < i → R i a a' → R (i - 1) (f i a) (f i a')) →
      R (hi - cnt) (iterDown cnt hi f s) (iterDown cnt hi f s') := by
  intro cnt
  induction cnt with
  | zero => intro hi s s' h0 _; simpa [iterDown] using h0
  | succ c ih =>
    intro hi s s' h0 hstep
    simp only [iterDown]
    have h1 := ih (hi - 1) (f hi s) (f hi s') (hstep hi s s' le_rfl (by push_cast; omega) h0)
      (fun i a a' hi1 hi2 hr => hstep i a a' (by omega) (by push_cast; omega) hr)
    have e : hi - 1 - (c : Int) = hi - ((c + 1 : Nat) : Int) := by push_cast; ring
    rw [e] at h1
    exact h1

theorem forDown_rel {σ : Type} (R : Int → σ → σ → Prop) (f : Int → σ → σ) (hi lo : Int)
    (s s' : σ) (hlohi : lo ≤ hi + 1) (h0 : R hi s s')
    (hstep : ∀ i a a', lo ≤ i → i ≤ hi → R i a a' → R (i - 1) (f i a) (f i a')) :
    R (lo - 1) (forDown hi lo f s) (forDown hi lo f s') := by
  have h := iterDown_rel R f (hi + 1 - lo).toNat hi s s' h0
    (fun i a a' h1 h2 hr => hstep i a a' (by omega) h1 hr)
  have e : hi - ((hi + 1 - lo).toNat : Int) = lo - 1 := by omega
  rw [e] at h
  exact h

theorem trinvScratch_band (m n i : Int) (e : Arr2) (hm : 1 ≤ m) (hi1 : 1 ≤ i)
    (hin : i + 1 ≤ n) (a r : Int) (hr1 : 1 ≤ r) (hr2 : r ≤ n) (hc1 : 1 ≤ r + a)
    (hc2 : r + a ≤ n) : trinvScratch m n i e a r = e a r := by
  have n1 : ¬ (r = n ∧ 1 ≤ a ∧ a ≤ min m (n - i)) := by omega
  have n2 : ¬ (r = 1 ∧ -min m (n - i) ≤ a ∧ a ≤ -1) := by omega
  rw [trinvScratch_spec m n i e hm hi1 hin, if_neg n1, if_neg n2]

theorem trinvScratch_up (m n i : Int) (e : Arr2) (hm : 1 ≤ m) (hi1 : 1 ≤ i)
    (hin : i + 1 ≤ n) (k : Int) (hk1 : 1 ≤ k) (hk2 : k ≤ min m (n - i)) :
    trinvScratch m n i e k n = e k i * (1 / e 0 i) := by
  have n1 : n = n ∧ 1 ≤ k ∧ k ≤ min m (n - i) := ⟨rfl, hk1, hk2⟩
  rw [trinvScratch_spec m n i e hm hi1 hin, if_pos n1]

theorem trinvScratch_lo (m n i : Int) (e : Arr2) (hm : 1 ≤ m) (hi1 : 1 ≤ i)
    (hin : i + 1 ≤ n) (k : Int) (hk1 : 1 ≤ k) (hk2 : k ≤ min m (n - i)) :
    trinvScratch m n i e (-k) 1 = e (-k) (k + i) := by
  have n1 : ¬ ((1 : Int) = n ∧ 1 ≤ -k ∧ -k ≤ min m (n - i)) := by omega
  have n2 : (1 : Int) = 1 ∧ -min m (n - i) ≤ -k ∧ -k ≤ -1 := by omega
  have e1 : - -k + i = k + i := by ring
  rw [trinvScratch_spec m n i e hm hi1 hin, if_neg n1, if_pos n2, e1]

theorem trinvDu_agree (m n i : Int) (e e' : Arr2) (h : BandAgree m n e e') (hm : 1 ≤ m)
    (hi1 : 1 ≤ i) (hin : i + 1 ≤ n) (j : Int) (hj1 : 1 ≤ j) (hj2 : j ≤ min m (n - i)) :
    trinvDu m n i (trinvScratch m n i e) j = trinvDu m n i (trinvScratch m n i e') j := by
  unfold trinvDu
  congr 1
  apply Finset.sum_congr rfl
  intro k hk
  simp only [Finset.mem_Icc] at hk
  rw [trinvScratch_up m n i e hm hi1 hin k hk.1 hk.2,
    trinvScratch_up m n i e' hm hi1 hin k hk.1 hk.2,
    trinvScratch_band m n i e hm hi1 hin (j - k) (i + k) (by omega) (by omega) (by omega)
      (by omega),
    trinvScratch_band m n i e' hm hi1 hin (j - k) (i + k) (by omega) (by omega) (by omega)
      (by omega),
    h k i (by omega) (by omega) (by omega) (by omega) (by omega) (by omega),
    h 0 i (by omega) (by omega) (by omega) (by omega) (by omega) (by omega),
    h (j - k) (i + k) (by omega) (by omega) (by omega) (by omega) (by omega) (by omega)]

theorem trinvDl_agree (m n i : Int) (e e' : Arr2) (h : BandAgree m n e e') (hm : 1 ≤ m)
    (hi1 : 1 ≤ i) (hin : i + 1 ≤ n) (j : Int) (hj1 : 1 ≤ j) (hj2 : j ≤ min m (n - i)) :
    trinvDl m n i (trinvScratch m n i e) j = trinvDl m n i (trinvScratch m n i e') j := by
  unfold trinvDl
  congr 1
  apply Finset.sum_congr rfl
  intro k hk
  simp only [Finset.mem_Icc] at hk
  rw [trinvScratch_lo m n i e hm hi1 hin k hk.1 hk.2,
    trinvScratch_lo m n i e' hm hi1 hin k hk.1 hk.2,
    trinvScratch_band m n i e hm hi1 hin (k - j) (i + j) (by omega) (by omega) (by omega)
      (by omega),
    trinvScratch_band m n i e' hm hi1 hin (k - j) (i + j) (by omega) (by omega) (by omega)
      (by omega),
    h (-k) (k + i) (by omega) (by omega) (by omega) (by omega) (by omega) (by omega),
    h (k - j) (i + j) (by omega) (by omega) (by omega) (by omega) (by omega) (by omega)]

theorem trinvRow_agree (m n i : Int) (e e' : Arr2) (h : BandAgree m n e e') (hm : 1 ≤ m)
    (hi1 : 1 ≤ i) (hin : i + 1 ≤ n) :
    BandAgree m n (trinvRow m n i e) (trinvRow m n i e') := by
  intro a r hr1 hr2 hc1 hc2 ha1 ha2
  rw [trinvRow_cells m n i e hm hi1 hin, trinvRow_cells m n i e' hm hi1 hin]
  by_cases c1 : a = 0 ∧ r = i
  · rw [if_pos c1, if_pos c1, h 0 i (by omega) (by omega) (by omega) (by omega) (by omega)
      (by omega)]
    congr 2
    apply Finset.sum_congr rfl
    intro j hj
    simp only [Finset.mem_Icc] at hj
    rw [trinvDu_agree m n i e e' h hm hi1 hin j hj.1 hj.2,
      trinvDl_agree m n i e e' h hm hi1 hin j hj.1 hj.2,
      trinvScratch_up m n i e hm hi1 hin j hj.1 hj.2,
      trinvScratch_up m n i e' hm hi1 hin j hj.1 hj.2,
      trinvScratch_lo m n i e hm hi1 hin j hj.1 hj.2,
      trinvScratch_lo m n i e' hm hi1 hin j hj.1 hj.2,
      h j i (by omega) (by omega) (by omega) (by omega) (by omega) (by omega),
      h 0 i (by omega) (by omega) (by omega) (by omega) (by omega) (by omega),
      h (-j) (j + i) (by omega) (by omega) (by omega) (by omega) (by omega) (by omega)]
  · rw [if_neg c1, if_neg c1]
    by_cases c2 : r = i ∧ 1 ≤ a ∧ a ≤ min m (n - i)
    · rw [if_pos c2, if_pos c2]
      exact trinvDu_agree m n i e e' h hm hi1 hin a c2.2.1 c2.2.2
    · rw [if_neg c2, if_neg c2]
      by_cases c3 : a ≤ -1 ∧ -min m (n - i) ≤ a ∧ r = i - a
      · rw [if_pos c3, if_pos c3]
        exact trinvDl_agree m n i e e' h hm hi1 hin (-a) (by omega) (by omega)
      · rw [if_neg c3, if_neg c3, trinvScratch_band m n i e hm hi1 hin a r hr1 hr2 hc1 hc2,
          trinvScratch_band m n i e' hm hi1 hin a r hr1 hr2 hc1 hc2]
        exact h a r hr1 hr2 hc1 hc2 ha1 ha2

theorem trinvBands_agree (m n : Int) (e e' : Arr2) (h : BandAgree m n e e') (hm : 1 ≤ m)
    (hn : 1 ≤ n) : BandAgree m n (trinvBands e m n) (trinvBands e' m n) := by
  unfold trinvBands
  have h0 : BandAgree m n (set2 e 0 n (1 / e 0 n)) (set2 e' 0 n (1 / e' 0 n)) := by
    intro a r hr1 hr2 hc1 hc2 ha1 ha2
    by_cases c : a = 0 ∧ r = n
    · rw [c.1, c.2, set2_same, set2_same,
        h 0 n (by omega) (by omega) (by omega) (by omega) (by omega) (by omega)]
    · rw [set2_other _ _ _ _ (by omega), set2_other _ _ _ _ (by omega)]
      exact h a r hr1 hr2 hc1 hc2 ha1 ha2
  exact forDown_rel (fun _ a a' => BandAgree m n a a') (trinvRow m n) (n - 1) 1 _ _
    (by omega) h0
    (fun i a a' h1 h2 hr => trinvRow_agree m n i a a' hr hm h1 (by omega))

/-- The value that `trinv` returns depends only on the factors in the
band. -/
theorem trinv_agree (m n : Int) (b e e' : Arr2) (h : BandAgree m n e e') (hm : 1 ≤ m)
    (hn : 1 ≤ n) : (trinv b e m n).1 = (trinv b e' m n).1 := by
  rw [trinv_eq_bands, trinv_eq_bands, trinvSum_eq, trinvSum_eq]
  have hb := trinvBands_agree m n e e' h hm hn
  apply Finset.sum_congr rfl
  intro i hi
  apply Finset.sum_congr rfl
  intro k hk
  simp only [Finset.mem_Icc] at hi hk
  rw [hb (-k) (k + i) (by omega) (by omega) (by omega) (by omega) (by omega) (by omega)]

theorem splcAssemble_agree (m n : Int) (dp : ℚ) (b we bwe bwe' : Arr2) :
    BandAgree m n (splcAssemble m n dp b we bwe) (splcAssemble m n dp b we bwe') := by
  intro a r hr1 hr2 hc1 hc2 ha1 ha2
  rw [splcAssemble_spec m n dp b we bwe a r hr1 hr2 (by omega) (by omega),
    splcAssemble_spec m n dp b we bwe' a r hr1 hr2 (by omega) (by omega)]

theorem splcResidual_agree (m n k : Int) (y : Arr2) (wx wy : Vec) (b c c' : Arr2)
    (h : ∀ i j, 1 ≤ i → i ≤ n → 1 ≤ j → j ≤ k → c i j = c' i j) :
    splcResidual m n k y wx wy b c = splcResidual m n k y wx wy b c' := by
  rw [splcResidual_eq, splcResidual_eq]
  apply Finset.sum_congr rfl
  intro j hj
  apply Finset.sum_congr rfl
  intro i hi
  simp only [Finset.mem_Icc] at hi hj
  have hs : ∑ l ∈ Finset.Icc (-min (m - 1) (i - 1)) (min (m - 1) (n - i)),
      b l i * c (i + l) j =
      ∑ l ∈ Finset.Icc (-min (m - 1) (i - 1)) (min (m - 1) (n - i)),
      b l i * c' (i + l) j := by
    apply Finset.sum_congr rfl
    intro l hl
    simp only [Finset.mem_Icc] at hl
    rw [h (i + l) j (by omega) (by omega) hj.1 hj.2]
  rw [hs]

theorem splc_ret_eq (m n k : Int) (y : Arr2) (wx wy : Vec) (mode : Int) (val p eps : ℚ)
    (c : Arr2) (stat : Vec) (b we : Arr2) (el : ℚ) (bwe : Arr2) :
    (splc m n k y wx wy mode val p eps c stat b we el bwe).ret =
      if iabs mode ≠ 3 then
        (if iabs mode = 4 then
          dabs ((splc m n k y wx wy mode val p eps c stat b we el bwe).stat 3 - val)
        else if iabs mode = 2 then
          (splc m n k y wx wy mode val p eps c stat b we el bwe).stat 1
        else 0)
      else
        (splc m n k y wx wy mode val p eps c stat b we el bwe).stat 2 -
          val * ((splc m n k y wx wy mode val p eps c stat b we el bwe).stat 3 / (n : ℚ) * 2 -
            1) := by
  have e35 : ((3 : Int) = 5) = False := by decide
  have e36 : ((3 : Int) = 6) = False := by decide
  have e31 : ((3 : Int) = 1) = False := by decide
  have e32 : ((3 : Int) = 2) = False := by decide
  have e15 : ((1 : Int) = 5) = False := by decide
  have e12 : ((1 : Int) = 2) = False := by decide
  have e25 : ((2 : Int) = 5) = False := by decide
  by_cases h3 : iabs mode ≠ 3
  · rw [if_pos h3]
    by_cases h4 : iabs mode = 4
    · rw [if_pos h4]
      simp only [splc, if_pos h3, if_pos h4, setV, e35, e36, e31, e32, if_false, if_true]
    · rw [if_neg h4]
      by_cases h2 : iabs mode = 2
      · rw [if_pos h2]
        simp only [splc, if_pos h3, if_neg h4, if_pos h2, setV, e15, e12, if_false, if_true]
      · rw [if_neg h2]
        simp only [splc, if_pos h3, if_neg h4, if_neg h2, ite_self]
  · rw [if_neg h3]
    simp only [splc, if_neg h3, setV, e35, e36, e31, e32, e25, if_false, if_true]

/-- The value that `splc` returns is the same for any contents of the arrays
`c`, `stat` and `bwe` on entry, and for any two trial values that lead to the
same `dp`. -/
theorem splc_ret_agree (m n k : Int) (y : Arr2) (wx wy : Vec) (mode : Int) (val p p' eps : ℚ)
    (c c' : Arr2) (stat stat' : Vec) (b we : Arr2) (el : ℚ) (bwe bwe' : Arr2) (hm : 1 ≤ m)
    (hn : 1 ≤ n) (hdp : (splcDp p eps el).1 = (splcDp p' eps el).1) :
    (splc m n k y wx wy mode val p eps c stat b we el bwe).ret =
      (splc m n k y wx wy mode val p' eps c' stat' b we el bwe').ret := by
  have hE : BandAgree m n (bandet (splcAssemble m n (splcDp p eps el).1 b we bwe) m n)
      (bandet (splcAssemble m n (splcDp p' eps el).1 b we bwe') m n) := by
    rw [hdp]
    exact bandet_agree m n _ _ hm (splcAssemble_agree m n _ b we bwe bwe')
  have h3 : (splc m n k y wx wy mode val p eps c stat b we el bwe).stat 3 =
      (splc m n k y wx wy mode val p' eps c' stat' b we el bwe').stat 3 := by
    rw [splc_stat3 m n k y wx wy mode val p eps c stat b we el bwe,
      splc_stat3 m n k y wx wy mode val p' eps c' stat' b we el bwe',
      trinv_agree m n we _ _ hE hm hn, hdp]
  have h2 : (splc m n k y wx wy mode val p eps c stat b we el bwe).stat 2 =
      (splc m n k y wx wy mode val p' eps c' stat' b we el bwe').stat 2 := by
    have hr : splcResidual m n k y wx wy b
        (splc m n k y wx wy mode val p eps c stat b we el bwe).c =
        splcResidual m n k y wx wy b
          (splc m n k y wx wy mode val p' eps c' stat' b we el bwe').c := by
      rw [splc_c m n k y wx wy mode val p eps c stat b we el bwe,
        splc_c m n k y wx wy mode val p' eps c' stat' b we el bwe']
      exact splcResidual_agree m n k y wx wy b _ _
        (fun i j hi1 hi2 hj1 hj2 => bansol_agree m n k _ _ y c c' hm hn hE i j hi1 hi2 hj1 hj2)
    rw [splc_stat2 m n k y wx wy mode val p eps c stat b we el bwe,
      splc_stat2 m n k y wx wy mode val p' eps c' stat' b we el bwe', hr]
  have h1 : (splc m n k y wx wy mode val p eps c stat b we el bwe).stat 1 =
      (splc m n k y wx wy mode val p' eps c' stat' b we el bwe').stat 1 := by
    rw [splc_stat1 m n k y wx wy mode val p eps c stat b we el bwe,
      splc_stat1 m n k y wx wy mode val p' eps c' stat' b we el bwe', h2, h3]
  rw [splc_ret_eq m n k y wx wy mode val p eps c stat b we el bwe,
    splc_ret_eq m n k y wx wy mode val p' eps c' stat' b we el bwe', h1, h2, h3]


/-! ## The bracket of a call of `gcvspl` -/

theorem gcvsplCheck_passed_size (a : Args) (st : Statics)
    (h : (gcvsplCheck a st).returned = false) : 2 * a.m ≤ a.n := by
  by_contra hn
  by_cases hmode : modeValueBad a.md a.val a.n a.m
  · rw [gcvsplCheck_mode a st hmode] at h; simp at h
  by_cases hst : a.md > 0 ∨ ¬ sizesStale a st
  · rw [gcvsplCheck_size a st hmode hst (Or.inr (by omega))] at h; simp at h
  · have h1 : ¬ a.md > 0 := fun h1 => hst (Or.inl h1)
    have h2 : sizesStale a st := by
      by_contra h2; exact hst (Or.inr h2)
    rw [gcvsplCheck_stale a st hmode h1 h2] at h; simp at h

theorem gcvsplCheck_el (a : Args) (st : Statics) : (gcvsplCheck a st).st.el = st.el := by
  have he : (entryStatics a st).el = st.el := by
    unfold entryStatics
    split <;> rfl
  by_cases hmode : modeValueBad a.md a.val a.n a.m
  · rw [gcvsplCheck_mode a st hmode]
  by_cases hst : a.md > 0 ∨ ¬ sizesStale a st
  · by_cases hsize : a.m ≤ 0 ∨ a.n < 2 * a.m
    · rw [gcvsplCheck_size a st hmode hst hsize]
      exact he
    · have hw := gcvsplCheck_weights a st hmode hst (by omega) (by omega)
      by_cases hbad : weightsKnotsBad a
      · rw [hw.1 hbad]
        exact he
      · rw [hw.2 hbad]
        exact he
  · have h1 : ¬ a.md > 0 := fun h1 => hst (Or.inl h1)
    have h2 : sizesStale a st := by
      by_contra h2; exact hst (Or.inr h2)
    rw [gcvsplCheck_stale a st hmode h1 h2]

theorem prep_el_nonneg (m n : Int) (x w : Vec) (we : Arr2) : 0 ≤ (prep m n x w we).2 := by
  rw [prep_el]
  by_cases hn : 0 ≤ n
  · apply div_nonneg
    · apply Finset.sum_nonneg
      intro i _
      apply Finset.sum_nonneg
      intro l _
      exact abs_nonneg _
    · exact_mod_cast hn
  · rw [Finset.Icc_eq_empty (by omega), Finset.sum_empty, zero_div]

theorem basis_bl_nonneg (m n : Int) (x : Vec) (b : Arr2) (q : Vec) :
    0 ≤ (basis m n x b q).bl := by
  by_cases hm : m = 1
  · have h1 : (basis m n x b q).bl = 1 := by simp [basis, hm]
    rw [h1]
    exact zero_le_one
  · rw [basis_bl m n x b q hm]
    by_cases hn : 0 ≤ n
    · apply div_nonneg
      · apply Finset.sum_nonneg
        intro i _
        apply Finset.sum_nonneg
        intro l _
        exact abs_nonneg _
      · exact_mod_cast hn
    · rw [Finset.Icc_eq_empty (by omega), Finset.sum_empty, zero_div]

/-- The value of `el` with which a call of `gcvspl` runs its search is not
negative, provided the static `el` was not negative before the call. -/
theorem gcvsplSetup_el_nonneg (a : Args) (wk : Wk) (st : Statics) (h : 0 ≤ st.el) :
    0 ≤ (gcvsplSetup a wk st).2.el := by
  unfold gcvsplSetup
  split
  · exact div_nonneg (prep_el_nonneg _ _ _ _ _) (basis_bl_nonneg _ _ _ _ _)
  · exact h

theorem splcDp_nonpos (r eps el : ℚ) (hr : r ≤ 0) (hel : 0 ≤ el) (heps : 0 < eps) :
    splcDp r eps el = (eps / el, 0) := by
  have h0 : r * el ≤ 0 := mul_nonpos_of_nonpos_of_nonneg hr hel
  have h1 : r * el < eps := lt_of_le_of_lt h0 heps
  have h2 : ¬ (r * el * eps > 1) := by
    have : r * el * eps ≤ 0 := mul_nonpos_of_nonpos_of_nonneg h0 (le_of_lt heps)
    linarith
  simp only [splcDp, if_pos h1, if_neg h2]

/-- From a start value `r1 ≤ 0` the search goes to `L100` without entering
the golden section: both trial calls use the floor value of `dp` and return
the same value. -/
theorem bracketL40_nonpos (a : Args) (wk : Wk) (el : ℚ) (fuel : Nat) (r1 : ℚ) (s0 : SplcOut)
    (hm : 1 ≤ a.m) (hn : 1 ≤ a.n) (hel : 0 ≤ el) (hr : r1 ≤ 0) :
    (bracketL40 (gcvsplTrial a wk el) fuel r1 (r1 * 2)
      (gcvsplTrial a wk el (r1 * 2) s0).ret (gcvsplTrial a wk el (r1 * 2) s0)).bind
        SearchExit.bracket = none := by
  cases fuel with
  | zero => rfl
  | succ k =>
    have heps : (0 : ℚ) < c_b6 := by norm_num [c_b6]
    have hd1 := splcDp_nonpos r1 c_b6 el hr hel heps
    have hd2 := splcDp_nonpos (r1 * 2) c_b6 el (by linarith) hel heps
    have hret : (gcvsplTrial a wk el r1 (gcvsplTrial a wk el (r1 * 2) s0)).ret =
        (gcvsplTrial a wk el (r1 * 2) s0).ret := by
      unfold gcvsplTrial
      exact splc_ret_agree a.m a.n a.k a.y a.wx a.wy a.md a.val r1 (r1 * 2) c_b6 _ _ _ _
        wk.b wk.we el _ _ hm hn (by rw [hd1, hd2])
    have hs4 : (gcvsplTrial a wk el r1 (gcvsplTrial a wk el (r1 * 2) s0)).stat 4 = 0 := by
      unfold gcvsplTrial
      rw [splc_stat4, hd1]
    have c1 : ¬ ((gcvsplTrial a wk el r1 (gcvsplTrial a wk el (r1 * 2) s0)).ret >
        (gcvsplTrial a wk el (r1 * 2) s0).ret) := by
      rw [hret]
      exact lt_irrefl _
    have c2 : (gcvsplTrial a wk el r1 (gcvsplTrial a wk el (r1 * 2) s0)).stat 4 ≤ 0 := by
      rw [hs4]
    simp only [bracketL40, if_neg c1, if_pos c2, Option.some_bind, SearchExit.bracket]

theorem gcvsplBracket_spec (fuel : Nat) (a : Args) (wk : Wk) (el : ℚ) (s0 : SplcOut)
    (b : Bracket) (hm : 1 ≤ a.m) (hn : 1 ≤ a.n) (hel : 0 ≤ el)
    (h : (gcvsplBracket fuel a wk el s0).bind SearchExit.bracket = some b) :
    b.r1 < b.r2 ∧ b.r2 < b.r3 ∧ b.gf1 > b.gf2 ∧ b.gf3 > b.gf2 ∧
      (∃ s1, b.gf1 = (gcvsplTrial a wk el b.r1 s1).ret) ∧
      (∃ s2, b.gf2 = (gcvsplTrial a wk el b.r2 s2).ret) ∧
      ∃ s3, b.gf3 = (gcvsplTrial a wk el b.r3 s3).ret := by
  unfold gcvsplBracket at h
  by_cases c : iabs a.md ≠ 1
  · rw [if_pos c] at h
    dsimp only at h
    by_cases hr : 0 < (if a.md < -1 then wk.stat 4 else 1 / el)
    · exact bracketL40_spec (gcvsplTrial a wk el) fuel _ _ _ b hr ⟨s0, rfl⟩ h
    · rw [bracketL40_nonpos a wk el fuel _ s0 hm hn hel (not_lt.mp hr)] at h
      exact absurd h (by simp)
  · rw [if_neg c] at h
    simp [SearchExit.bracket] at h

/-- A call of `gcvspl` that does not return from validation is its search up
to `L70` or `L100`, the golden section if `L70` is reached, and the final call
of `splc`. -/
theorem gcvspl_eq_arrive (fuel : Nat) (a : Args) (c : Arr2) (wk : Wk) (st : Statics)
    (h : (gcvsplCheck a st).returned = false) :
    gcvspl fuel a c wk st =
      ((gcvsplArrive fuel a c wk st).bind (fun e =>
        match e with
        | SearchExit.final r s' => some (r, s')
        | SearchExit.golden b s' f =>
          gcvspl_L70 (gcvsplTrial a (gcvsplSetup a wk (gcvsplCheck a st).st).1
            (gcvsplSetup a wk (gcvsplCheck a st).st).2.el) f b.r1 b.r3 s')).map (fun r =>
        { ier := (gcvsplCheck a st).ier,
          c := (gcvsplTrial a (gcvsplSetup a wk (gcvsplCheck a st).st).1
            (gcvsplSetup a wk (gcvsplCheck a st).st).2.el r.1 r.2).c,
          wk := { (gcvsplSetup a wk (gcvsplCheck a st).st).1 with
            stat := (gcvsplTrial a (gcvsplSetup a wk (gcvsplCheck a st).st).1
              (gcvsplSetup a wk (gcvsplCheck a st).st).2.el r.1 r.2).stat,
            bwe := (gcvsplTrial a (gcvsplSetup a wk (gcvsplCheck a st).st).1
              (gcvsplSetup a wk (gcvsplCheck a st).st).2.el r.1 r.2).bwe },
          st := (gcvsplSetup a wk (gcvsplCheck a st).st).2 }) := by
  simp only [gcvspl, gcvsplArrive, h, Bool.false_eq_true, if_false, gcvsplSearch_eq]

theorem gcvspl_el_nonneg (fuel : Nat) (a : Args) (c : Arr2) (wk : Wk) (st : Statics)
    (hel : 0 ≤ st.el) (o : Out) (ho : gcvspl fuel a c wk st = some o) : 0 ≤ o.st.el := by
  have hc : 0 ≤ (gcvsplCheck a st).st.el := by rw [gcvsplCheck_el]; exact hel
  by_cases hr : (gcvsplCheck a st).returned = true
  · rw [gcvspl_of_returned fuel a c wk st hr] at ho
    cases ho
    exact hc
  · have hr' : (gcvsplCheck a st).returned = false := by simpa using hr
    simp only [gcvspl, hr', Bool.false_eq_true, if_false, Option.map_eq_some'] at ho
    obtain ⟨r, _, hr2⟩ := ho
    subst hr2
    exact gcvsplSetup_el_nonneg a wk _ hc

/-- C24: whenever a call of `gcvspl` arrives at label `L70`, the variables
there satisfy `r1 < r2 < r3`, `gf1 > gf2` and `gf3 > gf2`, where `gf1`, `gf2`,
`gf3` are values returned by `splc` at `r1`, `r2`, `r3`.  The static `el` is
assumed not negative on entry, which holds for its initial value `0` and is
preserved by every call. -/
theorem gcvspl_bracket_at_L70 (fuel : Nat) (a : Args) (c : Arr2) (wk : Wk) (st : Statics)
    (b : Bracket) (hel : 0 ≤ st.el)
    (h : (gcvsplArrive fuel a c wk st).bind SearchExit.bracket = some b) :
    (b.r1 < b.r2 ∧ b.r2 < b.r3 ∧ b.gf1 > b.gf2 ∧ b.gf3 > b.gf2 ∧
      (∃ s1, b.gf1 = (gcvsplTrial a (gcvsplSetup a wk (gcvsplCheck a st).st).1
        (gcvsplSetup a wk (gcvsplCheck a st).st).2.el b.r1 s1).ret) ∧
      (∃ s2, b.gf2 = (gcvsplTrial a (gcvsplSetup a wk (gcvsplCheck a st).st).1
        (gcvsplSetup a wk (gcvsplCheck a st).st).2.el b.r2 s2).ret) ∧
      ∃ s3, b.gf3 = (gcvsplTrial a (gcvsplSetup a wk (gcvsplCheck a st).st).1
        (gcvsplSetup a wk (gcvsplCheck a st).st).2.el b.r3 s3).ret) ∧
      0 ≤ Statics.init.el ∧
      ∀ (fuel' : Nat) (o : Out), gcvspl fuel' a c wk st = some o → 0 ≤ o.st.el := by
  refine ⟨?_, le_refl _, fun fuel' o ho => gcvspl_el_nonneg fuel' a c wk st hel o ho⟩
  unfold gcvsplArrive at h
  dsimp only at h
  by_cases hr : (gcvsplCheck a st).returned = true
  · rw [if_pos hr] at h
    simp at h
  · rw [if_neg hr] at h
    have hr' : (gcvsplCheck a st).returned = false := by simpa using hr
    have hm := gcvsplCheck_passed_order a st hr'
    have hn := gcvsplCheck_passed_size a st hr'
    exact gcvsplBracket_spec fuel a _ _ _ b hm (by omega)
      (gcvsplSetup_el_nonneg a wk _ (by rw [gcvsplCheck_el]; exact hel)) h

theorem gcvspl_bracket_at_L70_witness :
    0 ≤ Statics.init.el ∧
      (gcvsplArrive 5 (twoKnots 1 3 (1 / 4)) zero2 wkZero Statics.init).bind
          SearchExit.bracket =
        some { r1 := 1 / 4, r2 := 1 / 2, r3 := 1, gf1 := 7 / 36, gf2 := 3 / 16,
               gf3 := 7 / 36 } ∧
      (((1 / 4 : ℚ) < 1 / 2 ∧ (1 / 2 : ℚ) < 1 ∧ (7 / 36 : ℚ) > 3 / 16 ∧ (7 / 36 : ℚ) > 3 / 16 ∧
        (∃ s1, (7 / 36 : ℚ) = (gcvsplTrial (twoKnots 1 3 (1 / 4))
          (gcvsplSetup (twoKnots 1 3 (1 / 4)) wkZero
            (gcvsplCheck (twoKnots 1 3 (1 / 4)) Statics.init).st).1
          (gcvsplSetup (twoKnots 1 3 (1 / 4)) wkZero
            (gcvsplCheck (twoKnots 1 3 (1 / 4)) Statics.init).st).2.el (1 / 4) s1).ret) ∧
        (∃ s2, (3 / 16 : ℚ) = (gcvsplTrial (twoKnots 1 3 (1 / 4))
          (gcvsplSetup (twoKnots 1 3 (1 / 4)) wkZero
            (gcvsplCheck (twoKnots 1 3 (1 / 4)) Statics.init).st).1
          (gcvsplSetup (twoKnots 1 3 (1 / 4)) wkZero
            (gcvsplCheck (twoKnots 1 3 (1 / 4)) Statics.init).st).2.el (1 / 2) s2).ret) ∧
        ∃ s3, (7 / 36 : ℚ) = (gcvsplTrial (twoKnots 1 3 (1 / 4))
          (gcvsplSetup (twoKnots 1 3 (1 / 4)) wkZero
            (gcvsplCheck (twoKnots 1 3 (1 / 4)) Statics.init).st).1
          (gcvsplSetup (twoKnots 1 3 (1 / 4)) wkZero
            (gcvsplCheck (twoKnots 1 3 (1 / 4)) Statics.init).st).2.el 1 s3).ret) ∧
      0 ≤ Statics.init.el ∧
      ∀ (fuel' : Nat) (o : Out),
        gcvspl fuel' (twoKnots 1 3 (1 / 4)) zero2 wkZero Statics.init = some o →
          0 ≤ o.st.el) :=
  ⟨by decide!, by decide!,
    gcvspl_bracket_at_L70 5 (twoKnots 1 3 (1 / 4)) zero2 wkZero Statics.init
      { r1 := 1 / 4, r2 := 1 / 2, r3 := 1, gf1 := 7 / 36, gf2 := 3 / 16, gf3 := 7 / 36 }
      (by decide!) (by decide!)⟩


/-! ## The array accesses of `splder` are in range -/

theorem iterUp_fst {σ τ : Type} (f : Int → σ → σ) (g : Int → σ × τ → σ × τ)
    (h : ∀ i p, (g i p).1 = f i p.1) :
    ∀ (cnt : Nat) (i : Int) (p : σ × τ), (iterUp cnt i g p).1 = iterUp cnt i f p.1 := by
  intro cnt
  induction cnt with
  | zero => intro i p; rfl
  | succ n ih =>
    intro i p
    simp only [iterUp]
    rw [ih, h]

theorem forUp_fst {σ τ : Type} (f : Int → σ → σ) (g : Int → σ × τ → σ × τ)
    (h : ∀ i p, (g i p).1 = f i p.1) (lo hi : Int) (p : σ × τ) :
    (forUp lo hi g p).1 = forUp lo hi f p.1 :=
  iterUp_fst f g h _ lo p

theorem forUp_log {σ : Type} (P : Int → σ → Prop) (Ok : Access → Prop)
    (g : Int → σ × List Access → σ × List Access) (lo hi : Int) (p : σ × List Access)
    (hlohi : lo ≤ hi + 1) (h0 : P lo p.1) (hlog : ∀ a ∈ p.2, Ok a)
    (hstep : ∀ i u, lo ≤ i → i ≤ hi → P i u.1 → (∀ a ∈ u.2, Ok a) →
      P (i + 1) (g i u).1 ∧ ∀ a ∈ (g i u).2, Ok a) :
    P (hi + 1) (forUp lo hi g p).1 ∧ ∀ a ∈ (forUp lo hi g p).2, Ok a :=
  forUp_inv (fun i (u : σ × List Access) => P i u.1 ∧ ∀ a ∈ u.2, Ok a) g lo hi p hlohi
    ⟨h0, hlog⟩ (fun i u h1 h2 hu => hstep i u h1 h2 hu.1 hu.2)


theorem forUp_fst_of {σ τ : Type} (f : Int → σ → σ) (g : Int → σ × τ → σ × τ)
    (h : ∀ i p, (g i p).1 = f i p.1) (lo hi : Int) (p : σ × τ) (s : σ) (hp : p.1 = s) :
    (forUp lo hi g p).1 = forUp lo hi f s := by
  rw [← hp]
  exact forUp_fst f g h lo hi p

theorem splderFillTrace_fst (m n l : Int) (c : Vec) (p : Vec × List Access) :
    (splderFillTrace m n l c p).1 = splderFill m n l c p.1 := by
  unfold splderFillTrace splderFill
  apply forUp_fst
  intro j u
  dsimp only
  split <;> rfl

theorem splderLevelTrace_fst (k n l : Int) (t : ℚ) (x : Vec) (i : Int)
    (p : Vec × List Access) :
    (splderLevelTrace k n l t x i p).1 = splderLevel k n l t x i p.1 := by
  unfold splderLevelTrace splderLevel
  dsimp only
  have e1 : ∀ (X : EvalSt × List Access) (Y : EvalSt), X.1 = Y →
      (if max 1 (l - k + 1 + i) ≤ min l (n - k + i) then
        forUp (max 1 (l - k + 1 + i)) (min l (n - k + i))
          (fun _ (s : EvalSt × List Access) =>
            ((⟨setV s.1.q s.1.ir (s.1.q s.1.ir + (x (s.1.jj + (k - i)) - t) *
                (s.1.q (s.1.ir - 1) - s.1.q s.1.ir) / (x (s.1.jj + (k - i)) - x s.1.jj)),
                s.1.ir - 1, s.1.jj - 1⟩ : EvalSt),
              Access.q s.1.ir :: Access.divisor (x (s.1.jj + (k - i)) - x s.1.jj) ::
                Access.x s.1.jj :: Access.q (s.1.ir - 1) :: Access.q s.1.ir ::
                Access.x (s.1.jj + (k - i)) :: s.2)) X
      else X).1 =
      (if max 1 (l - k + 1 + i) ≤ min l (n - k + i) then
        forUp (max 1 (l - k + 1 + i)) (min l (n - k + i))
          (fun _ (s : EvalSt) =>
            (⟨setV s.q s.ir (s.q s.ir + (x (s.jj + (k - i)) - t) *
                (s.q (s.ir - 1) - s.q s.ir) / (x (s.jj + (k - i)) - x s.jj)),
                s.ir - 1, s.jj - 1⟩ : EvalSt)) Y
      else Y) := by
    intro X Y hXY
    split
    · exact forUp_fst_of _ _ (fun _ _ => rfl) _ _ _ _ hXY
    · exact hXY
  have e0 : (if l ≥ n - k + i + 1 then
      forUp (n - k + i + 1) l (fun _ (s : EvalSt × List Access) =>
        ((⟨setV s.1.q s.1.ir (s.1.q (s.1.ir - 1) + (t - x s.1.jj) * s.1.q s.1.ir),
            s.1.ir - 1, s.1.jj - 1⟩ : EvalSt),
          Access.q s.1.ir :: Access.q s.1.ir :: Access.x s.1.jj :: Access.q (s.1.ir - 1) ::
            s.2)) ((⟨p.1, k, l⟩ : EvalSt), p.2)
      else ((⟨p.1, k, l⟩ : EvalSt), p.2)).1 =
      (if l ≥ n - k + i + 1 then
        forUp (n - k + i + 1) l (fun _ (s : EvalSt) =>
          (⟨setV s.q s.ir (s.q (s.ir - 1) + (t - x s.jj) * s.q s.ir), s.ir - 1,
            s.jj - 1⟩ : EvalSt)) ⟨p.1, k, l⟩
      else ⟨p.1, k, l⟩) := by
    split
    · exact forUp_fst_of _ _ (fun _ _ => rfl) _ _ _ _ rfl
    · rfl
  have e2 := e1 _ _ e0
  split
  · apply congrArg EvalSt.q
    apply forUp_fst_of _ _ (fun _ _ => rfl)
    dsimp only
    rw [e2]
  · exact congrArg EvalSt.q e2


theorem splderDerivTrace_fst (ider m n l : Int) (x : Vec) (p : Vec × List Access) :
    (splderDerivTrace ider m n l x p).1 = splderDeriv ider m n l x p.1 := by
  unfold splderDerivTrace splderDeriv
  dsimp only
  apply forUp_fst_of _ _ (fun _ _ => rfl)
  dsimp only
  apply congrArg DerivSt.q
  apply forUp_fst_of
  · intro i u
    dsimp only
    have e1 : (if max 1 (u.1.jl + 1) ≤ min l (u.1.ii + 1) then
        ((forUp (max 1 (u.1.jl + 1)) (min l (u.1.ii + 1))
          (fun _ (u : (Vec × Int) × List Access) =>
            ((setV u.1.1 (-l + 2 * m + (u.1.2 - 1))
                ((u.1.1 (-l + 2 * m + (u.1.2 - 1)) - u.1.1 (-l + 2 * m + (u.1.2 - 1) - 1)) /
                  (x (u.1.2 - 1 + (2 * m - i)) - x (u.1.2 - 1))), u.1.2 - 1),
              Access.q (-l + 2 * m + (u.1.2 - 1)) ::
                Access.divisor (x (u.1.2 - 1 + (2 * m - i)) - x (u.1.2 - 1)) ::
                Access.x (u.1.2 - 1) :: Access.x (u.1.2 - 1 + (2 * m - i)) ::
                Access.q (-l + 2 * m + (u.1.2 - 1) - 1) ::
                Access.q (-l + 2 * m + (u.1.2 - 1)) :: u.2))
          ((u.1.q, min l (u.1.ii + 1) + 1), u.2)).1.1,
         (forUp (max 1 (u.1.jl + 1)) (min l (u.1.ii + 1))
          (fun _ (u : (Vec × Int) × List Access) =>
            ((setV u.1.1 (-l + 2 * m + (u.1.2 - 1))
                ((u.1.1 (-l + 2 * m + (u.1.2 - 1)) - u.1.1 (-l + 2 * m + (u.1.2 - 1) - 1)) /
                  (x (u.1.2 - 1 + (2 * m - i)) - x (u.1.2 - 1))), u.1.2 - 1),
              Access.q (-l + 2 * m + (u.1.2 - 1)) ::
                Access.divisor (x (u.1.2 - 1 + (2 * m - i)) - x (u.1.2 - 1)) ::
                Access.x (u.1.2 - 1) :: Access.x (u.1.2 - 1 + (2 * m - i)) ::
                Access.q (-l + 2 * m + (u.1.2 - 1) - 1) ::
                Access.q (-l + 2 * m + (u.1.2 - 1)) :: u.2))
          ((u.1.q, min l (u.1.ii + 1) + 1), u.2)).2)
        else (u.1.q, u.2)).1 =
        (if max 1 (u.1.jl + 1) ≤ min l (u.1.ii + 1) then
          (forUp (max 1 (u.1.jl + 1)) (min l (u.1.ii + 1))
            (fun _ (u : Vec × Int) =>
              (setV u.1 (-l + 2 * m + (u.2 - 1))
                ((u.1 (-l + 2 * m + (u.2 - 1)) - u.1 (-l + 2 * m + (u.2 - 1) - 1)) /
                  (x (u.2 - 1 + (2 * m - i)) - x (u.2 - 1))), u.2 - 1))
            (u.1.q, min l (u.1.ii + 1) + 1)).1
        else u.1.q) := by
      split
      · dsimp only
        apply congrArg Prod.fst
        exact forUp_fst_of _ _ (fun _ _ => rfl) _ _ _ _ rfl
      · rfl
    by_cases c2 : u.1.jl + 1 ≥ 1
    · simp only [if_pos c2]
      rw [e1]
    · simp only [if_neg c2]
      by_cases c3 : i + 1 ≤ -l + 2 * m
      · simp only [if_pos c3]
        congr 1
        apply congrArg Prod.fst
        apply forUp_fst_of _ _ (fun _ _ => rfl)
        dsimp only
        rw [e1]
      · simp only [if_neg c3]
        rw [e1]
  · rfl


/-- The instrumented `splderTrace` computes what `splder` computes. -/
theorem splderTrace_fst (fuel : Nat) (ider m n : Int) (t : ℚ) (x c : Vec) (l0 : Int)
    (q : Vec) :
    (splderTrace fuel ider m n t x c l0 q).map (fun r => r.1) =
      splder fuel ider m n t x c l0 q := by
  unfold splderTrace splder
  dsimp only
  split
  · rfl
  · rw [Option.map_map]
    congr 1
    funext sr
    have e1 : (if ider > 0 then
        splderDerivTrace ider m n sr.1 x
          (splderFillTrace m n sr.1 c (q, List.map Access.x sr.2))
        else splderFillTrace m n sr.1 c (q, List.map Access.x sr.2)).1 =
        (if ider > 0 then splderDeriv ider m n sr.1 x (splderFill m n sr.1 c q)
        else splderFill m n sr.1 c q) := by
      split
      · rw [splderDerivTrace_fst, splderFillTrace_fst]
      · rw [splderFillTrace_fst]
    have e2 : (if 2 * m - ider - 1 ≥ 1 then
        forUp 1 (2 * m - ider - 1) (splderLevelTrace (2 * m - ider) n sr.1 t x)
          (if ider > 0 then
            splderDerivTrace ider m n sr.1 x
              (splderFillTrace m n sr.1 c (q, List.map Access.x sr.2))
          else splderFillTrace m n sr.1 c (q, List.map Access.x sr.2))
        else (if ider > 0 then
            splderDerivTrace ider m n sr.1 x
              (splderFillTrace m n sr.1 c (q, List.map Access.x sr.2))
          else splderFillTrace m n sr.1 c (q, List.map Access.x sr.2))).1 =
        (if 2 * m - ider - 1 ≥ 1 then
          forUp 1 (2 * m - ider - 1) (splderLevel (2 * m - ider) n sr.1 t x)
            (if ider > 0 then splderDeriv ider m n sr.1 x (splderFill m n sr.1 c q)
            else splderFill m n sr.1 c q)
        else (if ider > 0 then splderDeriv ider m n sr.1 x (splderFill m n sr.1 c q)
            else splderFill m n sr.1 c q)) := by
      split
      · exact forUp_fst_of _ _
          (fun i p => splderLevelTrace_fst (2 * m - ider) n sr.1 t x i p) _ _ _ _ e1
      · exact e1
    simp only [Function.comp]
    rw [e2]


theorem ok_cons (m n : Int) (a : Access) (l : List Access) (h1 : Access.ok m n a)
    (h2 : ∀ b ∈ l, Access.ok m n b) : ∀ b ∈ a :: l, Access.ok m n b := by
  intro b hb
  rcases List.mem_cons.mp hb with h | h
  · rw [h]
    exact h1
  · exact h2 b h

theorem ok_q (m n i : Int) (h1 : 1 ≤ i) (h2 : i ≤ 2 * m) : Access.ok m n (Access.q i) :=
  ⟨h1, h2⟩

theorem ok_x (m n i : Int) (h1 : 1 ≤ i) (h2 : i ≤ n) : Access.ok m n (Access.x i) :=
  ⟨h1, h2⟩

theorem ok_c (m n i : Int) (h1 : 1 ≤ i) (h2 : i ≤ n) : Access.ok m n (Access.c i) :=
  ⟨h1, h2⟩

theorem ok_divisor (m n : Int) (d : ℚ) (h : d ≠ 0) : Access.ok m n (Access.divisor d) := h

theorem splderFillTrace_ok (m n l : Int) (c : Vec) (p : Vec × List Access)
    (hp : ∀ a ∈ p.2, Access.ok m n a) :
    ∀ a ∈ (splderFillTrace m n l c p).2, Access.ok m n a := by
  unfold splderFillTrace
  dsimp only
  by_cases c0 : l + 1 ≤ l + 2 * m + 1
  · exact (forUp_log (fun _ _ => True) (Access.ok m n) _ (l + 1) (l + 2 * m) p c0 trivial hp
      (fun j u h1 h2 _ hu => by
        dsimp only
        by_cases hc : j ≥ m + 1 ∧ j ≤ n + m
        · rw [if_pos hc]
          exact ⟨trivial, ok_cons m n _ _ (ok_q m n _ (by omega) (by omega))
            (ok_cons m n _ _ (ok_c m n _ (by omega) (by omega)) hu)⟩
        · rw [if_neg hc]
          exact ⟨trivial, ok_cons m n _ _ (ok_q m n _ (by omega) (by omega)) hu⟩)).2
  · rw [forUp_of_lt (by omega)]
    exact hp

theorem forUp_log_elim {σ : Type} (P : Int → σ → Prop) (Ok : Access → Prop)
    (g : Int → σ × List Access → σ × List Access) (lo hi : Int) (p : σ × List Access)
    (Q : σ × List Access → Prop) (hlohi : lo ≤ hi + 1) (h0 : P lo p.1)
    (hlog : ∀ a ∈ p.2, Ok a)
    (hstep : ∀ i u, lo ≤ i → i ≤ hi → P i u.1 → (∀ a ∈ u.2, Ok a) →
      P (i + 1) (g i u).1 ∧ ∀ a ∈ (g i u).2, Ok a)
    (hQ : ∀ r, P (hi + 1) r.1 → (∀ a ∈ r.2, Ok a) → Q r) : Q (forUp lo hi g p) :=
  hQ _ (forUp_log P Ok g lo hi p hlohi h0 hlog hstep).1
    (forUp_log P Ok g lo hi p hlohi h0 hlog hstep).2

theorem levelA_ok (m n k l i : Int) (t : ℚ) (x : Vec) (X Y : EvalSt × List Access)
    (hir : X.1.ir = k) (hjj : X.1.jj = l) (hlog : ∀ a ∈ X.2, Access.ok m n a)
    (hi1 : 1 ≤ i) (hk2 : k ≤ 2 * m) (hkn : k ≤ n) (hln : l ≤ n)
    (hY : Y = if l ≥ n - k + i + 1 then
      forUp (n - k + i + 1) l (fun _ (s : EvalSt × List Access) =>
        ((⟨setV s.1.q s.1.ir (s.1.q (s.1.ir - 1) + (t - x s.1.jj) * s.1.q s.1.ir),
            s.1.ir - 1, s.1.jj - 1⟩ : EvalSt),
          Access.q s.1.ir :: Access.q s.1.ir :: Access.x s.1.jj :: Access.q (s.1.ir - 1) ::
            s.2)) X
      else X) :
    Y.1.jj = min l (n - k + i) ∧ Y.1.ir = k - (l - min l (n - k + i)) ∧
      ∀ a ∈ Y.2, Access.ok m n a := by
  rw [hY]
  by_cases c : l ≥ n - k + i + 1
  · rw [if_pos c]
    refine forUp_log_elim
      (fun j (s : EvalSt) => s.ir = k - (j - (n - k + i + 1)) ∧ s.jj = l - (j - (n - k + i + 1)))
      (Access.ok m n) _ (n - k + i + 1) l X
      (fun r => r.1.jj = min l (n - k + i) ∧ r.1.ir = k - (l - min l (n - k + i)) ∧
        ∀ a ∈ r.2, Access.ok m n a) (by omega)
      ⟨by rw [hir]; ring, by rw [hjj]; ring⟩ hlog
      (fun j u h1 h2 hP hu => by
        obtain ⟨p1, p2⟩ := hP
        dsimp only at p1 p2 ⊢
        refine ⟨⟨by rw [p1]; ring, by rw [p2]; ring⟩, ?_⟩
        exact ok_cons m n _ _ (ok_q m n _ (by omega) (by omega))
          (ok_cons m n _ _ (ok_q m n _ (by omega) (by omega))
            (ok_cons m n _ _ (ok_x m n _ (by omega) (by omega))
              (ok_cons m n _ _ (ok_q m n _ (by omega) (by omega)) hu))))
      (fun r hP p3 => by
        obtain ⟨p1, p2⟩ := hP
        exact ⟨by rw [p2]; omega, by rw [p1]; omega, p3⟩)
  · rw [if_neg c]
    exact ⟨by rw [hjj]; omega, by rw [hir]; omega, hlog⟩

theorem levelB_ok (m n k l i : Int) (t : ℚ) (x : Vec) (X Y : EvalSt × List Access)
    (hx : Increasing n x)
    (hjj : X.1.jj = min l (n - k + i)) (hir : X.1.ir = k - (l - min l (n - k + i)))
    (hlog : ∀ a ∈ X.2, Access.ok m n a)
    (hi1 : 1 ≤ i) (hi2 : i ≤ k - 1) (hk2 : k ≤ 2 * m) (hkn : k ≤ n) (hl0 : 0 ≤ l) (hln : l ≤ n)
    (hY : Y = if max 1 (l - k + 1 + i) ≤ min l (n - k + i) then
      forUp (max 1 (l - k + 1 + i)) (min l (n - k + i))
        (fun _ (s : EvalSt × List Access) =>
          ((⟨setV s.1.q s.1.ir (s.1.q s.1.ir + (x (s.1.jj + (k - i)) - t) *
              (s.1.q (s.1.ir - 1) - s.1.q s.1.ir) / (x (s.1.jj + (k - i)) - x s.1.jj)),
              s.1.ir - 1, s.1.jj - 1⟩ : EvalSt),
            Access.q s.1.ir :: Access.divisor (x (s.1.jj + (k - i)) - x s.1.jj) ::
              Access.x s.1.jj :: Access.q (s.1.ir - 1) :: Access.q s.1.ir ::
              Access.x (s.1.jj + (k - i)) :: s.2)) X
      else X) :
    (l - k + 1 + i ≤ 0 → Y.1.ir = k - l) ∧ ∀ a ∈ Y.2, Access.ok m n a := by
  rw [hY]
  by_cases c : max 1 (l - k + 1 + i) ≤ min l (n - k + i)
  · rw [if_pos c]
    refine forUp_log_elim
      (fun j (s : EvalSt) =>
        s.jj = min l (n - k + i) - (j - max 1 (l - k + 1 + i)) ∧
        s.ir = k - (l - min l (n - k + i)) - (j - max 1 (l - k + 1 + i)))
      (Access.ok m n) _ (max 1 (l - k + 1 + i)) (min l (n - k + i)) X
      (fun r => (l - k + 1 + i ≤ 0 → r.1.ir = k - l) ∧ ∀ a ∈ r.2, Access.ok m n a)
      (by omega)
      ⟨by rw [hjj]; ring, by rw [hir]; ring⟩ hlog
      (fun j u h1 h2 hP hu => by
        obtain ⟨p1, p2⟩ := hP
        dsimp only at p1 p2 ⊢
        refine ⟨⟨by rw [p1]; ring, by rw [p2]; ring⟩, ?_⟩
        have b1 : 1 ≤ u.1.jj := by omega
        have b2 : u.1.jj + (k - i) ≤ n := by omega
        exact ok_cons m n _ _ (ok_q m n _ (by omega) (by omega))
          (ok_cons m n _ _
            (ok_divisor m n _
              (increasing_gap n x hx u.1.jj (u.1.jj + (k - i)) b1 (by omega) b2))
            (ok_cons m n _ _ (ok_x m n _ (by omega) (by omega))
              (ok_cons m n _ _ (ok_q m n _ (by omega) (by omega))
                (ok_cons m n _ _ (ok_q m n _ (by omega) (by omega))
                  (ok_cons m n _ _ (ok_x m n _ (by omega) (by omega)) hu))))))
      (fun r hP p3 => by
        obtain ⟨p1, p2⟩ := hP
        exact ⟨fun hc => by rw [p2]; omega, p3⟩)
  · rw [if_neg c]
    exact ⟨fun hc => by rw [hir]; omega, hlog⟩

theorem levelC_ok (m n k l i : Int) (t : ℚ) (x : Vec) (X Y : EvalSt × List Access)
    (hir : l - k + 1 + i ≤ 0 → X.1.ir = k - l) (hlog : ∀ a ∈ X.2, Access.ok m n a)
    (hi1 : 1 ≤ i) (hi2 : i ≤ k - 1) (hk2 : k ≤ 2 * m) (hkn : k ≤ n) (hl0 : 0 ≤ l)
    (hY : Y = if l - k + 1 + i ≤ 0 then
      forUp 1 (1 - (l - k + 1 + i)) (fun _ (s : EvalSt × List Access) =>
        ((⟨setV s.1.q s.1.ir (s.1.q s.1.ir + (x s.1.jj - t) * s.1.q (s.1.ir - 1)),
            s.1.ir - 1, s.1.jj - 1⟩ : EvalSt),
          Access.q s.1.ir :: Access.q (s.1.ir - 1) :: Access.x s.1.jj :: Access.q s.1.ir ::
            s.2))
        ((⟨X.1.q, X.1.ir, k - i⟩ : EvalSt), X.2)
      else X) :
    ∀ a ∈ Y.2, Access.ok m n a := by
  rw [hY]
  by_cases c : l - k + 1 + i ≤ 0
  · rw [if_pos c]
    refine forUp_log_elim
      (fun j (s : EvalSt) => s.jj = k - i - (j - 1) ∧ s.ir = k - l - (j - 1))
      (Access.ok m n) _ 1 (1 - (l - k + 1 + i)) ((⟨X.1.q, X.1.ir, k - i⟩ : EvalSt), X.2)
      (fun r => ∀ a ∈ r.2, Access.ok m n a)
      (by omega) ⟨by dsimp only; ring, by dsimp only; rw [hir c]; ring⟩ hlog
      (fun j u h1 h2 hP hu => by
        obtain ⟨p1, p2⟩ := hP
        dsimp only at p1 p2 ⊢
        refine ⟨⟨by rw [p1]; ring, by rw [p2]; ring⟩, ?_⟩
        exact ok_cons m n _ _ (ok_q m n _ (by omega) (by omega))
          (ok_cons m n _ _ (ok_q m n _ (by omega) (by omega))
            (ok_cons m n _ _ (ok_x m n _ (by omega) (by omega))
              (ok_cons m n _ _ (ok_q m n _ (by omega) (by omega)) hu))))
      (fun r _ p3 => p3)
  · rw [if_neg c]
    exact hlog

theorem splderLevelTrace_ok (m n k l : Int) (t : ℚ) (x : Vec) (i : Int)
    (p : Vec × List Access) (hx : Increasing n x) (hp : ∀ a ∈ p.2, Access.ok m n a)
    (hi1 : 1 ≤ i) (hi2 : i ≤ k - 1) (hk2 : k ≤ 2 * m) (hkn : k ≤ n) (hl0 : 0 ≤ l)
    (hln : l ≤ n) : ∀ a ∈ (splderLevelTrace k n l t x i p).2, Access.ok m n a := by
  unfold splderLevelTrace
  dsimp only
  obtain ⟨a1, a2, a3⟩ := levelA_ok m n k l i t x ((⟨p.1, k, l⟩ : EvalSt), p.2) _ rfl rfl hp
    hi1 hk2 hkn hln rfl
  obtain ⟨b1, b2⟩ := levelB_ok m n k l i t x _ _ hx a1 a2 a3 hi1 hi2 hk2 hkn hl0 hln rfl
  exact levelC_ok m n k l i t x _ _ b1 b2 hi1 hi2 hk2 hkn hl0 rfl


theorem derivA_ok (m n l i : Int) (x : Vec) (JL II : Int) (Q : Vec) (L : List Access)
    (Y : Vec × List Access) (hx : Increasing n x) (hJL : JL = l + 1 - 2 * m + i)
    (hII : II = n - 2 * m + i) (hi1 : 1 ≤ i) (hi2 : i < 2 * m) (hln : l ≤ n)
    (hL : ∀ a ∈ L, Access.ok m n a)
    (hY : Y = if max 1 JL ≤ min l II then
      ((forUp (max 1 JL) (min l II) (fun _ (u : (Vec × Int) × List Access) =>
          ((setV u.1.1 (-l + 2 * m + (u.1.2 - 1))
              ((u.1.1 (-l + 2 * m + (u.1.2 - 1)) - u.1.1 (-l + 2 * m + (u.1.2 - 1) - 1)) /
                (x (u.1.2 - 1 + (2 * m - i)) - x (u.1.2 - 1))), u.1.2 - 1),
            Access.q (-l + 2 * m + (u.1.2 - 1)) ::
              Access.divisor (x (u.1.2 - 1 + (2 * m - i)) - x (u.1.2 - 1)) ::
              Access.x (u.1.2 - 1) :: Access.x (u.1.2 - 1 + (2 * m - i)) ::
              Access.q (-l + 2 * m + (u.1.2 - 1) - 1) ::
              Access.q (-l + 2 * m + (u.1.2 - 1)) :: u.2))
          ((Q, min l II + 1), L)).1.1,
        (forUp (max 1 JL) (min l II) (fun _ (u : (Vec × Int) × List Access) =>
          ((setV u.1.1 (-l + 2 * m + (u.1.2 - 1))
              ((u.1.1 (-l + 2 * m + (u.1.2 - 1)) - u.1.1 (-l + 2 * m + (u.1.2 - 1) - 1)) /
                (x (u.1.2 - 1 + (2 * m - i)) - x (u.1.2 - 1))), u.1.2 - 1),
            Access.q (-l + 2 * m + (u.1.2 - 1)) ::
              Access.divisor (x (u.1.2 - 1 + (2 * m - i)) - x (u.1.2 - 1)) ::
              Access.x (u.1.2 - 1) :: Access.x (u.1.2 - 1 + (2 * m - i)) ::
              Access.q (-l + 2 * m + (u.1.2 - 1) - 1) ::
              Access.q (-l + 2 * m + (u.1.2 - 1)) :: u.2))
          ((Q, min l II + 1), L)).2)
      else (Q, L)) :
    ∀ a ∈ Y.2, Access.ok m n a := by
  rw [hY]
  by_cases c : max 1 JL ≤ min l II
  · rw [if_pos c]
    dsimp only
    refine forUp_log_elim
      (fun j (u : Vec × Int) => u.2 = min l II + 1 - (j - max 1 JL))
      (Access.ok m n) _ (max 1 JL) (min l II) ((Q, min l II + 1), L)
      (fun r => ∀ a ∈ r.2, Access.ok m n a) (by omega) (by dsimp only; ring) hL
      (fun j u h1 h2 hP hu => by
        dsimp only at hP ⊢
        refine ⟨by rw [hP]; ring, ?_⟩
        have b1 : 1 ≤ u.1.2 - 1 := by omega
        have b2 : u.1.2 - 1 + (2 * m - i) ≤ n := by omega
        exact ok_cons m n _ _ (ok_q m n _ (by omega) (by omega))
          (ok_cons m n _ _
            (ok_divisor m n _
              (increasing_gap n x hx (u.1.2 - 1) (u.1.2 - 1 + (2 * m - i)) b1 (by omega) b2))
            (ok_cons m n _ _ (ok_x m n _ (by omega) (by omega))
              (ok_cons m n _ _ (ok_x m n _ (by omega) (by omega))
                (ok_cons m n _ _ (ok_q m n _ (by omega) (by omega))
                  (ok_cons m n _ _ (ok_q m n _ (by omega) (by omega)) hu))))))
      (fun r _ p3 => p3)
  · rw [if_neg c]
    exact hL

theorem derivB_ok (m n l i : Int) (JL : Int) (R Y : Vec × List Access) (hi1 : 1 ≤ i)
    (hl0 : 0 ≤ l) (hR : ∀ a ∈ R.2, Access.ok m n a)
    (hY : Y = if JL ≥ 1 then R
      else if i + 1 ≤ -l + 2 * m then
        ((forUp (i + 1) (-l + 2 * m) (fun _ (u : (Vec × Int) × List Access) =>
            ((setV u.1.1 (u.1.2 - 1) (-u.1.1 (u.1.2 - 1 - 1)), u.1.2 - 1),
              Access.q (u.1.2 - 1) :: Access.q (u.1.2 - 1 - 1) :: u.2))
            ((R.1, -l + 2 * m + 1), R.2)).1.1,
          (forUp (i + 1) (-l + 2 * m) (fun _ (u : (Vec × Int) × List Access) =>
            ((setV u.1.1 (u.1.2 - 1) (-u.1.1 (u.1.2 - 1 - 1)), u.1.2 - 1),
              Access.q (u.1.2 - 1) :: Access.q (u.1.2 - 1 - 1) :: u.2))
            ((R.1, -l + 2 * m + 1), R.2)).2)
      else R) :
    ∀ a ∈ Y.2, Access.ok m n a := by
  rw [hY]
  by_cases c1 : JL ≥ 1
  · rw [if_pos c1]
    exact hR
  · rw [if_neg c1]
    by_cases c2 : i + 1 ≤ -l + 2 * m
    · rw [if_pos c2]
      dsimp only
      refine forUp_log_elim
        (fun j (u : Vec × Int) => u.2 = -l + 2 * m + 1 - (j - (i + 1)))
        (Access.ok m n) _ (i + 1) (-l + 2 * m) ((R.1, -l + 2 * m + 1), R.2)
        (fun r => ∀ a ∈ r.2, Access.ok m n a) (by omega) (by dsimp only; ring) hR
        (fun j u h1 h2 hP hu => by
          dsimp only at hP ⊢
          refine ⟨by rw [hP]; ring, ?_⟩
          exact ok_cons m n _ _ (ok_q m n _ (by omega) (by omega))
            (ok_cons m n _ _ (ok_q m n _ (by omega) (by omega)) hu))
        (fun r _ p3 => p3)
    · rw [if_neg c2]
      exact hR

theorem splderDerivTrace_ok (ider m n l : Int) (x : Vec) (p : Vec × List Access)
    (hx : Increasing n x) (hp : ∀ a ∈ p.2, Access.ok m n a) (h0 : 0 ≤ ider)
    (h1 : ider < 2 * m) (hl0 : 0 ≤ l) (hln : l ≤ n) :
    ∀ a ∈ (splderDerivTrace ider m n l x p).2, Access.ok m n a := by
  unfold splderDerivTrace
  dsimp only
  refine forUp_log_elim (fun _ (_ : Vec) => True) (Access.ok m n) _ 1 (2 * m - ider) _
    (fun r => ∀ a ∈ r.2, Access.ok m n a) (by omega) trivial ?_
    (fun j u h1 h2 _ hu => by
      dsimp only
      exact ⟨trivial, ok_cons m n _ _ (ok_q m n _ (by omega) (by omega))
        (ok_cons m n _ _ (ok_q m n _ (by omega) (by omega)) hu)⟩)
    (fun r _ p3 => p3)
  dsimp only
  refine forUp_log_elim
    (fun i (s : DerivSt) => s.jl = l + 1 - 2 * m + (i - 1) ∧ s.ii = n - 2 * m + (i - 1))
    (Access.ok m n) _ 1 ider _ (fun r => ∀ a ∈ r.2, Access.ok m n a) (by omega)
    ⟨by dsimp only; ring, by dsimp only; ring⟩ hp
    (fun i u hi1 hi2 hP hu => by
      obtain ⟨p1, p2⟩ := hP
      dsimp only
      refine ⟨⟨by rw [p1]; ring, by rw [p2]; ring⟩, ?_⟩
      exact derivB_ok m n l i (u.1.jl + 1) _ _ hi1 hl0
        (derivA_ok m n l i x (u.1.jl + 1) (u.1.ii + 1) u.1.q u.2 _ hx (by rw [p1]; ring)
          (by rw [p2]; ring) hi1 (by omega) hln hu rfl) rfl)
    (fun r _ p3 => p3)


theorem splderTrace_ok (ider m n : Int) (t : ℚ) (x c : Vec) (q : Vec) (l : Int)
    (rd : List Int) (hx : Increasing n x) (hn : 2 * m ≤ n) (h0 : 0 ≤ ider)
    (h1 : ider < 2 * m) (hl0 : 0 ≤ l) (hln : l ≤ n) (hrd : ∀ i ∈ rd, 1 ≤ i ∧ i ≤ n) :
    ∀ a ∈ (if 2 * m - ider - 1 ≥ 1 then
        forUp 1 (2 * m - ider - 1) (splderLevelTrace (2 * m - ider) n l t x)
          (if ider > 0 then
            splderDerivTrace ider m n l x (splderFillTrace m n l c (q, rd.map Access.x))
          else splderFillTrace m n l c (q, rd.map Access.x))
        else (if ider > 0 then
            splderDerivTrace ider m n l x (splderFillTrace m n l c (q, rd.map Access.x))
          else splderFillTrace m n l c (q, rd.map Access.x))).2, Access.ok m n a := by
  have hs : ∀ a ∈ ((q, rd.map Access.x) : Vec × List Access).2, Access.ok m n a := by
    intro a ha
    obtain ⟨i, hi, rfl⟩ := List.mem_map.mp ha
    exact ok_x m n i (hrd i hi).1 (hrd i hi).2
  have hf := splderFillTrace_ok m n l c (q, rd.map Access.x) hs
  have hd : ∀ a ∈ (if ider > 0 then
      splderDerivTrace ider m n l x (splderFillTrace m n l c (q, rd.map Access.x))
      else splderFillTrace m n l c (q, rd.map Access.x)).2, Access.ok m n a := by
    split
    · exact splderDerivTrace_ok ider m n l x _ hx hf h0 h1 hl0 hln
    · exact hf
  split
  · exact forUp_log_elim (fun _ (_ : Vec) => True) (Access.ok m n) _ 1 (2 * m - ider - 1) _
      (fun r => ∀ a ∈ r.2, Access.ok m n a) (by omega) trivial hd
      (fun i u hi1 hi2 _ hu =>
        ⟨trivial, splderLevelTrace_ok m n (2 * m - ider) l t x i u hx hu hi1 hi2 (by omega)
          (by omega) hl0 hln⟩)
      (fun r _ p3 => p3)
  · exact hd

/-- C29: for `n ≥ 2m`, strictly increasing knots `x[1..n]` and
`0 ≤ ider < 2m`, `splder` returns (the fuel of `search` being at least `n`),
and every array access it or `search` makes is in range — `x` and `c` at
subscripts in `1..n`, `q` at subscripts in `1..2m` — and every divisor is
nonzero, for every query point `t`, every initial cursor `l0` and all
contents of `c` and `q`. -/
theorem splder_accesses_in_range (fuel : Nat) (ider m n : Int) (t : ℚ) (x c : Vec)
    (l0 : Int) (q : Vec) (hn : 2 * m ≤ n) (hx : Increasing n x) (h0 : 0 ≤ ider)
    (h1 : ider < 2 * m) (hf : n ≤ (fuel : Int)) :
    ∃ (o : SplderOut) (log : List Access),
      splderTrace fuel ider m n t x c l0 q = some (o, log) ∧
      splder fuel ider m n t x c l0 q = some o ∧
      ∀ a ∈ log, Access.ok m n a := by
  obtain ⟨l, rd, hs, hrd, hloc⟩ := search_located fuel n x t l0 (by omega) hx hf
  obtain ⟨hl0, hln⟩ := located_range n x t l (by omega) hloc
  have hk : ¬ (2 * m - ider < 1) := by omega
  have ht : splderTrace fuel ider m n t x c l0 q =
      some (⟨if ider > 0 then
          forUp (2 * m - ider) (2 * m - 1) (fun j z => z * (j : ℚ))
            ((if 2 * m - ider - 1 ≥ 1 then
              forUp 1 (2 * m - ider - 1) (splderLevelTrace (2 * m - ider) n l t x)
                (if ider > 0 then
                  splderDerivTrace ider m n l x
                    (splderFillTrace m n l c (q, rd.map Access.x))
                else splderFillTrace m n l c (q, rd.map Access.x))
              else (if ider > 0 then
                  splderDerivTrace ider m n l x
                    (splderFillTrace m n l c (q, rd.map Access.x))
                else splderFillTrace m n l c (q, rd.map Access.x))).1 (2 * m - ider))
        else (if 2 * m - ider - 1 ≥ 1 then
              forUp 1 (2 * m - ider - 1) (splderLevelTrace (2 * m - ider) n l t x)
                (if ider > 0 then
                  splderDerivTrace ider m n l x
                    (splderFillTrace m n l c (q, rd.map Access.x))
                else splderFillTrace m n l c (q, rd.map Access.x))
              else (if ider > 0 then
                  splderDerivTrace ider m n l x
                    (splderFillTrace m n l c (q, rd.map Access.x))
                else splderFillTrace m n l c (q, rd.map Access.x))).1 (2 * m - ider), l,
          (if 2 * m - ider - 1 ≥ 1 then
              forUp 1 (2 * m - ider - 1) (splderLevelTrace (2 * m - ider) n l t x)
                (if ider > 0 then
                  splderDerivTrace ider m n l x
                    (splderFillTrace m n l c (q, rd.map Access.x))
                else splderFillTrace m n l c (q, rd.map Access.x))
              else (if ider > 0 then
                  splderDerivTrace ider m n l x
                    (splderFillTrace m n l c (q, rd.map Access.x))
                else splderFillTrace m n l c (q, rd.map Access.x))).1⟩,
        Access.q (2 * m - ider) ::
          (if 2 * m - ider - 1 ≥ 1 then
              forUp 1 (2 * m - ider - 1) (splderLevelTrace (2 * m - ider) n l t x)
                (if ider > 0 then
                  splderDerivTrace ider m n l x
                    (splderFillTrace m n l c (q, rd.map Access.x))
                else splderFillTrace m n l c (q, rd.map Access.x))
              else (if ider > 0 then
                  splderDerivTrace ider m n l x
                    (splderFillTrace m n l c (q, rd.map Access.x))
                else splderFillTrace m n l c (q, rd.map Access.x))).2) := by
    simp only [splderTrace, if_neg hk, hs, Option.map_some']
  refine ⟨_, _, ht, ?_, ?_⟩
  · rw [← splderTrace_fst, ht]
    rfl
  · exact ok_cons m n _ _ (ok_q m n _ (by omega) (by omega))
      (splderTrace_ok ider m n t x c q l rd hx hn h0 h1 hl0 hln hrd)

theorem splder_accesses_in_range_witness :
    2 * (1 : Int) ≤ 2 ∧ Increasing 2 (vecOf [0, 1]) ∧ (0 : Int) ≤ 1 ∧ (1 : Int) < 2 * 1 ∧
      (2 : Int) ≤ ((2 : Nat) : Int) ∧
      ∃ (o : SplderOut) (log : List Access),
        splderTrace 2 1 1 2 (1 / 2) (vecOf [0, 1]) (vecOf [3, 5]) 0 (fun _ => 0) =
          some (o, log) ∧
        splder 2 1 1 2 (1 / 2) (vecOf [0, 1]) (vecOf [3, 5]) 0 (fun _ => 0) = some o ∧
        ∀ a ∈ log, Access.ok 1 2 a :=
  ⟨by decide, increasing_two 0 1 (by decide!), by decide, by decide, by decide,
    splder_accesses_in_range 2 1 1 2 (1 / 2) (vecOf [0, 1]) (vecOf [3, 5]) 0 (fun _ => 0)
      (by decide) (increasing_two 0 1 (by decide!)) (by decide) (by decide) (by decide)⟩

/-- C33: the validation of `gcvspl` does not reject a channel count `k ≤ 0`.
On the two-knot input with `md = 1` and `k = 0` the validation block ends with
`ier = 0` without returning, the divisor `n * k` of `splc` is zero, and the
call returns `ier = 0`; the same input with `k = -1` is accepted as well. -/
theorem gcvspl_accepts_zero_channels :
    (gcvsplCheck (withChannels 0) Statics.init).ier = 0 ∧
    (gcvsplCheck (withChannels 0) Statics.init).returned = false ∧
    (((withChannels 0).n * (withChannels 0).k : Int) : ℚ) = 0 ∧
    (gcvspl 0 (withChannels 0) zero2 wkZero Statics.init).map (fun o => o.ier) = some 0 ∧
    (gcvsplCheck (withChannels (-1)) Statics.init).ier = 0 ∧
    (gcvsplCheck (withChannels (-1)) Statics.init).returned = false := by
  refine ⟨by decide!, by decide!, by decide!, ?_, by decide!, by decide!⟩
  decide!

/-- C35: for order `m = 1` and `ider = 0`, with `n ≥ 2` strictly increasing
knots and fuel at least `n` for `search`, `splder` returns the piecewise-linear
interpolant of the coefficients: `c[1]` for `t < x[1]`, `c[n]` for
`t ≥ x[n]`, and `c[l+1] + (x[l+1] - t) * (c[l] - c[l+1]) / (x[l+1] - x[l])`
for `x[l] ≤ t < x[l+1]` with `1 ≤ l ≤ n - 1`, for every initial cursor and
scratch array. -/
theorem splder_piecewise_linear (fuel : Nat) (n : Int) (t : ℚ) (x c : Vec) (l0 : Int) (q : Vec)
    (hn : 2 ≤ n) (hx : Increasing n x) (hf : n ≤ (fuel : Int)) :
    (t < x 1 → (splder fuel 0 1 n t x c l0 q).map (fun o => o.val) = some (c 1)) ∧
    (x n ≤ t → (splder fuel 0 1 n t x c l0 q).map (fun o => o.val) = some (c n)) ∧
    (∀ l, 1 ≤ l → l ≤ n - 1 → x l ≤ t → t < x (l + 1) →
      (splder fuel 0 1 n t x c l0 q).map (fun o => o.val) =
        some (c (l + 1) + (x (l + 1) - t) * (c l - c (l + 1)) / (x (l + 1) - x l))) := by
  obtain ⟨l', rd, hs, _, hloc⟩ := search_located fuel n x t l0 hn hx hf
  rw [splder_one fuel n t x c l0 q l' rd hs]
  refine ⟨fun h => ?_, fun h => ?_, fun l h1 h2 h3 h4 => ?_⟩
  · have hl : l' = 0 := hloc.1 h
    subst hl
    have n1 : ¬ ((1 : Int) ≤ 0 ∧ (0 : Int) ≤ n) := by omega
    have n2 : (0 : Int) ≤ 0 ∧ (0 : Int) + 1 ≤ n := by omega
    rw [splderLevel_one_left n t x _ (by omega), splderFill_one, setV_same,
      setV_other _ _ (by decide), setV_same, if_neg n1, if_pos n2]
    simp
  · have hl : l' = n := hloc.2.1 h
    subst hl
    have n1 : (1 : Int) ≤ l' ∧ l' ≤ l' := by omega
    have n2 : ¬ ((0 : Int) ≤ l' ∧ l' + 1 ≤ l') := by omega
    rw [splderLevel_one_right l' t x _ (by omega), splderFill_one, setV_same,
      setV_other _ _ (by decide), setV_same, if_pos n1, if_neg n2]
    simp
  · have ha : x 1 ≤ t := le_trans (increasing_le n x hx 1 l le_rfl h1 (by omega)) h3
    have hb : t < x n := lt_of_lt_of_le h4 (increasing_le n x hx (l + 1) n (by omega)
      (by omega) le_rfl)
    obtain ⟨b1, b2, b3, b4⟩ := hloc.2.2 ha hb
    have hl : l' = l := located_unique n x t hx l l' h1 h2 h3 h4 b1 b2 b3 b4
    subst hl
    have n1 : (1 : Int) ≤ l' ∧ l' ≤ n := by omega
    have n2 : (0 : Int) ≤ l' ∧ l' + 1 ≤ n := by omega
    rw [splderLevel_one_inner n l' t x _ (by omega) (by omega), splderFill_one, setV_same,
      setV_other _ _ (by decide), setV_same, if_pos n1, if_pos n2]

theorem splder_piecewise_linear_witness :
    (2 : Int) ≤ 2 ∧ ((2 : Int) ≤ ((2 : Nat) : Int)) ∧
    (((1 / 4 : ℚ) < vecOf [0, 1] 1 →
        (splder 2 0 1 2 (1 / 4) (vecOf [0, 1]) (vecOf [3, 5]) 0 (fun _ => 0)).map
          (fun o => o.val) = some (vecOf [3, 5] 1)) ∧
      (vecOf [0, 1] 2 ≤ (1 / 4 : ℚ) →
        (splder 2 0 1 2 (1 / 4) (vecOf [0, 1]) (vecOf [3, 5]) 0 (fun _ => 0)).map
          (fun o => o.val) = some (vecOf [3, 5] 2)) ∧
      (∀ l : Int, 1 ≤ l → l ≤ 2 - 1 → vecOf [0, 1] l ≤ (1 / 4 : ℚ) →
        (1 / 4 : ℚ) < vecOf [0, 1] (l + 1) →
        (splder 2 0 1 2 (1 / 4) (vecOf [0, 1]) (vecOf [3, 5]) 0 (fun _ => 0)).map
          (fun o => o.val) =
          some (vecOf [3, 5] (l + 1) + (vecOf [0, 1] (l + 1) - 1 / 4) *
            (vecOf [3, 5] l - vecOf [3, 5] (l + 1)) / (vecOf [0, 1] (l + 1) - vecOf [0, 1] l)))) :=
  ⟨by decide, by decide,
    splder_piecewise_linear 2 2 (1 / 4) (vecOf [0, 1]) (vecOf [3, 5]) 0 (fun _ => 0)
      (by decide) (increasing_two 0 1 (by decide!)) (by decide)⟩

/-! ## The design matrix for `m = 2` -/

theorem basis_eq_rows (m n : Int) (x : Vec) (b : Arr2) (q : Vec) (hm : m ≠ 1) :
    (basis m n x b q).b = basisCorners m n (basisRows m n x b q).1 ∧
    (basis m n x b q).q = (basisRows m n x b q).2 := by
  simp only [basis, if_neg hm]
  exact ⟨rfl, rfl⟩

/-- Row `l` of the array left by the loop over the rows of `basis` holds the
scratch entries computed in pass `l`, from some incoming scratch vector. -/
theorem basisRows_cell (m n : Int) (x : Vec) (b : Arr2) (q : Vec) (l : Int) (h1 : 1 ≤ l)
    (h2 : l ≤ n) :
    ∃ q', ∀ j, -(m - 1) ≤ j → j ≤ m - 1 →
      (basisRows m n x b q).1 j l = basisRow m n x l q' j := by
  have h := forUp_inv
    (fun i (s : Arr2 × Vec) => l < i → ∃ q', ∀ j, -(m - 1) ≤ j → j ≤ m - 1 →
      s.1 j l = basisRow m n x l q' j)
    (fun l s =>
      (forUp (-(m - 1)) (m - 1) (fun j b => set2 b j l (basisRow m n x l s.2 j)) s.1,
        basisRow m n x l s.2)) 1 n (b, q) (by omega) (fun hl => absurd hl (by omega))
    (fun i a i1 i2 ih hl => by
      dsimp only
      by_cases c : l = i
      · subst c
        refine ⟨a.2, fun j j1 j2 => ?_⟩
        rw [fill_row]
        dsimp only
        rw [if_pos ⟨rfl, j1, j2⟩]
      · obtain ⟨q', hq'⟩ := ih (by omega)
        refine ⟨q', fun j j1 j2 => ?_⟩
        rw [fill_frame _ _ _ _ _ _ _ (Or.inr (Or.inr c))]
        exact hq' j j1 j2)
  exact h (by omega)

/-- The corner loop of `basis` leaves the rows `m..n+1-m` as they are. -/
theorem basisCorners_inner (m n : Int) (B : Arr2) (j l : Int) (h1 : m ≤ l) (h2 : l ≤ n + 1 - m) :
    basisCorners m n B j l = B j l := by
  unfold basisCorners
  by_cases c : (1 : Int) ≤ m - 1 + 1
  · exact forUp_inv (fun _ (a : Arr2) => a j l = B j l) _ 1 (m - 1) B c rfl
      (fun i a i1 i2 ha => by
        dsimp only
        by_cases c2 : i ≤ m - 1 + 1
        · exact forUp_inv (fun _ (a' : Arr2) => a' j l = B j l) _ i (m - 1) a c2 ha
            (fun k a' k1 k2 ha' => by
              dsimp only
              rw [set2_other _ _ _ _ (by omega), set2_other _ _ _ _ (by omega)]
              exact ha')
        · rw [forUp_of_lt (by omega)]
          exact ha)
  · rw [forUp_of_lt (by omega)]

theorem forUp_triple {σ : Type} (lo hi : Int) (h : hi = lo + 2) (f : Int → σ → σ) (s : σ) :
    forUp lo hi f s = f (lo + 2) (f (lo + 1) (f lo s)) := by
  subst h
  rw [forUp_first (by omega), forUp_first (by omega)]
  have e : lo + 2 = lo + 1 + 1 := by ring
  rw [e, forUp_single]

theorem forUp_quad {σ : Type} (lo hi : Int) (h : hi = lo + 3) (f : Int → σ → σ) (s : σ) :
    forUp lo hi f s = f (lo + 3) (f (lo + 2) (f (lo + 1) (f lo s))) := by
  subst h
  rw [forUp_first (by omega), forUp_triple (lo + 1) (lo + 3) (by ring)]
  have e2 : lo + 1 + 1 = lo + 2 := by ring
  have e3 : lo + 1 + 2 = lo + 3 := by ring
  rw [e2, e3]

/-- The level `i = 3` of the recurrence of `basis` for `m = 2` in an interior
row. -/
theorem basisLevel_two_three (n : Int) (x : Vec) (l : Int) (q : Vec) (hl1 : 3 ≤ l)
    (hl2 : l ≤ n - 3) :
    basisLevel 2 n x l 3 q =
      setV (setV q 0 (q 0 + (q 1 - q 0) * (x (l + 1) - x l) / (x (l + 1) - x (l - 2)))) 1
        (q 1 + (q 2 - q 1) * (x (l + 2) - x l) / (x (l + 2) - x (l - 1))) := by
  have c1 : ¬ (l < 3) := by omega
  have e1 : max (l - 3 + 1) 1 = l - 2 := by omega
  have e2 : min (l - 1) (n - 3) = l - 1 := by omega
  have c2 : l - 2 ≤ l - 1 := by omega
  have c3 : (3 : Int) < 2 * 2 := by decide
  have c4 : ¬ (n - 3 + 1 < l) := by omega
  simp only [basisLevel, if_neg c1, e1, e2, if_pos c2, if_pos c3, if_neg c4]
  rw [forUp_two (l - 2) (l - 1) (by ring)]
  have i1 : (2 : Int) + 1 - 3 = 0 := by decide
  have i2 : (0 : Int) + 1 = 1 := by decide
  have i3 : (1 : Int) + 1 = 2 := by decide
  have i4 : 3 + (l - 2) = l + 1 := by ring
  have i5 : 3 + (l - 1) = l + 2 := by ring
  simp only [i1, i2, i3, i4, i5]
  have s1 : ∀ (a : Vec) (v : ℚ), setV a 0 v 2 = a 2 := fun a v => setV_other a v (by decide)
  simp only [s1]

/-- The level `i = 4` of the recurrence of `basis` for `m = 2` in an interior
row. -/
theorem basisLevel_two_four (n : Int) (x : Vec) (l : Int) (q : Vec) (hl1 : 4 ≤ l)
    (hl2 : l ≤ n - 3) :
    basisLevel 2 n x l 4 q =
      setV (setV (setV q (-1) ((x l - x (l - 3)) * q (-1) + (x (l + 1) - x l) * q 0)) 0
        ((x l - x (l - 2)) * q 0 + (x (l + 2) - x l) * q 1)) 1
        ((x l - x (l - 1)) * q 1 + (x (l + 3) - x l) * q 2) := by
  have c1 : ¬ (l < 4) := by omega
  have e1 : max (l - 4 + 1) 1 = l - 3 := by omega
  have e2 : min (l - 1) (n - 4) = l - 1 := by omega
  have c2 : l - 3 ≤ l - 1 := by omega
  have c3 : ¬ ((4 : Int) < 2 * 2) := by decide
  have c4 : ¬ (n - 4 + 1 < l) := by omega
  simp only [basisLevel, if_neg c1, e1, e2, if_pos c2, if_neg c3, if_neg c4]
  rw [forUp_triple (l - 3) (l - 1) (by ring)]
  have i1 : (2 : Int) + 1 - 4 = -1 := by decide
  have i2 : (-1 : Int) + 1 = 0 := by decide
  have i3 : (0 : Int) + 1 = 1 := by decide
  have i6 : (1 : Int) + 1 = 2 := by decide
  have i4 : 4 + (l - 3) = l + 1 := by ring
  have i5 : 4 + (l - 3 + 1) = l + 2 := by ring
  have i7 : 4 + (l - 3 + 2) = l + 3 := by ring
  have i8 : l - 3 + 1 = l - 2 := by ring
  have i9 : l - 3 + 2 = l - 1 := by ring
  simp only [i1, i2, i3, i4, i5, i6, i7]
  simp only [i8, i9]
  have s1 : ∀ (a : Vec) (v : ℚ), setV a (-1) v 1 = a 1 := fun a v => setV_other a v (by decide)
  have s2 : ∀ (a : Vec) (v : ℚ), setV a (-1) v 2 = a 2 := fun a v => setV_other a v (by decide)
  have s3 : ∀ (a : Vec) (v : ℚ), setV a 0 v 2 = a 2 := fun a v => setV_other a v (by decide)
  simp only [s1, s2, s3]

/-- The scratch vector at the start of the recurrence of `basis` for `m = 2`
in a row other than the first and the last. -/
theorem basisRow_two_start (n : Int) (x : Vec) (l : Int) (q : Vec) (hl1 : l ≠ 1)
    (hl2 : l ≠ n) :
    basisRow 2 n x l q =
      forUp 3 (2 * 2) (fun i q => basisLevel 2 n x l i q)
        (setV (setV (setV (setV (setV (setV q (-1) 0) 0 0) 1 0) 2 0) 1 1) 1
          (1 / (x (l + 1) - x (l - 1)))) := by
  have c : l ≠ 1 ∧ l ≠ n := ⟨hl1, hl2⟩
  have e1 : (2 : Int) - 1 = 1 := by decide
  have e2 : (-1 : Int) + 1 = 0 := by decide
  have e3 : (-1 : Int) + 2 = 1 := by decide
  have e4 : (-1 : Int) + 3 = 2 := by decide
  simp only [basisRow, if_pos c, e1]
  rw [forUp_quad (-1) 2 (by decide)]
  simp only [e2, e3, e4]

/-- For `m = 2` and knots with the spacing `h` around an interior row `l`, the
recurrence of `basis` leaves `1/6, 2/3, 1/6` in `q[-1], q[0], q[1]`. -/
theorem basisRow_two_interior (n : Int) (x : Vec) (l : Int) (q : Vec) (h : ℚ) (hl1 : 4 ≤ l)
    (hl2 : l ≤ n - 3) (hh : h ≠ 0) (hx : ∀ i, 1 ≤ i → i < n → x (i + 1) = x i + h) :
    basisRow 2 n x l q (-1) = 1 / 6 ∧ basisRow 2 n x l q 0 = 2 / 3 ∧
      basisRow 2 n x l q 1 = 1 / 6 := by
  have x1 : x (l + 1) = x l + h := hx l (by omega) (by omega)
  have x2 : x (l + 2) = x l + 2 * h := by
    have := hx (l + 1) (by omega) (by omega)
    have e : l + 1 + 1 = l + 2 := by ring
    rw [e, x1] at this
    rw [this]; ring
  have y1 : x (l - 1) = x l - h := by
    have := hx (l - 1) (by omega) (by omega)
    have e : l - 1 + 1 = l := by ring
    rw [e] at this
    rw [this]; ring
  have y2 : x (l - 2) = x l - 2 * h := by
    have := hx (l - 2) (by omega) (by omega)
    have e : l - 2 + 1 = l - 1 := by ring
    rw [e, y1] at this
    linarith
  have y3 : x (l - 3) = x l - 3 * h := by
    have := hx (l - 3) (by omega) (by omega)
    have e : l - 3 + 1 = l - 2 := by ring
    rw [e, y2] at this
    linarith
  rw [basisRow_two_start n x l q (by omega) (by omega)]
  rw [forUp_two 3 (2 * 2) (by decide)]
  have e4 : (2 : Int) * 2 = 4 := by decide
  simp only [e4]
  rw [basisLevel_two_four n x l _ hl1 hl2, basisLevel_two_three n x l _ (by omega) hl2]
  simp only [setV, x1, x2, y1, y2, y3]
  have d1 : ((-1 : Int) = 1) = False := by decide
  have d2 : ((-1 : Int) = 0) = False := by decide
  have d3 : ((0 : Int) = 1) = False := by decide
  have d4 : ((0 : Int) = -1) = False := by decide
  have d5 : ((1 : Int) = 0) = False := by decide
  have d6 : ((1 : Int) = -1) = False := by decide
  have d7 : ((2 : Int) = 1) = False := by decide
  have d8 : ((2 : Int) = 0) = False := by decide
  have d9 : ((2 : Int) = -1) = False := by decide
  have d10 : ((-1 : Int) = 2) = False := by decide
  have d11 : ((0 : Int) = 2) = False := by decide
  have d12 : ((1 : Int) = 2) = False := by decide
  simp only [d1, d2, d3, d4, d5, d6, d7, d8, d9, d10, d11, d12, if_true, if_false]
  have k1 : h * h⁻¹ = 1 := mul_inv_cancel₀ hh
  have k2 : h ^ 2 * h⁻¹ ^ 2 = 1 := by rw [← mul_pow, k1, one_pow]
  refine ⟨?_, ?_, ?_⟩
  · ring_nf
    simp only [k1, k2]
    norm_num
  · ring_nf
    simp only [k1, k2]
    norm_num
  · ring_nf
    simp only [k1, k2]
    norm_num

/-- C34: for order `m = 2` and knots `x[1..n]` with a common spacing `h ≠ 0`
(`x[i+1] = x[i] + h`), every row `l` with `4 ≤ l ≤ n - 3` (so `n ≥ 7`) of the
array `b` left by `basis` has the band entries `1/6, 2/3, 1/6` at the offsets
`-1, 0, +1`, whatever the spacing and the initial contents of `b` and `q`. -/
theorem basis_cubic_interior_row (n : Int) (x : Vec) (b : Arr2) (q : Vec) (l : Int) (h : ℚ)
    (hl1 : 4 ≤ l) (hl2 : l ≤ n - 3) (hh : h ≠ 0)
    (hx : ∀ i, 1 ≤ i → i < n → x (i + 1) = x i + h) :
    (basis 2 n x b q).b (-1) l = 1 / 6 ∧ (basis 2 n x b q).b 0 l = 2 / 3 ∧
      (basis 2 n x b q).b 1 l = 1 / 6 := by
  obtain ⟨q', hq'⟩ := basisRows_cell 2 n x b q l (by omega) (by omega)
  obtain ⟨r1, r2, r3⟩ := basisRow_two_interior n x l q' h hl1 hl2 hh hx
  rw [(basis_eq_rows 2 n x b q (by decide)).1,
    basisCorners_inner 2 n _ (-1) l (by omega) (by omega),
    basisCorners_inner 2 n _ 0 l (by omega) (by omega),
    basisCorners_inner 2 n _ 1 l (by omega) (by omega),
    hq' (-1) (by decide) (by decide), hq' 0 (by decide) (by decide),
    hq' 1 (by decide) (by decide)]
  exact ⟨r1, r2, r3⟩

theorem basis_cubic_interior_row_witness :
    (4 : Int) ≤ 4 ∧ (4 : Int) ≤ 7 - 3 ∧ (2 : ℚ) ≠ 0 ∧
      (basis 2 7 (fun i => 2 * (i : ℚ)) zero2 (fun _ => 0)).b (-1) 4 = 1 / 6 ∧
      (basis 2 7 (fun i => 2 * (i : ℚ)) zero2 (fun _ => 0)).b 0 4 = 2 / 3 ∧
      (basis 2 7 (fun i => 2 * (i : ℚ)) zero2 (fun _ => 0)).b 1 4 = 1 / 6 :=
  ⟨by decide, by decide, by decide,
    basis_cubic_interior_row 7 (fun i => 2 * (i : ℚ)) zero2 (fun _ => 0) 4 2 (by decide)
      (by decide) (by decide) (fun i _ _ => by push_cast; ring)⟩

/-! ## The sequence of trial values -/

theorem gcvspl_L80Trace_fst (trial : ℚ → SplcOut → SplcOut) :
    ∀ (fuel : Nat) (r1 r2 r3 r4 gf3 gf4 alpha : ℚ) (s : SplcOut) (log : List ℚ),
      (gcvspl_L80Trace trial fuel r1 r2 r3 r4 gf3 gf4 alpha s log).map (fun r => (r.1, r.2.1)) =
        gcvspl_L80 trial fuel r1 r2 r3 r4 gf3 gf4 alpha s := by
  intro fuel
  induction fuel with
  | zero => intro r1 r2 r3 r4 gf3 gf4 alpha s log; rfl
  | succ f ih =>
    intro r1 r2 r3 r4 gf3 gf4 alpha s log
    simp only [gcvspl_L80Trace, gcvspl_L80]
    by_cases c1 : gf3 ≤ gf4
    · simp only [if_pos c1]
      by_cases c2 : (r4 - r1) / (r1 + r4) * ((r4 - r1) / (r1 + r4)) + 1 = 1 ∨
          (r4 - r1) / (r1 + r4) ≤ 1e-6
      · simp only [if_pos c2, Option.map_some']
      · simp only [if_neg c2]
        exact ih _ _ _ _ _ _ _ _ _
    · simp only [if_neg c1]
      by_cases c2 : (r2 - r3) / (r3 + r2) * ((r2 - r3) / (r3 + r2)) + 1 = 1 ∨
          (r2 - r3) / (r3 + r2) ≤ 1e-6
      · simp only [if_pos c2, Option.map_some']
      · simp only [if_neg c2]
        exact ih _ _ _ _ _ _ _ _ _

theorem gcvspl_L70Trace_fst (trial : ℚ → SplcOut → SplcOut) (fuel : Nat) (r1 r3 : ℚ)
    (s : SplcOut) (log : List ℚ) :
    (gcvspl_L70Trace trial fuel r1 r3 s log).map (fun r => (r.1, r.2.1)) =
      gcvspl_L70 trial fuel r1 r3 s := by
  simp only [gcvspl_L70Trace, gcvspl_L70]
  exact gcvspl_L80Trace_fst trial _ _ _ _ _ _ _ _ _ _

theorem gcvspl_L60Trace_fst (trial : ℚ → SplcOut → SplcOut) :
    ∀ (fuel : Nat) (r1 r2 r3 gf2 : ℚ) (s : SplcOut) (log : List ℚ),
      (gcvspl_L60Trace trial fuel r1 r2 r3 gf2 s log).map (fun r => (r.1, r.2.1)) =
        gcvspl_L60 trial fuel r1 r2 r3 gf2 s := by
  intro fuel
  induction fuel with
  | zero => intro r1 r2 r3 gf2 s log; rfl
  | succ f ih =>
    intro r1 r2 r3 gf2 s log
    simp only [gcvspl_L60Trace, gcvspl_L60]
    by_cases c1 : (trial r3 s).ret > gf2
    · simp only [if_pos c1]
      exact gcvspl_L70Trace_fst trial _ _ _ _ _
    · simp only [if_neg c1]
      by_cases c2 : (trial r3 s).stat 4 ≥ 999999999999999.88
      · simp only [if_pos c2, Option.map_some']
      · simp only [if_neg c2]
        exact ih _ _ _ _ _ _

theorem gcvspl_L40Trace_fst (trial : ℚ → SplcOut → SplcOut) :
    ∀ (fuel : Nat) (r1 r2 gf2 : ℚ) (s : SplcOut) (log : List ℚ),
      (gcvspl_L40Trace trial fuel r1 r2 gf2 s log).map (fun r => (r.1, r.2.1)) =
        gcvspl_L40 trial fuel r1 r2 gf2 s := by
  intro fuel
  induction fuel with
  | zero => intro r1 r2 gf2 s log; rfl
  | succ f ih =>
    intro r1 r2 gf2 s log
    simp only [gcvspl_L40Trace, gcvspl_L40]
    by_cases c1 : (trial r1 s).ret > gf2
    · simp only [if_pos c1]
      exact gcvspl_L60Trace_fst trial _ _ _ _ _ _ _
    · simp only [if_neg c1]
      by_cases c2 : (trial r1 s).stat 4 ≤ 0
      · simp only [if_pos c2, Option.map_some']
      · simp only [if_neg c2]
        exact ih _ _ _ _ _

theorem gcvsplSearchTrace_fst (fuel : Nat) (a : Args) (wk : Wk) (el : ℚ) (s0 : SplcOut) :
    (gcvsplSearchTrace fuel a wk el s0).map (fun r => (r.1, r.2.1)) =
      gcvsplSearch fuel a wk el s0 := by
  simp only [gcvsplSearchTrace, gcvsplSearch]
  by_cases c : iabs a.md ≠ 1
  · simp only [if_pos c]
    exact gcvspl_L40Trace_fst _ _ _ _ _ _ _
  · simp only [if_neg c, Option.map_some']

/-- The model with the trial values recorded computes what `gcvspl`
computes. -/
theorem gcvsplTrace_fst (fuel : Nat) (a : Args) (c : Arr2) (wk : Wk) (st : Statics) :
    (gcvsplTrace fuel a c wk st).map (fun r => r.1) = gcvspl fuel a c wk st := by
  simp only [gcvsplTrace, gcvspl]
  by_cases c1 : (gcvsplCheck a st).returned = true
  · simp only [if_pos c1, Option.map_some']
  · simp only [if_neg c1]
    rw [← gcvsplSearchTrace_fst]
    simp only [Option.map_map]
    rfl

theorem gcvspl_L80Trace_rel (R : SplcOut → SplcOut → Prop) (T T' : ℚ → SplcOut → SplcOut)
    (κ : ℚ) (hκ : 0 < κ)
    (hT : ∀ p s s', R s s' → R (T p s) (T' p s') ∧ (T' p s').ret = κ * (T p s).ret ∧
      (T' p s').stat 4 = (T p s).stat 4) :
    ∀ (fuel : Nat) (r1 r2 r3 r4 gf3 gf4 alpha : ℚ) (s s' : SplcOut) (log : List ℚ), R s s' →
      SameRun R (gcvspl_L80Trace T fuel r1 r2 r3 r4 gf3 gf4 alpha s log)
        (gcvspl_L80Trace T' fuel r1 r2 r3 r4 (κ * gf3) (κ * gf4) alpha s' log) := by
  intro fuel
  induction fuel with
  | zero => intro r1 r2 r3 r4 gf3 gf4 alpha s s' log _; exact Or.inl ⟨rfl, rfl⟩
  | succ f ih =>
    intro r1 r2 r3 r4 gf3 gf4 alpha s s' log hR
    have hc : κ * gf3 ≤ κ * gf4 ↔ gf3 ≤ gf4 := mul_le_mul_left hκ
    simp only [gcvspl_L80Trace]
    by_cases c1 : gf3 ≤ gf4
    · have c1' : κ * gf3 ≤ κ * gf4 := hc.mpr c1
      simp only [if_pos c1, if_pos c1']
      by_cases c2 : (r4 - r1) / (r1 + r4) * ((r4 - r1) / (r1 + r4)) + 1 = 1 ∨
          (r4 - r1) / (r1 + r4) ≤ 1e-6
      · simp only [if_pos c2]
        exact Or.inr ⟨_, _, _, _, rfl, rfl, hR⟩
      · simp only [if_neg c2]
        obtain ⟨h1, h2, _⟩ := hT (r4 - alpha / 1.618033983) s s' hR
        rw [h2]
        exact ih _ _ _ _ _ _ _ _ _ _ h1
    · have c1' : ¬ (κ * gf3 ≤ κ * gf4) := fun h => c1 (hc.mp h)
      simp only [if_neg c1, if_neg c1']
      by_cases c2 : (r2 - r3) / (r3 + r2) * ((r2 - r3) / (r3 + r2)) + 1 = 1 ∨
          (r2 - r3) / (r3 + r2) ≤ 1e-6
      · simp only [if_pos c2]
        exact Or.inr ⟨_, _, _, _, rfl, rfl, hR⟩
      · simp only [if_neg c2]
        obtain ⟨h1, h2, _⟩ := hT (r3 + alpha / 1.618033983) s s' hR
        rw [h2]
        exact ih _ _ _ _ _ _ _ _ _ _ h1

theorem gcvspl_L70Trace_rel (R : SplcOut → SplcOut → Prop) (T T' : ℚ → SplcOut → SplcOut)
    (κ : ℚ) (hκ : 0 < κ)
    (hT : ∀ p s s', R s s' → R (T p s) (T' p s') ∧ (T' p s').ret = κ * (T p s).ret ∧
      (T' p s').stat 4 = (T p s).stat 4)
    (fuel : Nat) (r1 r3 : ℚ) (s s' : SplcOut) (log : List ℚ) (hR : R s s') :
    SameRun R (gcvspl_L70Trace T fuel r1 r3 s log) (gcvspl_L70Trace T' fuel r1 r3 s' log) := by
  simp only [gcvspl_L70Trace]
  obtain ⟨h1, h2, _⟩ := hT (r3 - (r3 - r1) / 1.618033983) s s' hR
  obtain ⟨h3, h4, _⟩ := hT (r1 + (r3 - r1) / 1.618033983) _ _ h1
  rw [h2, h4]
  exact gcvspl_L80Trace_rel R T T' κ hκ hT _ _ _ _ _ _ _ _ _ _ _ h3

theorem gcvspl_L60Trace_rel (R : SplcOut → SplcOut → Prop) (T T' : ℚ → SplcOut → SplcOut)
    (κ : ℚ) (hκ : 0 < κ)
    (hT : ∀ p s s', R s s' → R (T p s) (T' p s') ∧ (T' p s').ret = κ * (T p s).ret ∧
      (T' p s').stat 4 = (T p s).stat 4) :
    ∀ (fuel : Nat) (r1 r2 r3 gf2 : ℚ) (s s' : SplcOut) (log : List ℚ), R s s' →
      SameRun R (gcvspl_L60Trace T fuel r1 r2 r3 gf2 s log)
        (gcvspl_L60Trace T' fuel r1 r2 r3 (κ * gf2) s' log) := by
  intro fuel
  induction fuel with
  | zero => intro r1 r2 r3 gf2 s s' log _; exact Or.inl ⟨rfl, rfl⟩
  | succ f ih =>
    intro r1 r2 r3 gf2 s s' log hR
    obtain ⟨h1, h2, h3⟩ := hT r3 s s' hR
    have hc : κ * (T r3 s).ret > κ * gf2 ↔ (T r3 s).ret > gf2 := mul_lt_mul_left hκ
    simp only [gcvspl_L60Trace]
    rw [h2, h3]
    by_cases c1 : (T r3 s).ret > gf2
    · simp only [if_pos c1, if_pos (hc.mpr c1)]
      exact gcvspl_L70Trace_rel R T T' κ hκ hT _ _ _ _ _ _ h1
    · have c1' : ¬ (κ * (T r3 s).ret > κ * gf2) := fun h => c1 (hc.mp h)
      simp only [if_neg c1, if_neg c1']
      by_cases c2 : (T r3 s).stat 4 ≥ 999999999999999.88
      · simp only [if_pos c2]
        exact Or.inr ⟨_, _, _, _, rfl, rfl, h1⟩
      · simp only [if_neg c2]
        exact ih _ _ _ _ _ _ _ h1

theorem gcvspl_L40Trace_rel (R : SplcOut → SplcOut → Prop) (T T' : ℚ → SplcOut → SplcOut)
    (κ : ℚ) (hκ : 0 < κ)
    (hT : ∀ p s s', R s s' → R (T p s) (T' p s') ∧ (T' p s').ret = κ * (T p s).ret ∧
      (T' p s').stat 4 = (T p s).stat 4) :
    ∀ (fuel : Nat) (r1 r2 gf2 : ℚ) (s s' : SplcOut) (log : List ℚ), R s s' →
      SameRun R (gcvspl_L40Trace T fuel r1 r2 gf2 s log)
        (gcvspl_L40Trace T' fuel r1 r2 (κ * gf2) s' log) := by
  intro fuel
  induction fuel with
  | zero => intro r1 r2 gf2 s s' log _; exact Or.inl ⟨rfl, rfl⟩
  | succ f ih =>
    intro r1 r2 gf2 s s' log hR
    obtain ⟨h1, h2, h3⟩ := hT r1 s s' hR
    have hc : κ * (T r1 s).ret > κ * gf2 ↔ (T r1 s).ret > gf2 := mul_lt_mul_left hκ
    simp only [gcvspl_L40Trace]
    rw [h2, h3]
    by_cases c1 : (T r1 s).ret > gf2
    · simp only [if_pos c1, if_pos (hc.mpr c1)]
      exact gcvspl_L60Trace_rel R T T' κ hκ hT _ _ _ _ _ _ _ _ h1
    · have c1' : ¬ (κ * (T r1 s).ret > κ * gf2) := fun h => c1 (hc.mp h)
      simp only [if_neg c1, if_neg c1']
      by_cases c2 : (T r1 s).stat 4 ≤ 0
      · simp only [if_pos c2]
        exact Or.inr ⟨_, _, _, _, rfl, rfl, h1⟩
      · simp only [if_neg c2]
        exact ih _ _ _ _ _ _ h1

theorem splc_bwe (m n k : Int) (y : Arr2) (wx wy : Vec) (mode : Int) (val p eps : ℚ)
    (c : Arr2) (stat : Vec) (b we : Arr2) (el : ℚ) (bwe : Arr2) :
    (splc m n k y wx wy mode val p eps c stat b we el bwe).bwe =
      (trinv we (bandet (splcAssemble m n (splcDp p eps el).1 b we bwe) m n) m n).2 := by
  simp only [splc]
  split <;> rfl

theorem splc_stat6 (m n k : Int) (y : Arr2) (wx wy : Vec) (mode : Int) (val p eps : ℚ)
    (c : Arr2) (stat : Vec) (b we : Arr2) (el : ℚ) (bwe : Arr2) :
    (splc m n k y wx wy mode val p eps c stat b we el bwe).stat 6 =
      (splc m n k y wx wy mode val p eps c stat b we el bwe).stat 2 /
        ((splc m n k y wx wy mode val p eps c stat b we el bwe).stat 3 / (n : ℚ)) := by
  simp only [splc]
  split <;> simp [setV]

theorem splc_stat5 (m n k : Int) (y : Arr2) (wx wy : Vec) (mode : Int) (val p eps : ℚ)
    (c : Arr2) (stat : Vec) (b we : Arr2) (el : ℚ) (bwe : Arr2) (h : iabs mode ≠ 3) :
    (splc m n k y wx wy mode val p eps c stat b we el bwe).stat 5 =
      (splc m n k y wx wy mode val p eps c stat b we el bwe).stat 6 -
        (splc m n k y wx wy mode val p eps c stat b we el bwe).stat 2 := by
  simp only [splc, if_pos h]
  simp [setV]

/-- A call of `splc` with the channel weights multiplied by `κ`, made on the
same `c` and `bwe` (whatever `stat` holds): the arrays `c` and `bwe`, `stat[3]`
and `stat[4]` are those of the call with the weights `wy`, and `stat[1]`,
`stat[2]`, `stat[6]` are multiplied by `κ`. -/
theorem splc_scale (m n k : Int) (y : Arr2) (wx wy : Vec) (mode : Int)
    (val p eps : ℚ) (c : Arr2) (stat stat' : Vec) (b we : Arr2) (el : ℚ) (bwe : Arr2) (κ : ℚ) :
    (splc m n k y wx (fun j => κ * wy j) mode val p eps c stat' b we el bwe).c =
        (splc m n k y wx wy mode val p eps c stat b we el bwe).c ∧
      (splc m n k y wx (fun j => κ * wy j) mode val p eps c stat' b we el bwe).bwe =
        (splc m n k y wx wy mode val p eps c stat b we el bwe).bwe ∧
      (splc m n k y wx (fun j => κ * wy j) mode val p eps c stat' b we el bwe).stat 3 =
        (splc m n k y wx wy mode val p eps c stat b we el bwe).stat 3 ∧
      (splc m n k y wx (fun j => κ * wy j) mode val p eps c stat' b we el bwe).stat 4 =
        (splc m n k y wx wy mode val p eps c stat b we el bwe).stat 4 ∧
      (splc m n k y wx (fun j => κ * wy j) mode val p eps c stat' b we el bwe).stat 2 =
        κ * (splc m n k y wx wy mode val p eps c stat b we el bwe).stat 2 ∧
      (splc m n k y wx (fun j => κ * wy j) mode val p eps c stat' b we el bwe).stat 1 =
        κ * (splc m n k y wx wy mode val p eps c stat b we el bwe).stat 1 ∧
      (splc m n k y wx (fun j => κ * wy j) mode val p eps c stat' b we el bwe).stat 6 =
        κ * (splc m n k y wx wy mode val p eps c stat b we el bwe).stat 6 := by
  have hc : (splc m n k y wx (fun j => κ * wy j) mode val p eps c stat' b we el bwe).c =
      (splc m n k y wx wy mode val p eps c stat b we el bwe).c := by
    rw [splc_c, splc_c]
  have hb : (splc m n k y wx (fun j => κ * wy j) mode val p eps c stat' b we el bwe).bwe =
      (splc m n k y wx wy mode val p eps c stat b we el bwe).bwe := by
    rw [splc_bwe, splc_bwe]
  have h3 : (splc m n k y wx (fun j => κ * wy j) mode val p eps c stat' b we el bwe).stat 3 =
      (splc m n k y wx wy mode val p eps c stat b we el bwe).stat 3 := by
    rw [splc_stat3, splc_stat3]
  have h4 : (splc m n k y wx (fun j => κ * wy j) mode val p eps c stat' b we el bwe).stat 4 =
      (splc m n k y wx wy mode val p eps c stat b we el bwe).stat 4 := by
    rw [splc_stat4, splc_stat4]
  have h2 : (splc m n k y wx (fun j => κ * wy j) mode val p eps c stat' b we el bwe).stat 2 =
      κ * (splc m n k y wx wy mode val p eps c stat b we el bwe).stat 2 := by
    rw [splc_stat2, splc_stat2, hc, splcResidual_scale, mul_div_assoc]
  have h1 : (splc m n k y wx (fun j => κ * wy j) mode val p eps c stat' b we el bwe).stat 1 =
      κ * (splc m n k y wx wy mode val p eps c stat b we el bwe).stat 1 := by
    rw [splc_stat1, splc_stat1, h2, h3, mul_div_assoc, mul_div_assoc]
  have h6 : (splc m n k y wx (fun j => κ * wy j) mode val p eps c stat' b we el bwe).stat 6 =
      κ * (splc m n k y wx wy mode val p eps c stat b we el bwe).stat 6 := by
    rw [splc_stat6, splc_stat6, h2, h3, mul_div_assoc]
  exact ⟨hc, hb, h3, h4, h2, h1, h6⟩

/-- The validation of `gcvspl` looks only at the sign of the channel weights:
multiplying them by `κ > 0` does not change its outcome. -/
theorem gcvsplCheck_scale (a : Args) (st : Statics) (κ : ℚ) (hκ : 0 < κ) :
    gcvsplCheck { a with wy := fun j => κ * a.wy j } st = gcvsplCheck a st := by
  have hs : ∀ w : ℚ, decide (κ * w ≤ 0) = decide (w ≤ 0) := by
    intro w
    have : κ * w ≤ 0 ↔ w ≤ 0 := by
      constructor
      · intro h
        have h' : κ * w ≤ κ * 0 := by rw [mul_zero]; exact h
        exact le_of_mul_le_mul_left h' hκ
      · intro h
        exact mul_nonpos_of_nonneg_of_nonpos (le_of_lt hκ) h
    simp only [this]
  simp only [gcvsplCheck, entryStatics, hs]

theorem gcvsplSearchTrace_rel (R : SplcOut → SplcOut → Prop) (κ : ℚ) (hκ : 0 < κ)
    (fuel : Nat) (a a' : Args) (wk wk' : Wk) (el : ℚ) (s0 s0' : SplcOut)
    (hmd : a'.md = a.md) (hval : a'.val = a.val)
    (hst : a.md < -1 → wk'.stat 4 = wk.stat 4)
    (hT : ∀ p s s', R s s' → R (gcvsplTrial a wk el p s) (gcvsplTrial a' wk' el p s') ∧
      (gcvsplTrial a' wk' el p s').ret = κ * (gcvsplTrial a wk el p s).ret ∧
      (gcvsplTrial a' wk' el p s').stat 4 = (gcvsplTrial a wk el p s).stat 4)
    (hR : R s0 s0') :
    SameRun R (gcvsplSearchTrace fuel a wk el s0) (gcvsplSearchTrace fuel a' wk' el s0') := by
  simp only [gcvsplSearchTrace, hmd, hval]
  by_cases c : iabs a.md ≠ 1
  · simp only [if_pos c]
    have hr : (if a.md < -1 then wk'.stat 4 else 1 / el) =
        (if a.md < -1 then wk.stat 4 else 1 / el) := by
      by_cases c2 : a.md < -1
      · rw [if_pos c2, if_pos c2, hst c2]
      · rw [if_neg c2, if_neg c2]
    rw [hr]
    obtain ⟨h1, h2, _⟩ := hT ((if a.md < -1 then wk.stat 4 else 1 / el) * 2) s0 s0' hR
    rw [h2]
    exact gcvspl_L40Trace_rel R _ _ κ hκ hT _ _ _ _ _ _ _ h1
  · simp only [if_neg c]
    exact Or.inr ⟨_, _, _, _, rfl, rfl, hR⟩

theorem gcvsplTrace_some (fuel : Nat) (a : Args) (c : Arr2) (wk : Wk) (st : Statics) (o : Out)
    (lg : List ℚ) (h : gcvsplTrace fuel a c wk st = some (o, lg)) :
    gcvspl fuel a c wk st = some o := by
  rw [← gcvsplTrace_fst, h]
  rfl

theorem gcvsplTrace_none (fuel : Nat) (a : Args) (c : Arr2) (wk : Wk) (st : Statics)
    (h : gcvsplTrace fuel a c wk st = none) : gcvspl fuel a c wk st = none := by
  rw [← gcvsplTrace_fst, h]
  rfl

theorem gcvsplTrace_of_search (fuel : Nat) (a : Args) (c : Arr2) (wk : Wk) (st : Statics)
    (p : ℚ) (u : SplcOut) (lg : List ℚ) (hr : ¬ (gcvsplCheck a st).returned = true)
    (h : gcvsplSearchTrace fuel a (gcvsplSetup a wk (gcvsplCheck a st).st).1
      (gcvsplSetup a wk (gcvsplCheck a st).st).2.el
      { ret := 0, c := c, stat := (gcvsplSetup a wk (gcvsplCheck a st).st).1.stat,
        bwe := (gcvsplSetup a wk (gcvsplCheck a st).st).1.bwe } = some (p, u, lg)) :
    gcvsplTrace fuel a c wk st =
      some ({ ier := (gcvsplCheck a st).ier,
              c := (gcvsplTrial a (gcvsplSetup a wk (gcvsplCheck a st).st).1
                (gcvsplSetup a wk (gcvsplCheck a st).st).2.el p u).c,
              wk := { (gcvsplSetup a wk (gcvsplCheck a st).st).1 with
                stat := (gcvsplTrial a (gcvsplSetup a wk (gcvsplCheck a st).st).1
                  (gcvsplSetup a wk (gcvsplCheck a st).st).2.el p u).stat,
                bwe := (gcvsplTrial a (gcvsplSetup a wk (gcvsplCheck a st).st).1
                  (gcvsplSetup a wk (gcvsplCheck a st).st).2.el p u).bwe },
              st := (gcvsplSetup a wk (gcvsplCheck a st).st).2 }, lg ++ [p]) := by
  simp only [gcvsplTrace, if_neg hr, h, Option.map_some']

theorem gcvsplTrace_of_search_none (fuel : Nat) (a : Args) (c : Arr2) (wk : Wk) (st : Statics)
    (hr : ¬ (gcvsplCheck a st).returned = true)
    (h : gcvsplSearchTrace fuel a (gcvsplSetup a wk (gcvsplCheck a st).st).1
      (gcvsplSetup a wk (gcvsplCheck a st).st).2.el
      { ret := 0, c := c, stat := (gcvsplSetup a wk (gcvsplCheck a st).st).1.stat,
        bwe := (gcvsplSetup a wk (gcvsplCheck a st).st).1.bwe } = none) :
    gcvsplTrace fuel a c wk st = none := by
  simp only [gcvsplTrace, if_neg hr, h, Option.map_none']

/-- C31: in GCV mode (`md = 2`), for every `κ > 0`, the run of `gcvspl` with
the channel weights `κ * wy[j]` makes the same sequence of calls of `splc` as
the run with the weights `wy[j]`, on the same arrays and with the same fuel:
either both run out of fuel, or both return, after the same sequence of trial
values of `p` (the final call included), the same `ier`, the same coefficient
table, the same `wk[3]` and the same final `p` in `wk[4]`; when `ier = 0` the
score `wk[1]`, the residual statistic `wk[2]` and the variance estimates
`wk[5]`, `wk[6]` of the second run are `κ` times those of the first. -/
theorem gcvspl_rescale_channel_weights (fuel : Nat) (a : Args) (c : Arr2) (wk : Wk)
    (st : Statics) (κ : ℚ) (hκ : 0 < κ) (hmd : a.md = 2) :
    (gcvsplTrace fuel a c wk st = none ∧
        gcvsplTrace fuel { a with wy := fun j => κ * a.wy j } c wk st = none ∧
        gcvspl fuel a c wk st = none ∧
        gcvspl fuel { a with wy := fun j => κ * a.wy j } c wk st = none) ∨
      ∃ o o' lg, gcvsplTrace fuel a c wk st = some (o, lg) ∧
        gcvsplTrace fuel { a with wy := fun j => κ * a.wy j } c wk st = some (o', lg) ∧
        gcvspl fuel a c wk st = some o ∧
        gcvspl fuel { a with wy := fun j => κ * a.wy j } c wk st = some o' ∧
        o'.ier = o.ier ∧ o'.c = o.c ∧ o'.wk.stat 4 = o.wk.stat 4 ∧
        o'.wk.stat 3 = o.wk.stat 3 ∧
        (o.ier = 0 → o'.wk.stat 1 = κ * o.wk.stat 1 ∧ o'.wk.stat 2 = κ * o.wk.stat 2 ∧
          o'.wk.stat 5 = κ * o.wk.stat 5 ∧ o'.wk.stat 6 = κ * o.wk.stat 6) := by
  have hchk := gcvsplCheck_scale a st κ hκ
  have hsu : ∀ st', gcvsplSetup { a with wy := fun j => κ * a.wy j } wk st' =
      gcvsplSetup a wk st' := fun _ => rfl
  have hm3 : iabs a.md ≠ 3 := by rw [hmd]; decide
  have hm2 : iabs a.md = 2 := by rw [hmd]; decide
  have hT : ∀ (wk1 : Wk) (el : ℚ) (p : ℚ) (s s' : SplcOut), (s'.c = s.c ∧ s'.bwe = s.bwe) →
      ((gcvsplTrial { a with wy := fun j => κ * a.wy j } wk1 el p s').c =
          (gcvsplTrial a wk1 el p s).c ∧
        (gcvsplTrial { a with wy := fun j => κ * a.wy j } wk1 el p s').bwe =
          (gcvsplTrial a wk1 el p s).bwe) ∧
      (gcvsplTrial { a with wy := fun j => κ * a.wy j } wk1 el p s').ret =
        κ * (gcvsplTrial a wk1 el p s).ret ∧
      (gcvsplTrial { a with wy := fun j => κ * a.wy j } wk1 el p s').stat 4 =
        (gcvsplTrial a wk1 el p s).stat 4 := by
    intro wk1 el p s s' hR
    obtain ⟨g1, g2, g3, g4, g5, g6, g7⟩ := splc_scale a.m a.n a.k a.y a.wx a.wy a.md a.val p
      c_b6 s.c s.stat s'.stat wk1.b wk1.we el s.bwe κ
    simp only [gcvsplTrial]
    rw [hR.1, hR.2]
    refine ⟨⟨g1, g2⟩, ?_, g4⟩
    rw [splc_ret_two _ _ _ _ _ _ _ _ _ _ _ _ _ _ _ _ hm2,
      splc_ret_two _ _ _ _ _ _ _ _ _ _ _ _ _ _ _ _ hm2, g6]
  by_cases hr : (gcvsplCheck a st).returned = true
  · right
    have e1 : gcvsplTrace fuel a c wk st =
        some ({ ier := (gcvsplCheck a st).ier, c := c, wk := wk, st := (gcvsplCheck a st).st },
          []) := by
      simp only [gcvsplTrace, if_pos hr]
    have e2 : gcvsplTrace fuel { a with wy := fun j => κ * a.wy j } c wk st =
        some ({ ier := (gcvsplCheck a st).ier, c := c, wk := wk, st := (gcvsplCheck a st).st },
          []) := by
      simp only [gcvsplTrace, hchk, if_pos hr]
    refine ⟨_, _, _, e1, e2, gcvsplTrace_some _ _ _ _ _ _ _ e1, gcvsplTrace_some _ _ _ _ _ _ _ e2,
      rfl, rfl, rfl, rfl, fun h0 => absurd h0 (gcvsplCheck_returned_ier a st hr)⟩
  · have hrel := gcvsplSearchTrace_rel (fun s s' => s'.c = s.c ∧ s'.bwe = s.bwe) κ hκ fuel a
      { a with wy := fun j => κ * a.wy j } (gcvsplSetup a wk (gcvsplCheck a st).st).1
      (gcvsplSetup a wk (gcvsplCheck a st).st).1 (gcvsplSetup a wk (gcvsplCheck a st).st).2.el
      { ret := 0, c := c, stat := (gcvsplSetup a wk (gcvsplCheck a st).st).1.stat,
        bwe := (gcvsplSetup a wk (gcvsplCheck a st).st).1.bwe }
      { ret := 0, c := c, stat := (gcvsplSetup a wk (gcvsplCheck a st).st).1.stat,
        bwe := (gcvsplSetup a wk (gcvsplCheck a st).st).1.bwe }
      rfl rfl (fun _ => rfl) (hT _ _) ⟨rfl, rfl⟩
    have hr' : ¬ (gcvsplCheck { a with wy := fun j => κ * a.wy j } st).returned = true := by
      rw [hchk]; exact hr
    rcases hrel with ⟨n1, n2⟩ | ⟨p, u, u', lg, s1, s2, hR⟩
    · left
      have e1 := gcvsplTrace_of_search_none fuel a c wk st hr n1
      have e2 := gcvsplTrace_of_search_none fuel { a with wy := fun j => κ * a.wy j } c wk st
        hr' (by rw [hchk]; exact n2)
      exact ⟨e1, e2, gcvsplTrace_none _ _ _ _ _ e1, gcvsplTrace_none _ _ _ _ _ e2⟩
    · right
      have e1 := gcvsplTrace_of_search fuel a c wk st p u lg hr s1
      have e2 := gcvsplTrace_of_search fuel { a with wy := fun j => κ * a.wy j } c wk st p u' lg
        hr' (by rw [hchk]; exact s2)
      obtain ⟨g1, g2, g3, g4, g5, g6, g7⟩ := splc_scale a.m a.n a.k a.y a.wx a.wy a.md a.val p
        c_b6 u.c u.stat u'.stat (gcvsplSetup a wk (gcvsplCheck a st).st).1.b
        (gcvsplSetup a wk (gcvsplCheck a st).st).1.we
        (gcvsplSetup a wk (gcvsplCheck a st).st).2.el u.bwe κ
      refine ⟨_, _, _, e1, e2, gcvsplTrace_some _ _ _ _ _ _ _ e1,
        gcvsplTrace_some _ _ _ _ _ _ _ e2, ?_, ?_, ?_, ?_, fun _ => ⟨?_, ?_, ?_, ?_⟩⟩
      · dsimp only
        rw [hchk]
      all_goals simp only [gcvsplTrial, hchk, hsu]
      all_goals rw [hR.1, hR.2]
      · exact g1
      · exact g4
      · exact g3
      · exact g6
      · exact g5
      · rw [splc_stat5 _ _ _ _ _ _ _ _ _ _ _ _ _ _ _ _ hm3,
          splc_stat5 _ _ _ _ _ _ _ _ _ _ _ _ _ _ _ _ hm3, g7, g5]
        ring
      · exact g7

theorem gcvspl_rescale_channel_weights_witness :
    (0 : ℚ) < 3 ∧ (twoKnots 1 2 0).md = 2 ∧
      ∃ o o' lg, gcvsplTrace 60 (twoKnots 1 2 0) zero2 wkZero Statics.init = some (o, lg) ∧
        gcvsplTrace 60 { twoKnots 1 2 0 with wy := fun j => 3 * (twoKnots 1 2 0).wy j } zero2
          wkZero Statics.init = some (o', lg) ∧
        gcvspl 60 (twoKnots 1 2 0) zero2 wkZero Statics.init = some o ∧
        gcvspl 60 { twoKnots 1 2 0 with wy := fun j => 3 * (twoKnots 1 2 0).wy j } zero2
          wkZero Statics.init = some o' ∧
        lg.length = 53 ∧ o.ier = 0 ∧ o'.ier = 0 ∧ o'.c = o.c ∧
        o'.wk.stat 4 = o.wk.stat 4 ∧ o'.wk.stat 3 = o.wk.stat 3 ∧
        o'.wk.stat 1 = 3 * o.wk.stat 1 ∧ o'.wk.stat 2 = 3 * o.wk.stat 2 ∧
        o'.wk.stat 5 = 3 * o.wk.stat 5 ∧ o'.wk.stat 6 = 3 * o.wk.stat 6 := by
  refine ⟨by decide!, rfl, ?_⟩
  have hlen : (gcvsplTrace 60 (twoKnots 1 2 0) zero2 wkZero Statics.init).map
      (fun r => (r.1.ier, r.2.length)) = some (0, 53) := by decide!
  rcases gcvspl_rescale_channel_weights 60 (twoKnots 1 2 0) zero2 wkZero Statics.init 3
      (by decide!) rfl with ⟨n1, _⟩ | ⟨o, o', lg, e1, e2, e3, e4, h1, h2, h3, h4, h5⟩
  · rw [n1] at hlen
    exact Option.noConfusion hlen
  · rw [e1] at hlen
    simp only [Option.map_some', Option.some.injEq, Prod.mk.injEq] at hlen
    obtain ⟨k1, k2, k3, k4⟩ := h5 hlen.1
    exact ⟨o, o', lg, e1, e2, e3, e4, hlen.2, hlen.1, by rw [h1, hlen.1], h2, h3, h4, k1, k2,
      k3, k4⟩

/-! ## The result of `splc` depends only on the matrix entries -/

theorem splcAssemble_agree_band (m n : Int) (dp : ℚ) (b b' we we' bwe bwe' : Arr2)
    (hb : BandAgree (m - 1) n b b') (hwe : BandAgree m n we we') :
    BandAgree m n (splcAssemble m n dp b we bwe) (splcAssemble m n dp b' we' bwe') := by
  intro a r hr1 hr2 hc1 hc2 ha1 ha2
  rw [splcAssemble_spec m n dp b we bwe a r hr1 hr2 (by omega) (by omega),
    splcAssemble_spec m n dp b' we' bwe' a r hr1 hr2 (by omega) (by omega),
    hwe a r hr1 hr2 hc1 hc2 ha1 ha2]
  by_cases c : iabs a = m
  · rw [if_pos c, if_pos c]
  · rw [if_neg c, if_neg c]
    have c' : -(m - 1) ≤ a ∧ a ≤ m - 1 := by
      unfold iabs at c
      split at c <;> omega
    rw [hb a r hr1 hr2 hc1 hc2 c'.1 c'.2]

theorem trinv_agree_band (m n : Int) (b b' e e' : Arr2) (hb : BandAgree m n b b')
    (h : BandAgree m n e e') (hm : 1 ≤ m) (hn : 1 ≤ n) :
    (trinv b e m n).1 = (trinv b' e' m n).1 := by
  rw [trinv_eq_bands, trinv_eq_bands, trinvSum_eq, trinvSum_eq]
  have hE := trinvBands_agree m n e e' h hm hn
  apply Finset.sum_congr rfl
  intro i hi
  apply Finset.sum_congr rfl
  intro k hk
  simp only [Finset.mem_Icc] at hi hk
  rw [hE (-k) (k + i) (by omega) (by omega) (by omega) (by omega) (by omega) (by omega),
    hb k i (by omega) (by omega) (by omega) (by omega) (by omega) (by omega)]

theorem splcResidual_agree_band (m n k : Int) (y : Arr2) (wx wy : Vec) (b b' c c' : Arr2)
    (hb : BandAgree (m - 1) n b b')
    (h : ∀ i j, 1 ≤ i → i ≤ n → 1 ≤ j → j ≤ k → c i j = c' i j) :
    splcResidual m n k y wx wy b c = splcResidual m n k y wx wy b' c' := by
  rw [splcResidual_eq, splcResidual_eq]
  apply Finset.sum_congr rfl
  intro j hj
  apply Finset.sum_congr rfl
  intro i hi
  simp only [Finset.mem_Icc] at hi hj
  have hs : ∑ l ∈ Finset.Icc (-min (m - 1) (i - 1)) (min (m - 1) (n - i)),
      b l i * c (i + l) j =
      ∑ l ∈ Finset.Icc (-min (m - 1) (i - 1)) (min (m - 1) (n - i)),
      b' l i * c' (i + l) j := by
    apply Finset.sum_congr rfl
    intro l hl
    simp only [Finset.mem_Icc] at hl
    rw [h (i + l) j (by omega) (by omega) hj.1 hj.2,
      hb l i (by omega) (by omega) (by omega) (by omega) (by omega) (by omega)]
  rw [hs]

theorem splc_stat5_three (m n k : Int) (y : Arr2) (wx wy : Vec) (mode : Int) (val p eps : ℚ)
    (c : Arr2) (stat : Vec) (b we : Arr2) (el : ℚ) (bwe : Arr2) (h : ¬ iabs mode ≠ 3) :
    (splc m n k y wx wy mode val p eps c stat b we el bwe).stat 5 =
      (splc m n k y wx wy mode val p eps c stat b we el bwe).stat 2 -
        val * ((splc m n k y wx wy mode val p eps c stat b we el bwe).stat 3 / (n : ℚ) * 2 -
          1) := by
  simp only [splc, if_neg h]
  simp [setV]

/-- The value returned by `splc`, the statistics `stat[1..6]` and the
coefficients `c[1..n, 1..k]` depend only on the arguments and on the entries
of `b` and `we` inside the matrix: not on the contents of `c`, `stat` and `bwe`
on entry, nor on the cells of `b` and `we` outside the matrix. -/
theorem splc_agree (m n k : Int) (y : Arr2) (wx wy : Vec) (mode : Int) (val p eps : ℚ)
    (c c' : Arr2) (stat stat' : Vec) (b b' we we' : Arr2) (el : ℚ) (bwe bwe' : Arr2)
    (hm : 1 ≤ m) (hn : 1 ≤ n) (hb : BandAgree (m - 1) n b b') (hwe : BandAgree m n we we') :
    (splc m n k y wx wy mode val p eps c stat b we el bwe).ret =
        (splc m n k y wx wy mode val p eps c' stat' b' we' el bwe').ret ∧
      (∀ i, 1 ≤ i → i ≤ 6 →
        (splc m n k y wx wy mode val p eps c stat b we el bwe).stat i =
          (splc m n k y wx wy mode val p eps c' stat' b' we' el bwe').stat i) ∧
      (∀ i j, 1 ≤ i → i ≤ n → 1 ≤ j → j ≤ k →
        (splc m n k y wx wy mode val p eps c stat b we el bwe).c i j =
          (splc m n k y wx wy mode val p eps c' stat' b' we' el bwe').c i j) := by
  have hE : BandAgree m n (bandet (splcAssemble m n (splcDp p eps el).1 b we bwe) m n)
      (bandet (splcAssemble m n (splcDp p eps el).1 b' we' bwe') m n) :=
    bandet_agree m n _ _ hm (splcAssemble_agree_band m n _ b b' we we' bwe bwe' hb hwe)
  have hc : ∀ i j, 1 ≤ i → i ≤ n → 1 ≤ j → j ≤ k →
      (splc m n k y wx wy mode val p eps c stat b we el bwe).c i j =
        (splc m n k y wx wy mode val p eps c' stat' b' we' el bwe').c i j := by
    intro i j hi1 hi2 hj1 hj2
    rw [splc_c m n k y wx wy mode val p eps c stat b we el bwe,
      splc_c m n k y wx wy mode val p eps c' stat' b' we' el bwe']
    exact bansol_agree m n k _ _ y c c' hm hn hE i j hi1 hi2 hj1 hj2
  have h4 : (splc m n k y wx wy mode val p eps c stat b we el bwe).stat 4 =
      (splc m n k y wx wy mode val p eps c' stat' b' we' el bwe').stat 4 := by
    rw [splc_stat4 m n k y wx wy mode val p eps c stat b we el bwe,
      splc_stat4 m n k y wx wy mode val p eps c' stat' b' we' el bwe']
  have h3 : (splc m n k y wx wy mode val p eps c stat b we el bwe).stat 3 =
      (splc m n k y wx wy mode val p eps c' stat' b' we' el bwe').stat 3 := by
    rw [splc_stat3 m n k y wx wy mode val p eps c stat b we el bwe,
      splc_stat3 m n k y wx wy mode val p eps c' stat' b' we' el bwe',
      trinv_agree_band m n we we' _ _ hwe hE hm hn]
  have h2 : (splc m n k y wx wy mode val p eps c stat b we el bwe).stat 2 =
      (splc m n k y wx wy mode val p eps c' stat' b' we' el bwe').stat 2 := by
    rw [splc_stat2 m n k y wx wy mode val p eps c stat b we el bwe,
      splc_stat2 m n k y wx wy mode val p eps c' stat' b' we' el bwe',
      splcResidual_agree_band m n k y wx wy b b' _ _ hb hc]
  have h1 : (splc m n k y wx wy mode val p eps c stat b we el bwe).stat 1 =
      (splc m n k y wx wy mode val p eps c' stat' b' we' el bwe').stat 1 := by
    rw [splc_stat1 m n k y wx wy mode val p eps c stat b we el bwe,
      splc_stat1 m n k y wx wy mode val p eps c' stat' b' we' el bwe', h2, h3]
  have h6 : (splc m n k y wx wy mode val p eps c stat b we el bwe).stat 6 =
      (splc m n k y wx wy mode val p eps c' stat' b' we' el bwe').stat 6 := by
    rw [splc_stat6 m n k y wx wy mode val p eps c stat b we el bwe,
      splc_stat6 m n k y wx wy mode val p eps c' stat' b' we' el bwe', h2, h3]
  have h5 : (splc m n k y wx wy mode val p eps c stat b we el bwe).stat 5 =
      (splc m n k y wx wy mode val p eps c' stat' b' we' el bwe').stat 5 := by
    by_cases hmode : iabs mode ≠ 3
    · rw [splc_stat5 m n k y wx wy mode val p eps c stat b we el bwe hmode,
        splc_stat5 m n k y wx wy mode val p eps c' stat' b' we' el bwe' hmode, h6, h2]
    · rw [splc_stat5_three m n k y wx wy mode val p eps c stat b we el bwe hmode,
        splc_stat5_three m n k y wx wy mode val p eps c' stat' b' we' el bwe' hmode, h2, h3]
  refine ⟨?_, ?_, hc⟩
  · rw [splc_ret_eq m n k y wx wy mode val p eps c stat b we el bwe,
      splc_ret_eq m n k y wx wy mode val p eps c' stat' b' we' el bwe', h1, h2, h3]
  · intro i hi1 hi2
    have hcases : i = 1 ∨ i = 2 ∨ i = 3 ∨ i = 4 ∨ i = 5 ∨ i = 6 := by omega
    rcases hcases with e | e | e | e | e | e <;> subst e
    · exact h1
    · exact h2
    · exact h3
    · exact h4
    · exact h5
    · exact h6

/-! ## The design matrix does not depend on the arrays on entry -/

/-- One inner loop of `basis`: every pass reads `v = q[ir+1]`, writes `q[ir]`
and increments `ir`.  On two states that agree on the window `q[wl..wh]`, and
as long as `ir` and `ir + 1` stay inside the window, the loop keeps the
agreement and advances `ir` by the number of passes. -/
theorem basisLoop_rel (f : Int → BasisSt → BasisSt) (g : Int → ℚ → ℚ → ℚ)
    (hf : ∀ j st, f j st =
      BasisSt.mk (setV st.q st.ir (g j st.v (st.q (st.ir + 1)))) (st.q (st.ir + 1)) (st.ir + 1))
    (wl wh lo hi : Int) (st st' : BasisSt) (hrel : BasisAgree wl wh st st')
    (h1 : wl ≤ st.ir) (h2 : lo ≤ hi → st.ir + (hi - lo + 1) ≤ wh) :
    BasisAgree wl wh (forUp lo hi f st) (forUp lo hi f st') ∧
      (forUp lo hi f st).ir = st.ir + max 0 (hi - lo + 1) := by
  by_cases c : lo ≤ hi + 1
  · have h := forUp_rel
      (fun j a a' => BasisAgree wl wh a a' ∧ a.ir = st.ir + (j - lo)) f lo hi st st' c
      ⟨hrel, by ring⟩
      (fun i a a' i1 i2 hr => by
        obtain ⟨⟨r1, r2, r3⟩, r4⟩ := hr
        have hb := h2 (by omega)
        rw [hf i a, hf i a']
        have e1 : a'.q (a'.ir + 1) = a.q (a.ir + 1) := by
          rw [r1]
          exact r3 (a.ir + 1) (by omega) (by omega)
        refine ⟨⟨?_, ?_, ?_⟩, ?_⟩
        · dsimp only
          rw [r1]
        · dsimp only
          exact e1
        · intro j j1 j2
          dsimp only
          rw [r1] at e1
          rw [r1, r2, e1]
          by_cases cj : j = a.ir
          · rw [cj, setV_same, setV_same]
          · rw [setV_other _ _ cj, setV_other _ _ cj]
            exact r3 j j1 j2
        · dsimp only
          rw [r4]
          ring)
    refine ⟨h.1, ?_⟩
    rw [h.2]
    have e : max 0 (hi - lo + 1) = hi + 1 - lo := by omega
    rw [e]
  · rw [forUp_of_lt (by omega), forUp_of_lt (by omega)]
    refine ⟨hrel, ?_⟩
    have e : max 0 (hi - lo + 1) = 0 := by omega
    rw [e, add_zero]

theorem basisStage_rel (f : Int → BasisSt → BasisSt) (g : Int → ℚ → ℚ → ℚ)
    (hf : ∀ j st, f j st =
      BasisSt.mk (setV st.q st.ir (g j st.v (st.q (st.ir + 1)))) (st.q (st.ir + 1)) (st.ir + 1))
    (wl wh lo hi : Int) (st st' : BasisSt) (c : Prop) [Decidable c]
    (hrel : BasisAgree wl wh st st')
    (h1 : wl ≤ st.ir) (h2 : c → lo ≤ hi → st.ir + (hi - lo + 1) ≤ wh) :
    BasisAgree wl wh (if c then forUp lo hi f st else st)
        (if c then forUp lo hi f st' else st') ∧
      ((c ∧ (if c then forUp lo hi f st else st).ir = st.ir + max 0 (hi - lo + 1)) ∨
        (¬ c ∧ (if c then forUp lo hi f st else st).ir = st.ir)) := by
  by_cases hc : c
  · rw [if_pos hc, if_pos hc]
    obtain ⟨a1, a2⟩ := basisLoop_rel f g hf wl wh lo hi st st' hrel h1 (h2 hc)
    exact ⟨a1, Or.inl ⟨hc, a2⟩⟩
  · rw [if_neg hc, if_neg hc]
    exact ⟨hrel, Or.inr ⟨hc, rfl⟩⟩

theorem basisStage1_rel (x : Vec) (arg : ℚ) (l i wl wh : Int) (st st' : BasisSt)
    (hrel : BasisAgree wl wh st st') (h1 : wl ≤ st.ir)
    (h2 : l < i → l + 1 ≤ i → st.ir + (i - (l + 1) + 1) ≤ wh) :
    BasisAgree wl wh
        (if l < i then
          forUp (l + 1) i (fun j st =>
            let u := st.v
            let v := st.q (st.ir + 1)
            { q := setV st.q st.ir (u + (x j - arg) * v), v := v,
              ir := st.ir + 1 }) st
        else st)
        (if l < i then
          forUp (l + 1) i (fun j st =>
            let u := st.v
            let v := st.q (st.ir + 1)
            { q := setV st.q st.ir (u + (x j - arg) * v), v := v,
              ir := st.ir + 1 }) st'
        else st') ∧
      ((l < i ∧ (if l < i then
          forUp (l + 1) i (fun j st =>
            let u := st.v
            let v := st.q (st.ir + 1)
            { q := setV st.q st.ir (u + (x j - arg) * v), v := v,
              ir := st.ir + 1 }) st
        else st).ir = st.ir + max 0 (i - (l + 1) + 1)) ∨
       (¬ l < i ∧ (if l < i then
          forUp (l + 1) i (fun j st =>
            let u := st.v
            let v := st.q (st.ir + 1)
            { q := setV st.q st.ir (u + (x j - arg) * v), v := v,
              ir := st.ir + 1 }) st
        else st).ir = st.ir)) :=
  basisStage_rel _ (fun j u v => u + (x j - arg) * v) (fun _ _ => rfl) wl wh (l + 1) i st st'
    (l < i) hrel h1 h2

theorem basisStage2_rel (x : Vec) (arg : ℚ) (i m2 j1 j2 wl wh : Int) (st st' : BasisSt)
    (hrel : BasisAgree wl wh st st') (h1 : wl ≤ st.ir)
    (h2 : j1 ≤ j2 → j1 ≤ j2 → st.ir + (j2 - j1 + 1) ≤ wh) :
    BasisAgree wl wh
        (if j1 ≤ j2 then
          if i < m2 then
            forUp j1 j2 (fun j st =>
              let y := x (i + j)
              let u := st.v
              let v := st.q (st.ir + 1)
              { q := setV st.q st.ir (u + (v - u) * (y - arg) / (y - x j)),
                v := v, ir := st.ir + 1 }) st
          else
            forUp j1 j2 (fun j st =>
              let u := st.v
              let v := st.q (st.ir + 1)
              { q := setV st.q st.ir
                  ((arg - x j) * u + (x (i + j) - arg) * v),
                v := v, ir := st.ir + 1 }) st
        else st)
        (if j1 ≤ j2 then
          if i < m2 then
            forUp j1 j2 (fun j st =>
              let y := x (i + j)
              let u := st.v
              let v := st.q (st.ir + 1)
              { q := setV st.q st.ir (u + (v - u) * (y - arg) / (y - x j)),
                v := v, ir := st.ir + 1 }) st'
          else
            forUp j1 j2 (fun j st =>
              let u := st.v
              let v := st.q (st.ir + 1)
              { q := setV st.q st.ir
                  ((arg - x j) * u + (x (i + j) - arg) * v),
                v := v, ir := st.ir + 1 }) st'
        else st') ∧
      ((j1 ≤ j2 ∧ (if j1 ≤ j2 then
          if i < m2 then
            forUp j1 j2 (fun j st =>
              let y := x (i + j)
              let u := st.v
              let v := st.q (st.ir + 1)
              { q := setV st.q st.ir (u + (v - u) * (y - arg) / (y - x j)),
                v := v, ir := st.ir + 1 }) st
          else
            forUp j1 j2 (fun j st =>
              let u := st.v
              let v := st.q (st.ir + 1)
              { q := setV st.q st.ir
                  ((arg - x j) * u + (x (i + j) - arg) * v),
                v := v, ir := st.ir + 1 }) st
        else st).ir = st.ir + max 0 (j2 - j1 + 1)) ∨
       (¬ j1 ≤ j2 ∧ (if j1 ≤ j2 then
          if i < m2 then
            forUp j1 j2 (fun j st =>
              let y := x (i + j)
              let u := st.v
              let v := st.q (st.ir + 1)
              { q := setV st.q st.ir (u + (v - u) * (y - arg) / (y - x j)),
                v := v, ir := st.ir + 1 }) st
          else
            forUp j1 j2 (fun j st =>
              let u := st.v
              let v := st.q (st.ir + 1)
              { q := setV st.q st.ir
                  ((arg - x j) * u + (x (i + j) - arg) * v),
                v := v, ir := st.ir + 1 }) st
        else st).ir = st.ir)) := by
  by_cases ci : i < m2
  · simp only [if_pos ci]
    exact basisStage_rel _ (fun j u v => u + (v - u) * (x (i + j) - arg) / (x (i + j) - x j))
      (fun _ _ => rfl) wl wh j1 j2 st st' (j1 ≤ j2) hrel h1 h2
  · simp only [if_neg ci]
    exact basisStage_rel _ (fun j u v => (arg - x j) * u + (x (i + j) - arg) * v)
      (fun _ _ => rfl) wl wh j1 j2 st st' (j1 ≤ j2) hrel h1 h2

theorem basisStage3_rel (x : Vec) (arg : ℚ) (l lo wl wh : Int) (st st' : BasisSt)
    (hrel : BasisAgree wl wh st st') (h1 : wl ≤ st.ir)
    (h2 : lo < l → lo ≤ l - 1 → st.ir + (l - 1 - lo + 1) ≤ wh) :
    BasisAgree wl wh
        (if lo < l then
          forUp lo (l - 1) (fun j st =>
            let u := st.v
            let v := st.q (st.ir + 1)
            { q := setV st.q st.ir ((arg - x j) * u + v), v := v,
              ir := st.ir + 1 }) st
        else st)
        (if lo < l then
          forUp lo (l - 1) (fun j st =>
            let u := st.v
            let v := st.q (st.ir + 1)
            { q := setV st.q st.ir ((arg - x j) * u + v), v := v,
              ir := st.ir + 1 }) st'
        else st') :=
  (basisStage_rel _ (fun j u v => (arg - x j) * u + v) (fun _ _ => rfl) wl wh lo (l - 1) st st'
    (lo < l) hrel h1 h2).1

/-- One level of the recurrence of `basis` reads and writes the scratch
vector only inside `q[1-m..m]`: two scratch vectors that agree there still do
after the level. -/
theorem basisLevel_rel (m n : Int) (x : Vec) (l i : Int) (q q' : Vec) (hn : 2 * m ≤ n)
    (hl1 : 1 ≤ l) (hl2 : l ≤ n) (hi1 : 3 ≤ i) (hi2 : i ≤ 2 * m)
    (hq : ∀ j, 1 - m ≤ j → j ≤ m → q' j = q j) :
    ∀ j, 1 - m ≤ j → j ≤ m → basisLevel m n x l i q' j = basisLevel m n x l i q j := by
  have r0 : BasisAgree (1 - m) m { q := q, v := q (m + 1 - i), ir := m + 1 - i }
      { q := q', v := q' (m + 1 - i), ir := m + 1 - i } :=
    ⟨rfl, hq _ (by omega) (by omega), hq⟩
  obtain ⟨a1, k1⟩ := basisStage1_rel x (x l) l i (1 - m) m _ _ r0 (by dsimp only; omega)
    (by dsimp only; omega)
  have b1 : 1 - m ≤ (if l < i then
          forUp (l + 1) i (fun j st =>
            let u := st.v
            let v := st.q (st.ir + 1)
            { q := setV st.q st.ir (u + (x j - x l) * v), v := v,
              ir := st.ir + 1 }) ({ q := q, v := q (m + 1 - i), ir := m + 1 - i } : BasisSt)
        else { q := q, v := q (m + 1 - i), ir := m + 1 - i }).ir := by
    rcases k1 with ⟨c, e⟩ | ⟨c, e⟩
    · rw [e]; dsimp only; omega
    · rw [e]; dsimp only; omega
  obtain ⟨a2, k2⟩ := basisStage2_rel x (x l) i (2 * m) (max (l - i + 1) 1)
    (min (l - 1) (n - i)) (1 - m) m _ _ a1 b1
    (by
      intro c2 _
      rcases k1 with ⟨c, e⟩ | ⟨c, e⟩
      · rw [e]; dsimp only; omega
      · rw [e]; dsimp only; omega)
  have a3 := basisStage3_rel x (x l) l (n - i + 1) (1 - m) m _ _ a2
    (by
      rcases k2 with ⟨c2, e2⟩ | ⟨c2, e2⟩ <;> rcases k1 with ⟨c, e⟩ | ⟨c, e⟩ <;>
        (rw [e2, e]; dsimp only; omega))
    (by
      intro c3 _
      rcases k2 with ⟨c2, e2⟩ | ⟨c2, e2⟩ <;> rcases k1 with ⟨c, e⟩ | ⟨c, e⟩ <;>
        (rw [e2, e]; dsimp only; omega))
  exact a3.2.2

theorem zeroFill (lo hi : Int) (q : Vec) (j : Int) :
    forUp lo hi (fun j q => setV q j 0) q j = if lo ≤ j ∧ j ≤ hi then 0 else q j := by
  by_cases c : lo ≤ hi + 1
  · have h := forUp_inv (fun i (a : Vec) => a j = if lo ≤ j ∧ j < i then 0 else q j)
      (fun j q => setV q j 0) lo hi q c (by dsimp only; rw [if_neg (by omega)])
      (fun i a i1 i2 ha => by
        dsimp only
        by_cases cj : j = i
        · rw [cj, setV_same, if_pos (by omega)]
        · rw [setV_other _ _ cj, ha]
          by_cases c2 : lo ≤ j ∧ j < i
          · rw [if_pos c2, if_pos (by omega)]
          · rw [if_neg c2, if_neg (by omega)])
    dsimp only at h
    rw [h]
    by_cases c2 : lo ≤ j ∧ j ≤ hi
    · rw [if_pos c2, if_pos (by omega)]
    · rw [if_neg c2, if_neg (by omega)]
  · rw [forUp_of_lt (by omega), if_neg (by omega)]

/-- The scratch entries `q[1-m..m]` that a pass of the row loop of `basis`
leaves do not depend on the scratch vector it finds. -/
theorem basisRow_rel (m n : Int) (x : Vec) (l : Int) (q q' : Vec) (hm : 1 ≤ m)
    (hn : 2 * m ≤ n) (hl1 : 1 ≤ l) (hl2 : l ≤ n) :
    ∀ j, 1 - m ≤ j → j ≤ m → basisRow m n x l q' j = basisRow m n x l q j := by
  have h0 : ∀ j, 1 - m ≤ j → j ≤ m →
      forUp (-(m - 1)) m (fun j q => setV q j 0) q' j =
        forUp (-(m - 1)) m (fun j q => setV q j 0) q j := by
    intro j j1 j2
    rw [zeroFill, zeroFill, if_pos (by omega), if_pos (by omega)]
  have h1 : ∀ j, 1 - m ≤ j → j ≤ m →
      setV (forUp (-(m - 1)) m (fun j q => setV q j 0) q') (m - 1) 1 j =
        setV (forUp (-(m - 1)) m (fun j q => setV q j 0) q) (m - 1) 1 j := by
    intro j j1 j2
    by_cases cj : j = m - 1
    · rw [cj, setV_same, setV_same]
    · rw [setV_other _ _ cj, setV_other _ _ cj]
      exact h0 j j1 j2
  have h2 : ∀ j, 1 - m ≤ j → j ≤ m →
      (if l ≠ 1 ∧ l ≠ n then
        setV (setV (forUp (-(m - 1)) m (fun j q => setV q j 0) q') (m - 1) 1) (m - 1)
          (1 / (x (l + 1) - x (l - 1)))
      else setV (forUp (-(m - 1)) m (fun j q => setV q j 0) q') (m - 1) 1) j =
      (if l ≠ 1 ∧ l ≠ n then
        setV (setV (forUp (-(m - 1)) m (fun j q => setV q j 0) q) (m - 1) 1) (m - 1)
          (1 / (x (l + 1) - x (l - 1)))
      else setV (forUp (-(m - 1)) m (fun j q => setV q j 0) q) (m - 1) 1) j := by
    intro j j1 j2
    by_cases c : l ≠ 1 ∧ l ≠ n
    · rw [if_pos c, if_pos c]
      by_cases cj : j = m - 1
      · rw [cj, setV_same, setV_same]
      · have s : ∀ (a : Vec) (v : ℚ), setV a (m - 1) v j = a j := fun a v => setV_other a v cj
        simp only [s]
        exact h0 j j1 j2
    · rw [if_neg c, if_neg c]
      exact h1 j j1 j2
  exact forUp_rel (fun _ (a a' : Vec) => ∀ j, 1 - m ≤ j → j ≤ m → a j = a' j)
    (fun i q => basisLevel m n x l i q) 3 (2 * m) _ _ (by omega) h2
    (fun i a a' i1 i2 hr => basisLevel_rel m n x l i a' a hn hl1 hl2 i1 i2 hr)

theorem basisCorners_agree (m n : Int) (B B' : Arr2) (k i : Int) (h : B k i = B' k i) :
    basisCorners m n B k i = basisCorners m n B' k i := by
  unfold basisCorners
  by_cases c : (1 : Int) ≤ m - 1 + 1
  · exact forUp_rel (fun _ (a a' : Arr2) => a k i = a' k i) _ 1 (m - 1) B B' c h
      (fun j a a' j1 j2 ha => by
        dsimp only
        by_cases c2 : j ≤ m - 1 + 1
        · exact forUp_rel (fun _ (a a' : Arr2) => a k i = a' k i) _ j (m - 1) a a' c2 ha
            (fun t e e' t1 t2 he => by
              dsimp only
              by_cases d1 : k = t ∧ i = n + 1 - j
              · rw [d1.1, d1.2, set2_same, set2_same]
              · rw [set2_other _ _ _ _ d1, set2_other _ _ _ _ d1]
                by_cases d2 : k = -t ∧ i = j
                · rw [d2.1, d2.2, set2_same, set2_same]
                · rw [set2_other _ _ _ _ d2, set2_other _ _ _ _ d2]
                  exact he)
        · rw [forUp_of_lt (by omega), forUp_of_lt (by omega)]
          exact ha)
  · rw [forUp_of_lt (by omega), forUp_of_lt (by omega)]
    exact h

/-- Every cell of the rows `1..n` of the array `b` left by `basis`, at the
offsets `1-m..m-1`, is the same whatever `b` and the scratch vector `q` hold on
entry. -/
theorem basis_cells (m n : Int) (x : Vec) (b b' : Arr2) (q q' : Vec) (hm : 1 ≤ m)
    (hn : 2 * m ≤ n) (k i : Int) (hk1 : -(m - 1) ≤ k) (hk2 : k ≤ m - 1) (hi1 : 1 ≤ i)
    (hi2 : i ≤ n) : (basis m n x b q).b k i = (basis m n x b' q').b k i := by
  by_cases c : m = 1
  · subst c
    have hk : k = 0 := by omega
    subst hk
    have e : ∀ (b0 : Arr2) (q0 : Vec), (basis 1 n x b0 q0).b 0 i = 1 := by
      intro b0 q0
      have hb : (basis 1 n x b0 q0).b = forUp 1 n (fun i b => set2 b 0 i 1) b0 := by
        simp [basis]
      rw [hb]
      have h := forUp_inv (fun t (a : Arr2) => i < t → a 0 i = 1)
        (fun i b => set2 b 0 i 1) 1 n b0 (by omega) (fun h => absurd h (by omega))
        (fun t a t1 t2 ha ht => by
          dsimp only
          by_cases ct : i = t
          · rw [ct, set2_same]
          · rw [set2_other _ _ _ _ (by omega)]
            exact ha (by omega))
      exact h (by omega)
    rw [e b q, e b' q']
  · rw [(basis_eq_rows m n x b q c).1, (basis_eq_rows m n x b' q' c).1]
    apply basisCorners_agree
    obtain ⟨q1, h1⟩ := basisRows_cell m n x b q i hi1 hi2
    obtain ⟨q2, h2⟩ := basisRows_cell m n x b' q' i hi1 hi2
    rw [h1 k hk1 hk2, h2 k hk1 hk2]
    exact basisRow_rel m n x i q2 q1 hm hn hi1 hi2 k (by omega) (by omega)

theorem basis_bl_agree (m n : Int) (x : Vec) (b b' : Arr2) (q q' : Vec) (hm : 1 ≤ m)
    (hn : 2 * m ≤ n) : (basis m n x b q).bl = (basis m n x b' q').bl := by
  by_cases c : m = 1
  · subst c
    simp [basis]
  · rw [basis_bl m n x b q c, basis_bl m n x b' q' c]
    congr 1
    apply Finset.sum_congr rfl
    intro i hi
    apply Finset.sum_congr rfl
    intro k hk
    simp only [Finset.mem_Icc] at hi hk
    rw [basis_cells m n x b b' q q' hm hn k i hk.1 hk.2 hi.1 hi.2]

/-! ## The penalty matrix does not depend on the array on entry -/

theorem weSet_cell (m : Int) (we : Arr2) (r t : Int) (v : ℚ) (hm : 0 ≤ m) (ht1 : 1 ≤ t)
    (ht2 : t ≤ 2 * m + 1) :
    weSet m we ((2 * m + 1) * (r - 1) + t) v = set2 we (t - 1 - m) r v := by
  obtain ⟨e1, e2⟩ := flat_index m r t hm ht1 ht2
  unfold weSet
  rw [e1, e2]

theorem set2_agree (we we' : Arr2) (a0 r0 : Int) (v : ℚ) (a r : Int)
    (h : we' a r = we a r ∨ (a = a0 ∧ r = r0)) :
    set2 we' a0 r0 v a r = set2 we a0 r0 v a r := by
  by_cases c : a = a0 ∧ r = r0
  · rw [c.1, c.2, set2_same, set2_same]
  · rw [set2_other _ _ _ _ c, set2_other _ _ _ _ c]
    rcases h with h | h
    · exact h
    · exact absurd h c

/-- The flat position `jm + 2m (l - i1)` at which the loop over the columns
of `prep` writes the entry of row `l` of column `j` is the cell `(j - l, l)`. -/
theorem weSet_pos (m : Int) (we : Arr2) (jm i1 j l : Int) (v : ℚ) (hm : 0 ≤ m)
    (hjm : jm = (2 * m + 1) * (i1 - 1) + (j - i1 + m + 1)) (h1 : j - m ≤ l) (h2 : l ≤ j + m) :
    weSet m we (jm + 2 * m * (l - i1)) v = set2 we (j - l) l v := by
  have e : jm + 2 * m * (l - i1) = (2 * m + 1) * (l - 1) + (j - l + m + 1) := by
    rw [hjm]; ring
  rw [e, weSet_cell m we l (j - l + m + 1) v hm (by omega) (by omega)]
  have e2 : j - l + m + 1 - 1 - m = j - l := by ring
  rw [e2]

/-- The writes that one pass of the column loop of `prep` makes: the entries
of the rows `i1..i2` of column `j`.  Two arrays that agree at a cell, or any two
arrays if the cell is one of those written, agree at that cell afterwards. -/
theorem prepColumn_writes (m : Int) (val : Int → ℚ) (va vb : ℚ) (we we' : Arr2)
    (jm i1 i2 j : Int) (a r : Int) (hm : 0 ≤ m)
    (hjm : jm = (2 * m + 1) * (i1 - 1) + (j - i1 + m + 1)) (h12 : i1 < i2)
    (h1 : j - m ≤ i1) (h2 : i2 ≤ j + m)
    (h : we' a r = we a r ∨ (i1 ≤ r ∧ r ≤ i2 ∧ a = j - r)) :
    weSet m
        (forUp (i1 + 1) (i2 - 1) (fun l (s : Arr2 × Int) =>
          (weSet m s.1 s.2 (val l), s.2 + 2 * m)) (weSet m we' jm va, jm + 2 * m)).1
        (forUp (i1 + 1) (i2 - 1) (fun l (s : Arr2 × Int) =>
          (weSet m s.1 s.2 (val l), s.2 + 2 * m)) (weSet m we' jm va, jm + 2 * m)).2 vb a r =
      weSet m
        (forUp (i1 + 1) (i2 - 1) (fun l (s : Arr2 × Int) =>
          (weSet m s.1 s.2 (val l), s.2 + 2 * m)) (weSet m we jm va, jm + 2 * m)).1
        (forUp (i1 + 1) (i2 - 1) (fun l (s : Arr2 × Int) =>
          (weSet m s.1 s.2 (val l), s.2 + 2 * m)) (weSet m we jm va, jm + 2 * m)).2 vb a r := by
  have e0 : jm = jm + 2 * m * (i1 - i1) := by ring
  have hA : (we' a r = we a r ∨ (i1 ≤ r ∧ r < i1 + 1 ∧ a = j - r)) →
      weSet m we' jm va a r = weSet m we jm va a r := by
    intro hc
    rw [e0, weSet_pos m we' jm i1 j i1 va hm hjm h1 (by omega),
      weSet_pos m we jm i1 j i1 va hm hjm h1 (by omega)]
    apply set2_agree
    rcases hc with hc | hc
    · exact Or.inl hc
    · exact Or.inr ⟨by omega, by omega⟩
  have hL := forUp_rel
    (fun l (s s' : Arr2 × Int) => s'.2 = s.2 ∧ s.2 = jm + 2 * m * (l - i1) ∧
      ((we' a r = we a r ∨ (i1 ≤ r ∧ r < l ∧ a = j - r)) → s'.1 a r = s.1 a r))
    (fun l (s : Arr2 × Int) => (weSet m s.1 s.2 (val l), s.2 + 2 * m))
    (i1 + 1) (i2 - 1) (weSet m we jm va, jm + 2 * m) (weSet m we' jm va, jm + 2 * m)
    (by omega) ⟨rfl, by dsimp only; ring, hA⟩
    (fun l s s' l1 l2 hr => by
      obtain ⟨r1, r2, r3⟩ := hr
      refine ⟨?_, ?_, ?_⟩
      · dsimp only
        rw [r1]
      · dsimp only
        rw [r2]
        ring
      · intro hc
        dsimp only
        rw [r1, r2, weSet_pos m s'.1 jm i1 j l (val l) hm hjm (by omega) (by omega),
          weSet_pos m s.1 jm i1 j l (val l) hm hjm (by omega) (by omega)]
        apply set2_agree
        rcases hc with hc | hc
        · exact Or.inl (r3 (Or.inl hc))
        · by_cases cl : r = l
          · exact Or.inr ⟨by omega, cl⟩
          · exact Or.inl (r3 (Or.inr ⟨hc.1, by omega, hc.2.2⟩)))
  obtain ⟨r1, r2, r3⟩ := hL
  have e1 : i2 - 1 + 1 = i2 := by ring
  rw [e1] at r2 r3
  rw [r1, r2, weSet_pos m _ jm i1 j i2 vb hm hjm (by omega) h2,
    weSet_pos m _ jm i1 j i2 vb hm hjm (by omega) h2]
  apply set2_agree
  rcases h with h | h
  · exact Or.inl (r3 (Or.inl h))
  · by_cases cl : r = i2
    · exact Or.inr ⟨by omega, cl⟩
    · exact Or.inl (r3 (Or.inr ⟨h.1, by omega, h.2.2⟩))

theorem ite_forUp {σ : Type} (lo hi : Int) (f : Int → σ → σ) (s : σ) :
    (if lo ≤ hi then forUp lo hi f s else s) = forUp lo hi f s := by
  by_cases c : lo ≤ hi
  · rw [if_pos c]
  · rw [if_neg c, forUp_of_lt (by omega)]

theorem prepColumn_scalars (m n : Int) (x : Vec) (j : Int) (st : PrepSt) (we' : Arr2) :
    (prepColumn m n x j st).i1 = (if j > m + 1 then st.i1 + 1 else st.i1) ∧
    (prepColumn m n x j st).i2 = (if st.i2 < n then st.i2 + 1 else st.i2) ∧
    (prepColumn m n x j st).jm =
      st.jm + (if j > n - m then 2 * m + 1 else if j < m + 1 then 1 else 2 * m + 1) ∧
    (prepColumn m n x j { st with we := we' }).f1 = (prepColumn m n x j st).f1 ∧
    (prepColumn m n x j { st with we := we' }).i1 = (prepColumn m n x j st).i1 ∧
    (prepColumn m n x j { st with we := we' }).i2 = (prepColumn m n x j st).i2 ∧
    (prepColumn m n x j { st with we := we' }).jm = (prepColumn m n x j st).jm :=
  ⟨rfl, rfl, rfl, rfl, rfl, rfl, rfl⟩

/-- One pass of the column loop of `prep` on two arrays: a cell where the
arrays agree, or that lies in column `j`, holds the same value afterwards. -/
theorem prepColumn_rel (m n : Int) (x : Vec) (j : Int) (st : PrepSt) (we' : Arr2) (a r : Int)
    (hm : 0 ≤ m)
    (hjm : st.jm = (2 * m + 1) * ((if j > m + 1 then st.i1 + 1 else st.i1) - 1) +
      (j - (if j > m + 1 then st.i1 + 1 else st.i1) + m + 1))
    (h12 : (if j > m + 1 then st.i1 + 1 else st.i1) < (if st.i2 < n then st.i2 + 1 else st.i2))
    (h1 : j - m ≤ (if j > m + 1 then st.i1 + 1 else st.i1))
    (h2 : (if st.i2 < n then st.i2 + 1 else st.i2) ≤ j + m)
    (h : we' a r = st.we a r ∨ ((if j > m + 1 then st.i1 + 1 else st.i1) ≤ r ∧
      r ≤ (if st.i2 < n then st.i2 + 1 else st.i2) ∧ a = j - r)) :
    (prepColumn m n x j { st with we := we' }).we a r = (prepColumn m n x j st).we a r := by
  simp only [prepColumn, ite_forUp]
  exact prepColumn_writes m _ _ _ st.we we' st.jm _ _ j a r hm hjm h12 h1 h2 h

theorem prepColumn_scalars_rel (m n : Int) (x : Vec) (j : Int) (st st' : PrepSt)
    (e1 : st'.f1 = st.f1) (e2 : st'.i1 = st.i1) (e3 : st'.i2 = st.i2) (e4 : st'.jm = st.jm) :
    (prepColumn m n x j st').f1 = (prepColumn m n x j st).f1 ∧
    (prepColumn m n x j st').i1 = (prepColumn m n x j st).i1 ∧
    (prepColumn m n x j st').i2 = (prepColumn m n x j st).i2 ∧
    (prepColumn m n x j st').jm = (prepColumn m n x j st).jm := by
  obtain ⟨we1, f1, i1, i2, jm⟩ := st
  obtain ⟨we2, f1', i1', i2', jm'⟩ := st'
  dsimp only at e1 e2 e3 e4
  subst e1 e2 e3 e4
  exact ⟨rfl, rfl, rfl, rfl⟩

theorem prepColumn_rel_states (m n : Int) (x : Vec) (j : Int) (st st' : PrepSt) (a r : Int)
    (hm : 0 ≤ m) (I1 I2 : Int)
    (e1 : st'.f1 = st.f1) (e2 : st'.i1 = st.i1) (e3 : st'.i2 = st.i2) (e4 : st'.jm = st.jm)
    (hI1 : (if j > m + 1 then st.i1 + 1 else st.i1) = I1)
    (hI2 : (if st.i2 < n then st.i2 + 1 else st.i2) = I2)
    (hjm : st.jm = (2 * m + 1) * (I1 - 1) + (j - I1 + m + 1))
    (h12 : I1 < I2) (h1 : j - m ≤ I1) (h2 : I2 ≤ j + m)
    (h : st'.we a r = st.we a r ∨ (I1 ≤ r ∧ r ≤ I2 ∧ a = j - r)) :
    (prepColumn m n x j st').we a r = (prepColumn m n x j st).we a r := by
  obtain ⟨we1, f1, i1, i2, jm⟩ := st
  obtain ⟨we2, f1', i1', i2', jm'⟩ := st'
  dsimp only at e1 e2 e3 e4 hI1 hI2 hjm h
  subst e1 e2 e3 e4 hI1 hI2
  exact prepColumn_rel m n x j { we := we1, f1 := f1', i1 := i1', i2 := i2', jm := jm' }
    we2 a r hm hjm h12 h1 h2 h

/-- The entries inside the matrix of the array left by the column loop of
`prep` do not depend on the array on entry: column `j` is written in pass
`j`. -/
theorem prepColumns_rel (m n : Int) (x : Vec) (we we' : Arr2) (hm : 1 ≤ m) (hn : 2 * m ≤ n)
    (a r : Int) (hr1 : 1 ≤ r) (hr2 : r ≤ n) (ha1 : -m ≤ a) (ha2 : a ≤ m) (hc1 : 1 ≤ r + a)
    (hc2 : r + a ≤ n) :
    (prepColumns m n x we').we a r = (prepColumns m n x we).we a r := by
  have h := forUp_rel
    (fun j (st st' : PrepSt) => st'.f1 = st.f1 ∧ st'.i1 = st.i1 ∧ st'.i2 = st.i2 ∧
      st'.jm = st.jm ∧ st.i1 = max 1 (j - 1 - m) ∧ st.i2 = min n (j - 1 + m) ∧
      st.jm = (2 * m + 1) * (max 1 (j - m) - 1) + (j - max 1 (j - m) + m + 1) ∧
      (r + a < j → st'.we a r = st.we a r))
    (prepColumn m n x) 1 n
    { we := we,
      f1 := if m ≠ 1 then
          forUp (m + 1) (2 * m - 1) (fun i f1 => f1 * (i : ℚ))
            (forUp 2 m (fun i f1 => -f1 * (i : ℚ)) (-1))
        else -1,
      i1 := 1, i2 := m, jm := m + 1 }
    { we := we',
      f1 := if m ≠ 1 then
          forUp (m + 1) (2 * m - 1) (fun i f1 => f1 * (i : ℚ))
            (forUp 2 m (fun i f1 => -f1 * (i : ℚ)) (-1))
        else -1,
      i1 := 1, i2 := m, jm := m + 1 }
    (by omega)
    (by
      refine ⟨rfl, rfl, rfl, rfl, ?_, ?_, ?_, ?_⟩
      · dsimp only; omega
      · dsimp only; omega
      · dsimp only
        have e : max 1 (1 - m) = 1 := by omega
        rw [e]
        ring
      · intro hlt
        omega)
    (fun j st st' j1 j2 hr => by
      obtain ⟨e1, e2, e3, e4, g1, g2, g3, g4⟩ := hr
      have k1 : max 1 (j - m) < min n (j + m) := by omega
      have k2 : j - m ≤ max 1 (j - m) := by omega
      have k3 : min n (j + m) ≤ j + m := by omega
      have k4 : ¬ (r + a < j) → r + a < j + 1 →
          (max 1 (j - m) ≤ r ∧ r ≤ min n (j + m) ∧ a = j - r) := by
        intro c1 c2
        exact ⟨by omega, by omega, by omega⟩
      have k5 : (0 : Int) ≤ m := by omega
      have t1 : j + 1 - 1 - m = j - m := by ring
      have t2 : j + 1 - 1 + m = j + m := by ring
      have hI1 : (if j > m + 1 then st.i1 + 1 else st.i1) = max 1 (j - m) := by
        by_cases c : j > m + 1
        · rw [if_pos c]; omega
        · rw [if_neg c]; omega
      have hI2 : (if st.i2 < n then st.i2 + 1 else st.i2) = min n (j + m) := by
        by_cases c : st.i2 < n
        · rw [if_pos c]; omega
        · rw [if_neg c]; omega
      have hjm' : st.jm + (if j > n - m then 2 * m + 1 else if j < m + 1 then 1 else 2 * m + 1) =
          (2 * m + 1) * (max 1 (j + 1 - m) - 1) + (j + 1 - max 1 (j + 1 - m) + m + 1) := by
        rw [g3]
        by_cases c : j < m + 1
        · have c2 : ¬ (j > n - m) := by omega
          have e1 : max 1 (j - m) = 1 := by omega
          have e2 : max 1 (j + 1 - m) = 1 := by omega
          rw [if_neg c2, if_pos c, e1, e2]
          ring
        · have e1 : max 1 (j - m) = j - m := by omega
          have e2 : max 1 (j + 1 - m) = j + 1 - m := by omega
          have e3 : (if j > n - m then 2 * m + 1 else if j < m + 1 then 1 else 2 * m + 1) =
              2 * m + 1 := by
            by_cases c2 : j > n - m
            · rw [if_pos c2]
            · rw [if_neg c2, if_neg c]
          rw [e1, e2, e3]
          ring
      obtain ⟨s4, s5, s6, s7⟩ := prepColumn_scalars_rel m n x j st st' e1 e2 e3 e4
      obtain ⟨s1, s2, s3, _⟩ := prepColumn_scalars m n x j st st.we
      refine ⟨s4, s5, s6, s7, ?_, ?_, ?_, ?_⟩
      · rw [s1, hI1, t1]
      · rw [s2, hI2, t2]
      · rw [s3, hjm']
      · intro hlt
        exact prepColumn_rel_states m n x j st st' a r k5 _ _ e1 e2 e3 e4 hI1 hI2 g3 k1 k2 k3
          (by
            by_cases c : r + a < j
            · exact Or.inl (g4 c)
            · exact Or.inr (k4 c hlt)))
  exact h.2.2.2.2.2.2.2 (by omega)

/-- The corner loop of `prep` writes the cells of the rows `1..n` that lie
outside the matrix: two arrays agree afterwards at every such cell, and at
every cell where they agreed before. -/
theorem prepZero_rel (m n : Int) (we we' : Arr2) (hm : 1 ≤ m) (hn : 2 * m ≤ n) (a r : Int)
    (hr1 : 1 ≤ r) (hr2 : r ≤ n) (ha1 : -m ≤ a) (ha2 : a ≤ m)
    (h : we' a r = we a r ∨ r + a < 1 ∨ n < r + a) :
    (prepZero m n we').1 a r = (prepZero m n we).1 a r := by
  have hO := forUp_rel
    (fun i (s s' : Arr2 × Int) => s'.2 = s.2 ∧ s.2 = (2 * m + 1) * (i - 1) + 1 ∧
      ((we' a r = we a r ∨ (r < i ∧ r + a < 1) ∨ (n + 1 - r < i ∧ n < r + a)) →
        s'.1 a r = s.1 a r))
    (fun i (s : Arr2 × Int) =>
      (forUp s.2 (s.2 + m - i) (fun k we =>
        weSet m (weSet m we k 0) ((2 * m + 1) * n + 1 - k) 0) s.1, s.2 + (2 * m + 1)))
    1 m (we, 1) (we', 1) (by omega)
    ⟨rfl, by dsimp only; ring, by
      intro hc
      rcases hc with hc | hc | hc
      · exact hc
      · omega
      · omega⟩
    (fun i s s' i1 i2 hr => by
      obtain ⟨r1, r2, r3⟩ := hr
      have b1 : s.2 ≤ s.2 + m - i + 1 := by omega
      refine ⟨?_, ?_, ?_⟩
      · dsimp only
        rw [r1]
      · dsimp only
        rw [r2]
        ring
      · intro hc
        dsimp only
        rw [r1]
        have hI := forUp_rel
          (fun k (e e' : Arr2) =>
            ((we' a r = we a r ∨ (r < i ∧ r + a < 1) ∨ (n + 1 - r < i ∧ n < r + a)) ∨
              (r = i ∧ r + a < 1 ∧ a + m + 1 < k - s.2 + 1) ∨
              (r = n + 1 - i ∧ n < r + a ∧ m + 1 - a < k - s.2 + 1)) → e' a r = e a r)
          (fun k we => weSet m (weSet m we k 0) ((2 * m + 1) * n + 1 - k) 0)
          s.2 (s.2 + m - i) s.1 s'.1 b1
          (by
            intro hc0
            rcases hc0 with hc0 | hc0 | hc0
            · exact r3 hc0
            · omega
            · omega)
          (fun k e e' k1 k2 he => by
            intro hc1
            dsimp only
            have hk : k = (2 * m + 1) * (i - 1) + (k - s.2 + 1) := by
              rw [r2]; ring
            have hk2 : (2 * m + 1) * n + 1 - k =
                (2 * m + 1) * ((n - i + 1) - 1) + ((2 * m + 1) + 1 - (k - s.2 + 1)) := by
              rw [r2]; ring
            have t1 : 1 ≤ k - s.2 + 1 := by omega
            have t2 : k - s.2 + 1 ≤ m - i + 1 := by omega
            rw [hk2, weSet_cell m _ (n - i + 1) _ 0 (by omega) (by omega) (by omega),
              weSet_cell m _ (n - i + 1) _ 0 (by omega) (by omega) (by omega)]
            apply set2_agree
            by_cases d2 : a = (2 * m + 1) + 1 - (k - s.2 + 1) - 1 - m ∧ r = n - i + 1
            · exact Or.inr d2
            · left
              have hk' : weSet m e' k 0 = set2 e' (k - s.2 + 1 - 1 - m) i 0 := by
                have := weSet_cell m e' i (k - s.2 + 1) 0 (by omega) t1 (by omega)
                rw [← hk] at this
                exact this
              have hk'' : weSet m e k 0 = set2 e (k - s.2 + 1 - 1 - m) i 0 := by
                have := weSet_cell m e i (k - s.2 + 1) 0 (by omega) t1 (by omega)
                rw [← hk] at this
                exact this
              rw [hk', hk'']
              apply set2_agree
              by_cases d1 : a = k - s.2 + 1 - 1 - m ∧ r = i
              · exact Or.inr d1
              · left
                apply he
                rcases hc1 with hc1 | hc1 | hc1
                · exact Or.inl hc1
                · exact Or.inr (Or.inl ⟨hc1.1, hc1.2.1, by omega⟩)
                · exact Or.inr (Or.inr ⟨hc1.1, hc1.2.1, by omega⟩))
        apply hI
        rcases hc with hc | hc | hc
        · exact Or.inl (Or.inl hc)
        · by_cases d : r < i
          · exact Or.inl (Or.inr (Or.inl ⟨d, hc.2⟩))
          · exact Or.inr (Or.inl ⟨by omega, hc.2, by omega⟩)
        · by_cases d : n + 1 - r < i
          · exact Or.inl (Or.inr (Or.inr ⟨d, hc.2⟩))
          · exact Or.inr (Or.inr ⟨by omega, hc.2, by omega⟩))
  obtain ⟨_, _, r3⟩ := hO
  apply r3
  rcases h with h | h | h
  · exact Or.inl h
  · exact Or.inr (Or.inl ⟨by omega, h⟩)
  · exact Or.inr (Or.inr ⟨by omega, h⟩)

/-- Every cell of the rows `1..n` of the array `we` left by `prep`, at the
offsets `-m..m`, is the same whatever `we` holds on entry. -/
theorem prep_cells (m n : Int) (x w : Vec) (we we' : Arr2) (hm : 1 ≤ m) (hn : 2 * m ≤ n)
    (l i : Int) (hi1 : 1 ≤ i) (hi2 : i ≤ n) (hl1 : -m ≤ l) (hl2 : l ≤ m) :
    (prep m n x w we').1 l i = (prep m n x w we).1 l i := by
  rw [prep_eq_stages, prep_eq_stages]
  dsimp only
  rw [(prepWeigh_spec m n w _ (by omega) (by omega)).1 l i hi1 hi2 hl1 hl2,
    (prepWeigh_spec m n w _ (by omega) (by omega)).1 l i hi1 hi2 hl1 hl2]
  congr 1
  apply prepZero_rel m n _ _ hm hn l i hi1 hi2 hl1 hl2
  by_cases c : 1 ≤ i + l ∧ i + l ≤ n
  · exact Or.inl (prepColumns_rel m n x we we' hm hn l i hi1 hi2 hl1 hl2 c.1 c.2)
  · right
    omega

theorem prep_el_agree (m n : Int) (x w : Vec) (we we' : Arr2) (hm : 1 ≤ m) (hn : 2 * m ≤ n) :
    (prep m n x w we').2 = (prep m n x w we).2 := by
  rw [prep_el, prep_el]
  congr 1
  apply Finset.sum_congr rfl
  intro i hi
  apply Finset.sum_congr rfl
  intro l hl
  simp only [Finset.mem_Icc] at hi hl
  rw [prep_cells m n x w we we' hm hn l i hi.1 hi.2 hl.1 hl.2]

/-- The arrays `b` and `we` and the scale `el` that `gcvspl` sets up with
`basis` and `prep` (for `md > 0`, on an input that passed validation) do not
depend on the work array nor on the statics on entry. -/
theorem gcvsplSetup_agree (a : Args) (wk wk' : Wk) (st st' : Statics) (hmd : a.md > 0)
    (hm : 1 ≤ a.m) (hn : 2 * a.m ≤ a.n) :
    BandAgree (a.m - 1) a.n (gcvsplSetup a wk st).1.b (gcvsplSetup a wk' st').1.b ∧
      BandAgree a.m a.n (gcvsplSetup a wk st).1.we (gcvsplSetup a wk' st').1.we ∧
      (gcvsplSetup a wk' st').2.el = (gcvsplSetup a wk st).2.el := by
  simp only [gcvsplSetup, if_pos hmd]
  refine ⟨?_, ?_, ?_⟩
  · intro k r hr1 hr2 _ _ hk1 hk2
    exact basis_cells a.m a.n a.x _ _ _ _ hm hn k r (by omega) hk2 hr1 hr2
  · intro l r hr1 hr2 _ _ hl1 hl2
    exact (prep_cells a.m a.n a.x a.wx wk.we wk'.we hm hn l r hr1 hr2 hl1 hl2).symm
  · rw [prep_el_agree a.m a.n a.x a.wx wk.we wk'.we hm hn,
      basis_bl_agree a.m a.n a.x wk'.b wk.b _ _ hm hn]

/-- A call of `splc` as `gcvspl` makes it, on two work arrays whose matrices
`b` and `we` agree inside the matrix: the returned value, `stat[1..6]` and the
coefficients `c[1..n, 1..k]` are the same, whatever the arrays handed over by
the previous call. -/
theorem gcvsplTrial_agree (a : Args) (wk wk' : Wk) (el p : ℚ) (s s' : SplcOut) (hm : 1 ≤ a.m)
    (hn : 1 ≤ a.n) (hb : BandAgree (a.m - 1) a.n wk.b wk'.b)
    (hwe : BandAgree a.m a.n wk.we wk'.we) :
    (gcvsplTrial a wk' el p s').ret = (gcvsplTrial a wk el p s).ret ∧
      (∀ i, 1 ≤ i → i ≤ 6 → (gcvsplTrial a wk' el p s').stat i = (gcvsplTrial a wk el p s).stat i) ∧
      (∀ i j, 1 ≤ i → i ≤ a.n → 1 ≤ j → j ≤ a.k →
        (gcvsplTrial a wk' el p s').c i j = (gcvsplTrial a wk el p s).c i j) := by
  obtain ⟨g1, g2, g3⟩ := splc_agree a.m a.n a.k a.y a.wx a.wy a.md a.val p c_b6 s.c s'.c s.stat
    s'.stat wk.b wk'.b wk.we wk'.we el s.bwe s'.bwe hm hn hb hwe
  simp only [gcvsplTrial]
  exact ⟨g1.symm, fun i i1 i2 => (g2 i i1 i2).symm,
    fun i j i1 i2 j1 j2 => (g3 i j i1 i2 j1 j2).symm⟩

/-- Two runs of `gcvspl` with `md > 0` on the same arguments, with any
coefficient tables, work arrays and statics on entry: either both run out of
fuel, or both return, after the same sequence of trial values, the same `ier`,
and when `ier = 0` the same `c[1..n, 1..k]` and `wk[1..6]`. -/
theorem gcvsplTrace_agree (fuel : Nat) (a : Args) (c c' : Arr2) (wk wk' : Wk)
    (st st' : Statics) (hmd : a.md > 0) :
    (gcvsplTrace fuel a c wk st = none ∧ gcvsplTrace fuel a c' wk' st' = none) ∨
      ∃ o o' lg, gcvsplTrace fuel a c wk st = some (o, lg) ∧
        gcvsplTrace fuel a c' wk' st' = some (o', lg) ∧ o'.ier = o.ier ∧
        (o.ier = 0 →
          (∀ i j, 1 ≤ i → i ≤ a.n → 1 ≤ j → j ≤ a.k → o'.c i j = o.c i j) ∧
          (∀ i, 1 ≤ i → i ≤ 6 → o'.wk.stat i = o.wk.stat i)) := by
  obtain ⟨hier, hret⟩ := gcvsplCheck_statics a st st' hmd
  by_cases hr : (gcvsplCheck a st).returned = true
  · right
    have hr' : (gcvsplCheck a st').returned = true := by rw [← hret]; exact hr
    have e1 : gcvsplTrace fuel a c wk st =
        some ({ ier := (gcvsplCheck a st).ier, c := c, wk := wk, st := (gcvsplCheck a st).st },
          []) := by
      simp only [gcvsplTrace, if_pos hr]
    have e2 : gcvsplTrace fuel a c' wk' st' =
        some ({ ier := (gcvsplCheck a st').ier, c := c', wk := wk',
                st := (gcvsplCheck a st').st }, []) := by
      simp only [gcvsplTrace, if_pos hr']
    exact ⟨_, _, _, e1, e2, hier.symm,
      fun h0 => absurd h0 (gcvsplCheck_returned_ier a st hr)⟩
  · have hr' : ¬ (gcvsplCheck a st').returned = true := by rw [← hret]; exact hr
    have hrf : (gcvsplCheck a st).returned = false := by simpa using hr
    have hm := gcvsplCheck_passed_order a st hrf
    have hn := gcvsplCheck_passed_size a st hrf
    obtain ⟨hb, hwe, hel⟩ := gcvsplSetup_agree a wk wk' (gcvsplCheck a st).st
      (gcvsplCheck a st').st hmd hm hn
    have hrel := gcvsplSearchTrace_rel (fun _ _ => True) 1 (by norm_num) fuel a a
      (gcvsplSetup a wk (gcvsplCheck a st).st).1 (gcvsplSetup a wk' (gcvsplCheck a st').st).1
      (gcvsplSetup a wk (gcvsplCheck a st).st).2.el
      { ret := 0, c := c, stat := (gcvsplSetup a wk (gcvsplCheck a st).st).1.stat,
        bwe := (gcvsplSetup a wk (gcvsplCheck a st).st).1.bwe }
      { ret := 0, c := c', stat := (gcvsplSetup a wk' (gcvsplCheck a st').st).1.stat,
        bwe := (gcvsplSetup a wk' (gcvsplCheck a st').st).1.bwe }
      rfl rfl (fun h => absurd h (by omega))
      (fun p s s' _ => by
        obtain ⟨g1, g2, _⟩ := gcvsplTrial_agree a _ _
          (gcvsplSetup a wk (gcvsplCheck a st).st).2.el p s s' hm (by omega) hb hwe
        refine ⟨trivial, ?_, g2 4 (by decide) (by decide)⟩
        rw [g1, one_mul]) trivial
    rcases hrel with ⟨n1, n2⟩ | ⟨p, u, u', lg, s1, s2, _⟩
    · left
      rw [← hel] at n2
      exact ⟨gcvsplTrace_of_search_none fuel a c wk st hr n1,
        gcvsplTrace_of_search_none fuel a c' wk' st' hr' n2⟩
    · right
      obtain ⟨g1, g2, g3⟩ := gcvsplTrial_agree a _ _
        (gcvsplSetup a wk (gcvsplCheck a st).st).2.el p u u' hm (by omega) hb hwe
      rw [← hel] at s2 g1 g2 g3
      refine ⟨_, _, _, gcvsplTrace_of_search fuel a c wk st p u lg hr s1,
        gcvsplTrace_of_search fuel a c' wk' st' p u' lg hr' s2, hier.symm, fun _ => ⟨?_, ?_⟩⟩
      · intro i j i1 i2 j1 j2
        dsimp only
        rw [g3 i j i1 i2 j1 j2, hel]
      · intro i i1 i2
        dsimp only
        rw [g2 i i1 i2, hel]

/-- C32, counterexample: on the invalid input `n = 3`, `m = 2` (with
`md = 1`) the call returns `ier = 1` and leaves `c` and `wk` as they were: run
on zeroed arrays it returns `c(1,1) = 0` and `wk[1] = 0`, run on arrays filled
with ones it returns `c(1,1) = 1` and `wk[1] = 1`. -/
theorem gcvspl_inputs_only_counterexample :
    (gcvspl 0 (threeKnots 1 0) zero2 wkZero Statics.init).map
        (fun o => (o.ier, o.c 1 1, o.wk.stat 1)) = some (1, 0, 0) ∧
      (gcvspl 0 (threeKnots 1 0) (fun _ _ => 1) { wkZero with stat := fun _ => 1 }
        Statics.init).map (fun o => (o.ier, o.c 1 1, o.wk.stat 1)) = some (1, 1, 1) := by
  constructor <;> decide!

/-- C32, amended: for `md > 0` the outcome of `gcvspl` is a function of the
arguments `x, y, wx, wy, m, n, k, md, val` wherever the call computes it.  Two
runs on the same arguments with any coefficient tables `c`, `c'`, work arrays
`wk`, `wk'` and statics `st`, `st'` on entry either both run out of fuel, or
both return after the same sequence of trial values of `p`, with the same
`ier`; when `ier = 0` they return the same coefficients `c[1..n, 1..k]` and the
same statistics `wk[1..6]`. -/
theorem gcvspl_positive_mode_inputs_only (fuel : Nat) (a : Args) (c c' : Arr2) (wk wk' : Wk)
    (st st' : Statics) (hmd : a.md > 0) :
    (gcvspl fuel a c wk st = none ∧ gcvspl fuel a c' wk' st' = none) ∨
      ∃ o o' lg, gcvspl fuel a c wk st = some o ∧ gcvspl fuel a c' wk' st' = some o' ∧
        gcvsplTrace fuel a c wk st = some (o, lg) ∧
        gcvsplTrace fuel a c' wk' st' = some (o', lg) ∧ o'.ier = o.ier ∧
        (o.ier = 0 →
          (∀ i j, 1 ≤ i → i ≤ a.n → 1 ≤ j → j ≤ a.k → o'.c i j = o.c i j) ∧
          (∀ i, 1 ≤ i → i ≤ 6 → o'.wk.stat i = o.wk.stat i)) := by
  rcases gcvsplTrace_agree fuel a c c' wk wk' st st' hmd with ⟨n1, n2⟩ | ⟨o, o', lg, e1, e2, h⟩
  · exact Or.inl ⟨gcvsplTrace_none _ _ _ _ _ n1, gcvsplTrace_none _ _ _ _ _ n2⟩
  · exact Or.inr ⟨o, o', lg, gcvsplTrace_some _ _ _ _ _ _ _ e1,
      gcvsplTrace_some _ _ _ _ _ _ _ e2, e1, e2, h⟩

theorem gcvspl_positive_mode_inputs_only_witness :
    (twoKnots 1 1 1).md > 0 ∧
      ((gcvspl 0 (twoKnots 1 1 1) zero2 wkZero Statics.init = none ∧
          gcvspl 0 (twoKnots 1 1 1) (fun _ _ => 7)
            { stat := fun _ => 3, bwe := fun _ _ => 5, b := fun _ _ => 4, we := fun _ _ => 9 }
            { m2 := 6, nm1 := 9, el := 5 } = none) ∨
        ∃ o o' lg, gcvspl 0 (twoKnots 1 1 1) zero2 wkZero Statics.init = some o ∧
          gcvspl 0 (twoKnots 1 1 1) (fun _ _ => 7)
            { stat := fun _ => 3, bwe := fun _ _ => 5, b := fun _ _ => 4, we := fun _ _ => 9 }
            { m2 := 6, nm1 := 9, el := 5 } = some o' ∧
          gcvsplTrace 0 (twoKnots 1 1 1) zero2 wkZero Statics.init = some (o, lg) ∧
          gcvsplTrace 0 (twoKnots 1 1 1) (fun _ _ => 7)
            { stat := fun _ => 3, bwe := fun _ _ => 5, b := fun _ _ => 4, we := fun _ _ => 9 }
            { m2 := 6, nm1 := 9, el := 5 } = some (o', lg) ∧ o'.ier = o.ier ∧
          (o.ier = 0 →
            (∀ i j, 1 ≤ i → i ≤ (twoKnots 1 1 1).n → 1 ≤ j → j ≤ (twoKnots 1 1 1).k →
              o'.c i j = o.c i j) ∧
            (∀ i, 1 ≤ i → i ≤ 6 → o'.wk.stat i = o.wk.stat i))) :=
  ⟨by decide,
    gcvspl_positive_mode_inputs_only 0 (twoKnots 1 1 1) zero2 (fun _ _ => 7) wkZero
      { stat := fun _ => 3, bwe := fun _ _ => 5, b := fun _ _ => 4, we := fun _ _ => 9 }
      Statics.init { m2 := 6, nm1 := 9, el := 5 } (by decide)⟩

/-! ## The golden section stays inside the entry bracket -/

theorem goldenNear_entry (trial : ℚ → SplcOut → SplcOut) (r1 r3 : ℚ) (s : SplcOut)
    (h : r1 ≤ r3) :
    GoldenNear ((r3 - r1) / 1.618033983) 0 (goldenEntry trial r1 r3 s) := by
  have hw : 0 ≤ r3 - r1 := by linarith
  simp only [GoldenNear, goldenEntry, pow_zero, div_one, true_and]
  refine ⟨?_, ?_, ?_, ?_, ?_, ?_⟩ <;> norm_num <;> linarith


theorem goldenNear_alpha (a0 : ℚ) (i : Nat) (g : Golden) (h0 : 0 ≤ a0)
    (h : GoldenNear a0 i g) : 0 ≤ g.alpha ∧ g.alpha ≤ a0 := by
  have hp : (1 : ℚ) ≤ 1.618033983 ^ i := one_le_pow₀ (by norm_num)
  have hp0 : (0 : ℚ) < 1.618033983 ^ i := by linarith
  rw [h.1]
  exact ⟨div_nonneg h0 hp0.le, div_le_self h0 hp⟩


theorem goldenNear_step (trial : ℚ → SplcOut → SplcOut) (a0 : ℚ) (i : Nat) (g : Golden)
    (h0 : 0 ≤ a0) (h : GoldenNear a0 i g) (hc : (goldenStep trial g).2 = false) :
    GoldenNear a0 (i + 1) (goldenStep trial g).1 := by
  obtain ⟨ha1, ha2⟩ := goldenNear_alpha a0 i g h0 h
  obtain ⟨e, d1, d2, l1, l2, u1, u2⟩ := h
  have ea : g.alpha / 1.618033983 = a0 / 1.618033983 ^ (i + 1) := by
    rw [e, pow_succ, div_div]
  rcases goldenStep_cases trial g with ⟨_, q⟩ | ⟨_, q⟩ | ⟨_, q⟩ | ⟨_, q⟩
  · rw [q] at hc
    exact Bool.noConfusion hc
  · rw [q]
    norm_num at d1 d2 l1 l2 u1 u2
    refine ⟨ea, ?_, ?_, ?_, ?_, ?_, ?_⟩ <;> dsimp only <;> norm_num <;> linarith
  · rw [q] at hc
    exact Bool.noConfusion hc
  · rw [q]
    norm_num at d1 d2 l1 l2 u1 u2
    refine ⟨ea, ?_, ?_, ?_, ?_, ?_, ?_⟩ <;> dsimp only <;> norm_num <;> linarith

theorem goldenNear_scale (a0 : ℚ) (i K : Nat) (C : ℚ) (g : Golden) (h0 : 0 < a0)
    (h : GoldenNear a0 i g) (hi : i ≤ K) (hC : (1.618033983 : ℚ) ^ K ≤ C) :
    0 < g.alpha ∧ a0 ≤ C * g.alpha := by
  have hp : (1 : ℚ) ≤ 1.618033983 ^ i := one_le_pow₀ (by norm_num)
  have hp0 : (0 : ℚ) < 1.618033983 ^ i := by linarith
  have hK : (1.618033983 : ℚ) ^ i ≤ 1.618033983 ^ K :=
    pow_le_pow_right₀ (by norm_num) hi
  have ha : 0 < g.alpha := by
    rw [h.1]
    exact div_pos h0 hp0
  have e : a0 = g.alpha * 1.618033983 ^ i := by
    rw [h.1]
    field_simp
  refine ⟨ha, ?_⟩
  calc a0 = g.alpha * 1.618033983 ^ i := e
    _ ≤ g.alpha * C := mul_le_mul_of_nonneg_left (le_trans hK hC) ha.le
    _ = C * g.alpha := mul_comm _ _


theorem golden_pow_36 : (1.618033983 : ℚ) ^ 36 ≤ 33385278 := by norm_num


theorem golden_pow_26 : (1.618033983 : ℚ) ^ 26 ≤ 271443 := by norm_num


/-- During the first 37 passes the trial points are interior to the bracket
and in order. -/
theorem goldenNear_order (a0 : ℚ) (i : Nat) (g : Golden) (h0 : 0 < a0)
    (h : GoldenNear a0 i g) (hi : i ≤ 36) :
    g.r1 < g.r3 ∧ g.r3 < g.r4 ∧ g.r4 < g.r2 := by
  obtain ⟨ha, hs⟩ := goldenNear_scale a0 i 36 33385278 g h0 h hi golden_pow_36
  obtain ⟨_, d1, d2, l1, l2, u1, u2⟩ := h
  norm_num at d1 d2 l1 l2 u1 u2
  refine ⟨?_, ?_, ?_⟩ <;> linarith


/-- The bracket after a pass, whether the pass ends at `L90` or continues. -/
theorem goldenStep_bracket (trial : ℚ → SplcOut → SplcOut) (g : Golden) :
    ((goldenStep trial g).1.r1 = g.r1 ∧ (goldenStep trial g).1.r2 = g.r4) ∨
      ((goldenStep trial g).1.r1 = g.r3 ∧ (goldenStep trial g).1.r2 = g.r2) := by
  rcases (goldenStep_spec trial g).1 with ⟨_, h1, h2, _⟩ | ⟨_, h1, h2, _⟩
  · exact Or.inl ⟨h1, h2⟩
  · exact Or.inr ⟨h1, h2⟩


/-- Each of the first 37 passes replaces the bracket by one strictly inside
it. -/
theorem goldenNear_nested (trial : ℚ → SplcOut → SplcOut) (a0 : ℚ) (i : Nat) (g : Golden)
    (h0 : 0 < a0) (h : GoldenNear a0 i g) (hi : i ≤ 36) :
    g.r1 ≤ (goldenStep trial g).1.r1 ∧
      (goldenStep trial g).1.r1 < (goldenStep trial g).1.r2 ∧
      (goldenStep trial g).1.r2 ≤ g.r2 ∧
      (goldenStep trial g).1.r2 - (goldenStep trial g).1.r1 < g.r2 - g.r1 := by
  obtain ⟨o1, o2, o3⟩ := goldenNear_order a0 i g h0 h hi
  rcases goldenStep_bracket trial g with ⟨e1, e2⟩ | ⟨e1, e2⟩
  · rw [e1, e2]
    refine ⟨le_refl _, ?_, ?_, ?_⟩ <;> linarith
  · rw [e1, e2]
    refine ⟨?_, ?_, le_refl _, ?_⟩ <;> linarith


/-- Each of the first 27 passes divides the width of the bracket by a factor
between `1.6` and `1.64`. -/
theorem goldenNear_ratio (trial : ℚ → SplcOut → SplcOut) (a0 : ℚ) (i : Nat) (g : Golden)
    (h0 : 0 < a0) (h : GoldenNear a0 i g) (hi : i ≤ 26) :
    1.6 * ((goldenStep trial g).1.r2 - (goldenStep trial g).1.r1) ≤ g.r2 - g.r1 ∧
      g.r2 - g.r1 ≤ 1.64 * ((goldenStep trial g).1.r2 - (goldenStep trial g).1.r1) := by
  obtain ⟨ha, hs⟩ := goldenNear_scale a0 i 26 271443 g h0 h hi golden_pow_26
  obtain ⟨_, d1, d2, l1, l2, u1, u2⟩ := h
  norm_num at d1 d2 l1 l2 u1 u2
  rcases goldenStep_bracket trial g with ⟨e1, e2⟩ | ⟨e1, e2⟩
  · rw [e1, e2]
    constructor <;> norm_num <;> linarith
  · rw [e1, e2]
    constructor <;> norm_num <;> linarith


theorem goldenNear_iter (trial : ℚ → SplcOut → SplcOut) (a0 : ℚ) (h0 : 0 ≤ a0) :
    ∀ (k i : Nat) (g : Golden), GoldenNear a0 i g →
      (∀ j, j < k → (goldenStep trial (goldenIter trial j g)).2 = false) →
      GoldenNear a0 (i + k) (goldenIter trial k g) := by
  intro k
  induction k with
  | zero =>
    intro i g h _
    exact h
  | succ k ih =>
    intro i g h hc
    rw [goldenIter_succ]
    have h1 := goldenNear_step trial a0 i g h0 h (hc 0 (by omega))
    have h2 := ih (i + 1) _ h1 (fun j hj => by
      have := hc (j + 1) (by omega)
      rw [goldenIter_succ] at this
      exact this)
    have e : i + (k + 1) = i + 1 + k := by omega
    rw [e]
    exact h2


theorem goldenNear_inside (trial : ℚ → SplcOut → SplcOut) (a0 : ℚ) (h0 : 0 < a0) :
    ∀ (k i : Nat) (g : Golden), GoldenNear a0 i g → i + k ≤ 37 →
      (∀ j, j < k → (goldenStep trial (goldenIter trial j g)).2 = false) →
      g.r1 ≤ (goldenIter trial k g).r1 ∧ (goldenIter trial k g).r2 ≤ g.r2 := by
  intro k
  induction k with
  | zero =>
    intro i g _ _ _
    exact ⟨le_refl _, le_refl _⟩
  | succ k ih =>
    intro i g h hi hc
    rw [goldenIter_succ]
    have h1 := goldenNear_step trial a0 i g h0.le h (hc 0 (by omega))
    have h2 := ih (i + 1) _ h1 (by omega) (fun j hj => by
      have := hc (j + 1) (by omega)
      rw [goldenIter_succ] at this
      exact this)
    obtain ⟨n1, _, n3, _⟩ := goldenNear_nested trial a0 i g h0 h (by omega)
    exact ⟨le_trans n1 h2.1, le_trans h2.2 n3⟩


/-- A loop whose pass number `k + 1` is the first to end at `L90` returns the
midpoint of the bracket of that pass, given fuel for `k + 1` passes. -/
theorem goldenRun_of_exit (trial : ℚ → SplcOut → SplcOut) :
    ∀ (k fuel : Nat) (g : Golden), k < fuel →
      (∀ j, j < k → (goldenStep trial (goldenIter trial j g)).2 = false) →
      (goldenStep trial (goldenIter trial k g)).2 = true →
      goldenRun trial fuel g =
        some (((goldenStep trial (goldenIter trial k g)).1.r1 +
          (goldenStep trial (goldenIter trial k g)).1.r2) * 0.5,
          (goldenStep trial (goldenIter trial k g)).1.s) := by
  intro k
  induction k with
  | zero =>
    intro fuel g hf _ hx
    obtain ⟨f, rfl⟩ : ∃ f, fuel = f + 1 := ⟨fuel - 1, by omega⟩
    rw [goldenRun_succ]
    simp only [goldenIter] at hx ⊢
    rw [if_pos hx]
  | succ k ih =>
    intro fuel g hf hc hx
    obtain ⟨f, rfl⟩ : ∃ f, fuel = f + 1 := ⟨fuel - 1, by omega⟩
    rw [goldenRun_succ]
    have c0 := hc 0 (by omega)
    simp only [goldenIter] at c0
    rw [c0]
    simp only [Bool.false_eq_true, if_false]
    rw [goldenIter_succ] at hx ⊢
    exact ih f _ (by omega) (fun j hj => by
      have := hc (j + 1) (by omega)
      rw [goldenIter_succ] at this
      exact this) hx

theorem golden_pow_36_lower : (33385277 : ℚ) ≤ 1.618033983 ^ 36 := by norm_num


/-- Pass number 37 ends at `L90` when the first `alpha` is at most `39` times
a lower bound of `r1`. -/
theorem goldenNear_exit (trial : ℚ → SplcOut → SplcOut) (a0 lo : ℚ) (g : Golden)
    (h0 : 0 < a0) (h : GoldenNear a0 36 g) (h1 : lo ≤ g.r1) (ha : a0 ≤ 39 * lo) :
    (goldenStep trial g).2 = true := by
  obtain ⟨o1, o2, o3⟩ := goldenNear_order a0 36 g h0 h (le_refl _)
  obtain ⟨hap, _⟩ := goldenNear_scale a0 36 36 33385278 g h0 h (le_refl _) golden_pow_36
  have hs : 33385277 * g.alpha ≤ a0 := by
    have e : a0 = g.alpha * 1.618033983 ^ 36 := by
      rw [h.1]
      field_simp
    calc 33385277 * g.alpha = g.alpha * 33385277 := mul_comm _ _
      _ ≤ g.alpha * 1.618033983 ^ 36 := mul_le_mul_of_nonneg_left golden_pow_36_lower hap.le
      _ = a0 := e.symm
  obtain ⟨_, d1, d2, l1, l2, u1, u2⟩ := h
  norm_num at d1 d2 l1 l2 u1 u2
  by_cases c1 : g.gf3 ≤ g.gf4
  · have hd : 0 < g.r1 + g.r4 := by linarith
    have c2 : (g.r4 - g.r1) / (g.r1 + g.r4) ≤ 1e-6 := by
      rw [div_le_iff₀ hd]
      norm_num
      linarith
    simp only [goldenStep, if_pos c1, if_pos (Or.inr c2 : _ ∨ _)]
  · have hd : 0 < g.r3 + g.r2 := by linarith
    have c2 : (g.r2 - g.r3) / (g.r3 + g.r2) ≤ 1e-6 := by
      rw [div_le_iff₀ hd]
      norm_num
      linarith
    simp only [goldenStep, if_neg c1, if_pos (Or.inr c2 : _ ∨ _)]


/-- From a bracket with `0 < r1 < r3 ≤ 64 r1` the golden-section loop ends at
`L90` within its first 37 passes. -/
theorem golden_exit_within (trial : ℚ → SplcOut → SplcOut) (r1 r3 : ℚ) (s : SplcOut)
    (h0 : 0 < r1) (h13 : r1 < r3) (h64 : r3 ≤ 64 * r1) :
    ∃ k, k ≤ 36 ∧
      (∀ j, j < k →
        (goldenStep trial (goldenIter trial j (goldenEntry trial r1 r3 s))).2 = false) ∧
      (goldenStep trial (goldenIter trial k (goldenEntry trial r1 r3 s))).2 = true := by
  have ha0 : 0 < (r3 - r1) / 1.618033983 := div_pos (by linarith) (by norm_num)
  have hN := goldenNear_entry trial r1 r3 s h13.le
  have hex : ∃ k, (goldenStep trial (goldenIter trial k (goldenEntry trial r1 r3 s))).2 = true := by
    by_contra hno
    have hall : ∀ j, (goldenStep trial (goldenIter trial j (goldenEntry trial r1 r3 s))).2 =
        false := by
      intro j
      by_contra hj
      exact hno ⟨j, by simpa using hj⟩
    have hn := goldenNear_iter trial _ ha0.le 36 0 _ hN (fun j _ => hall j)
    have hin := goldenNear_inside trial _ ha0 36 0 _ hN (by omega) (fun j _ => hall j)
    have hx := goldenNear_exit trial _ r1 _ ha0 (by simpa using hn) hin.1 (by
      rw [div_le_iff₀ (by norm_num)]
      linarith)
    rw [hall 36] at hx
    exact Bool.noConfusion hx
  refine ⟨Nat.find hex, ?_, ?_, Nat.find_spec hex⟩
  · by_contra hk
    have hall : ∀ j, j < 37 →
        (goldenStep trial (goldenIter trial j (goldenEntry trial r1 r3 s))).2 = false := by
      intro j hj
      have := Nat.find_min hex (show j < Nat.find hex by omega)
      simpa using this
    have hn := goldenNear_iter trial _ ha0.le 36 0 _ hN (fun j hj => hall j (by omega))
    have hin := goldenNear_inside trial _ ha0 36 0 _ hN (by omega)
      (fun j hj => hall j (by omega))
    have hx := goldenNear_exit trial _ r1 _ ha0 (by simpa using hn) hin.1 (by
      rw [div_le_iff₀ (by norm_num)]
      linarith)
    rw [hall 36 (by omega)] at hx
    exact Bool.noConfusion hx
  · intro j hj
    have := Nat.find_min hex hj
    simpa using this

/-- The golden-section loop is not nested for ever: run with an objective that
rises with `p` from the bracket `r1 = 1`, `r3 = 1024`, the first 41 passes
continue and pass 42 ends at `L90` with a bracket whose lower end is below the
lower end `1` of the entry bracket. -/
theorem golden_bracket_can_leave :
    (∀ i, i < 41 →
      (goldenStep risingTrial (goldenIter risingTrial i
        (goldenEntry risingTrial 1 1024 quarterState))).2 = false) ∧
      (goldenStep risingTrial (goldenIter risingTrial 41
        (goldenEntry risingTrial 1 1024 quarterState))).2 = true ∧
      (goldenStep risingTrial (goldenIter risingTrial 41
        (goldenEntry risingTrial 1 1024 quarterState))).1.r1 < 1 ∧
      (gcvspl_L70 risingTrial 42 1 1024 quarterState).isSome = true := by
  decide!

/-- C25, amended: for a golden-section phase entered at `L70` with a bracket
`r1 < r3`: (1) whenever it arrives at `L100` it has left `L80` through `L90`
after finitely many passes, the bracket `[r1, r2]` of the last pass satisfies
`(r2 - r1)/(r1 + r2) ≤ 10⁻⁶` and the value handed to the final fit is its
midpoint; (2) at each of the first 37 passes the trial points are interior and
in order, `r1 < r3 < r4 < r2`, inside the entry bracket, and the pass moves
one end of the bracket to one of them, so that the new bracket lies inside the
old one, hence inside the entry bracket, and is strictly narrower; at each of
the first 27 passes the width is divided by a factor between `1.6` and `1.64`;
(3) the first pass divides the width by `1.618033983` exactly; (4) when
`r3 ≤ 64 r1` the phase ends within its first 37 passes, so that with fuel for
37 passes it returns the midpoint of a final bracket inside the entry bracket;
(5) every pass that continues divides `alpha` by `1.618033983` and places the
new trial point at the distance `alpha` from the moved end. -/
theorem golden_section_exit (trial : ℚ → SplcOut → SplcOut) (fuel : Nat) (r1 r3 : ℚ)
    (s : SplcOut) (h13 : r1 < r3) :
    ((gcvspl_L70 trial fuel r1 r3 s).isSome = true →
      ∃ k, k < fuel ∧
        (∀ i, i < k →
          (goldenStep trial (goldenIter trial i (goldenEntry trial r1 r3 s))).2 = false) ∧
        (goldenStep trial (goldenIter trial k (goldenEntry trial r1 r3 s))).2 = true ∧
        gcvspl_L70 trial fuel r1 r3 s =
          some (((goldenStep trial (goldenIter trial k (goldenEntry trial r1 r3 s))).1.r1 +
            (goldenStep trial (goldenIter trial k (goldenEntry trial r1 r3 s))).1.r2) * 0.5,
            (goldenStep trial (goldenIter trial k (goldenEntry trial r1 r3 s))).1.s) ∧
        ((goldenStep trial (goldenIter trial k (goldenEntry trial r1 r3 s))).1.r2 -
            (goldenStep trial (goldenIter trial k (goldenEntry trial r1 r3 s))).1.r1) /
          ((goldenStep trial (goldenIter trial k (goldenEntry trial r1 r3 s))).1.r1 +
            (goldenStep trial (goldenIter trial k (goldenEntry trial r1 r3 s))).1.r2) ≤
          1e-6) ∧
      (∀ k, k ≤ 36 →
        (∀ i, i < k →
          (goldenStep trial (goldenIter trial i (goldenEntry trial r1 r3 s))).2 = false) →
        r1 ≤ (goldenIter trial k (goldenEntry trial r1 r3 s)).r1 ∧
          (goldenIter trial k (goldenEntry trial r1 r3 s)).r1 <
            (goldenIter trial k (goldenEntry trial r1 r3 s)).r3 ∧
          (goldenIter trial k (goldenEntry trial r1 r3 s)).r3 <
            (goldenIter trial k (goldenEntry trial r1 r3 s)).r4 ∧
          (goldenIter trial k (goldenEntry trial r1 r3 s)).r4 <
            (goldenIter trial k (goldenEntry trial r1 r3 s)).r2 ∧
          (goldenIter trial k (goldenEntry trial r1 r3 s)).r2 ≤ r3 ∧
          (((goldenStep trial (goldenIter trial k (goldenEntry trial r1 r3 s))).1.r1 =
                (goldenIter trial k (goldenEntry trial r1 r3 s)).r1 ∧
              (goldenStep trial (goldenIter trial k (goldenEntry trial r1 r3 s))).1.r2 =
                (goldenIter trial k (goldenEntry trial r1 r3 s)).r4) ∨
            ((goldenStep trial (goldenIter trial k (goldenEntry trial r1 r3 s))).1.r1 =
                (goldenIter trial k (goldenEntry trial r1 r3 s)).r3 ∧
              (goldenStep trial (goldenIter trial k (goldenEntry trial r1 r3 s))).1.r2 =
                (goldenIter trial k (goldenEntry trial r1 r3 s)).r2)) ∧
          (goldenIter trial k (goldenEntry trial r1 r3 s)).r1 ≤
            (goldenStep trial (goldenIter trial k (goldenEntry trial r1 r3 s))).1.r1 ∧
          (goldenStep trial (goldenIter trial k (goldenEntry trial r1 r3 s))).1.r1 <
            (goldenStep trial (goldenIter trial k (goldenEntry trial r1 r3 s))).1.r2 ∧
          (goldenStep trial (goldenIter trial k (goldenEntry trial r1 r3 s))).1.r2 ≤
            (goldenIter trial k (goldenEntry trial r1 r3 s)).r2 ∧
          (goldenStep trial (goldenIter trial k (goldenEntry trial r1 r3 s))).1.r2 -
              (goldenStep trial (goldenIter trial k (goldenEntry trial r1 r3 s))).1.r1 <
            (goldenIter trial k (goldenEntry trial r1 r3 s)).r2 -
              (goldenIter trial k (goldenEntry trial r1 r3 s)).r1 ∧
          (k ≤ 26 →
            1.6 * ((goldenStep trial (goldenIter trial k (goldenEntry trial r1 r3 s))).1.r2 -
                (goldenStep trial (goldenIter trial k (goldenEntry trial r1 r3 s))).1.r1) ≤
              (goldenIter trial k (goldenEntry trial r1 r3 s)).r2 -
                (goldenIter trial k (goldenEntry trial r1 r3 s)).r1 ∧
            (goldenIter trial k (goldenEntry trial r1 r3 s)).r2 -
                (goldenIter trial k (goldenEntry trial r1 r3 s)).r1 ≤
              1.64 * ((goldenStep trial (goldenIter trial k (goldenEntry trial r1 r3 s))).1.r2 -
                (goldenStep trial (goldenIter trial k (goldenEntry trial r1 r3 s))).1.r1))) ∧
      (goldenStep trial (goldenEntry trial r1 r3 s)).1.r2 -
          (goldenStep trial (goldenEntry trial r1 r3 s)).1.r1 = (r3 - r1) / 1.618033983 ∧
      (r3 ≤ 64 * r1 → 37 ≤ fuel →
        ∃ k, k ≤ 36 ∧
          (∀ i, i < k →
            (goldenStep trial (goldenIter trial i (goldenEntry trial r1 r3 s))).2 = false) ∧
          (goldenStep trial (goldenIter trial k (goldenEntry trial r1 r3 s))).2 = true ∧
          gcvspl_L70 trial fuel r1 r3 s =
            some (((goldenStep trial (goldenIter trial k (goldenEntry trial r1 r3 s))).1.r1 +
              (goldenStep trial (goldenIter trial k (goldenEntry trial r1 r3 s))).1.r2) * 0.5,
              (goldenStep trial (goldenIter trial k (goldenEntry trial r1 r3 s))).1.s) ∧
          r1 ≤ (goldenStep trial (goldenIter trial k (goldenEntry trial r1 r3 s))).1.r1 ∧
          (goldenStep trial (goldenIter trial k (goldenEntry trial r1 r3 s))).1.r1 <
            (goldenStep trial (goldenIter trial k (goldenEntry trial r1 r3 s))).1.r2 ∧
          (goldenStep trial (goldenIter trial k (goldenEntry trial r1 r3 s))).1.r2 ≤ r3) ∧
      ∀ g : Golden,
        ((g.gf3 ≤ g.gf4 ∧ (goldenStep trial g).1.r1 = g.r1 ∧
            (goldenStep trial g).1.r2 = g.r4 ∧
            ((goldenStep trial g).2 = false →
              (goldenStep trial g).1.r4 = g.r3 ∧
              (goldenStep trial g).1.r3 =
                (goldenStep trial g).1.r2 - (goldenStep trial g).1.alpha)) ∨
          (g.gf4 < g.gf3 ∧ (goldenStep trial g).1.r1 = g.r3 ∧
            (goldenStep trial g).1.r2 = g.r2 ∧
            ((goldenStep trial g).2 = false →
              (goldenStep trial g).1.r3 = g.r4 ∧
              (goldenStep trial g).1.r4 =
                (goldenStep trial g).1.r1 + (goldenStep trial g).1.alpha))) ∧
        ((goldenStep trial g).2 = false →
          (goldenStep trial g).1.alpha = g.alpha / 1.618033983) := by
  have ha0 : 0 < (r3 - r1) / 1.618033983 := div_pos (by linarith) (by norm_num)
  have hN := goldenNear_entry trial r1 r3 s h13.le
  have hstate : ∀ k, k ≤ 36 →
      (∀ i, i < k →
        (goldenStep trial (goldenIter trial i (goldenEntry trial r1 r3 s))).2 = false) →
      GoldenNear ((r3 - r1) / 1.618033983) k (goldenIter trial k (goldenEntry trial r1 r3 s)) ∧
        r1 ≤ (goldenIter trial k (goldenEntry trial r1 r3 s)).r1 ∧
        (goldenIter trial k (goldenEntry trial r1 r3 s)).r2 ≤ r3 := by
    intro k hk hc
    have hn := goldenNear_iter trial _ ha0.le k 0 _ hN hc
    have hin := goldenNear_inside trial _ ha0 k 0 _ hN (by omega) hc
    exact ⟨by simpa using hn, hin.1, hin.2⟩
  refine ⟨?_, ?_, goldenStep_first trial r1 r3 s, ?_, fun g => goldenStep_spec trial g⟩
  · intro h
    rw [gcvspl_L70_eq] at h ⊢
    obtain ⟨k, hk, h1, h2, h3⟩ := goldenRun_exit trial fuel _ h
    exact ⟨k, hk, h1, h2, h3, goldenStep_exit trial _ h2⟩
  · intro k hk hc
    obtain ⟨hn, hlo, hhi⟩ := hstate k hk hc
    obtain ⟨o1, o2, o3⟩ := goldenNear_order _ k _ ha0 hn hk
    obtain ⟨n1, n2, n3, n4⟩ := goldenNear_nested trial _ k _ ha0 hn hk
    exact ⟨hlo, o1, o2, o3, hhi, goldenStep_bracket trial _, n1, n2, n3, n4,
      fun hk26 => goldenNear_ratio trial _ k _ ha0 hn hk26⟩
  · intro h64 hfuel
    have h0 : 0 < r1 := by linarith
    obtain ⟨k, hk, hc, hx⟩ := golden_exit_within trial r1 r3 s h0 h13 h64
    obtain ⟨hn, hlo, hhi⟩ := hstate k hk hc
    obtain ⟨n1, n2, n3, _⟩ := goldenNear_nested trial _ k _ ha0 hn hk
    refine ⟨k, hk, hc, hx, ?_, le_trans hlo n1, n2, le_trans n3 hhi⟩
    rw [gcvspl_L70_eq]
    exact goldenRun_of_exit trial k fuel _ (by omega) hc hx


theorem golden_section_exit_witness :
    (1 / 4 : ℚ) < 1 ∧ (1 : ℚ) ≤ 64 * (1 / 4) ∧ 37 ≤ 40 ∧
      ∃ k, k ≤ 36 ∧
        (∀ i, i < k →
          (goldenStep quarterTrial
            (goldenIter quarterTrial i (goldenEntry quarterTrial (1 / 4) 1 quarterState))).2 =
            false) ∧
        (goldenStep quarterTrial
          (goldenIter quarterTrial k (goldenEntry quarterTrial (1 / 4) 1 quarterState))).2 =
          true ∧
        gcvspl_L70 quarterTrial 40 (1 / 4) 1 quarterState =
          some (((goldenStep quarterTrial
              (goldenIter quarterTrial k (goldenEntry quarterTrial (1 / 4) 1 quarterState))).1.r1 +
            (goldenStep quarterTrial
              (goldenIter quarterTrial k (goldenEntry quarterTrial (1 / 4) 1 quarterState))).1.r2) *
              0.5,
            (goldenStep quarterTrial
              (goldenIter quarterTrial k (goldenEntry quarterTrial (1 / 4) 1 quarterState))).1.s) ∧
        1 / 4 ≤ (goldenStep quarterTrial
          (goldenIter quarterTrial k (goldenEntry quarterTrial (1 / 4) 1 quarterState))).1.r1 ∧
        (goldenStep quarterTrial
            (goldenIter quarterTrial k (goldenEntry quarterTrial (1 / 4) 1 quarterState))).1.r1 <
          (goldenStep quarterTrial
            (goldenIter quarterTrial k (goldenEntry quarterTrial (1 / 4) 1 quarterState))).1.r2 ∧
        (goldenStep quarterTrial
          (goldenIter quarterTrial k (goldenEntry quarterTrial (1 / 4) 1 quarterState))).1.r2 ≤ 1 :=
  ⟨by decide!, by decide!, by decide,
    (golden_section_exit quarterTrial 40 (1 / 4) 1 quarterState (by decide!)).2.2.2.1
      (by decide!) (by decide)⟩

/-! ## A doubling loop that never leaves -/

theorem closeKnots_el : searchEl closeKnots = 15 / 2 := by decide!


theorem closeKnots_check : (gcvsplCheck closeKnots Statics.init).returned = false := by
  decide!


theorem closeKnots_first :
    (trialAt closeKnots (2 / 15)).ret > (trialAt closeKnots (4 / 15)).ret := by decide!


theorem closeKnots_falls :
    ∀ i : Nat, i < 49 →
      (trialAt closeKnots (4 / 15 * 2 ^ (i + 1))).ret ≤
        (trialAt closeKnots (4 / 15 * 2 ^ i)).ret := by
  decide!

/-- With `el ≥ 1.001` the value that `splc` reports in `stat[4]` stays below
the ceiling `999999999999999.88` of the doubling loop: the clamp
`1 / (el * eps)` is below it. -/
theorem splcDp_below_ceiling (p el : ℚ) (hel : 1.001 ≤ el) :
    (splcDp p c_b6 el).2 < 999999999999999.88 := by
  have hel0 : 0 < el := by linarith
  simp only [splcDp, c_b6]
  split_ifs with h1 h2
  · rw [div_lt_iff₀ (by positivity)]
    norm_num
    norm_num at hel
    linarith
  · norm_num
  · have h3 : p * el * 1e-15 ≤ 1 := not_lt.mp h1
    norm_num at h3 hel ⊢
    nlinarith


/-- A doubling loop whose objective never rises along `r * 2 ^ i` and whose
reported `stat[4]` stays below the ceiling never leaves. -/
theorem gcvspl_L60_never (trial : ℚ → SplcOut → SplcOut) (f : ℚ → ℚ) (r : ℚ)
    (hret : ∀ p s, (trial p s).ret = f p)
    (hstat : ∀ p s, (trial p s).stat 4 < 999999999999999.88)
    (hfall : ∀ i : Nat, f (r * 2 ^ (i + 1)) ≤ f (r * 2 ^ i)) :
    ∀ (fuel i : Nat) (r1 r2 gf2 : ℚ) (s : SplcOut), f (r * 2 ^ (i + 1)) ≤ gf2 →
      gcvspl_L60 trial fuel r1 r2 (r * 2 ^ (i + 1)) gf2 s = none := by
  intro fuel
  induction fuel with
  | zero =>
    intro i r1 r2 gf2 s _
    rfl
  | succ k ih =>
    intro i r1 r2 gf2 s h
    simp only [gcvspl_L60]
    rw [hret, if_neg (not_lt.mpr h), if_neg (not_le.mpr (hstat _ _))]
    have e : r * 2 ^ (i + 1) * 2 = r * 2 ^ (i + 1 + 1) := by ring
    rw [e]
    exact ih (i + 1) _ _ _ _ (hfall (i + 1))


/-- The objective of the search on `closeKnots` depends on the trial value
only, and its reported `stat[4]` stays below the ceiling. -/
theorem closeKnots_trial (p : ℚ) (s : SplcOut) :
    (gcvsplTrial closeKnots (searchWk closeKnots) (searchEl closeKnots) p s).ret =
        (trialAt closeKnots p).ret ∧
      (gcvsplTrial closeKnots (searchWk closeKnots) (searchEl closeKnots) p s).stat 4 <
        999999999999999.88 := by
  constructor
  · exact splc_ret_agree 1 3 1 _ _ _ 3 1 p p c_b6 _ _ _ _ _ _ _ _ _ (by decide) (by decide) rfl
  · simp only [gcvsplTrial]
    rw [splc_stat4, closeKnots_el]
    exact splcDp_below_ceiling p _ (by norm_num)


/-- Once the clamp `p * el * eps > 1` is active the objective on `closeKnots`
no longer changes. -/
theorem closeKnots_clamped (i : Nat) (hi : 49 ≤ i) :
    (trialAt closeKnots (4 / 15 * 2 ^ (i + 1))).ret =
      (trialAt closeKnots (4 / 15 * 2 ^ i)).ret := by
  have hp : (2 : ℚ) ^ 49 ≤ 2 ^ i := pow_le_pow_right₀ (by norm_num) hi
  have hp1 : (2 : ℚ) ^ (i + 1) = 2 * 2 ^ i := by ring
  have h49 : (2 : ℚ) ^ 49 = 562949953421312 := by norm_num
  have c : ∀ q : ℚ, 562949953421312 ≤ q →
      (splcDp (4 / 15 * q) c_b6 (15 / 2)).1 = 1 / (15 / 2 * c_b6) := by
    intro q hq
    have h1 : 4 / 15 * q * (15 / 2) * c_b6 > 1 := by
      simp only [c_b6]
      norm_num
      linarith
    simp only [splcDp, if_pos h1]
  simp only [trialAt]
  apply splc_ret_agree _ _ _ _ _ _ _ _ _ _ _ _ _ _ _ _ _ _ _ _ (by decide) (by decide)
  have e : (gcvsplSetup closeKnots wkZero Statics.init).2.el = 15 / 2 := closeKnots_el
  rw [e, c _ (by rw [hp1]; linarith), c _ (by linarith)]

/-- C8, the code at a failing input: on the three knots `0, 1, 9/8` with knot
weights `1, 4, 1` and data `0, 0, 0`, with `m = 1` in mode `md = 3` with
`val = 1` (an input that passes validation, `ier = 0`), the search never
reaches `L100`, whatever the number of passes allowed.  Here `el = 15/2`; the
first trial of the halving loop is above the one before, so the doubling loop
at `L60` is entered at once; along its trial values `4/15 * 2 ^ i` the
objective never rises (from `i = 49` on the clamp `p * el * eps > 1` hands
`splc` the same `dp`, so the objective no longer changes) and the reported
`stat[4]` stays below the ceiling `999999999999999.88`, because the clamp
`1 / (el * eps)` is below it when `el > 1`: neither exit of the loop is ever
taken. -/
theorem gcvspl_search_diverges (fuel : Nat) :
    gcvspl fuel closeKnots zero2 wkZero Statics.init = none ∧
      (gcvsplCheck closeKnots Statics.init).returned = false ∧
      (gcvsplCheck closeKnots Statics.init).ier = 0 ∧
      searchEl closeKnots = 15 / 2 ∧
      ∀ i : Nat,
        (trialAt closeKnots (4 / 15 * 2 ^ (i + 1))).ret ≤
            (trialAt closeKnots (4 / 15 * 2 ^ i)).ret ∧
          (trialAt closeKnots (4 / 15 * 2 ^ i)).stat 4 < 999999999999999.88 := by
  have hfall : ∀ i : Nat, (trialAt closeKnots (4 / 15 * 2 ^ (i + 1))).ret ≤
      (trialAt closeKnots (4 / 15 * 2 ^ i)).ret := by
    intro i
    by_cases hi : i < 49
    · exact closeKnots_falls i hi
    · exact (closeKnots_clamped i (by omega)).le
  refine ⟨?_, closeKnots_check, by decide!, closeKnots_el, fun i =>
    ⟨hfall i, (closeKnots_trial _ _).2⟩⟩
  have hst : gcvsplSetup closeKnots wkZero (gcvsplCheck closeKnots Statics.init).st =
      (searchWk closeKnots,
        { (gcvsplCheck closeKnots Statics.init).st with el := searchEl closeKnots }) := rfl
  have hmd : iabs closeKnots.md ≠ 1 := by decide
  have hmd2 : ¬ closeKnots.md < -1 := by decide
  simp only [gcvspl, closeKnots_check, Bool.false_eq_true, if_false, hst, gcvsplSearch, hmd,
    ne_eq, not_false_eq_true, if_true, hmd2, Option.map_eq_none']
  cases fuel with
  | zero => rfl
  | succ k =>
    simp only [gcvspl_L40]
    rw [(closeKnots_trial _ _).1, (closeKnots_trial _ _).1]
    have e1 : (1 : ℚ) / searchEl closeKnots = 2 / 15 := by
      rw [closeKnots_el]
      norm_num
    have e2 : (2 : ℚ) / 15 * 2 = 4 / 15 := by norm_num
    have e3 : (4 : ℚ) / 15 * 2 = 4 / 15 * 2 ^ (0 + 1) := by norm_num
    rw [e1, e2, if_pos closeKnots_first, e3]
    apply gcvspl_L60_never _ (fun p => (trialAt closeKnots p).ret) (4 / 15)
      (fun p s => (closeKnots_trial p s).1) (fun p s => (closeKnots_trial p s).2) hfall
    have := hfall 0
    simpa using this

end Gcvspl
